import Mathlib

/-! # HTTP/1.1 transport over a connect-only socket

Source: `sdk/core/azure-core/src/http/curl/curl.cpp`.

A shallow embedding of the response parser, the chunk decoder, the body reader and the
request driver of `CurlSession`, followed by theorems about them.

Conventions of the embedding.

* A byte is a natural number (below 256 for every byte that exists); a `std::string` or a
  pointer range `[first, last)` is a `List Nat`.
* `int64_t` offsets that stay non-negative are `Nat`; `m_bodyStartInBuffer`, `m_contentLength`
  and the other fields that carry the sentinel `-1` are `Int`.
* A C++ exception, a call of `std::terminate` and a read outside a pointer range are values of
  `Error`; every function that can raise one returns `Except Error _`.
* Loops whose number of iterations depends on the socket take a `fuel : Nat`; running out of
  fuel is `Error.outOfFuel`, and results are stated for every sufficiently large fuel.
-/

namespace Azure.Core.Http

/-! ## Bytes and text -/

/-- ASCII text as bytes (used to write wire data in statements). -/
def bytes (s : String) : List Nat := s.toList.map (fun c => c.toNat)

/-- Carriage return, the byte written `'\r'` in the source. -/
abbrev CR : Nat := 13
/-- Line feed, the byte written `'\n'` in the source. -/
abbrev LF : Nat := 10
/-- Space. -/
abbrev SP : Nat := 32
/-- Full stop, the byte written `'.'` in the source. -/
abbrev DOT : Nat := 46

/-- Failures of the embedded code. -/
inductive Error
  /-- `std::invalid_argument`, thrown by `std::stoi` and `std::stoull` when no digit is found. -/
  | invalidArgument
  /-- `std::out_of_range`, thrown by `std::stoi` and `std::stoull` on overflow. -/
  | outOfRange
  /-- A bare `throw;` with no exception in flight: `std::terminate`. -/
  | terminate
  /-- A pointer range whose start lies behind its end, or a read outside the buffer. -/
  | undefinedBehaviour
  /-- The exception `Azure::Core::Http::TransportException`. -/
  | transportException
  /-- The exception `Azure::Core::Http::CouldNotResolveHostException`. -/
  | couldNotResolveHost
  /-- The exception raised by `Context::ThrowIfCanceled`. -/
  | operationCancelled
  /-- The loop did not finish within the fuel it was given. -/
  | outOfFuel
  deriving DecidableEq, Repr

deriving instance DecidableEq for Except

/-- The C function `isspace` in the "C" locale. -/
def isSpace (b : Nat) : Bool := b == 32 || (9 ≤ b && b ≤ 13)

/-- Value of a digit byte in the given base (`0-9`, `a-z`, `A-Z`), if it is one. -/
def digitValue (base : Nat) (b : Nat) : Option Nat :=
  let v : Option Nat :=
    if 48 ≤ b && b ≤ 57 then some (b - 48)
    else if 97 ≤ b && b ≤ 122 then some (b - 97 + 10)
    else if 65 ≤ b && b ≤ 90 then some (b - 65 + 10)
    else none
  match v with
  | some d => if d < base then some d else none
  | none => none

/-- The longest run of digits at the head of `s`: its value (started from `acc`) and the number
of digits read. -/
def readDigits (base : Nat) : List Nat → Nat → Nat × Nat
  | [], acc => (acc, 0)
  | b :: rest, acc =>
    match digitValue base b with
    | some d => let r := readDigits base rest (acc * base + d); (r.1, r.2 + 1)
    | none => (acc, 0)

/-- The optional sign `strtol`/`strtoull` accept: whether it is `-`, and the text after it. -/
def stripSign : List Nat → Bool × List Nat
  | [] => (false, [])
  | b :: r => if b = 45 then (true, r) else if b = 43 then (false, r) else (false, b :: r)

/-- The prefix `0x`/`0X`, skipped for base 16 when a hex digit follows it. -/
def stripHexPrefix (base : Nat) : List Nat → List Nat
  | z :: x :: d :: r =>
    if base = 16 ∧ z = 48 ∧ (x = 120 ∨ x = 88) ∧ (digitValue 16 d).isSome then d :: r
    else z :: x :: d :: r
  | s => s

/-- The sign and magnitude `strtol`/`strtoull` read from the head of a string: leading white
space is skipped, one `+` or `-` is accepted, for base 16 a `0x`/`0X` prefix is skipped, and
the longest run of digits is converted. `none` when there is no digit. -/
def scanNumber (base : Nat) (s : List Nat) : Option (Bool × Nat) :=
  let signed := stripSign (s.dropWhile isSpace)
  let r := readDigits base (stripHexPrefix base signed.2) 0
  if r.2 = 0 then none else some (signed.1, r.1)

/-- The function `std::stoi(str)`: `std::invalid_argument` without a digit, `std::out_of_range`
when the value does not fit `int`. -/
def stoi (s : List Nat) : Except Error Int :=
  match scanNumber 10 s with
  | none => .error .invalidArgument
  | some (neg, n) =>
    let v : Int := if neg then -(n : Int) else (n : Int)
    if v < -2147483648 ∨ 2147483647 < v then .error .outOfRange else .ok v

/-- The function `std::stoull(str, nullptr, base)`: the value is an `unsigned long long`, a
leading `-` negates it modulo `2^64`. -/
def stoull (base : Nat) (s : List Nat) : Except Error Nat :=
  match scanNumber base s with
  | none => .error .invalidArgument
  | some (neg, n) =>
    if 18446744073709551615 < n then .error .outOfRange
    else .ok (if neg then (18446744073709551616 - n) % 18446744073709551616 else n)

/-- The conversion `static_cast<int64_t>` of an `unsigned long long`. -/
def toInt64 (n : Nat) : Int :=
  if n % 18446744073709551616 < 9223372036854775808 then (n % 18446744073709551616 : Nat)
  else ((n % 18446744073709551616 : Nat) : Int) - 18446744073709551616

/-- The conversion `(uint16_t)` of an `int`. -/
def toUInt16 (v : Int) : Nat := (v % 65536).toNat

/-- The pointer range `[buffer + first, buffer + last)` as a string. A range with
`last < first` is empty here; the callers that can produce one are marked. -/
def slice (buffer : List Nat) (first last : Nat) : List Nat :=
  (buffer.drop first).take (last - first)

/-! ## The response object -/

/-- Modelled from the spec: the type `RawResponse` is declared in `http/http.hpp`, which is not
part of the sources at hand. It carries the HTTP major/minor version, the numeric status code,
the reason phrase and the headers. The calls of `AddHeader(line)` are recorded as the raw lines,
in call order; `GetHeaders` interprets them. -/
structure RawResponse where
  majorVersion : Nat
  minorVersion : Nat
  statusCode : Int
  reasonPhrase : List Nat
  headerLines : List (List Nat)
  deriving DecidableEq, Repr

/-- The call `response->AddHeader(line)`. -/
def RawResponse.AddHeader (r : RawResponse) (line : List Nat) : RawResponse :=
  { r with headerLines := r.headerLines ++ [line] }

/-- The function `CreateHTTPResponse(begin, last)` on the range `line = [begin, last)`.
`std::find(start, last, c)` is `takeWhile`/`dropWhile` on the rest of the range. When a
separator is missing, `std::find` returns `last` and `start = end + 1` lies behind `last`, so
the next `std::find` runs outside the range; the same holds for `begin + 5` when the range has
fewer than five bytes. -/
def CreateHTTPResponse (line : List Nat) : Except Error RawResponse :=
  if line.length < 5 then .error .undefinedBehaviour
  else
    -- start = begin + 5; end = std::find(start, last, '.')
    let r0 := line.drop 5
    match stoi (r0.takeWhile (· != DOT)) with
    | .error e => .error e
    | .ok majorVersion =>
      -- start = end + 1; end = std::find(start, last, ' ')
      match r0.dropWhile (· != DOT) with
      | [] => .error .undefinedBehaviour
      | _ :: r1 =>
        match stoi (r1.takeWhile (· != SP)) with
        | .error e => .error e
        | .ok minorVersion =>
          -- start = end + 1; end = std::find(start, last, ' ')
          match r1.dropWhile (· != SP) with
          | [] => .error .undefinedBehaviour
          | _ :: r2 =>
            match stoi (r2.takeWhile (· != SP)) with
            | .error e => .error e
            | .ok statusCode =>
              -- start = end + 1; end = std::find(start, last, '\r')
              match r2.dropWhile (· != SP) with
              | [] => .error .undefinedBehaviour
              | _ :: r3 =>
                .ok
                  { majorVersion := toUInt16 majorVersion
                    minorVersion := toUInt16 minorVersion
                    statusCode := statusCode
                    reasonPhrase := r3.takeWhile (· != CR)
                    headerLines := [] }

/-! ## The response parser -/

/-- The enumeration `ResponseParserState`. -/
inductive ResponseParserState
  | StatusLine
  | Headers
  | EndOfHeaders
  deriving DecidableEq, Repr

/-- The fields of `CurlSession::ResponseBufferParser`. -/
structure ResponseBufferParser where
  state : ResponseParserState
  m_parseCompleted : Bool
  m_delimiterStartInPrevPosition : Bool
  m_internalBuffer : List Nat
  m_response : Option RawResponse
  deriving DecidableEq, Repr

/-- Modelled from the spec: the constructor of `ResponseBufferParser` is in `curl.hpp`, which is
not part of the sources at hand. A fresh parser is in phase `StatusLine`, not completed, with an
empty accumulation buffer, no pending CR and no response. -/
def ResponseBufferParser.new : ResponseBufferParser :=
  { state := .StatusLine
    m_parseCompleted := false
    m_delimiterStartInPrevPosition := false
    m_internalBuffer := []
    m_response := none }

/-- The method `IsParseCompleted`. -/
def ResponseBufferParser.IsParseCompleted (p : ResponseBufferParser) : Bool := p.m_parseCompleted

/-- The call `m_response->AddHeader(line)` inside the parser; dereferencing a null
`m_response` is outside the language. -/
def ResponseBufferParser.addHeader (p : ResponseBufferParser) (line : List Nat) :
    Except Error ResponseBufferParser :=
  match p.m_response with
  | none => .error .undefinedBehaviour
  | some r => .ok { p with m_response := some (r.AddHeader line) }

/-- What one iteration of the `for` loop of `Parse` does: go on with a new `start` and parser,
or return a value from `Parse`. -/
inductive ParseIter
  | next (start : Nat) (p : ResponseBufferParser)
  | ret (value : Nat) (p : ResponseBufferParser)
  deriving DecidableEq, Repr

/-- The body of the `for` loop of `Parse` at position `index`, where `b = buffer[index]`.
With `index = 0` the expression `index - 1` is only reached in the status-line branch without
accumulated text; the range `[buffer, buffer - 1)` is then invalid and `CreateHTTPResponse`
runs outside it, which is what `CreateHTTPResponse []` reports. -/
def Parse.iter (buffer : List Nat) (b : Nat) (start index : Nat) (p : ResponseBufferParser) :
    Except Error ParseIter :=
  if b = CR then
    .ok (.next start { p with m_delimiterStartInPrevPosition := true })
  else if b = LF ∧ p.m_delimiterStartInPrevPosition = true then
    if p.m_internalBuffer.length > 0 then
      let p1 : ResponseBufferParser :=
        if index > 1 then
          { p with m_internalBuffer := p.m_internalBuffer ++ slice buffer start (index - 1) }
        else p
      match p1.state with
      | .StatusLine =>
        match CreateHTTPResponse p1.m_internalBuffer with
        | .error e => .error e
        | .ok r =>
          .ok (.next (index + 1)
            { p1 with
              m_response := some r
              state := .Headers
              m_delimiterStartInPrevPosition := false
              m_internalBuffer := [] })
      | .Headers =>
        match p1.addHeader p1.m_internalBuffer with
        | .error e => .error e
        | .ok p2 =>
          .ok (.next (index + 1)
            { p2 with m_delimiterStartInPrevPosition := false, m_internalBuffer := [] })
      | .EndOfHeaders => .error .terminate
    else
      match p.state with
      | .StatusLine =>
        match CreateHTTPResponse (slice buffer start (index - 1)) with
        | .error e => .error e
        | .ok r =>
          .ok (.next (index + 1)
            { p with
              m_response := some r
              state := .Headers
              m_delimiterStartInPrevPosition := false })
      | .Headers =>
        if index = 0 ∨ index = start + 1 then
          .ok (.ret (index + 1) { p with m_parseCompleted := true })
        else
          match p.addHeader (slice buffer start (index - 1)) with
          | .error e => .error e
          | .ok p2 => .ok (.next (index + 1) { p2 with m_delimiterStartInPrevPosition := false })
      | .EndOfHeaders => .error .terminate
  else
    let p1 : ResponseBufferParser :=
      if index = 0 ∧ p.m_internalBuffer.length > 0 ∧ p.m_delimiterStartInPrevPosition = true then
        { p with m_internalBuffer := p.m_internalBuffer ++ [CR] }
      else p
    .ok (.next start { p1 with m_delimiterStartInPrevPosition := false })

/-- The code of `Parse` after the `for` loop: an unterminated tail is saved, without a final
CR, and the loop counter is returned. -/
def Parse.finish (buffer : List Nat) (start index : Nat) (p : ResponseBufferParser) :
    Nat × ResponseBufferParser :=
  if start < buffer.length then
    (index,
      { p with
        m_internalBuffer :=
          p.m_internalBuffer ++
            slice buffer start
              (buffer.length - (if p.m_delimiterStartInPrevPosition then 1 else 0)) })
  else (index, p)

/-- The `for` loop of `Parse`; `rest` holds the bytes `buffer[index ..]`. -/
def Parse.loop (buffer : List Nat) :
    List Nat → Nat → Nat → ResponseBufferParser → Except Error (Nat × ResponseBufferParser)
  | [], start, index, p => .ok (Parse.finish buffer start index p)
  | b :: rest, start, index, p =>
    match Parse.iter buffer b start index p with
    | .error e => .error e
    | .ok (.ret value p1) => .ok (value, p1)
    | .ok (.next start1 p1) => Parse.loop buffer rest start1 (index + 1) p1

/-- The method `CurlSession::ResponseBufferParser::Parse(buffer, bufferSize)`, where `buffer`
is the window of `bufferSize` bytes the caller passes. Returns the value returned and the
parser afterwards. -/
def ResponseBufferParser.Parse (p : ResponseBufferParser) (buffer : List Nat) :
    Except Error (Nat × ResponseBufferParser) :=
  if p.m_parseCompleted then .ok (0, p)
  else Parse.loop buffer buffer 0 0 p

/-- Successive calls of `Parse`, one per fill, on the same parser. -/
def ResponseBufferParser.feed :
    ResponseBufferParser → List (List Nat) → Except Error ResponseBufferParser
  | p, [] => .ok p
  | p, fill :: fills =>
    match p.Parse fill with
    | .error e => .error e
    | .ok (_, p1) => ResponseBufferParser.feed p1 fills

/-! ## Requests, the socket and the session -/

/-- Modelled from the spec: the enumeration `HttpMethod` is declared in `http/http.hpp`, which
is not part of the sources at hand. -/
inductive HttpMethod
  | Get
  | Head
  | Post
  | Put
  | Delete
  | Patch
  deriving DecidableEq, Repr

/-- Name of the method as it is written on the request line. -/
def HttpMethod.text : HttpMethod → String
  | .Get => "GET"
  | .Head => "HEAD"
  | .Post => "POST"
  | .Put => "PUT"
  | .Delete => "DELETE"
  | .Patch => "PATCH"

/-- Modelled from the spec: the request body stream, "an abstract body-stream handle exposing
`Length()` and `Read(buffer, maxCount) -> bytesRead`", as a stream over a byte string with a
read position. -/
structure BodyStream where
  data : List Nat
  offset : Nat
  deriving DecidableEq, Repr

/-- The method `BodyStream::Length`. -/
def BodyStream.Length (b : BodyStream) : Int := b.data.length

/-- The method `BodyStream::Read(context, buffer, count)`: the bytes handed over and the stream
afterwards. -/
def BodyStream.Read (b : BodyStream) (count : Nat) : List Nat × BodyStream :=
  let out := (b.data.drop b.offset).take count
  (out, { b with offset := b.offset + out.length })

/-- Modelled from the spec: the type `Request` is declared in `http/http.hpp`, which is not part
of the sources at hand. It carries the method, the target, the header map, the body stream and
the optional upload chunk size. -/
structure Request where
  method : HttpMethod
  host : String
  encodedUrl : String
  headers : List (String × String)
  bodyStream : BodyStream
  uploadChunkSize : Int
  deriving DecidableEq, Repr

/-- The call `headers.find(name)` on the `std::map` returned by `GetHeaders`: exact match of the
key. That the keys are compared byte for byte is what the note above the block in `Perform`
says, `TODO-> use isEqualNoCase here once it is merged`: the look-up without regard to case,
which the specification asks for, is not in this code. -/
def Request.findHeader (r : Request) (name : String) : Option String :=
  (r.headers.find? (fun h => h.1 = name)).map (fun h => h.2)

/-- Modelled from the spec: `Request::AddHeader(name, value)`, insertion into the header map; a
name already present keeps its place and takes the new value. In one point the model follows
the code at hand and not the specification: the specification asks for insertion without
regard to the case of the name, but the keys of this map are compared byte for byte, as
`headers.find` compares them in `Perform` (see `Request.findHeader`), so `host` and `Host` are
two keys and both are serialized. -/
def Request.AddHeader (r : Request) (name value : String) : Request :=
  if r.headers.any (fun h => h.1 = name) then
    { r with headers := r.headers.map (fun h => if h.1 = name then (h.1, value) else h) }
  else { r with headers := r.headers ++ [(name, value)] }

/-- Modelled from the spec: `Request::GetHTTPMessagePreBody`, the wire format
`METHOD SP target SP HTTP/1.1 CRLF`, then each header as `Name: Value CRLF`, then a blank
`CRLF`. -/
def Request.GetHTTPMessagePreBody (r : Request) : List Nat :=
  bytes (r.method.text ++ " " ++ r.encodedUrl ++ " HTTP/1.1\r\n")
    ++ (r.headers.map (fun h => bytes (h.1 ++ ": " ++ h.2 ++ "\r\n"))).flatten
    ++ bytes "\r\n"

/-- Values of `CURLcode`. -/
abbrev CURLcode := Nat
/-- The code `CURLE_OK`. -/
abbrev CURLE_OK : CURLcode := 0
/-- The code `CURLE_COULDNT_RESOLVE_HOST`. -/
abbrev CURLE_COULDNT_RESOLVE_HOST : CURLcode := 6
/-- The code `CURLE_AGAIN`. -/
abbrev CURLE_AGAIN : CURLcode := 81

/-- One answer of `curl_easy_recv` or `curl_easy_send`: the code returned, a bound on the
number of bytes moved when the code is `CURLE_OK`, and the value the `select()` call returns
when the session waits for the socket after this answer. -/
structure SocketEvent where
  code : CURLcode
  limit : Nat
  select : Int
  deriving DecidableEq, Repr

/-- The libcurl easy handle together with the peer, as far as the session can observe them.
`wire` holds the bytes the peer sends before it closes the connection. `recvScript` and
`sendScript` fix the answers of the next calls of the primitives; when a script is used up the
primitive answers `CURLE_OK` and moves as many bytes as it is asked for. A receive answered
`CURLE_OK` hands over at most `limit + 1` bytes (at least one when the peer has bytes left and
the capacity is positive); a send answered `CURLE_OK` accepts at most `limit` bytes. `sent`
collects the bytes accepted, `waits` the arguments `(for_recv, timeout_ms)` of the calls of
`WaitForSocketReady`. -/
structure Curl where
  setUrlResult : CURLcode
  setConnectOnlyResult : CURLcode
  performResult : CURLcode
  getInfoResult : CURLcode
  wire : List Nat
  recvScript : List SocketEvent
  sendScript : List SocketEvent
  sent : List Nat
  waits : List (Int × Int)
  deriving DecidableEq, Repr

/-- A peer that will send `wire`, cut into deliveries of at most `frags[i] + 1` bytes. -/
def Curl.serving (wire : List Nat) (frags : List Nat) : Curl :=
  { setUrlResult := CURLE_OK
    setConnectOnlyResult := CURLE_OK
    performResult := CURLE_OK
    getInfoResult := CURLE_OK
    wire := wire
    recvScript := frags.map (fun limit => ⟨CURLE_OK, limit, 0⟩)
    sendScript := []
    sent := []
    waits := [] }

/-- The constants of namespace `Details` (declared in `curl.hpp`, which is not part of the
sources at hand), kept as parameters. -/
structure Details where
  c_LibcurlReaderSize : Nat
  c_UploadDefaultChunkSize : Nat
  deriving DecidableEq, Repr

/-- The type `Context`, as far as the transport uses it. -/
structure Context where
  cancelled : Bool
  deriving DecidableEq, Repr

/-- The fields of `CurlSession`. `m_readBuffer` holds the bytes of the last fill, that is the
part `[0, m_innerBufferSize)` of the array; `m_curl` stands for `m_pCurl` and `m_curlSocket`. -/
structure CurlSession where
  details : Details
  m_request : Request
  m_curl : Curl
  m_response : Option RawResponse
  m_readBuffer : List Nat
  m_bodyStartInBuffer : Int
  m_innerBufferSize : Int
  m_contentLength : Int
  m_sessionTotalRead : Int
  m_isChunkedResponseType : Bool
  m_chunkSize : Int
  m_rawResponseEOF : Bool
  m_uploadedBytes : Int
  deriving DecidableEq, Repr

/-- Modelled from the spec: the constructor of `CurlSession` is in `curl.hpp`, which is not part
of the sources at hand. A new session has consumed nothing: the buffer offset is the sentinel
`-1`, no body byte has been delivered, the response is neither chunked nor at its end, and
nothing has been uploaded. -/
def CurlSession.new (details : Details) (request : Request) (curl : Curl) : CurlSession :=
  { details := details
    m_request := request
    m_curl := curl
    m_response := none
    m_readBuffer := []
    m_bodyStartInBuffer := -1
    m_innerBufferSize := details.c_LibcurlReaderSize
    m_contentLength := 0
    m_sessionTotalRead := 0
    m_isChunkedResponseType := false
    m_chunkSize := 0
    m_rawResponseEOF := false
    m_uploadedBytes := 0 }

/-- The function `WaitForSocketReady(sockfd, for_recv, timeout_ms)`: the call is recorded and
the result of `select()` is the one the script announced. -/
def WaitForSocketReady (c : Curl) (for_recv timeout_ms select : Int) : Int × Curl :=
  (select, { c with waits := c.waits ++ [(for_recv, timeout_ms)] })

/-- The primitive `curl_easy_recv` followed by the `switch` of `ReadSocketToBuffer`, repeated
while the answer is `CURLE_AGAIN`. Returns the bytes written to the buffer. -/
def recvLoop (capacity : Nat) : List SocketEvent → Curl → Except Error (List Nat × Curl)
  | [], c =>
    .ok (c.wire.take capacity, { c with wire := c.wire.drop capacity, recvScript := [] })
  | e :: script, c =>
    if e.code = CURLE_AGAIN then
      let w := WaitForSocketReady c 0 60000 e.select
      if w.1 = 0 then .error .transportException
      else recvLoop capacity script w.2
    else if e.code = CURLE_OK then
      let n := min capacity (e.limit + 1)
      .ok (c.wire.take n, { c with wire := c.wire.drop n, recvScript := script })
    else .error .transportException

/-- The method `CurlSession::ReadSocketToBuffer(buffer, bufferSize)`: the bytes placed at the
start of `buffer` (their number is the value returned) and the handle afterwards. A negative
`bufferSize` becomes a huge `size_t` and the primitive may write behind the buffer. -/
def ReadSocketToBuffer (c : Curl) (bufferSize : Int) : Except Error (List Nat × Curl) :=
  if bufferSize < 0 then .error .undefinedBehaviour
  else recvLoop bufferSize.toNat c.recvScript c

/-- The call `m_innerBufferSize = ReadSocketToBuffer(m_readBuffer, c_LibcurlReaderSize)`. -/
def CurlSession.refill (s : CurlSession) : Except Error CurlSession :=
  match ReadSocketToBuffer s.m_curl s.details.c_LibcurlReaderSize with
  | .error e => .error e
  | .ok (fill, c) =>
    .ok { s with m_curl := c, m_readBuffer := fill, m_innerBufferSize := fill.length }

/-- The loops of `CurlSession::SendBuffer` over the bytes not yet sent: one answer of
`curl_easy_send` per step. A bare `throw;` ends the program when the readiness wait returns
zero. -/
def sendLoop : List SocketEvent → List Nat → CurlSession → Except Error (CURLcode × CurlSession)
  | _, [], s => .ok (CURLE_OK, s)
  | [], b :: rest, s =>
    .ok (CURLE_OK,
      { s with
        m_curl := { s.m_curl with sent := s.m_curl.sent ++ (b :: rest), sendScript := [] }
        m_uploadedBytes := s.m_uploadedBytes + ((b :: rest).length : Nat) })
  | e :: script, b :: rest, s =>
    if e.code = CURLE_OK then
      let accepted := (b :: rest).take e.limit
      sendLoop script ((b :: rest).drop e.limit)
        { s with
          m_curl := { s.m_curl with sent := s.m_curl.sent ++ accepted, sendScript := script }
          m_uploadedBytes := s.m_uploadedBytes + (accepted.length : Nat) }
    else if e.code = CURLE_AGAIN then
      let w := WaitForSocketReady s.m_curl 0 60000 e.select
      if w.1 = 0 then .error .terminate
      else sendLoop script (b :: rest) { s with m_curl := { w.2 with sendScript := script } }
    else .ok (e.code, { s with m_curl := { s.m_curl with sendScript := script } })

/-- The method `CurlSession::SendBuffer(buffer, bufferSize)`. -/
def CurlSession.SendBuffer (s : CurlSession) (buffer : List Nat) :
    Except Error (CURLcode × CurlSession) :=
  sendLoop s.m_curl.sendScript buffer s

/-- The `while (true)` loop of `UploadBody` with pieces of `uploadChunkSize` bytes. -/
def UploadBody.loop (uploadChunkSize : Nat) :
    Nat → CURLcode → CurlSession → Except Error (CURLcode × CurlSession)
  | 0, _, _ => .error .outOfFuel
  | fuel + 1, sendResult, s =>
    let r := s.m_request.bodyStream.Read uploadChunkSize
    let s1 : CurlSession := { s with m_request := { s.m_request with bodyStream := r.2 } }
    if r.1.length = 0 then .ok (sendResult, s1)
    else
      match s1.SendBuffer r.1 with
      | .error e => .error e
      | .ok (code, s2) =>
        if code ≠ CURLE_OK then .ok (code, s2)
        else UploadBody.loop uploadChunkSize fuel code s2

/-- The method `CurlSession::UploadBody`. -/
def CurlSession.UploadBody (fuel : Nat) (s : CurlSession) : Except Error (CURLcode × CurlSession) :=
  let s1 : CurlSession := { s with m_uploadedBytes := 0 }
  let uploadChunkSize : Int :=
    if s.m_request.uploadChunkSize ≤ 0 then (s.details.c_UploadDefaultChunkSize : Int)
    else s.m_request.uploadChunkSize
  UploadBody.loop uploadChunkSize.toNat fuel CURLE_OK s1

/-- The method `CurlSession::HttpRawSend`. -/
def CurlSession.HttpRawSend (fuel : Nat) (s : CurlSession) : Except Error (CURLcode × CurlSession) :=
  match s.SendBuffer s.m_request.GetHTTPMessagePreBody with
  | .error e => .error e
  | .ok (sendResult, s1) =>
    if sendResult ≠ CURLE_OK ∨ s1.m_request.method = HttpMethod.Put then .ok (sendResult, s1)
    else if s1.m_request.bodyStream.Length = 0 then s1.SendBuffer [0]
    else s1.UploadBody fuel

/-! ## Reading the response -/

/-- ASCII lower case of a byte. -/
def toLowerByte (b : Nat) : Nat := if 65 ≤ b && b ≤ 90 then b + 32 else b

/-- Modelled from the spec: how `RawResponse::AddHeader(line)` (in `http/raw_response.cpp`, not
part of the sources at hand) turns a line `Name: Value` into an entry of the header map: the
name is the text before the first `:`, in lower case; the value is the text after it, without
leading spaces and tabs, up to a CR. A line without `:` adds nothing. -/
def parseHeaderLine (line : List Nat) : Option (List Nat × List Nat) :=
  match line.dropWhile (· != 58) with
  | [] => none
  | _ :: value =>
    some ((line.takeWhile (· != 58)).map toLowerByte,
      (value.dropWhile (fun b => b == 32 || b == 9)).takeWhile (· != CR))

/-- Modelled from the spec: `RawResponse::GetHeaders`, the header map with lower-case keys, as
the entries in insertion order. -/
def RawResponse.GetHeaders (r : RawResponse) : List (List Nat × List Nat) :=
  r.headerLines.filterMap parseHeaderLine

/-- The call `headers.find(name)` on the response headers: the entry inserted first under that
key. -/
def findHeader (headers : List (List Nat × List Nat)) (name : List Nat) :
    Option (List Nat) :=
  (headers.find? (fun h => h.1 = name)).map (fun h => h.2)

/-- The call `headerValue.find(needle) != std::string::npos`. -/
def containsSubstring (needle : List Nat) : List Nat → Bool
  | [] => needle.isEmpty
  | b :: rest => needle.isPrefixOf (b :: rest) || containsSubstring needle rest

/-- Result of the inner `for` loop of `ParseChunkSize`. -/
inductive ChunkScan
  /-- The byte at `index` is the LF that ends the size line; `text` is `strChunkSize`. -/
  | found (index : Nat) (text : List Nat)
  /-- The buffer ended first; `text` is `strChunkSize` so far. -/
  | more (text : List Nat)
  deriving DecidableEq, Repr

/-- The inner `for` loop of `ParseChunkSize` over `rest = m_readBuffer[index ..]`; `i` counts
the bytes seen since the loop was entered. -/
def ParseChunkSize.scan : List Nat → Nat → Nat → List Nat → ChunkScan
  | [], _, _, text => .more text
  | b :: rest, index, i, text =>
    if i > 1 ∧ b = LF then .found index (text ++ [b])
    else ParseChunkSize.scan rest (index + 1) (i + 1) (text ++ [b])

/-- The outer loop of `CurlSession::ParseChunkSize`; `text` is `strChunkSize`. A negative
`m_bodyStartInBuffer` would index the array in front of its start. -/
def ParseChunkSize.poll : Nat → List Nat → CurlSession → Except Error CurlSession
  | 0, _, _ => .error .outOfFuel
  | fuel + 1, text, s =>
    if s.m_bodyStartInBuffer < 0 then .error .undefinedBehaviour
    else
      match ParseChunkSize.scan
          (slice s.m_readBuffer s.m_bodyStartInBuffer.toNat s.m_innerBufferSize.toNat)
          s.m_bodyStartInBuffer.toNat 0 text with
      | .found index text1 =>
        match stoull 16 text1 with
        | .error e => .error e
        | .ok size =>
          let s1 : CurlSession := { s with m_chunkSize := toInt64 size }
          if ((index : Int) + 1) = s1.m_innerBufferSize then
            match s1.refill with
            | .error e => .error e
            | .ok s2 => .ok { s2 with m_bodyStartInBuffer := 0 }
          else .ok { s1 with m_bodyStartInBuffer := (index : Int) + 1 }
      | .more text1 =>
        match s.refill with
        | .error e => .error e
        | .ok s1 => ParseChunkSize.poll fuel text1 { s1 with m_bodyStartInBuffer := 0 }

/-- The method `CurlSession::ParseChunkSize`. -/
def CurlSession.ParseChunkSize (fuel : Nat) (s : CurlSession) : Except Error CurlSession :=
  ParseChunkSize.poll fuel [] s

/-- The `while` loop of `ReadStatusLineAndHeadersFromRawResponse`; `bufferSize` is the local of
that name. Returns the parser, `bufferSize` and the session when the parser is completed. -/
def ReadStatusLineAndHeadersFromRawResponse.loop :
    Nat → ResponseBufferParser → Int → CurlSession →
      Except Error (ResponseBufferParser × Int × CurlSession)
  | 0, _, _, _ => .error .outOfFuel
  | fuel + 1, parser, bufferSize, s =>
    if parser.IsParseCompleted then .ok (parser, bufferSize, s)
    else
      match ReadSocketToBuffer s.m_curl s.details.c_LibcurlReaderSize with
      | .error e => .error e
      | .ok (fill, c) =>
        match parser.Parse fill with
        | .error e => .error e
        | .ok (bytesParsed, parser1) =>
          let s1 : CurlSession := { s with m_curl := c, m_readBuffer := fill }
          let s2 : CurlSession :=
            if (bytesParsed : Int) < (fill.length : Int) then
              { s1 with m_bodyStartInBuffer := bytesParsed }
            else s1
          ReadStatusLineAndHeadersFromRawResponse.loop fuel parser1 fill.length s2

/-- The part of `ReadStatusLineAndHeadersFromRawResponse` after `m_response` and
`m_innerBufferSize` have been stored: the choice of the body-length mode. A null `m_response`
cannot be asked for its headers. -/
def ReadStatusLineAndHeadersFromRawResponse.mode (fuel : Nat) (s : CurlSession) :
    Except Error CurlSession :=
  if s.m_request.method = HttpMethod.Head then
    .ok { s with m_contentLength := 0, m_bodyStartInBuffer := -1, m_rawResponseEOF := true }
  else
    match s.m_response with
    | none => .error .undefinedBehaviour
    | some response =>
      let headers := response.GetHeaders
      match findHeader headers (bytes "content-length") with
      | some value =>
        match stoull 10 value with
        | .error e => .error e
        | .ok n => .ok { s with m_contentLength := toInt64 n }
      | none =>
        let s1 : CurlSession := { s with m_contentLength := -1 }
        match findHeader headers (bytes "transfer-encoding") with
        | some headerValue =>
          if containsSubstring (bytes "chunked") headerValue then
            let s2 : CurlSession := { s1 with m_isChunkedResponseType := true }
            if s2.m_bodyStartInBuffer = -1 then
              match s2.refill with
              | .error e => .error e
              | .ok s3 => CurlSession.ParseChunkSize fuel { s3 with m_bodyStartInBuffer := 0 }
            else CurlSession.ParseChunkSize fuel s2
          else .ok s1
        | none => .ok s1

/-- The method `CurlSession::ReadStatusLineAndHeadersFromRawResponse`. -/
def CurlSession.ReadStatusLineAndHeadersFromRawResponse (fuel : Nat) (s : CurlSession) :
    Except Error CurlSession :=
  match ReadStatusLineAndHeadersFromRawResponse.loop fuel ResponseBufferParser.new 0 s with
  | .error e => .error e
  | .ok (parser, bufferSize, s1) =>
    ReadStatusLineAndHeadersFromRawResponse.mode fuel
      { s1 with m_response := parser.m_response, m_innerBufferSize := bufferSize }

/-- Modelled from the spec: `MemoryBodyStream::Read(context, buffer, count)` (not part of the
sources at hand) on a view of `length` bytes of `m_readBuffer` starting at `first`: it copies
`min(count, length)` bytes. A negative number of bytes becomes a huge `size_t` in the copy. -/
def MemoryBodyStream.Read (buffer : List Nat) (first length count : Int) :
    Except Error (List Nat) :=
  let copyLength := min count length
  if copyLength < 0 then .error .undefinedBehaviour
  else .ok (slice buffer first.toNat (first.toNat + copyLength.toNat))

/-- The two-byte skip at the start of `Read` in chunked mode, `n` rounds of the `for` loop. -/
def Read.skipCRLF : Nat → CurlSession → Except Error CurlSession
  | 0, s => .ok s
  | n + 1, s =>
    if s.m_bodyStartInBuffer > 0 ∧ s.m_bodyStartInBuffer < s.m_innerBufferSize then
      Read.skipCRLF n { s with m_bodyStartInBuffer := s.m_bodyStartInBuffer + 1 }
    else
      match s.refill with
      | .error e => .error e
      | .ok s1 => Read.skipCRLF n { s1 with m_bodyStartInBuffer := 1 }

/-- The part of `Read` from `auto totalRead = int64_t();` to the end. -/
def Read.serve (s : CurlSession) (count : Int) : Except Error (List Nat × CurlSession) :=
  let readRequestLength0 : Int := if s.m_isChunkedResponseType then min s.m_chunkSize count else count
  let readRequestLength : Int :=
    if s.m_contentLength > 0 then min readRequestLength0 (s.m_contentLength - s.m_sessionTotalRead)
    else readRequestLength0
  if s.m_bodyStartInBuffer ≥ 0 then
    match MemoryBodyStream.Read s.m_readBuffer s.m_bodyStartInBuffer
        (s.m_innerBufferSize - s.m_bodyStartInBuffer) readRequestLength with
    | .error e => .error e
    | .ok out =>
      let totalRead : Int := (out.length : Nat)
      let s1 : CurlSession :=
        { s with
          m_bodyStartInBuffer := s.m_bodyStartInBuffer + totalRead
          m_sessionTotalRead := s.m_sessionTotalRead + totalRead
          m_chunkSize := if s.m_isChunkedResponseType then s.m_chunkSize - totalRead else s.m_chunkSize }
      if s1.m_bodyStartInBuffer = s1.m_innerBufferSize then
        .ok (out, { s1 with m_bodyStartInBuffer := -1 })
      else .ok (out, s1)
  else if s.m_sessionTotalRead = s.m_contentLength ∨ s.m_rawResponseEOF = true then
    .ok ([], s)
  else
    match ReadSocketToBuffer s.m_curl readRequestLength with
    | .error e => .error e
    | .ok (out, c) =>
      let totalRead : Int := (out.length : Nat)
      .ok (out,
        { s with
          m_curl := c
          m_sessionTotalRead := s.m_sessionTotalRead + totalRead
          m_chunkSize := if s.m_isChunkedResponseType then s.m_chunkSize - totalRead else s.m_chunkSize })

/-- The method `CurlSession::Read(context, buffer, count)`: the bytes written to `buffer` (their
number is the value returned) and the session afterwards. -/
def CurlSession.Read (fuel : Nat) (context : Context) (s : CurlSession) (count : Int) :
    Except Error (List Nat × CurlSession) :=
  if context.cancelled then .error .operationCancelled
  else if count ≤ 0 then .ok ([], s)
  else if s.m_isChunkedResponseType = true ∧ s.m_chunkSize = 0 then
    match Read.skipCRLF 2 s with
    | .error e => .error e
    | .ok s1 =>
      match s1.ParseChunkSize fuel with
      | .error e => .error e
      | .ok s2 =>
        if s2.m_chunkSize = 0 then .ok ([], { s2 with m_rawResponseEOF := true })
        else Read.serve s2 count
  else Read.serve s count

/-! ## Driving the request -/

/-- The value `HttpStatusCode::Continue`. -/
abbrev HttpStatusCode.Continue : Int := 100

/-- The block of `CurlSession::Perform` under `// Make sure host is set`: both look-ups use
the copy of the header map taken before anything is added. -/
def Perform.defaultHeaders (r : Request) : Request :=
  let headers := r
  let r1 : Request := if (headers.findHeader "Host").isNone then r.AddHeader "Host" r.host else r
  if (headers.findHeader "content-length").isNone then
    r1.AddHeader "content-length" (toString r1.bodyStream.Length)
  else r1

/-- The first part of `CurlSession::Perform`, up to `CURLINFO_ACTIVESOCKET`: the return code of
the set-up calls and the session with the request headers completed. -/
def Perform.prepare (s : CurlSession) : CURLcode × CurlSession :=
  if s.m_curl.setUrlResult ≠ CURLE_OK then (s.m_curl.setUrlResult, s)
  else
    let s1 : CurlSession := { s with m_request := Perform.defaultHeaders s.m_request }
    if s1.m_curl.setConnectOnlyResult ≠ CURLE_OK then (s1.m_curl.setConnectOnlyResult, s1)
    else
      let s2 : CurlSession :=
        if s1.m_request.method = HttpMethod.Put then
          { s1 with m_request := s1.m_request.AddHeader "expect" "100-continue" }
        else s1
      if s2.m_curl.performResult ≠ CURLE_OK then (s2.m_curl.performResult, s2)
      else if s2.m_curl.getInfoResult ≠ CURLE_OK then (s2.m_curl.getInfoResult, s2)
      else (CURLE_OK, s2)

/-- The part of `CurlSession::Perform` from the start to the first call of
`ReadStatusLineAndHeadersFromRawResponse`. -/
def Perform.sendAndReadHeaders (fuel : Nat) (s : CurlSession) :
    Except Error (CURLcode × CurlSession) :=
  let p := Perform.prepare s
  if p.1 ≠ CURLE_OK then .ok p
  else
    match p.2.HttpRawSend fuel with
    | .error e => .error e
    | .ok (result, s1) =>
      if result ≠ CURLE_OK then .ok (result, s1)
      else
        match s1.ReadStatusLineAndHeadersFromRawResponse fuel with
        | .error e => .error e
        | .ok s2 => .ok (result, s2)

/-- The rest of `CurlSession::Perform`, from `// Upload body for PUT` on. A null `m_response`
cannot be asked for its status code. -/
def Perform.upload (fuel : Nat) (result : CURLcode) (s : CurlSession) :
    Except Error (CURLcode × CurlSession) :=
  if s.m_request.method ≠ HttpMethod.Put then .ok (result, s)
  else
    match s.m_response with
    | none => .error .undefinedBehaviour
    | some response =>
      if response.statusCode ≠ HttpStatusCode.Continue then .ok (result, s)
      else
        match s.UploadBody fuel with
        | .error e => .error e
        | .ok (result1, s1) =>
          if result1 ≠ CURLE_OK then .ok (result1, s1)
          else
            match s1.ReadStatusLineAndHeadersFromRawResponse fuel with
            | .error e => .error e
            | .ok s2 => .ok (result1, s2)

/-- The method `CurlSession::Perform`. -/
def CurlSession.Perform (fuel : Nat) (s : CurlSession) : Except Error (CURLcode × CurlSession) :=
  match Perform.sendAndReadHeaders fuel s with
  | .error e => .error e
  | .ok (result, s1) =>
    if result ≠ CURLE_OK then .ok (result, s1)
    else Perform.upload fuel result s1

/-- Successive calls of `Read` with the given counts, up to and including the first call that
returns 0: the bytes returned, whether a call returned 0, and the session afterwards. -/
def CurlSession.drain (fuel : Nat) (context : Context) :
    CurlSession → List Int → Except Error (List Nat × Bool × CurlSession)
  | s, [] => .ok ([], false, s)
  | s, count :: counts =>
    match s.Read fuel context count with
    | .error e => .error e
    | .ok (out, s1) =>
      if out.length = 0 then .ok ([], true, s1)
      else
        match CurlSession.drain fuel context s1 counts with
        | .error e => .error e
        | .ok (more, done, s2) => .ok (out ++ more, done, s2)

/-! ## Definitions used in the statements -/

/-- A decimal digit byte, `'0'` to `'9'`. -/
def isDecimalDigit (b : Nat) : Prop := 48 ≤ b ∧ b ≤ 57

instance : DecidablePred isDecimalDigit := fun b => by
  unfold isDecimalDigit
  infer_instance

/-- The number a string of decimal digits denotes. -/
def decimalValue (ds : List Nat) : Nat := ds.foldl (fun acc d => acc * 10 + (d - 48)) 0

/-- The status line `HTTP/<major>.<minor> <status> <reason>` without its line end. -/
def statusLineText (major minor status reason : List Nat) : List Nat :=
  bytes "HTTP/" ++ major ++ [DOT] ++ minor ++ [SP] ++ status ++ [SP] ++ reason

/-- The parser of the specification, one byte at a time: a CR is held back as pending, an LF
after a pending CR ends the line accumulated so far, every other byte joins the line. -/
def byteStep (p : ResponseBufferParser) (b : Nat) : Except Error ResponseBufferParser :=
  if p.m_parseCompleted then .ok p
  else if b = CR then .ok { p with m_delimiterStartInPrevPosition := true }
  else if b = LF ∧ p.m_delimiterStartInPrevPosition = true then
    match p.state with
    | .StatusLine =>
      match CreateHTTPResponse p.m_internalBuffer with
      | .error e => .error e
      | .ok r =>
        .ok { p with
              m_response := some r
              state := .Headers
              m_delimiterStartInPrevPosition := false
              m_internalBuffer := [] }
    | .Headers =>
      if p.m_internalBuffer = [] then .ok { p with m_parseCompleted := true }
      else
        match p.addHeader p.m_internalBuffer with
        | .error e => .error e
        | .ok p2 => .ok { p2 with m_delimiterStartInPrevPosition := false, m_internalBuffer := [] }
    | .EndOfHeaders => .error .terminate
  else
    .ok { p with
          m_internalBuffer := p.m_internalBuffer ++ [b]
          m_delimiterStartInPrevPosition := false }

/-- The specification parser run over a byte string. -/
def runBytes : ResponseBufferParser → List Nat → Except Error ResponseBufferParser
  | p, [] => .ok p
  | p, b :: rest =>
    match byteStep p b with
    | .error e => .error e
    | .ok p1 => runBytes p1 rest

/-- Every pending CR met while the specification parser runs over `bs` is followed by LF, up to
the point where the parser completes. -/
def PendingCRMeetsLF : ResponseBufferParser → List Nat → Prop
  | _, [] => True
  | p, b :: rest =>
    p.m_parseCompleted = true ∨
      ((p.m_delimiterStartInPrevPosition = true → b = LF) ∧
        ∀ p1, byteStep p b = .ok p1 → PendingCRMeetsLF p1 rest)

/-- The parser as it would be left if the fill ended at `index`. -/
def virt (f : List Nat) (start index : Nat) (q : ResponseBufferParser) : ResponseBufferParser :=
  { q with
    m_internalBuffer :=
      q.m_internalBuffer ++
        slice f start (index - (if q.m_delimiterStartInPrevPosition then 1 else 0)) }

/-- Facts about the local variables of `Parse` that hold at the head of every iteration. -/
structure LoopInv (start index : Nat) (q : ResponseBufferParser) : Prop where
  le : start ≤ index
  buf : q.m_internalBuffer ≠ [] → start = 0
  flag : q.m_delimiterStartInPrevPosition = true → index = 0 ∨ start < index
  notDone : q.m_parseCompleted = false

/-- A header block on the wire: the status line, the header lines and the blank line, each
ended by CRLF. -/
def headerBlock (statusLine : List Nat) (headerLines : List (List Nat)) : List Nat :=
  statusLine ++ [CR, LF] ++ (headerLines.map (fun l => l ++ [CR, LF])).flatten ++ [CR, LF]

/-- The parser after a whole header block: completed, in phase `Headers`, holding the
response. -/
def ResponseBufferParser.completedWith (r : RawResponse) : ResponseBufferParser :=
  { state := .Headers
    m_parseCompleted := true
    m_delimiterStartInPrevPosition := true
    m_internalBuffer := []
    m_response := some r }

/-- What parsing a header block yields: the response made from the status line, with the
header lines added in order. -/
def parsedBlock (statusLine : List Nat) (headerLines : List (List Nat)) :
    Except Error ResponseBufferParser :=
  match CreateHTTPResponse statusLine with
  | .error e => .error e
  | .ok r =>
    .ok (ResponseBufferParser.completedWith { r with headerLines := r.headerLines ++ headerLines })

/-- The example session: a GET request and a peer that sends a header block with
`content-length: 5` followed by `hello`, in one delivery. -/
def exampleSession : CurlSession :=
  CurlSession.new ⟨1024, 65536⟩ ⟨.Get, "h.example", "/p", [], ⟨[], 0⟩, 0⟩
    (Curl.serving (bytes "HTTP/1.1 200 OK\r\ncontent-length: 5\r\n\r\nhello") [])

/-- The example session after the `while` loop of
`ReadStatusLineAndHeadersFromRawResponse`. -/
def exampleSessionAfterLoop : CurlSession :=
  { exampleSession with
    m_curl := Curl.serving [] []
    m_readBuffer := bytes "HTTP/1.1 200 OK\r\ncontent-length: 5\r\n\r\nhello"
    m_bodyStartInBuffer := 38 }

/-- The response of the example session. -/
def exampleResponse : RawResponse :=
  ⟨1, 1, 200, bytes "OK", [bytes "content-length: 5"]⟩

/-- The part of a session that the receiving code does not touch: the request, the bytes sent,
the send script, the upload counter and the constants. -/
def SameOutgoing (s s1 : CurlSession) : Prop :=
  s1.m_request = s.m_request ∧ s1.m_curl.sent = s.m_curl.sent ∧
    s1.m_curl.sendScript = s.m_curl.sendScript ∧ s1.m_uploadedBytes = s.m_uploadedBytes ∧
    s1.details = s.details

/-- The session a transport makes for `request`, talking to a peer that sends `wire` cut as
`frags` says. The constants are those of the library release (1024 and 64 KiB). -/
def sessionFor (request : Request) (wire : String) (frags : List Nat) : CurlSession :=
  CurlSession.new ⟨1024, 65536⟩ request (Curl.serving (bytes wire) frags)

/-- A request with the given method and body and no headers of its own. -/
def requestOf (method : HttpMethod) (body : String) : Request :=
  ⟨method, "h.example", "/p", [], ⟨bytes body, 0⟩, 0⟩

/-- The session `ok` holds, or `fallback` when it holds an error. -/
def sessionOf (fallback : CurlSession) : Except Error CurlSession → CurlSession
  | .ok s => s
  | .error _ => fallback

/-- The session `ok` holds next to a return code, or `fallback` when it holds an error. -/
def sessionOfResult (fallback : CurlSession) : Except Error (CURLcode × CurlSession) → CurlSession
  | .ok r => r.2
  | .error _ => fallback

/-- A PUT request with the body `BODY` answered with `417 Expectation Failed`. -/
def putSession417 : CurlSession :=
  sessionFor (requestOf .Put "BODY") "HTTP/1.1 417 Expectation Failed\r\n\r\n" []

/-- A PUT request with the body `BODY` answered with `100 Continue` and, in a second delivery,
with `201 Created`. -/
def putSession100 : CurlSession :=
  sessionFor (requestOf .Put "BODY")
    "HTTP/1.1 100 Continue\r\n\r\nHTTP/1.1 201 Created\r\ncontent-length: 0\r\n\r\n" [24]

/-- The chunked body of the specification: two chunks, `Wiki` and `pedia`, and the last
chunk. -/
def wikipediaChunked : List Nat := bytes "4\r\nWiki\r\n5\r\npedia\r\n0\r\n\r\n"

/-- The decoded body. -/
def wikipedia : List Nat := bytes "Wikipedia"

/-- Where in `wikipediaChunked` the next data byte lies when `k` bytes have been delivered. -/
def wikiOffset (k : Nat) : Nat := if k ≤ 4 then 3 + k else 8 + k

/-- What is left of the current chunk when `k` bytes have been delivered. -/
def wikiRemaining (k : Nat) : Nat := if k ≤ 4 then 4 - k else 9 - k

/-- The session holds the whole chunked body in its buffer, behind `pre`, and has delivered
`k` bytes of it. -/
structure WikiInv (pre : List Nat) (s : CurlSession) (k : Nat) : Prop where
  buf : s.m_readBuffer = pre ++ wikipediaChunked
  start : s.m_bodyStartInBuffer = ((pre.length + wikiOffset k : Nat) : Int)
  size : s.m_innerBufferSize = ((pre.length + 24 : Nat) : Int)
  chunked : s.m_isChunkedResponseType = true
  length : s.m_contentLength = -1
  chunk : s.m_chunkSize = ((wikiRemaining k : Nat) : Int)

/-- The bytes of a header block that announces a chunked body. -/
def chunkedHeader : List Nat :=
  bytes "HTTP/1.1 200 OK\r\ntransfer-encoding: chunked\r\n\r\n"

/-- A GET request answered, in one delivery, with a header block that announces a chunked body
and with the chunked body of the specification. -/
def chunkedSession : CurlSession :=
  sessionFor (requestOf .Get "")
    ("HTTP/1.1 200 OK\r\ntransfer-encoding: chunked\r\n\r\n" ++
      "4\r\nWiki\r\n5\r\npedia\r\n0\r\n\r\n") []

/-- The session `chunkedSession` at the point where `ReadStatusLineAndHeadersFromRawResponse`
calls `ParseChunkSize`. -/
def chunkedSessionAtBody : CurlSession :=
  { chunkedSession with
    m_curl := Curl.serving [] []
    m_response := some ⟨1, 1, 200, bytes "OK", [bytes "transfer-encoding: chunked"]⟩
    m_readBuffer := chunkedHeader ++ wikipediaChunked
    m_bodyStartInBuffer := 47
    m_innerBufferSize := 71
    m_contentLength := -1
    m_isChunkedResponseType := true }

/-- The specification parser neither completes nor fails on a proper prefix of `bs`. -/
def NoEarlyCompletion (p : ResponseBufferParser) (bs : List Nat) : Prop :=
  ∀ j, j < bs.length →
    ∃ p1 : ResponseBufferParser, runBytes p (bs.take j) = .ok p1 ∧ p1.m_parseCompleted = false

/-- The bytes `rem` are what is left of a header block for the parser `p`: running over them
completes the parser, as `pc`, at their last byte and not before. -/
structure HeaderBytes (p : ResponseBufferParser) (rem : List Nat) (pc : ResponseBufferParser) :
    Prop where
  nonempty : rem ≠ []
  good : PendingCRMeetsLF p rem
  run : runBytes p rem = .ok pc
  done : pc.m_parseCompleted = true
  noEarly : NoEarlyCompletion p rem

/-- The peer answers every receive with `CURLE_OK`: it only cuts the wire into pieces. -/
def Serving (c : Curl) : Prop :=
  ∃ frags : List Nat, c.recvScript = frags.map (fun limit => ⟨CURLE_OK, limit, 0⟩)

/-- The bytes the session has still to deliver: the unread part of the buffer, then what the
peer has not sent yet. -/
def CurlSession.pending (s : CurlSession) : List Nat :=
  (if 0 ≤ s.m_bodyStartInBuffer then s.m_readBuffer.drop s.m_bodyStartInBuffer.toNat else [])
    ++ s.m_curl.wire

/-- The state of a session between two reads of a body that is not chunked: the fill size is
the size of the buffer, the offset is the sentinel or inside the fill, the peer only cuts the
wire, and end-of-response is not set. -/
structure BodyInv (s : CurlSession) : Prop where
  sized : s.m_innerBufferSize = (s.m_readBuffer.length : Int)
  offset : s.m_bodyStartInBuffer = -1 ∨
    (0 ≤ s.m_bodyStartInBuffer ∧ s.m_bodyStartInBuffer < s.m_innerBufferSize)
  serving : Serving s.m_curl
  notChunked : s.m_isChunkedResponseType = false
  notEOF : s.m_rawResponseEOF = false

/-- A GET request answered with `content-length: 0` and, in the same delivery, five more
bytes. -/
def zeroLengthSession : CurlSession :=
  sessionFor (requestOf .Get "") "HTTP/1.1 200 OK\r\ncontent-length: 0\r\n\r\nEXTRA" []

/-- The bytes the first `Read` of `count` bytes returns after the status line and the headers
were read, together with the declared length the session holds. -/
def firstRead (fuel : Nat) (s : CurlSession) (count : Int) : Except Error (Int × List Nat) :=
  match s.ReadStatusLineAndHeadersFromRawResponse fuel with
  | .error e => .error e
  | .ok s1 =>
    match s1.Read fuel ⟨false⟩ count with
    | .error e => .error e
    | .ok (out, _) => .ok (s1.m_contentLength, out)

/-- A line made of a five-byte protocol tag, the three fields and the reason phrase, with the
separators `.`, space and space between them. -/
def fieldsLine (tag major minor status reason : List Nat) : List Nat :=
  tag ++ major ++ [DOT] ++ minor ++ [SP] ++ status ++ [SP] ++ reason

/-- The fields of the parser at the moment an exception leaves the body of the `for` loop of
`Parse`. Every call that can throw (`CreateHTTPResponse`, `AddHeader`, the bare `throw;`) comes
after the text of this fill has been appended to a non-empty accumulation buffer and before
any other field is assigned. -/
def Parse.atThrow (buffer : List Nat) (start index : Nat) (p : ResponseBufferParser) :
    ResponseBufferParser :=
  if p.m_internalBuffer.length > 0 ∧ index > 1 then
    { p with m_internalBuffer := p.m_internalBuffer ++ slice buffer start (index - 1) }
  else p

/-- The `for` loop of `Parse` as `Parse.loop` gives it, keeping the parser an exception leaves
behind. -/
def Parse.loopTraced (buffer : List Nat) :
    List Nat → Nat → Nat → ResponseBufferParser →
      Except (Error × ResponseBufferParser) (Nat × ResponseBufferParser)
  | [], start, index, p => .ok (Parse.finish buffer start index p)
  | b :: rest, start, index, p =>
    match Parse.iter buffer b start index p with
    | .error e => .error (e, Parse.atThrow buffer start index p)
    | .ok (.ret value p1) => .ok (value, p1)
    | .ok (.next start1 p1) => Parse.loopTraced buffer rest start1 (index + 1) p1

/-- The method `Parse`, keeping the parser an exception leaves behind. -/
def ResponseBufferParser.ParseTraced (p : ResponseBufferParser) (buffer : List Nat) :
    Except (Error × ResponseBufferParser) (Nat × ResponseBufferParser) :=
  if p.m_parseCompleted then .ok (0, p)
  else Parse.loopTraced buffer buffer 0 0 p

/-- Successive calls of `Parse`, one per fill, up to the first that throws, keeping the parser
the exception leaves behind. -/
def ResponseBufferParser.feedTraced :
    ResponseBufferParser → List (List Nat) →
      Except (Error × ResponseBufferParser) ResponseBufferParser
  | p, [] => .ok p
  | p, fill :: fills =>
    match p.ParseTraced fill with
    | .error e => .error e
    | .ok (_, p1) => ResponseBufferParser.feedTraced p1 fills

/-- The phases a parser goes through: before the status line is finalized there is no
response, afterwards the state is `Headers` and the response exists. -/
def ParserInv (p : ResponseBufferParser) : Prop :=
  (p.state = .StatusLine ∧ p.m_response = none ∧ p.m_parseCompleted = false) ∨
    (p.state = .Headers ∧ p.m_response ≠ none)

/-- The part of a session that fixes how the body is delimited and whose body it is: the
declared length, the chunked flag, the response and the request. -/
def SameMode (s s1 : CurlSession) : Prop :=
  s1.m_contentLength = s.m_contentLength ∧
    s1.m_isChunkedResponseType = s.m_isChunkedResponseType ∧
    s1.m_response = s.m_response ∧ s1.m_request = s.m_request

/-- One call of `curl_easy_send` made by `SendBuffer`: the range handed over,
`[buffer + sentBytesTotal, buffer + bufferSize)`, and the number of bytes the primitive
reported as sent (0 when the answer is not `CURLE_OK`). -/
structure SendAttempt where
  offered : List Nat
  accepted : Nat
  deriving DecidableEq, Repr

/-- The calls of `curl_easy_send` made by the loops of `SendBuffer`, in order, for the answers
`sendLoop` gets: each call is handed the bytes not yet sent. -/
def sendAttempts : List SocketEvent → List Nat → List SendAttempt
  | _, [] => []
  | [], b :: rest => [⟨b :: rest, (b :: rest).length⟩]
  | e :: script, b :: rest =>
    if e.code = CURLE_OK then
      ⟨b :: rest, ((b :: rest).take e.limit).length⟩ ::
        sendAttempts script ((b :: rest).drop e.limit)
    else if e.code = CURLE_AGAIN then
      if e.select = 0 then [⟨b :: rest, 0⟩]
      else ⟨b :: rest, 0⟩ :: sendAttempts script (b :: rest)
    else [⟨b :: rest, 0⟩]

/-- The number of bytes a run of answers lets through when each `CURLE_OK` answer takes its
full limit. -/
def sentBy (answers : List SocketEvent) : Nat :=
  ((answers.filter (fun e => e.code = CURLE_OK)).map (fun e => e.limit)).sum

/-- The readiness waits a run of answers causes in `SendBuffer`: one wait for writing, with a
timeout of 60000 ms, per `CURLE_AGAIN`. -/
def waitsOf (answers : List SocketEvent) : List (Int × Int) :=
  (answers.filter (fun e => e.code = CURLE_AGAIN)).map (fun _ => (0, 60000))

/-- A session whose socket answers every send with `CURLE_AGAIN` and whose readiness wait then
times out (`select()` returns 0). -/
def wouldBlockSession : CurlSession :=
  CurlSession.new ⟨1024, 65536⟩ (requestOf .Get "")
    { Curl.serving [] [] with sendScript := [⟨CURLE_AGAIN, 0, 0⟩, ⟨CURLE_AGAIN, 0, 0⟩] }

/-- A handle whose first receive and first send answer `CURLE_AGAIN` and whose readiness wait
then fails (`select()` returns -1); the peer has the three bytes `abc` to deliver. -/
def readinessErrorCurl : Curl :=
  { Curl.serving (bytes "abc") [] with
    recvScript := [⟨CURLE_AGAIN, 0, -1⟩]
    sendScript := [⟨CURLE_AGAIN, 0, -1⟩] }

/-- A session in chunked mode whose current chunk is exhausted. -/
def chunkExhaustedSession : CurlSession :=
  { chunkedSessionAtBody with m_bodyStartInBuffer := 54, m_chunkSize := 0, m_sessionTotalRead := 4 }

/-- The method `CurlTransport::Send(context, request)`: the response handed to the caller
together with the session that `SetBodyStream` installs as its body stream. `details` and
`curl` stand for the constants and the handle the constructor of `CurlSession` takes from the
environment. `GetResponse` moves the response out of the session; calling `SetBodyStream` on a
null response is outside the language. -/
def CurlTransport.Send (fuel : Nat) (details : Details) (curl : Curl) (_context : Context)
    (request : Request) : Except Error (RawResponse × CurlSession) :=
  let session := CurlSession.new details request curl
  match session.Perform fuel with
  | .error e => .error e
  | .ok (performing, session1) =>
    if performing ≠ CURLE_OK then
      if performing = CURLE_COULDNT_RESOLVE_HOST then .error .couldNotResolveHost
      else .error .transportException
    else
      match session1.m_response with
      | none => .error .undefinedBehaviour
      | some response => .ok (response, { session1 with m_response := none })

/-- A handle whose connection attempt fails with `CURLE_COULDNT_RESOLVE_HOST`. -/
def unresolvedCurl : Curl :=
  { Curl.serving [] [] with performResult := CURLE_COULDNT_RESOLVE_HOST }

/-- A handle that accepts the request and whose first receive reports would-block, after which
the readiness wait times out. -/
def silentCurl : Curl :=
  { Curl.serving [] [] with recvScript := [⟨CURLE_AGAIN, 0, 0⟩] }

/-- The socket takes what it is given: every answer left in the send script is `CURLE_OK`. -/
def Accepting (c : Curl) : Prop := ∀ e ∈ c.sendScript, e.code = CURLE_OK

/-- A session for a request with the given method and headers and an empty body, on a socket
that takes everything at once. -/
def emptyBodySession (method : HttpMethod) (headers : List (String × String)) : CurlSession :=
  CurlSession.new ⟨1024, 65536⟩ ⟨method, "h.example", "/p", headers, ⟨[], 0⟩, 0⟩
    (Curl.serving [] [])

/-- A GET request answered with a chunked response whose body is the one chunk `Wiki` and the
last chunk; the first delivery holds `first + 1` bytes, the second one the rest. The header
block has 47 bytes, the chunk-size line `4 CR LF` follows it. -/
def splitSizeLineSession (first : Nat) : CurlSession :=
  sessionFor (requestOf .Get "")
    ("HTTP/1.1 200 OK\r\ntransfer-encoding: chunked\r\n\r\n" ++ "4\r\nWiki\r\n0\r\n\r\n") [first]

/-- A GET request answered, in one delivery, with a chunked response whose body is empty: the
first chunk-size line is `0 CR LF`. The peer then closes the connection. -/
def emptyChunkedSession : CurlSession :=
  sessionFor (requestOf .Get "")
    "HTTP/1.1 200 OK\r\ntransfer-encoding: chunked\r\n\r\n0\r\n\r\n" []

/-- The same response from a peer that keeps the connection open and sends nothing more: the
next receive reports would-block and the readiness wait times out. -/
def emptyChunkedSilentSession : CurlSession :=
  { emptyChunkedSession with
    m_curl := { emptyChunkedSession.m_curl with
      recvScript := [⟨CURLE_OK, 1023, 0⟩, ⟨CURLE_AGAIN, 0, 0⟩] } }

/-- A hexadecimal digit byte: `0-9`, `a-f` or `A-F`. -/
def isHexDigit (b : Nat) : Prop := (48 ≤ b ∧ b ≤ 57) ∨ (97 ≤ b ∧ b ≤ 102) ∨ (65 ≤ b ∧ b ≤ 70)

instance : DecidablePred isHexDigit := fun b => by
  unfold isHexDigit
  infer_instance

/-- The value of one hexadecimal digit. -/
def hexDigitValue (b : Nat) : Nat := if b ≤ 57 then b - 48 else if 97 ≤ b then b - 87 else b - 55

/-- The number a string of hexadecimal digits denotes. -/
def hexValue (ds : List Nat) : Nat := ds.foldl (fun acc d => acc * 16 + hexDigitValue d) 0

/-- A session in chunked mode whose buffer holds the chunk-size line given and one more byte;
the offset is at the start of the line. -/
def sizeLineSession (line : String) : CurlSession :=
  { chunkedSessionAtBody with
    m_readBuffer := bytes (line ++ "X")
    m_bodyStartInBuffer := 0
    m_innerBufferSize := ((bytes (line ++ "X")).length : Nat) }

/-- The state of the buffer between the rounds of the two-byte skip of `Read`: the fill size is
the size of the buffer, the offset is the sentinel -1 or lies behind the first byte and not
behind the fill, and the peer only cuts the wire into deliveries of at least one byte. -/
structure SkipInv (s : CurlSession) : Prop where
  sized : s.m_innerBufferSize = (s.m_readBuffer.length : Int)
  offset : s.m_bodyStartInBuffer = -1 ∨
    (0 < s.m_bodyStartInBuffer ∧ s.m_bodyStartInBuffer ≤ s.m_innerBufferSize)
  serving : Serving s.m_curl
  capacity : 0 < s.details.c_LibcurlReaderSize

/-- A session in chunked mode that has delivered the chunk `Wiki`; the two bytes behind the
chunk data and the next chunk-size line are still to come, some in the buffer (from offset
`start` on, or none when `start` is -1) and the rest from the peer. -/
def afterChunkSession (buffer : String) (start : Int) (wire : String) (frags : List Nat) :
    CurlSession :=
  { chunkedSessionAtBody with
    m_curl := Curl.serving (bytes wire) frags
    m_readBuffer := bytes buffer
    m_bodyStartInBuffer := start
    m_innerBufferSize := ((bytes buffer).length : Nat)
    m_chunkSize := 0
    m_sessionTotalRead := 4 }

/-- A POST session with the body `hello`, the given upload chunk size and the given answers of
the next calls of `curl_easy_send`; the upload counter stands at 77 from what was sent before. -/
def uploadSession (chunkSize : Int) (answers : List SocketEvent) : CurlSession :=
  { sessionFor { requestOf .Post "hello" with uploadChunkSize := chunkSize } "" [] with
    m_curl := { Curl.serving [] [] with sendScript := answers }
    m_uploadedBytes := 77 }

/-- The parser an iteration of the `for` loop of `Parse` leaves behind. -/
def ParseIter.parser : ParseIter → ResponseBufferParser
  | .next _ p => p
  | .ret _ p => p

/-- The bytes and the session a call of `Read` returned, or no bytes and `fallback` when it
threw. -/
def readOf (fallback : CurlSession) :
    Except Error (List Nat × CurlSession) → List Nat × CurlSession
  | .ok r => r
  | .error _ => ([], fallback)

/-- A session in chunked mode at the end of the chunk `Wiki`, with the chunk `pedia` and the
last chunk in the buffer. -/
def nextChunkSession : CurlSession :=
  afterChunkSession "Wiki\r\n5\r\npedia\r\n0\r\n\r\n" 4 "" []

/-- The response the parser holds was made by `CreateHTTPResponse` from some line, and header
lines were added to it since. -/
def BuiltFromStatusLine (p : ResponseBufferParser) : Prop :=
  ∃ (line : List Nat) (r0 : RawResponse) (added : List (List Nat)),
    CreateHTTPResponse line = .ok r0 ∧ p.m_response = some (added.foldl RawResponse.AddHeader r0)

/-- The phases of the parser: in `StatusLine` there is no response yet and the parser has not
completed; in `Headers` it holds a response built from a status line. The third value of the
enumeration, `EndOfHeaders`, does not occur. -/
def PhaseInv (p : ResponseBufferParser) : Prop :=
  (p.state = .StatusLine ∧ p.m_response = none ∧ p.m_parseCompleted = false) ∨
    (p.state = .Headers ∧ BuiltFromStatusLine p)

/-- What an iteration of the loop of `Parse` started on `q` may end with: an exception other
than the bare `throw;`, raised in phase `StatusLine`; the next iteration, within the phases, not
completed and not back from phase `Headers`; or the return that reports completion, from phase
`Headers`. -/
def IterPost (q : ResponseBufferParser) : Except Error ParseIter → Prop
  | .error e => e ≠ .terminate ∧ q.state = .StatusLine
  | .ok (.next _ q1) =>
    PhaseInv q1 ∧ q1.m_parseCompleted = false ∧ (q.state = .Headers → q1.state = .Headers)
  | .ok (.ret _ q1) =>
    PhaseInv q1 ∧ q.state = .Headers ∧ q1.state = .Headers ∧ q1.m_parseCompleted = true

/-- What a call of `Parse` on `p` may end with: an exception other than the bare `throw;`, or
a return; either way the parser left behind is within the phases, has not left phase `Headers`
and is still completed if it was. -/
def CallPost (p : ResponseBufferParser) :
    Except (Error × ResponseBufferParser) (Nat × ResponseBufferParser) → Prop
  | .error (e, p1) =>
    e ≠ .terminate ∧ PhaseInv p1 ∧ (p.state = .Headers → p1.state = .Headers) ∧
      (p.m_parseCompleted = true → p1.m_parseCompleted = true)
  | .ok (_, p1) =>
    PhaseInv p1 ∧ (p.state = .Headers → p1.state = .Headers) ∧
      (p.m_parseCompleted = true → p1.m_parseCompleted = true)

/-- Modelled from the spec: the enumerators of `enum class BlobContainerSasPermissions`, declared
in `blobs/blob_sas_builder.hpp`, which is not part of the sources at hand; their values are kept
as parameters. A set of permissions is a value of the underlying integer type, here a `Nat`. -/
structure BlobContainerSasPermissions where
  Read : Nat
  Add : Nat
  Create : Nat
  Write : Nat
  Delete : Nat
  DeleteVersion : Nat
  List : Nat
  Tags : Nat
  deriving DecidableEq, Repr

/-- Modelled from the spec: the enumerators of `enum class BlobSasPermissions`, declared in
`blobs/blob_sas_builder.hpp`, which is not part of the sources at hand; their values are kept as
parameters. -/
structure BlobSasPermissions where
  Read : Nat
  Add : Nat
  Create : Nat
  Write : Nat
  Delete : Nat
  DeleteVersion : Nat
  Tags : Nat
  deriving DecidableEq, Repr

/-- Modelled from the spec: the fields of `BlobSasBuilder` (declared in
`blobs/blob_sas_builder.hpp`, which is not part of the sources at hand) that `SetPermissions`
can see: the permission string and, standing for all the others, the container name. -/
structure BlobSasBuilder where
  ContainerName : String
  Permissions : String
  deriving DecidableEq, Repr

/-- The test `(permissions & flag) == flag` both overloads of `SetPermissions` make. -/
def hasPermission (permissions flag : Nat) : Bool := (permissions &&& flag) == flag

/-- The call `Permissions += letter` guarded by the test of `flag`. -/
def BlobSasBuilder.addIf (b : BlobSasBuilder) (permissions flag : Nat) (letter : String) :
    BlobSasBuilder :=
  if hasPermission permissions flag then { b with Permissions := b.Permissions ++ letter } else b

/-- The method `BlobSasBuilder::SetPermissions(BlobContainerSasPermissions permissions)`. -/
def BlobSasBuilder.SetPermissions_container (flags : BlobContainerSasPermissions)
    (b : BlobSasBuilder) (permissions : Nat) : BlobSasBuilder :=
  let b0 : BlobSasBuilder := { b with Permissions := "" }
  let b1 := b0.addIf permissions flags.Read "r"
  let b2 := b1.addIf permissions flags.Add "a"
  let b3 := b2.addIf permissions flags.Create "c"
  let b4 := b3.addIf permissions flags.Write "w"
  let b5 := b4.addIf permissions flags.Delete "d"
  let b6 := b5.addIf permissions flags.DeleteVersion "x"
  let b7 := b6.addIf permissions flags.List "l"
  b7.addIf permissions flags.Tags "t"

/-- The method `BlobSasBuilder::SetPermissions(BlobSasPermissions permissions)`. -/
def BlobSasBuilder.SetPermissions_blob (flags : BlobSasPermissions)
    (b : BlobSasBuilder) (permissions : Nat) : BlobSasBuilder :=
  let b0 : BlobSasBuilder := { b with Permissions := "" }
  let b1 := b0.addIf permissions flags.Read "r"
  let b2 := b1.addIf permissions flags.Add "a"
  let b3 := b2.addIf permissions flags.Create "c"
  let b4 := b3.addIf permissions flags.Write "w"
  let b5 := b4.addIf permissions flags.Delete "d"
  let b6 := b5.addIf permissions flags.DeleteVersion "x"
  b6.addIf permissions flags.Tags "t"

/-- The letters of the permissions that are set, in the order of the table. -/
def permissionLetters (permissions : Nat) (table : List (Char × Nat)) : String :=
  String.mk ((table.filter fun entry => hasPermission permissions entry.2).map Prod.fst)

/-- Container flags of one bit each: `Read = 1, Write = 2, Delete = 4, List = 8, Add = 16,
Create = 32, Tags = 64, DeleteVersion = 128`. -/
def containerFlagsExample : BlobContainerSasPermissions :=
  { Read := 1, Write := 2, Delete := 4, List := 8, Add := 16, Create := 32, Tags := 64,
    DeleteVersion := 128 }

/-- Blob flags of one bit each: `Read = 1, Write = 2, Delete = 4, Add = 8, Create = 16,
Tags = 32, DeleteVersion = 64`. -/
def blobFlagsExample : BlobSasPermissions :=
  { Read := 1, Write := 2, Delete := 4, Add := 8, Create := 16, Tags := 32, DeleteVersion := 64 }

/-- The two sets of descriptors `WaitForSocketReady` can put the socket in, next to `errfd`:
`infd`, watched by `select()` until the socket can be read, and `outfd`, watched until it can
be written. -/
inductive FdSet
  | infd
  | outfd
  deriving DecidableEq, Repr

/-- The branch `if (for_recv) FD_SET(sockfd, &infd); else FD_SET(sockfd, &outfd);` of
`WaitForSocketReady`. -/
def WaitForSocketReady.watched (for_recv : Int) : FdSet :=
  if for_recv ≠ 0 then .infd else .outfd

/-- A handle whose first receive reports would-block, after which `select()` reports one ready
descriptor and the peer delivers `abc`; its first send does the same. -/
def wouldBlockOnceCurl : Curl :=
  { Curl.serving (bytes "abc") [] with
    recvScript := [⟨CURLE_AGAIN, 0, 1⟩]
    sendScript := [⟨CURLE_AGAIN, 0, 1⟩] }

/-- A GET request to a peer that sends a status line and one header line, without the blank
line that ends the header block, and then closes the connection. -/
def truncatedHeaderSession : CurlSession :=
  sessionFor (requestOf .Get "") "HTTP/1.1 200 OK\r\ncontent-length: 5\r\n" []

/-- A GET request answered with a chunked response whose body is the chunk `Wiki` followed by
the zero-size chunk; the first delivery ends with the response, `extra` is what the peer sends
afterwards on the same connection (nothing, when it closes it). -/
def wikiThenEndSession (extra : String) : CurlSession :=
  sessionFor (requestOf .Get "")
    ("HTTP/1.1 200 OK\r\ntransfer-encoding: chunked\r\n\r\n4\r\nWiki\r\n0\r\n\r\n" ++ extra) [60]

/-- The same response from a peer that keeps the connection open and sends nothing more: the
second receive reports would-block and the readiness wait times out. -/
def wikiThenSilenceSession : CurlSession :=
  { wikiThenEndSession "" with
    m_curl := { (wikiThenEndSession "").m_curl with
      recvScript := [⟨CURLE_OK, 60, 0⟩, ⟨CURLE_AGAIN, 0, 0⟩] } }

/-- The session after the status line and the headers were read and two calls of `Read` with
the count 10 were made. -/
def afterTwoReads (s : CurlSession) : CurlSession :=
  (readOf s
    ((readOf s
      ((sessionOf s (s.ReadStatusLineAndHeadersFromRawResponse 8)).Read 8 ⟨false⟩ 10)).2.Read
      8 ⟨false⟩ 10)).2

/-- The header lines of the response a run of fills leaves in a fresh parser, together with the
completed flag; `none` when a call of `Parse` threw or no status line was finalized. -/
def headerLinesAfter (fills : List (List Nat)) : Option (Bool × List (List Nat)) :=
  match ResponseBufferParser.new.feed fills with
  | .error _ => none
  | .ok p => p.m_response.map fun r => (p.m_parseCompleted, r.headerLines)

/-- Whether an LF that follows a CR occurs in `bytes`, when `pending` tells that the byte in
front of them was a CR: such an LF ends a line (or the header block). -/
def meetsLineEnd : Bool → List Nat → Bool
  | _, [] => false
  | pending, b :: rest => (pending && b == LF) || meetsLineEnd (b == CR) rest

/-- Whether the last byte is a CR. -/
def endsWithCR (f : List Nat) : Bool := f.getLast? == some CR

/-- The bytes without their last one when that is a CR. -/
def withoutFinalCR (f : List Nat) : List Nat := if endsWithCR f then f.dropLast else f

/-- The CR `Parse` puts back in front of a fill: the one it held back at the end of the fill
before, when text of the line is accumulated and the fill starts with a byte other than CR. -/
def heldBackCR (p : ResponseBufferParser) : List Nat → List Nat
  | [] => []
  | b :: _ =>
    if p.m_internalBuffer.length > 0 ∧ p.m_delimiterStartInPrevPosition = true ∧ b ≠ CR then [CR]
    else []

/-- The first rounds of the `for` loop of `Parse`, over the bytes `a = buffer[index ..]`: the
state of the loop behind them (`next`), or the return made on the way (`ret`). -/
def Parse.upTo (buffer : List Nat) :
    List Nat → Nat → Nat → ResponseBufferParser → Except Error ParseIter
  | [], start, _, p => .ok (.next start p)
  | b :: rest, start, index, p =>
    match Parse.iter buffer b start index p with
    | .error e => .error e
    | .ok (.ret value p1) => .ok (.ret value p1)
    | .ok (.next start1 p1) => Parse.upTo buffer rest start1 (index + 1) p1

/-- The rest of `Parse` from the state `Parse.upTo` reached: the loop goes on over `rest` at
`index`, unless an exception or the return ended the call. -/
def Parse.resume (buffer rest : List Nat) (index : Nat) :
    Except Error ParseIter → Except Error (Nat × ResponseBufferParser)
  | .error e => .error e
  | .ok (.ret value p) => .ok (value, p)
  | .ok (.next start p) => Parse.loop buffer rest start index p

/-- A parser that was given the fill `HTTP/1.1 200 CR`: the text is accumulated and the CR is
held back as pending. -/
def heldBackExample : ResponseBufferParser :=
  ⟨.StatusLine, false, true, bytes "HTTP/1.1 200", none⟩

/-- The offset into the read buffer between two calls: the fill size is the size of the buffer,
and the offset is the sentinel -1, or an index inside the fill, or index 0 of a fill that
brought no byte. -/
structure OffsetInv (s : CurlSession) : Prop where
  sized : s.m_innerBufferSize = (s.m_readBuffer.length : Int)
  offset : s.m_bodyStartInBuffer = -1 ∨
    (0 ≤ s.m_bodyStartInBuffer ∧ s.m_bodyStartInBuffer < s.m_innerBufferSize) ∨
    (s.m_bodyStartInBuffer = 0 ∧ s.m_readBuffer = [])

/-- A GET request answered with the chunked response of the specification by a peer whose
first delivery has 57 bytes, the header block of 47 bytes and `4 CR LF Wiki CR LF 5`: it ends
behind the hex digit of the second chunk-size line. The second delivery holds the rest,
`CR LF pedia CR LF 0 CR LF CR LF`; then the peer closes the connection. -/
def wikipediaSplitSession : CurlSession :=
  sessionFor (requestOf .Get "")
    ("HTTP/1.1 200 OK\r\ntransfer-encoding: chunked\r\n\r\n" ++
      "4\r\nWiki\r\n5\r\npedia\r\n0\r\n\r\n") [56]

/-- The session `wikipediaSplitSession` after the status line and the headers were read. -/
def wikipediaSplitAtBody : CurlSession :=
  sessionOf wikipediaSplitSession (wikipediaSplitSession.ReadStatusLineAndHeadersFromRawResponse 8)

/-- A PUT request with the body `BODY` answered with `100 Continue` and `201 Created` in one
delivery of 68 bytes; then the peer closes the connection. -/
def putSessionOneDelivery : CurlSession :=
  sessionFor (requestOf .Put "BODY")
    "HTTP/1.1 100 Continue\r\n\r\nHTTP/1.1 201 Created\r\ncontent-length: 0\r\n\r\n" []

/-- The same exchange with a peer that keeps the connection open and sends nothing more: the
second receive reports would-block and the readiness wait times out. -/
def putSessionOneDeliverySilent : CurlSession :=
  { putSessionOneDelivery with
    m_curl := { putSessionOneDelivery.m_curl with
      recvScript := [⟨CURLE_OK, 1023, 0⟩, ⟨CURLE_AGAIN, 0, 0⟩] } }

/-- The session `putSessionOneDelivery` after the request was sent and the interim response
read. -/
def putSessionOneDeliveryInterim : CurlSession :=
  sessionOfResult putSessionOneDelivery (Perform.sendAndReadHeaders 2 putSessionOneDelivery)

/-- The session `putSessionOneDelivery` after the body was uploaded. -/
def putSessionOneDeliveryUploaded : CurlSession :=
  sessionOfResult putSessionOneDelivery (putSessionOneDeliveryInterim.UploadBody 2)

/-- A PUT request with the body `BODY`. The first delivery of the peer holds two interim
responses, `100 Continue` (25 bytes) and `102 Processing` (27 bytes); the second delivery is
the header block of the final response, 38 bytes that end with the blank line; the third
delivery is the body `hello`. -/
def putSessionStaleOffset : CurlSession :=
  sessionFor (requestOf .Put "BODY")
    ("HTTP/1.1 100 Continue\r\n\r\nHTTP/1.1 102 Processing\r\n\r\n" ++
      "HTTP/1.1 200 OK\r\ncontent-length: 5\r\n\r\n" ++ "hello") [51, 37]

/-- The session `putSessionStaleOffset` after the request was sent and the interim response
read. -/
def putSessionStaleOffsetInterim : CurlSession :=
  sessionOfResult putSessionStaleOffset (Perform.sendAndReadHeaders 8 putSessionStaleOffset)

/-- The session `putSessionStaleOffset` when `Perform` has returned. -/
def putSessionStaleOffsetDone : CurlSession :=
  sessionOfResult putSessionStaleOffset (putSessionStaleOffset.Perform 8)

/-- The session `putSessionStaleOffset` after `Perform` and one `Read` of five bytes. -/
def putSessionStaleOffsetRead : CurlSession :=
  (readOf putSessionStaleOffsetDone (putSessionStaleOffsetDone.Read 8 ⟨false⟩ 5)).2

/-- A PUT request with the body `BODY`. The first delivery of the peer holds two interim
responses, `100 Continue` (25 bytes) and `102 Processing` (27 bytes); the second delivery is
the header block of the final response, 19 bytes without a declared body length; the third
delivery is the body `hello`, after which the peer closes the connection. -/
def putSessionShortFill : CurlSession :=
  sessionFor (requestOf .Put "BODY")
    ("HTTP/1.1 100 Continue\r\n\r\nHTTP/1.1 102 Processing\r\n\r\n" ++
      "HTTP/1.1 200 OK\r\n\r\n" ++ "hello") [51, 18]

/-- The session `putSessionShortFill` when `Perform` has returned. -/
def putSessionShortFillDone : CurlSession :=
  sessionOfResult putSessionShortFill (putSessionShortFill.Perform 8)

/-- Header names that are equal when the case of ASCII letters is not regarded: the comparison
the specification asks of the header map, and the one the note `use isEqualNoCase here` in
`Perform` waits for. -/
def equalNoCase (a b : String) : Bool :=
  (bytes a).map toLowerByte == (bytes b).map toLowerByte

/-- The entries of the request's header map whose name equals `name` when case is not
regarded. -/
def Request.headersNoCase (r : Request) (name : String) : List (String × String) :=
  r.headers.filter (fun h => equalNoCase h.1 name)

/-- A POST request with the body `BODY` that brings its own headers `host` and
`Content-Length`, spelled otherwise than `Perform` spells them. -/
def ownHeadersRequest : Request :=
  ⟨.Post, "h.example", "/p", [("host", "alias.example"), ("Content-Length", "4")],
    ⟨bytes "BODY", 0⟩, 0⟩

/-- The request `ownHeadersRequest` answered with `200 OK` and an empty body. -/
def ownHeadersSession : CurlSession :=
  sessionFor ownHeadersRequest "HTTP/1.1 200 OK\r\ncontent-length: 0\r\n\r\n" []

/-! # Theorems -/

theorem digitValue_decimal (d : Nat) (h : isDecimalDigit d) : digitValue 10 d = some (d - 48) := by
  obtain ⟨h1, h2⟩ := h
  have h3 : d - 48 < 10 := by omega
  simp [digitValue, h1, h2, h3]

theorem readDigits_decimal (ds : List Nat) (h : ∀ d ∈ ds, isDecimalDigit d) (acc : Nat) :
    readDigits 10 ds acc = (ds.foldl (fun acc d => acc * 10 + (d - 48)) acc, ds.length) := by
  induction ds generalizing acc with
  | nil => simp [readDigits]
  | cons d ds ih =>
    have hd := digitValue_decimal d (h d (by simp))
    simp [readDigits, hd, ih (fun x hx => h x (by simp [hx]))]

theorem stoi_decimal (ds : List Nat) (hne : ds ≠ []) (h : ∀ d ∈ ds, isDecimalDigit d)
    (hv : decimalValue ds ≤ 2147483647) : stoi ds = .ok (decimalValue ds : Int) := by
  obtain ⟨d, rest, rfl⟩ := List.exists_cons_of_ne_nil hne
  have hd : isDecimalDigit d := h d (by simp)
  obtain ⟨h1, h2⟩ := hd
  have hsp : isSpace d = false := by
    simp [isSpace]; omega
  have hsign : stripSign (d :: rest) = (false, d :: rest) := by
    have a : d ≠ 45 := by omega
    have b : d ≠ 43 := by omega
    simp [stripSign, a, b]
  have hpre : stripHexPrefix 10 (d :: rest) = d :: rest := by
    cases rest with
    | nil => simp [stripHexPrefix]
    | cons x r =>
      cases r with
      | nil => simp [stripHexPrefix]
      | cons y r => simp [stripHexPrefix]
  have hr := readDigits_decimal (d :: rest) h 0
  have hdw : (d :: rest).dropWhile isSpace = d :: rest := by simp [List.dropWhile, hsp]
  have hv2 : ¬ ((decimalValue (d :: rest) : Int) < -2147483648 ∨
      2147483647 < (decimalValue (d :: rest) : Int)) := by omega
  have hsc : scanNumber 10 (d :: rest) = some (false, decimalValue (d :: rest)) := by
    simp [scanNumber, hdw, hsign, hpre, hr, decimalValue]
  simp only [stoi, hsc, Bool.false_eq_true, if_false]
  rw [if_neg hv2]

theorem takeWhile_sep (l rest : List Nat) (c : Nat) (h : ∀ x ∈ l, x ≠ c) :
    (l ++ c :: rest).takeWhile (· != c) = l := by
  induction l with
  | nil => simp [List.takeWhile]
  | cons a l ih =>
    have ha : (a != c) = true := by simpa using h a (by simp)
    simp [List.takeWhile, ha, ih (fun x hx => h x (by simp [hx]))]

theorem dropWhile_sep (l rest : List Nat) (c : Nat) (h : ∀ x ∈ l, x ≠ c) :
    (l ++ c :: rest).dropWhile (· != c) = c :: rest := by
  induction l with
  | nil => simp [List.dropWhile]
  | cons a l ih =>
    have ha : (a != c) = true := by simpa using h a (by simp)
    simp [List.dropWhile, ha, ih (fun x hx => h x (by simp [hx]))]

theorem toUInt16_small (n : Nat) (h : n < 65536) : toUInt16 (n : Int) = n := by
  unfold toUInt16
  omega

theorem CreateHTTPResponse_wellFormed (major minor status reason : List Nat)
    (hM : major ≠ []) (hm : minor ≠ []) (hs : status ≠ [])
    (dM : ∀ d ∈ major, isDecimalDigit d) (dm : ∀ d ∈ minor, isDecimalDigit d)
    (ds : ∀ d ∈ status, isDecimalDigit d)
    (vM : decimalValue major < 65536) (vm : decimalValue minor < 65536)
    (vs : decimalValue status ≤ 2147483647) :
    CreateHTTPResponse (statusLineText major minor status reason) =
      .ok { majorVersion := decimalValue major
            minorVersion := decimalValue minor
            statusCode := decimalValue status
            reasonPhrase := reason.takeWhile (· != CR)
            headerLines := [] } := by
  have h5 : ¬ (statusLineText major minor status reason).length < 5 := by
    simp [statusLineText, bytes]
  have hdrop : (statusLineText major minor status reason).drop 5 =
      major ++ DOT :: (minor ++ SP :: (status ++ SP :: reason)) := by
    simp [statusLineText, bytes]
  have nM : ∀ x ∈ major, x ≠ DOT := fun x hx => by
    have := dM x hx; unfold isDecimalDigit at this; show x ≠ 46; omega
  have nm : ∀ x ∈ minor, x ≠ SP := fun x hx => by
    have := dm x hx; unfold isDecimalDigit at this; show x ≠ 32; omega
  have ns : ∀ x ∈ status, x ≠ SP := fun x hx => by
    have := ds x hx; unfold isDecimalDigit at this; show x ≠ 32; omega
  unfold CreateHTTPResponse
  rw [if_neg h5]
  simp only [hdrop, takeWhile_sep _ _ _ nM, dropWhile_sep _ _ _ nM, takeWhile_sep _ _ _ nm,
    dropWhile_sep _ _ _ nm, takeWhile_sep _ _ _ ns, dropWhile_sep _ _ _ ns,
    stoi_decimal major hM dM (by omega), stoi_decimal minor hm dm (by omega),
    stoi_decimal status hs ds vs, toUInt16_small _ vM, toUInt16_small _ vm]

theorem slice_empty (f : List Nat) (a b : Nat) (h : b ≤ a) : slice f a b = [] := by
  simp [slice, Nat.sub_eq_zero_of_le h]

theorem slice_succ (f : List Nat) (a i b : Nat) (hb : f[i]? = some b) (h : a ≤ i) :
    slice f a (i + 1) = slice f a i ++ [b] := by
  unfold slice
  have hlen : i < f.length := by
    rcases Nat.lt_or_ge i f.length with h1 | h1
    · exact h1
    · simp [List.getElem?_eq_none h1] at hb
  have h1 : i + 1 - a = (i - a) + 1 := by omega
  rw [h1, List.take_succ]
  congr 1
  have : (List.drop a f)[i - a]? = some b := by
    rw [List.getElem?_drop]
    have : a + (i - a) = i := by omega
    rw [this]; exact hb
  simp [this]

theorem slice_ne_nil (f : List Nat) (a b : Nat) (h : a < b) (hf : a < f.length) :
    slice f a b ≠ [] := by
  unfold slice
  intro h0
  have := congrArg List.length h0
  simp at this
  omega

theorem lt_length_of_getElem? {f : List Nat} {i b : Nat} (hb : f[i]? = some b) : i < f.length := by
  rcases Nat.lt_or_ge i f.length with h1 | h1
  · exact h1
  · simp [List.getElem?_eq_none h1] at hb

theorem iter_sim (f : List Nat) (b start index : Nat) (q : ResponseBufferParser)
    (hb : f[index]? = some b) (inv : LoopInv start index q)
    (good : q.m_delimiterStartInPrevPosition = true → b = LF) :
    match Parse.iter f b start index q with
    | .error e => byteStep (virt f start index q) b = .error e
    | .ok (.ret v q1) =>
      v = index + 1 ∧ byteStep (virt f start index q) b = .ok q1 ∧ q1.m_parseCompleted = true
    | .ok (.next start1 q1) =>
      byteStep (virt f start index q) b = .ok (virt f start1 (index + 1) q1) ∧
        LoopInv start1 (index + 1) q1 := by
  obtain ⟨hle, hbuf, hflag, hnd⟩ := inv
  by_cases hcr : b = CR
  · -- a CR: the flag cannot be pending already
    have hf : q.m_delimiterStartInPrevPosition = false := by
      cases hq : q.m_delimiterStartInPrevPosition
      · rfl
      · have := good hq; rw [hcr] at this; exact absurd this (by decide)
    simp only [Parse.iter, hcr, if_true, byteStep, virt, hnd, hf]
    simp
    exact ⟨by omega, hbuf, by omega, rfl⟩
  · by_cases hlf : b = LF ∧ q.m_delimiterStartInPrevPosition = true
    · obtain ⟨hlf, hq⟩ := hlf
      have hcr2 : ¬ (LF = CR) := by decide
      subst hlf
      by_cases hib : q.m_internalBuffer = []
      · -- nothing accumulated: the line is a slice of this fill
        have hlen : ¬ (q.m_internalBuffer.length > 0) := by simp [hib]
        cases hst : q.state
        · -- status line
          simp only [Parse.iter, hcr2, if_false, hq, and_self, if_true, hlen, hst, byteStep, virt,
            hnd, hib, List.nil_append]
          cases hc : CreateHTTPResponse (slice f start (index - 1)) <;> simp [hc, slice_empty]
          exact ⟨by omega, by simp, by simp, rfl⟩
        · -- headers
          by_cases hblank : index = 0 ∨ index = start + 1
          · have hs : slice f start (index - 1) = [] := slice_empty _ _ _ (by omega)
            simp [Parse.iter, hq, hlen, hst, byteStep, virt, hnd, hib, hblank, hs]
          · have hlt := lt_length_of_getElem? hb
            have hs : slice f start (index - 1) ≠ [] :=
              slice_ne_nil _ _ _ (by have := hflag hq; omega) (by omega)
            simp only [Parse.iter, hcr2, if_false, hq, and_self, if_true, hlen, hst, byteStep,
              virt, hnd, hib, List.nil_append, hblank, hs]
            cases hr : q.m_response
            · simp [ResponseBufferParser.addHeader, hr, hib, slice_empty]
            · simp [ResponseBufferParser.addHeader, hr, hib, slice_empty]
              exact ⟨⟨hst.symm, hnd⟩, by omega, by simp, by simp, hnd⟩
        · simp [Parse.iter, hq, hlen, hst, byteStep, virt, hnd, hib]
      · -- accumulated text: the line is that text and the start of this fill
        have hlen : q.m_internalBuffer.length > 0 := by
          cases h : q.m_internalBuffer
          · exact absurd h hib
          · simp
        have hs0 : start = 0 := hbuf hib
        subst hs0
        have hline : (if index > 1 then
              { q with m_internalBuffer := q.m_internalBuffer ++ slice f 0 (index - 1) }
            else q) = { q with m_internalBuffer := q.m_internalBuffer ++ slice f 0 (index - 1) } := by
          by_cases h1 : index > 1
          · simp [h1]
          · simp [h1, slice_empty f 0 (index - 1) (by omega)]
        have hne : q.m_internalBuffer ++ slice f 0 (index - 1) ≠ [] := by simp [hib]
        simp only [Parse.iter, hline]
        simp only [hcr2, if_false, hq, and_self, if_true, hlen, byteStep, virt, hnd]
        cases hst : q.state
        · simp only []
          cases hc : CreateHTTPResponse (q.m_internalBuffer ++ slice f 0 (index - 1))
          · simp [hc, slice_empty]
          · simp [hc, slice_empty]
            exact ⟨by omega, by simp, by simp, rfl⟩
        · simp only [hne, if_false]
          cases hr : q.m_response
          · simp [ResponseBufferParser.addHeader, hr, slice_empty]
          · simp [ResponseBufferParser.addHeader, hr, slice_empty]
            exact ⟨by omega, by simp, by simp, rfl⟩
        · simp
    · -- any other byte joins the line; the flag is not pending
      have hf : q.m_delimiterStartInPrevPosition = false := by
        cases hq : q.m_delimiterStartInPrevPosition
        · rfl
        · exact absurd ⟨good hq, hq⟩ hlf
      have hlf2 : ¬ (b = LF ∧ False) := by simp
      simp only [Parse.iter, hcr, if_false, hf, byteStep, virt, hnd]
      simp [slice_succ f start index b hb hle]
      exact ⟨hnd, by omega, hbuf, by simp, hnd⟩

theorem runBytes_completed (p : ResponseBufferParser) (hp : p.m_parseCompleted = true)
    (bs : List Nat) : runBytes p bs = .ok p := by
  induction bs with
  | nil => rfl
  | cons b rest ih => simp [runBytes, byteStep, hp, ih]

theorem virt_flag (f : List Nat) (start index : Nat) (q : ResponseBufferParser) :
    (virt f start index q).m_delimiterStartInPrevPosition = q.m_delimiterStartInPrevPosition := rfl

theorem virt_completed (f : List Nat) (start index : Nat) (q : ResponseBufferParser) :
    (virt f start index q).m_parseCompleted = q.m_parseCompleted := rfl

theorem finish_eq_virt (f : List Nat) (start : Nat) (q : ResponseBufferParser) :
    Parse.finish f start f.length q = (f.length, virt f start f.length q) := by
  unfold Parse.finish virt
  by_cases h : start < f.length
  · simp [h]
  · have hs : slice f start
        (f.length - if q.m_delimiterStartInPrevPosition = true then 1 else 0) = [] :=
      slice_empty f start _ (by omega)
    simp [h, hs]

theorem loop_sim (f : List Nat) :
    ∀ (rest : List Nat) (start index : Nat) (q : ResponseBufferParser),
      f.drop index = rest → index ≤ f.length → LoopInv start index q →
      PendingCRMeetsLF (virt f start index q) rest →
      (Parse.loop f rest start index q).map (fun r => r.2) = runBytes (virt f start index q) rest
  | [], start, index, q, hd, hle, _, _ => by
    have hlen : index = f.length := by
      have := congrArg List.length hd
      simp at this
      omega
    subst hlen
    simp [Parse.loop, finish_eq_virt, runBytes, Except.map]
  | b :: rest, start, index, q, hd, hle, inv, good => by
    have hb : f[index]? = some b := by
      have := congrArg (fun l => l[0]?) hd
      simpa [List.getElem?_drop] using this
    have hlt := lt_length_of_getElem? hb
    have hd1 : f.drop (index + 1) = rest := by
      have := congrArg List.tail hd
      simpa [List.tail_drop] using this
    have hg : (q.m_delimiterStartInPrevPosition = true → b = LF) ∧
        ∀ p1, byteStep (virt f start index q) b = .ok p1 → PendingCRMeetsLF p1 rest := by
      rcases good with h | h
      · rw [virt_completed, inv.notDone] at h; exact absurd h (by simp)
      · exact h
    have hs := iter_sim f b start index q hb inv hg.1
    unfold Parse.loop
    cases hi : Parse.iter f b start index q with
    | error e =>
      rw [hi] at hs
      simp [runBytes, hs, Except.map]
    | ok r =>
      cases r with
      | ret v q1 =>
        rw [hi] at hs
        simp [runBytes, hs.2.1, Except.map, runBytes_completed q1 hs.2.2]
      | next start1 q1 =>
        rw [hi] at hs
        have ih := loop_sim f rest start1 (index + 1) q1 hd1 (by omega) hs.2 (hg.2 _ hs.1)
        simp [runBytes, hs.1, ih]

theorem virt_zero (f : List Nat) (q : ResponseBufferParser) : virt f 0 0 q = q := by
  simp [virt, slice]

theorem Parse_eq_runBytes (p : ResponseBufferParser) (f : List Nat)
    (good : PendingCRMeetsLF p f) :
    (p.Parse f).map (fun r => r.2) = runBytes p f := by
  unfold ResponseBufferParser.Parse
  cases hp : p.m_parseCompleted
  · have inv : LoopInv 0 0 p := ⟨by omega, fun _ => rfl, fun _ => Or.inl rfl, hp⟩
    have := loop_sim f f 0 0 p (by simp) (by omega) inv (by rw [virt_zero]; exact good)
    rw [virt_zero] at this
    simpa using this
  · simp [runBytes_completed p hp, Except.map]

theorem runBytes_append (p : ResponseBufferParser) (a b : List Nat) :
    runBytes p (a ++ b) =
      match runBytes p a with
      | .error e => .error e
      | .ok p1 => runBytes p1 b := by
  induction a generalizing p with
  | nil => simp [runBytes]
  | cons x a ih =>
    simp only [List.cons_append, runBytes]
    cases byteStep p x with
    | error e => simp
    | ok p1 => simp [ih]

theorem PendingCRMeetsLF_completed (p : ResponseBufferParser) (hp : p.m_parseCompleted = true)
    (bs : List Nat) : PendingCRMeetsLF p bs := by
  cases bs with
  | nil => trivial
  | cons b rest => exact Or.inl hp

theorem PendingCRMeetsLF_append (p : ResponseBufferParser) (a b : List Nat)
    (h : PendingCRMeetsLF p (a ++ b)) :
    PendingCRMeetsLF p a ∧ ∀ p1, runBytes p a = .ok p1 → PendingCRMeetsLF p1 b := by
  induction a generalizing p with
  | nil =>
    refine ⟨trivial, fun p1 h1 => ?_⟩
    simp [runBytes] at h1
    subst h1
    simpa using h
  | cons x a ih =>
    simp only [List.cons_append, PendingCRMeetsLF] at h
    rcases h with h | h
    · refine ⟨Or.inl h, fun p1 h1 => ?_⟩
      rw [runBytes_completed p h] at h1
      cases h1
      exact PendingCRMeetsLF_completed p h b
    · refine ⟨Or.inr ⟨h.1, fun p1 h1 => (ih p1 (h.2 p1 h1)).1⟩, fun p2 h2 => ?_⟩
      simp only [runBytes] at h2
      cases hx : byteStep p x with
      | error e => simp [hx] at h2
      | ok p1 =>
        simp only [hx] at h2
        exact (ih p1 (h.2 p1 hx)).2 p2 h2

theorem feed_eq_runBytes (fills : List (List Nat)) :
    ∀ p : ResponseBufferParser, PendingCRMeetsLF p fills.flatten →
      p.feed fills = runBytes p fills.flatten := by
  induction fills with
  | nil => intro p _; simp [ResponseBufferParser.feed, runBytes]
  | cons f fills ih =>
    intro p good
    simp only [List.flatten_cons] at good ⊢
    have hg := PendingCRMeetsLF_append p f fills.flatten good
    have hp := Parse_eq_runBytes p f hg.1
    rw [runBytes_append, ← hp]
    unfold ResponseBufferParser.feed
    cases hq : p.Parse f with
    | error e => simp [Except.map]
    | ok r =>
      obtain ⟨v, p1⟩ := r
      simp only [Except.map]
      rw [hq] at hp
      exact ih p1 (hg.2 p1 hp.symm)

theorem run_content (l : List Nat) (hl : CR ∉ l) :
    ∀ (st : ResponseParserState) (buf : List Nat) (resp : Option RawResponse) (rest : List Nat),
      runBytes ⟨st, false, false, buf, resp⟩ (l ++ rest) =
          runBytes ⟨st, false, false, buf ++ l, resp⟩ rest ∧
        (PendingCRMeetsLF ⟨st, false, false, buf ++ l, resp⟩ rest →
          PendingCRMeetsLF ⟨st, false, false, buf, resp⟩ (l ++ rest)) := by
  induction l with
  | nil => intro st buf resp rest; simp
  | cons x l ih =>
    intro st buf resp rest
    have hx : x ≠ CR := fun h => hl (by simp [h])
    have hl2 : CR ∉ l := fun h => hl (by simp [h])
    have hstep : byteStep ⟨st, false, false, buf, resp⟩ x = .ok ⟨st, false, false, buf ++ [x], resp⟩ := by
      simp [byteStep, hx]
    have := ih hl2 st (buf ++ [x]) resp rest
    simp only [List.append_assoc, List.singleton_append] at this
    refine ⟨?_, fun hg => ?_⟩
    · simp only [List.cons_append, runBytes, hstep]
      exact this.1
    · simp only [List.cons_append, PendingCRMeetsLF]
      refine Or.inr ⟨by simp, fun p1 h1 => ?_⟩
      rw [hstep] at h1
      cases h1
      exact this.2 hg

theorem run_statusLine (sl : List Nat) (hsl : CR ∉ sl) (rest : List Nat) :
    runBytes ResponseBufferParser.new (sl ++ CR :: LF :: rest) =
        (match CreateHTTPResponse sl with
          | .error e => .error e
          | .ok r => runBytes ⟨.Headers, false, false, [], some r⟩ rest) ∧
      ((∀ r, CreateHTTPResponse sl = .ok r →
          PendingCRMeetsLF ⟨.Headers, false, false, [], some r⟩ rest) →
        PendingCRMeetsLF ResponseBufferParser.new (sl ++ CR :: LF :: rest)) := by
  have h := run_content sl hsl .StatusLine [] none (CR :: LF :: rest)
  simp only [List.nil_append] at h
  refine ⟨?_, fun hg => ?_⟩
  · show runBytes ⟨.StatusLine, false, false, [], none⟩ _ = _
    rw [h.1]
    cases hc : CreateHTTPResponse sl <;> simp [runBytes, byteStep, hc]
  · apply h.2
    simp only [PendingCRMeetsLF]
    refine Or.inr ⟨by simp, fun p1 h1 => ?_⟩
    simp [byteStep] at h1
    subst h1
    refine Or.inr ⟨by simp, fun p2 h2 => ?_⟩
    simp only [byteStep] at h2
    cases hc : CreateHTTPResponse sl with
    | error e => simp [hc] at h2
    | ok r =>
      simp [hc] at h2
      subst h2
      exact hg r hc

theorem run_headerLine (l : List Nat) (hl : CR ∉ l) (hne : l ≠ []) (r : RawResponse)
    (rest : List Nat) :
    runBytes ⟨.Headers, false, false, [], some r⟩ (l ++ CR :: LF :: rest) =
        runBytes ⟨.Headers, false, false, [], some (r.AddHeader l)⟩ rest ∧
      (PendingCRMeetsLF ⟨.Headers, false, false, [], some (r.AddHeader l)⟩ rest →
        PendingCRMeetsLF ⟨.Headers, false, false, [], some r⟩ (l ++ CR :: LF :: rest)) := by
  have h := run_content l hl .Headers [] (some r) (CR :: LF :: rest)
  simp only [List.nil_append] at h
  refine ⟨?_, fun hg => ?_⟩
  · rw [h.1]
    simp [runBytes, byteStep, hne, ResponseBufferParser.addHeader]
  · apply h.2
    simp only [PendingCRMeetsLF]
    refine Or.inr ⟨by simp, fun p1 h1 => ?_⟩
    simp [byteStep] at h1
    subst h1
    refine Or.inr ⟨by simp, fun p2 h2 => ?_⟩
    simp [byteStep, hne, ResponseBufferParser.addHeader] at h2
    subst h2
    exact hg

theorem run_headerLines (headerLines : List (List Nat))
    (hh : ∀ l ∈ headerLines, l ≠ [] ∧ CR ∉ l) :
    ∀ r : RawResponse,
      runBytes ⟨.Headers, false, false, [], some r⟩
          ((headerLines.map (fun l => l ++ [CR, LF])).flatten ++ [CR, LF]) =
          .ok (ResponseBufferParser.completedWith
            { r with headerLines := r.headerLines ++ headerLines }) ∧
        PendingCRMeetsLF ⟨.Headers, false, false, [], some r⟩
          ((headerLines.map (fun l => l ++ [CR, LF])).flatten ++ [CR, LF]) := by
  induction headerLines with
  | nil =>
    intro r
    refine ⟨?_, ?_⟩
    · simp [runBytes, byteStep, ResponseBufferParser.completedWith]
    · simp only [List.map_nil, List.flatten_nil, List.nil_append, PendingCRMeetsLF]
      refine Or.inr ⟨by simp, fun p1 h1 => ?_⟩
      simp [byteStep] at h1
      subst h1
      refine Or.inr ⟨by simp, fun p2 h2 => trivial⟩
  | cons l ls ih =>
    intro r
    have hl := hh l (by simp)
    have ih2 := ih (fun x hx => hh x (by simp [hx])) (r.AddHeader l)
    have h := run_headerLine l hl.2 hl.1 r
      ((ls.map (fun l => l ++ [CR, LF])).flatten ++ [CR, LF])
    have e : ((l :: ls).map (fun l => l ++ [CR, LF])).flatten ++ [CR, LF] =
        l ++ CR :: LF :: ((ls.map (fun l => l ++ [CR, LF])).flatten ++ [CR, LF]) := by
      simp
    rw [e]
    refine ⟨?_, h.2 ih2.2⟩
    rw [h.1, ih2.1]
    simp [RawResponse.AddHeader]

theorem run_headerBlock (statusLine : List Nat) (headerLines : List (List Nat))
    (hs : CR ∉ statusLine) (hh : ∀ l ∈ headerLines, l ≠ [] ∧ CR ∉ l) :
    runBytes ResponseBufferParser.new (headerBlock statusLine headerLines) =
        parsedBlock statusLine headerLines ∧
      PendingCRMeetsLF ResponseBufferParser.new (headerBlock statusLine headerLines) := by
  have e : headerBlock statusLine headerLines =
      statusLine ++ CR :: LF :: ((headerLines.map (fun l => l ++ [CR, LF])).flatten ++ [CR, LF]) := by
    simp [headerBlock]
  rw [e]
  have h := run_statusLine statusLine hs
    ((headerLines.map (fun l => l ++ [CR, LF])).flatten ++ [CR, LF])
  refine ⟨?_, h.2 (fun r _ => (run_headerLines headerLines hh r).2)⟩
  rw [h.1]
  unfold parsedBlock
  cases CreateHTTPResponse statusLine with
  | error e => rfl
  | ok r => exact (run_headerLines headerLines hh r).1

/-- Header blocks without a bare CR, where the cuts do not matter: for every header block (a
status line and header lines without CR inside them, and the
blank line, each ended by CRLF) and every way of cutting its bytes into successive fills,
feeding the fills one after another to `Parse` on a fresh parser leaves the same parser, hence
the same parsed status line and the same sequence of header lines, as feeding the whole block
in one call; that parser is completed and holds the response built from the status line with
the header lines added in order. -/
theorem Parse_fills_eq_single_fill (statusLine : List Nat) (headerLines : List (List Nat))
    (fills : List (List Nat)) (hs : CR ∉ statusLine)
    (hh : ∀ l ∈ headerLines, l ≠ [] ∧ CR ∉ l)
    (hcut : fills.flatten = headerBlock statusLine headerLines) :
    ResponseBufferParser.new.feed fills =
        ResponseBufferParser.new.feed [headerBlock statusLine headerLines] ∧
      ResponseBufferParser.new.feed fills = parsedBlock statusLine headerLines := by
  have h := run_headerBlock statusLine headerLines hs hh
  have h1 := feed_eq_runBytes fills ResponseBufferParser.new (by rw [hcut]; exact h.2)
  have h2 := feed_eq_runBytes [headerBlock statusLine headerLines] ResponseBufferParser.new
    (by simpa using h.2)
  rw [hcut] at h1
  simp only [List.flatten_cons, List.flatten_nil, List.append_nil] at h2
  rw [h1, h2, h.1]
  exact ⟨rfl, rfl⟩

/-- An instance of `Parse_fills_eq_single_fill`: the block cut behind the CR of the status
line and behind the CR of the blank line. -/
theorem Parse_fills_eq_single_fill_witness :
    ResponseBufferParser.new.feed
        [bytes "HTTP/1.1 200 OK\r", bytes "\ncontent-length: 5\r\n\r", bytes "\n"] =
        ResponseBufferParser.new.feed
          [headerBlock (bytes "HTTP/1.1 200 OK") [bytes "content-length: 5"]] ∧
      ResponseBufferParser.new.feed
        [bytes "HTTP/1.1 200 OK\r", bytes "\ncontent-length: 5\r\n\r", bytes "\n"] =
        parsedBlock (bytes "HTTP/1.1 200 OK") [bytes "content-length: 5"] :=
  Parse_fills_eq_single_fill (bytes "HTTP/1.1 200 OK") [bytes "content-length: 5"]
    [bytes "HTTP/1.1 200 OK\r", bytes "\ncontent-length: 5\r\n\r", bytes "\n"]
    (by decide) (by decide) (by decide)

theorem takeWhile_append_stop (l : List Nat) (c : Nat) :
    (l ++ [c]).takeWhile (· != c) = l.takeWhile (· != c) := by
  induction l with
  | nil => simp [List.takeWhile]
  | cons a l ih =>
    by_cases h : a = c
    · simp [List.takeWhile, h]
    · have ha : (a != c) = true := by simpa using h
      simp [List.takeWhile, ha, ih]

/-- C10 (amended): for every status line `HTTP/<major>.<minor> <status-code> <reason-phrase>`
whose major and minor version are non-empty strings of decimal digits with a value below 65536
and whose status code is a non-empty string of decimal digits with a value of at most
2147483647, with any reason phrase (empty or with spaces), `CreateHTTPResponse` returns the
response with those three numbers and with the text after the space following the status code,
up to the first CR or the end of the line, as reason phrase; the result is the same when the
line is passed with its trailing CR. -/
theorem CreateHTTPResponse_statusLine (major minor status reason : List Nat)
    (hM : major ≠ []) (hm : minor ≠ []) (hs : status ≠ [])
    (dM : ∀ d ∈ major, isDecimalDigit d) (dm : ∀ d ∈ minor, isDecimalDigit d)
    (ds : ∀ d ∈ status, isDecimalDigit d)
    (vM : decimalValue major < 65536) (vm : decimalValue minor < 65536)
    (vs : decimalValue status ≤ 2147483647) :
    CreateHTTPResponse (statusLineText major minor status reason) =
        .ok { majorVersion := decimalValue major
              minorVersion := decimalValue minor
              statusCode := decimalValue status
              reasonPhrase := reason.takeWhile (· != CR)
              headerLines := [] } ∧
      CreateHTTPResponse (statusLineText major minor status reason ++ [CR]) =
        CreateHTTPResponse (statusLineText major minor status reason) := by
  have h1 := CreateHTTPResponse_wellFormed major minor status reason hM hm hs dM dm ds vM vm vs
  have h2 := CreateHTTPResponse_wellFormed major minor status (reason ++ [CR]) hM hm hs dM dm ds
    vM vm vs
  have e : statusLineText major minor status reason ++ [CR] =
      statusLineText major minor status (reason ++ [CR]) := by
    simp [statusLineText]
  refine ⟨h1, ?_⟩
  rw [e, h1, h2, takeWhile_append_stop]

/-- An instance of C10 (amended): the status line `HTTP/1.1 200 OK`. -/
theorem CreateHTTPResponse_statusLine_witness :
    CreateHTTPResponse (statusLineText (bytes "1") (bytes "1") (bytes "200") (bytes "OK")) =
        .ok { majorVersion := decimalValue (bytes "1")
              minorVersion := decimalValue (bytes "1")
              statusCode := decimalValue (bytes "200")
              reasonPhrase := (bytes "OK").takeWhile (· != CR)
              headerLines := [] } ∧
      CreateHTTPResponse
          (statusLineText (bytes "1") (bytes "1") (bytes "200") (bytes "OK") ++ [CR]) =
        CreateHTTPResponse (statusLineText (bytes "1") (bytes "1") (bytes "200") (bytes "OK")) :=
  CreateHTTPResponse_statusLine (bytes "1") (bytes "1") (bytes "200") (bytes "OK")
    (by decide) (by decide) (by decide) (by decide) (by decide) (by decide) (by decide)
    (by decide) (by decide)

/-- C10 fails as stated: in the status line `HTTP/65536.1 200 OK` the major version is the
decimal number 65536, and the response carries major version 0, because the value is cut to
16 bits. -/
theorem CreateHTTPResponse_major_truncated :
    decimalValue (bytes "65536") = 65536 ∧
      CreateHTTPResponse (statusLineText (bytes "65536") (bytes "1") (bytes "200") (bytes "OK")) =
        .ok { majorVersion := 0
              minorVersion := 1
              statusCode := 200
              reasonPhrase := bytes "OK"
              headerLines := [] } := by
  decide

/-- C6: once `Parse` has reported completion, every further call, for every buffer, returns 0
and leaves the parser (state, completed flag, accumulation buffer, pending-CR flag, response)
as it was. -/
theorem Parse_completed_noop (p : ResponseBufferParser) (buffer : List Nat)
    (h : p.m_parseCompleted = true) : p.Parse buffer = .ok (0, p) := by
  simp [ResponseBufferParser.Parse, h]

/-- An instance of C6: a completed parser is offered five more bytes. -/
theorem Parse_completed_noop_witness :
    (ResponseBufferParser.completedWith ⟨1, 1, 200, bytes "OK", []⟩).Parse (bytes "hello") =
      .ok (0, ResponseBufferParser.completedWith ⟨1, 1, 200, bytes "OK", []⟩) :=
  Parse_completed_noop (ResponseBufferParser.completedWith ⟨1, 1, 200, bytes "OK", []⟩)
    (bytes "hello") rfl

theorem iter_congr (f g : List Nat) (b start index : Nat) (q : ResponseBufferParser)
    (h : slice g start (index - 1) = slice f start (index - 1)) :
    Parse.iter g b start index q = Parse.iter f b start index q := by
  simp only [Parse.iter, h]

theorem iter_next_completed (f : List Nat) (b start index : Nat) (q q1 : ResponseBufferParser)
    (start1 : Nat) (h : Parse.iter f b start index q = .ok (.next start1 q1)) :
    q1.m_parseCompleted = q.m_parseCompleted := by
  by_cases h1 : b = CR <;> by_cases h2 : (b = LF ∧ q.m_delimiterStartInPrevPosition = true) <;>
    by_cases h3 : q.m_internalBuffer.length > 0 <;> by_cases h4 : index > 1 <;>
    cases hst : q.state <;> cases hr : q.m_response <;>
    simp only [Parse.iter, ResponseBufferParser.addHeader, h1, h2, h3, h4, hst, hr, if_true,
      if_false, false_and, and_false, and_true, true_and] at h <;>
    (try split at h) <;> (try split at h) <;> (try cases h) <;> (try rfl)

theorem iter_ret (f : List Nat) (b start index : Nat) (q q1 : ResponseBufferParser)
    (v : Nat) (h : Parse.iter f b start index q = .ok (.ret v q1)) :
    v = index + 1 ∧ b = LF ∧ q1.m_parseCompleted = true ∧
      ∀ g : List Nat, Parse.iter g b start index q = .ok (.ret v q1) := by
  by_cases h1 : b = CR <;> by_cases h2 : (b = LF ∧ q.m_delimiterStartInPrevPosition = true) <;>
    by_cases h3 : q.m_internalBuffer.length > 0 <;>
    by_cases h4 : (index = 0 ∨ index = start + 1) <;> by_cases h5 : index > 1 <;>
    cases hst : q.state <;> cases hr : q.m_response <;>
    simp only [Parse.iter, ResponseBufferParser.addHeader, h1, h2, h3, h4, h5, hst, hr, if_true,
      if_false, false_and, and_false, and_true, true_and] at h <;>
    (try split at h) <;> (try split at h) <;> (try cases h) <;>
    exact ⟨rfl, h2.1, rfl, fun g => by simp_all [Parse.iter]⟩

theorem slice_take (f : List Nat) (a b n : Nat) (h : b ≤ n) :
    slice (f.take n) a b = slice f a b := by
  unfold slice
  apply List.ext_getElem?
  intro i
  simp only [List.getElem?_take, List.getElem?_drop]
  by_cases hi : i < b - a
  · have : a + i < n := by omega
    simp [hi, this]
  · simp [hi]

theorem slice_congr (f g : List Nat) (a b n : Nat) (h : b ≤ n) (hfg : g.take n = f.take n) :
    slice g a b = slice f a b := by
  rw [← slice_take g a b n h, ← slice_take f a b n h, hfg]

theorem finish_completed (f : List Nat) (start index : Nat) (q : ResponseBufferParser) :
    (Parse.finish f start index q).2.m_parseCompleted = q.m_parseCompleted ∧
      (Parse.finish f start index q).1 = index := by
  unfold Parse.finish
  split <;> exact ⟨rfl, rfl⟩

theorem loop_incomplete (f : List Nat) :
    ∀ (rest : List Nat) (start index : Nat) (q q1 : ResponseBufferParser) (v : Nat),
      Parse.loop f rest start index q = .ok (v, q1) → q1.m_parseCompleted = false →
      v = index + rest.length
  | [], start, index, q, q1, v, h, _ => by
    simp only [Parse.loop, Except.ok.injEq] at h
    have := (finish_completed f start index q).2
    rw [h] at this
    simpa using this
  | b :: rest, start, index, q, q1, v, h, hc => by
    unfold Parse.loop at h
    cases hi : Parse.iter f b start index q with
    | error e => simp [hi] at h
    | ok r =>
      cases r with
      | ret v1 q2 =>
        simp [hi] at h
        have := (iter_ret f b start index q q2 v1 hi).2.2.1
        rw [h.2] at this
        rw [this] at hc
        cases hc
      | next start1 q2 =>
        simp only [hi] at h
        have := loop_incomplete f rest start1 (index + 1) q2 q1 v h hc
        simp only [List.length_cons]
        omega

theorem loop_complete (f : List Nat) :
    ∀ (rest : List Nat) (start index : Nat) (q q1 : ResponseBufferParser) (v : Nat),
      f.drop index = rest → q.m_parseCompleted = false →
      Parse.loop f rest start index q = .ok (v, q1) → q1.m_parseCompleted = true →
      index < v ∧ v ≤ f.length ∧ f[v - 1]? = some LF ∧
        ∀ g : List Nat, g.take v = f.take v →
          Parse.loop g (g.drop index) start index q = .ok (v, q1)
  | [], start, index, q, q1, v, _, hq, h, hc => by
    simp only [Parse.loop, Except.ok.injEq] at h
    have := (finish_completed f start index q).1
    rw [h] at this
    simp only at this
    rw [this, hq] at hc
    cases hc
  | b :: rest, start, index, q, q1, v, hd, hq, h, hc => by
    have hb : f[index]? = some b := by
      have := congrArg (fun l => l[0]?) hd
      simpa [List.getElem?_drop] using this
    have hlt := lt_length_of_getElem? hb
    have hd1 : f.drop (index + 1) = rest := by
      have := congrArg List.tail hd
      simpa [List.tail_drop] using this
    unfold Parse.loop at h
    cases hi : Parse.iter f b start index q with
    | error e => simp [hi] at h
    | ok r =>
      cases r with
      | ret v1 q2 =>
        simp only [hi, Except.ok.injEq, Prod.mk.injEq] at h
        obtain ⟨hv, hq2⟩ := h
        subst hv hq2
        have hr := iter_ret f b start index q q2 v1 hi
        obtain ⟨hv, hlf, _, hg⟩ := hr
        subst hv
        refine ⟨by omega, by omega, by simpa [hlf] using hb, fun g hfg => ?_⟩
        have hgb : g.drop index = b :: g.drop (index + 1) := by
          have h1 : g[index]? = some b := by
            have := congrArg (fun l => l[index]?) hfg
            simpa [List.getElem?_take, hb] using this
          have h2 := lt_length_of_getElem? h1
          rw [List.drop_eq_getElem_cons h2]
          congr 1
          simpa [List.getElem?_eq_getElem h2] using h1
        rw [hgb]
        unfold Parse.loop
        rw [hg g]
      | next start1 q2 =>
        simp only [hi] at h
        have hq2 : q2.m_parseCompleted = false := by
          rw [iter_next_completed f b start index q q2 start1 hi]; exact hq
        have ih := loop_complete f rest start1 (index + 1) q2 q1 v hd1 hq2 h hc
        obtain ⟨h1, h2, h3, h4⟩ := ih
        refine ⟨by omega, h2, h3, fun g hfg => ?_⟩
        have hgb : g.drop index = b :: g.drop (index + 1) := by
          have h1 : g[index]? = some b := by
            have := congrArg (fun l => l[index]?) hfg
            have hiv : index < v := by omega
            simpa [List.getElem?_take, hb, hiv] using this
          have h2 := lt_length_of_getElem? h1
          rw [List.drop_eq_getElem_cons h2]
          congr 1
          simpa [List.getElem?_eq_getElem h2] using h1
        rw [hgb]
        unfold Parse.loop
        rw [iter_congr f g b start index q (slice_congr f g start (index - 1) v (by omega) hfg), hi]
        exact h4 g hfg

/-- A call of `Parse` that does not complete the parser returns the size of the fill. -/
theorem Parse_incomplete (p p1 : ResponseBufferParser) (f : List Nat) (v : Nat)
    (hp : p.m_parseCompleted = false) (h : p.Parse f = .ok (v, p1))
    (hc : p1.m_parseCompleted = false) : v = f.length := by
  simp only [ResponseBufferParser.Parse, hp, Bool.false_eq_true, if_false] at h
  simpa using loop_incomplete f f 0 0 p p1 v h hc

/-- A call of `Parse` that completes the parser returns the index behind an LF of the fill and
depends on the bytes in front of that index only. -/
theorem Parse_complete (p p1 : ResponseBufferParser) (f : List Nat) (v : Nat)
    (hp : p.m_parseCompleted = false) (h : p.Parse f = .ok (v, p1))
    (hc : p1.m_parseCompleted = true) :
    0 < v ∧ v ≤ f.length ∧ f[v - 1]? = some LF ∧
      ∀ g : List Nat, g.take v = f.take v → p.Parse g = .ok (v, p1) := by
  simp only [ResponseBufferParser.Parse, hp, Bool.false_eq_true, if_false] at h
  obtain ⟨h1, h2, h3, h4⟩ := loop_complete f f 0 0 p p1 v (by simp) hp h hc
  refine ⟨by omega, h2, h3, fun g hfg => ?_⟩
  simp only [ResponseBufferParser.Parse, hp, Bool.false_eq_true, if_false]
  simpa using h4 g hfg

/-- What the `while` loop of `ReadStatusLineAndHeadersFromRawResponse` leaves behind: the last
call of `Parse` completed the parser on the buffer now held, the value it returned is the new
offset when it is below the fill size, and only the handle, the buffer and the offset
changed. -/
theorem headerLoop_result :
    ∀ (fuel : Nat) (parser : ResponseBufferParser) (bufferSize : Int) (s : CurlSession)
      (R : ResponseBufferParser × Int × CurlSession),
      parser.m_parseCompleted = false →
      ReadStatusLineAndHeadersFromRawResponse.loop fuel parser bufferSize s = .ok R →
      ∃ (p0 : ResponseBufferParser) (r : Nat),
        p0.m_parseCompleted = false ∧ p0.Parse R.2.2.m_readBuffer = .ok (r, R.1) ∧
        R.1.m_parseCompleted = true ∧ R.2.1 = (R.2.2.m_readBuffer.length : Int) ∧
        R.2.2.m_bodyStartInBuffer =
          (if r < R.2.2.m_readBuffer.length then (r : Int) else s.m_bodyStartInBuffer) ∧
        R.2.2 = { s with
                  m_curl := R.2.2.m_curl
                  m_readBuffer := R.2.2.m_readBuffer
                  m_bodyStartInBuffer := R.2.2.m_bodyStartInBuffer }
  | 0, _, _, _, _, _, h => by simp [ReadStatusLineAndHeadersFromRawResponse.loop] at h
  | fuel + 1, parser, bufferSize, s, R, hp, h => by
    unfold ReadStatusLineAndHeadersFromRawResponse.loop at h
    simp only [ResponseBufferParser.IsParseCompleted, hp, Bool.false_eq_true, if_false] at h
    cases hr : ReadSocketToBuffer s.m_curl s.details.c_LibcurlReaderSize with
    | error e => simp [hr] at h
    | ok fc =>
      obtain ⟨fill, c⟩ := fc
      simp only [hr] at h
      cases hq : parser.Parse fill with
      | error e => simp [hq] at h
      | ok vp =>
        obtain ⟨v, p1⟩ := vp
        simp only [hq] at h
        cases hc : p1.m_parseCompleted with
        | true =>
          cases fuel with
          | zero => simp [ReadStatusLineAndHeadersFromRawResponse.loop] at h
          | succ k =>
            unfold ReadStatusLineAndHeadersFromRawResponse.loop at h
            simp only [ResponseBufferParser.IsParseCompleted, hc, if_true, Except.ok.injEq] at h
            subst h
            refine ⟨parser, v, hp, ?_, hc, ?_, ?_, ?_⟩
            · by_cases hv : (v : Int) < (fill.length : Int) <;> simp [hv, hq]
            · by_cases hv : v < fill.length <;> simp [hv]
            · by_cases hv : (v : Int) < (fill.length : Int)
              · have hv2 : v < fill.length := by omega
                simp [hv, hv2]
              · have hv2 : ¬ v < fill.length := by omega
                simp [hv, hv2]
            · by_cases hv : (v : Int) < (fill.length : Int) <;> simp [hv]
        | false =>
          have hv := Parse_incomplete parser p1 fill v hp hq hc
          subst hv
          simp only [lt_self_iff_false, if_false] at h
          obtain ⟨p0, r, h1, h2, h3, h4, h5, h6⟩ :=
            headerLoop_result fuel p1 fill.length _ R hc h
          refine ⟨p0, r, h1, h2, h3, h4, ?_, ?_⟩
          · simpa using h5
          · rw [h6]

/-- A `Read` with a positive count on a response that is not chunked, with unread bytes in the
buffer and the declared length not yet reached, returns at least one byte, and the first one
is the byte at `m_bodyStartInBuffer`. -/
theorem Read_first_byte (fuel : Nat) (s : CurlSession) (count : Int) (hcount : 0 < count)
    (hch : s.m_isChunkedResponseType = false) (h0 : 0 ≤ s.m_bodyStartInBuffer)
    (h1 : s.m_bodyStartInBuffer < s.m_innerBufferSize)
    (h2 : s.m_innerBufferSize ≤ (s.m_readBuffer.length : Int))
    (hcl : 0 < s.m_contentLength → s.m_sessionTotalRead < s.m_contentLength) :
    ∃ (b : Nat) (out : List Nat) (s1 : CurlSession),
      s.Read fuel ⟨false⟩ count = .ok (b :: out, s1) ∧
        s.m_readBuffer[s.m_bodyStartInBuffer.toNat]? = some b := by
  have hc : ¬ count ≤ 0 := by omega
  obtain ⟨k, hk⟩ : ∃ k : Nat, s.m_bodyStartInBuffer = (k : Int) :=
    ⟨s.m_bodyStartInBuffer.toNat, by omega⟩
  have hkl : k < s.m_readBuffer.length := by omega
  -- the number of bytes copied is positive
  obtain ⟨n, hn, hpos⟩ : ∃ n : Nat,
      min (if s.m_contentLength > 0 then min count (s.m_contentLength - s.m_sessionTotalRead)
        else count) (s.m_innerBufferSize - s.m_bodyStartInBuffer) = (n : Int) ∧ 0 < n := by
    by_cases hl : s.m_contentLength > 0
    · have := hcl hl
      refine ⟨(min (min count (s.m_contentLength - s.m_sessionTotalRead))
        (s.m_innerBufferSize - s.m_bodyStartInBuffer)).toNat, ?_, ?_⟩
      · simp only [hl, if_true]; omega
      · omega
    · refine ⟨(min count (s.m_innerBufferSize - s.m_bodyStartInBuffer)).toNat, ?_, ?_⟩
      · simp only [hl, if_false]; omega
      · omega
  have hsl : slice s.m_readBuffer k (k + n) =
      s.m_readBuffer[k] :: slice s.m_readBuffer (k + 1) (k + n) := by
    unfold slice
    have e1 : k + n - k = (n - 1) + 1 := by omega
    have e2 : k + n - (k + 1) = n - 1 := by omega
    rw [e1, e2, List.drop_eq_getElem_cons hkl, List.take_succ_cons]
  refine ⟨s.m_readBuffer[k], slice s.m_readBuffer (k + 1) (k + n), ?_⟩
  simp only [CurlSession.Read, Bool.false_eq_true, if_false, hc, hch, false_and, Read.serve,
    h0, ge_iff_le, if_true, MemoryBodyStream.Read, hn]
  have hneg : ¬ ((n : Int) < 0) := by omega
  simp only [hneg, if_false, hk, Int.toNat_ofNat, hsl]
  split
  · exact ⟨_, rfl, List.getElem?_eq_getElem hkl⟩
  · exact ⟨_, rfl, List.getElem?_eq_getElem hkl⟩

/-- The index `Parse` returns at the blank line and what the header loop does with it: when
the `while` loop of `ReadStatusLineAndHeadersFromRawResponse` ends, the last call
of `Parse` is the one that found the blank line: it returned an index `r` with `0 < r`, at most
the fill size, right behind an LF of the fill; every fill that agrees with this one on the
first `r` bytes gives the same result, so no byte at or after `r` was consumed; the loop
recorded `r` as `m_bodyStartInBuffer` exactly when `r` is smaller than the fill size (the
offset is left alone otherwise); and when `r` was recorded, a `Read` with a positive count on a
response that is not chunked returns the byte at index `r` of the fill first. -/
theorem headers_end_offset (fuel : Nat) (s s1 : CurlSession) (parser : ResponseBufferParser)
    (bufferSize : Int)
    (h : ReadStatusLineAndHeadersFromRawResponse.loop fuel ResponseBufferParser.new 0 s =
      .ok (parser, bufferSize, s1)) :
    ∃ (p0 : ResponseBufferParser) (r : Nat),
      p0.m_parseCompleted = false ∧ p0.Parse s1.m_readBuffer = .ok (r, parser) ∧
      parser.m_parseCompleted = true ∧
      0 < r ∧ r ≤ s1.m_readBuffer.length ∧ s1.m_readBuffer[r - 1]? = some LF ∧
      (∀ g : List Nat, g.take r = s1.m_readBuffer.take r → p0.Parse g = .ok (r, parser)) ∧
      bufferSize = (s1.m_readBuffer.length : Int) ∧
      s1.m_bodyStartInBuffer =
        (if r < s1.m_readBuffer.length then (r : Int) else s.m_bodyStartInBuffer) ∧
      (r < s1.m_readBuffer.length →
        ∀ (s2 : CurlSession) (fuel2 : Nat) (count : Int),
          s2.m_readBuffer = s1.m_readBuffer → s2.m_bodyStartInBuffer = s1.m_bodyStartInBuffer →
          s2.m_innerBufferSize = bufferSize → s2.m_isChunkedResponseType = false →
          (0 < s2.m_contentLength → s2.m_sessionTotalRead < s2.m_contentLength) → 0 < count →
          ∃ (b : Nat) (out : List Nat) (s3 : CurlSession),
            s1.m_readBuffer[r]? = some b ∧ s2.Read fuel2 ⟨false⟩ count = .ok (b :: out, s3)) := by
  obtain ⟨p0, r, h1, h2, h3, h4, h5, _⟩ :=
    headerLoop_result fuel ResponseBufferParser.new 0 s (parser, bufferSize, s1) rfl h
  obtain ⟨c1, c2, c3, c4⟩ := Parse_complete p0 parser s1.m_readBuffer r h1 h2 h3
  refine ⟨p0, r, h1, h2, h3, c1, c2, c3, c4, h4, h5, fun hr s2 fuel2 count e1 e2 e3 e4 e5 e6 => ?_⟩
  simp only [hr, if_true] at h5
  simp only at h4
  obtain ⟨b, out, s3, r1, r2⟩ := Read_first_byte fuel2 s2 count e6 e4
    (by rw [e2, h5]; omega) (by rw [e2, h5, e3, h4]; omega) (by rw [e3, h4, e1]) e5
  refine ⟨b, out, s3, ?_, r1⟩
  rw [e2, h5, e1] at r2
  simpa using r2

/-- An instance of `headers_end_offset`: the example session, whose single fill of 43 bytes holds the header
block in its first 38 bytes. -/
theorem headers_end_offset_witness :
    ∃ (p0 : ResponseBufferParser) (r : Nat),
      p0.m_parseCompleted = false ∧
      p0.Parse exampleSessionAfterLoop.m_readBuffer =
        .ok (r, ResponseBufferParser.completedWith exampleResponse) ∧
      (ResponseBufferParser.completedWith exampleResponse).m_parseCompleted = true ∧
      0 < r ∧ r ≤ exampleSessionAfterLoop.m_readBuffer.length ∧
      exampleSessionAfterLoop.m_readBuffer[r - 1]? = some LF ∧
      (∀ g : List Nat, g.take r = exampleSessionAfterLoop.m_readBuffer.take r →
        p0.Parse g = .ok (r, ResponseBufferParser.completedWith exampleResponse)) ∧
      (43 : Int) = (exampleSessionAfterLoop.m_readBuffer.length : Int) ∧
      exampleSessionAfterLoop.m_bodyStartInBuffer =
        (if r < exampleSessionAfterLoop.m_readBuffer.length then (r : Int)
          else exampleSession.m_bodyStartInBuffer) ∧
      (r < exampleSessionAfterLoop.m_readBuffer.length →
        ∀ (s2 : CurlSession) (fuel2 : Nat) (count : Int),
          s2.m_readBuffer = exampleSessionAfterLoop.m_readBuffer →
          s2.m_bodyStartInBuffer = exampleSessionAfterLoop.m_bodyStartInBuffer →
          s2.m_innerBufferSize = 43 → s2.m_isChunkedResponseType = false →
          (0 < s2.m_contentLength → s2.m_sessionTotalRead < s2.m_contentLength) → 0 < count →
          ∃ (b : Nat) (out : List Nat) (s3 : CurlSession),
            exampleSessionAfterLoop.m_readBuffer[r]? = some b ∧
              s2.Read fuel2 ⟨false⟩ count = .ok (b :: out, s3)) :=
  headers_end_offset 2 exampleSession exampleSessionAfterLoop
    (ResponseBufferParser.completedWith exampleResponse) 43 (by decide)

theorem SameOutgoing.refl (s : CurlSession) : SameOutgoing s s := ⟨rfl, rfl, rfl, rfl, rfl⟩

theorem SameOutgoing.trans {a b c : CurlSession} (h1 : SameOutgoing a b) (h2 : SameOutgoing b c) :
    SameOutgoing a c :=
  ⟨h2.1.trans h1.1, h2.2.1.trans h1.2.1, h2.2.2.1.trans h1.2.2.1, h2.2.2.2.1.trans h1.2.2.2.1,
    h2.2.2.2.2.trans h1.2.2.2.2⟩

theorem recvLoop_outgoing (capacity : Nat) :
    ∀ (script : List SocketEvent) (c c1 : Curl) (out : List Nat),
      recvLoop capacity script c = .ok (out, c1) →
      c1.sent = c.sent ∧ c1.sendScript = c.sendScript
  | [], c, c1, out, h => by
    simp only [recvLoop, Except.ok.injEq, Prod.mk.injEq] at h
    obtain ⟨_, h⟩ := h
    subst h
    exact ⟨rfl, rfl⟩
  | e :: script, c, c1, out, h => by
    unfold recvLoop at h
    by_cases h1 : e.code = CURLE_AGAIN
    · simp only [h1, if_true] at h
      split at h
      · cases h
      · have := recvLoop_outgoing capacity script _ c1 out h
        simpa [WaitForSocketReady] using this
    · simp only [h1, if_false] at h
      split at h
      · simp only [Except.ok.injEq, Prod.mk.injEq] at h
        obtain ⟨_, h⟩ := h
        subst h
        exact ⟨rfl, rfl⟩
      · cases h

theorem refill_outgoing (s s1 : CurlSession) (h : s.refill = .ok s1) : SameOutgoing s s1 := by
  unfold CurlSession.refill ReadSocketToBuffer at h
  split at h
  · cases h
  · rename_i fill c hr
    split at hr
    · cases hr
    · have := recvLoop_outgoing _ _ _ _ _ hr
      cases h
      exact ⟨rfl, this.1, this.2, rfl, rfl⟩

theorem poll_outgoing :
    ∀ (fuel : Nat) (text : List Nat) (s s1 : CurlSession),
      ParseChunkSize.poll fuel text s = .ok s1 → SameOutgoing s s1
  | 0, _, _, _, h => by simp [ParseChunkSize.poll] at h
  | fuel + 1, text, s, s1, h => by
    unfold ParseChunkSize.poll at h
    split at h
    · cases h
    · split at h
      · split at h
        · cases h
        · dsimp only at h
          split at h
          · split at h
            · cases h
            · rename_i s2 hr
              cases h
              have h1 := refill_outgoing _ _ hr
              exact ⟨h1.1, h1.2.1, h1.2.2.1, h1.2.2.2.1, h1.2.2.2.2⟩
          · cases h
            exact ⟨rfl, rfl, rfl, rfl, rfl⟩
      · split at h
        · cases h
        · rename_i s2 hr
          have h1 := refill_outgoing _ _ hr
          have h2 := poll_outgoing fuel _ _ s1 h
          exact ⟨h2.1.trans h1.1, h2.2.1.trans h1.2.1, h2.2.2.1.trans h1.2.2.1, h2.2.2.2.1.trans h1.2.2.2.1,
            h2.2.2.2.2.trans h1.2.2.2.2⟩

theorem headerLoop_outgoing :
    ∀ (fuel : Nat) (parser : ResponseBufferParser) (bufferSize : Int) (s : CurlSession)
      (R : ResponseBufferParser × Int × CurlSession),
      ReadStatusLineAndHeadersFromRawResponse.loop fuel parser bufferSize s = .ok R →
      SameOutgoing s R.2.2
  | 0, _, _, _, _, h => by simp [ReadStatusLineAndHeadersFromRawResponse.loop] at h
  | fuel + 1, parser, bufferSize, s, R, h => by
    unfold ReadStatusLineAndHeadersFromRawResponse.loop at h
    split at h
    · cases h
      exact SameOutgoing.refl s
    · split at h
      · cases h
      · rename_i fill c hr
        split at h
        · cases h
        · have h2 := headerLoop_outgoing fuel _ _ _ R h
          unfold ReadSocketToBuffer at hr
          split at hr
          · cases hr
          · have h1 := recvLoop_outgoing _ _ _ _ _ hr
            refine SameOutgoing.trans ?_ h2
            split
            · exact ⟨rfl, h1.1, h1.2, rfl, rfl⟩
            · exact ⟨rfl, h1.1, h1.2, rfl, rfl⟩

theorem mode_outgoing (fuel : Nat) (s s1 : CurlSession)
    (h : ReadStatusLineAndHeadersFromRawResponse.mode fuel s = .ok s1) : SameOutgoing s s1 := by
  unfold ReadStatusLineAndHeadersFromRawResponse.mode at h
  split at h
  · cases h; exact ⟨rfl, rfl, rfl, rfl, rfl⟩
  · split at h
    · cases h
    · dsimp only at h
      split at h
      · split at h
        · cases h
        · cases h; exact ⟨rfl, rfl, rfl, rfl, rfl⟩
      · split at h
        · split at h
          · split at h
            · split at h
              · cases h
              · rename_i s3 hr
                have h1 := refill_outgoing _ _ hr
                have h2 := poll_outgoing _ _ _ _ h
                exact ⟨h2.1.trans h1.1, h2.2.1.trans h1.2.1, h2.2.2.1.trans h1.2.2.1, h2.2.2.2.1.trans h1.2.2.2.1,
            h2.2.2.2.2.trans h1.2.2.2.2⟩
            · have h2 := poll_outgoing _ _ _ _ h
              exact ⟨h2.1, h2.2.1, h2.2.2.1, h2.2.2.2.1, h2.2.2.2.2⟩
          · cases h; exact ⟨rfl, rfl, rfl, rfl, rfl⟩
        · cases h; exact ⟨rfl, rfl, rfl, rfl, rfl⟩

/-- Reading the status line and the headers changes nothing on the sending side. -/
theorem ReadStatusLineAndHeaders_outgoing (fuel : Nat) (s s1 : CurlSession)
    (h : s.ReadStatusLineAndHeadersFromRawResponse fuel = .ok s1) : SameOutgoing s s1 := by
  unfold CurlSession.ReadStatusLineAndHeadersFromRawResponse at h
  split at h
  · cases h
  · rename_i parser bufferSize s2 hl
    have h1 := headerLoop_outgoing _ _ _ _ _ hl
    have h2 := mode_outgoing _ _ _ h
    exact ⟨h2.1.trans h1.1, h2.2.1.trans h1.2.1, h2.2.2.1.trans h1.2.2.1, h2.2.2.2.1.trans h1.2.2.2.1,
            h2.2.2.2.2.trans h1.2.2.2.2⟩

/-- A successful `SendBuffer` hands the whole buffer to the peer and counts its bytes. -/
theorem sendLoop_ok :
    ∀ (script : List SocketEvent) (buffer : List Nat) (s s1 : CurlSession),
      sendLoop script buffer s = .ok (CURLE_OK, s1) →
      s1.m_curl.sent = s.m_curl.sent ++ buffer ∧
        s1.m_uploadedBytes = s.m_uploadedBytes + (buffer.length : Nat) ∧
        s1.m_request = s.m_request ∧ s1.details = s.details ∧
        s1.m_curl.wire = s.m_curl.wire ∧ s1.m_curl.recvScript = s.m_curl.recvScript
  | script, [], s, s1, h => by
    have : s1 = s := by
      cases script <;> simp [sendLoop] at h <;> exact h.symm
    subst this
    simp
  | [], b :: rest, s, s1, h => by
    simp only [sendLoop, Except.ok.injEq, Prod.mk.injEq, true_and] at h
    subst h
    simp
  | e :: script, b :: rest, s, s1, h => by
    unfold sendLoop at h
    by_cases h1 : e.code = CURLE_OK
    · simp only [h1, if_true] at h
      have ih := sendLoop_ok script _ _ s1 h
      obtain ⟨i1, i2, i3, i4, i5, i6⟩ := ih
      refine ⟨?_, ?_, i3, i4, i5, i6⟩
      · rw [i1]
        simp only [List.append_assoc, List.take_append_drop]
      · rw [i2]
        have := congrArg List.length (List.take_append_drop e.limit (b :: rest))
        simp only [List.length_append] at this
        simp only [← this]
        push_cast
        omega
    · simp only [h1, if_false] at h
      by_cases h2 : e.code = CURLE_AGAIN
      · simp only [h2, if_true] at h
        split at h
        · cases h
        · have ih := sendLoop_ok script _ _ s1 h
          simpa [WaitForSocketReady] using ih
      · simp only [h2, if_false, Except.ok.injEq, Prod.mk.injEq] at h
        exact absurd h.1 h1

theorem AddHeader_frame (r : Request) (name value : String) :
    (r.AddHeader name value).method = r.method ∧
      (r.AddHeader name value).bodyStream = r.bodyStream ∧
      (r.AddHeader name value).uploadChunkSize = r.uploadChunkSize := by
  unfold Request.AddHeader
  split <;> exact ⟨rfl, rfl, rfl⟩

theorem defaultHeaders_frame (r : Request) :
    (Perform.defaultHeaders r).method = r.method ∧
      (Perform.defaultHeaders r).bodyStream = r.bodyStream ∧
      (Perform.defaultHeaders r).uploadChunkSize = r.uploadChunkSize := by
  unfold Perform.defaultHeaders
  dsimp only
  split <;> split <;> simp [AddHeader_frame]

/-- When the set-up calls succeed, `Perform` has completed the request headers and, for PUT
only, added `expect: 100-continue`; nothing else of the session has changed. -/
theorem prepare_ok (s s0 : CurlSession) (h : Perform.prepare s = (CURLE_OK, s0)) :
    s0 = { s with
           m_request :=
             if s.m_request.method = HttpMethod.Put then
               (Perform.defaultHeaders s.m_request).AddHeader "expect" "100-continue"
             else Perform.defaultHeaders s.m_request } := by
  have hm := (defaultHeaders_frame s.m_request).1
  by_cases h1 : s.m_curl.setUrlResult = CURLE_OK <;>
    by_cases h2 : s.m_curl.setConnectOnlyResult = CURLE_OK <;>
    by_cases h3 : s.m_curl.performResult = CURLE_OK <;>
    by_cases h4 : s.m_curl.getInfoResult = CURLE_OK <;>
    by_cases h5 : s.m_request.method = HttpMethod.Put <;>
    simp only [Perform.prepare, h1, h2, h3, h4, h5, hm, ne_eq, not_true_eq_false,
      not_false_eq_true, if_true, if_false, Prod.mk.injEq, true_and, false_and] at h <;>
    simp only [h5, if_true, if_false] <;>
    exact h.symm

/-- What `Perform` has done when the first read of status line and headers returns for a PUT
request: the request line and the headers, with `expect: 100-continue`, are the only bytes
sent, and the body stream has not been read. -/
theorem sendAndReadHeaders_put (fuel : Nat) (s s1 : CurlSession)
    (hm : s.m_request.method = HttpMethod.Put)
    (h : Perform.sendAndReadHeaders fuel s = .ok (CURLE_OK, s1)) :
    s1.m_request = (Perform.defaultHeaders s.m_request).AddHeader "expect" "100-continue" ∧
      s1.m_curl.sent = s.m_curl.sent ++
        ((Perform.defaultHeaders s.m_request).AddHeader "expect"
          "100-continue").GetHTTPMessagePreBody ∧
      s1.m_uploadedBytes = s.m_uploadedBytes +
        ((((Perform.defaultHeaders s.m_request).AddHeader "expect"
          "100-continue").GetHTTPMessagePreBody.length : Nat) : Int) ∧
      s1.details = s.details := by
  unfold Perform.sendAndReadHeaders at h
  dsimp only at h
  cases hp : Perform.prepare s with
  | mk code s0 =>
    rw [hp] at h
    dsimp only at h
    split at h
    · rename_i h1
      simp only [Except.ok.injEq, Prod.mk.injEq] at h
      exact absurd h.1 h1
    · rename_i h1
      have hc : code = CURLE_OK := not_not.mp h1
      subst hc
      have e0 := prepare_ok s s0 hp
      simp only [hm, if_true] at e0
      have hm0 : s0.m_request.method = HttpMethod.Put := by
        rw [e0]; simp [AddHeader_frame, defaultHeaders_frame, hm]
      split at h
      · cases h
      · rename_i result s2 hs
        split at h
        · rename_i h2
          simp only [Except.ok.injEq, Prod.mk.injEq] at h
          exact absurd h.1 h2
        · rename_i h2
          have hr : result = CURLE_OK := not_not.mp h2
          subst hr
          split at h
          · cases h
          · rename_i s3 hrd
            simp only [Except.ok.injEq, Prod.mk.injEq, true_and] at h
            subst h
            have ho := ReadStatusLineAndHeaders_outgoing _ _ _ hrd
            -- the send
            unfold CurlSession.HttpRawSend at hs
            split at hs
            · cases hs
            · rename_i sendResult s4 hsb
              have hm4 : sendResult ≠ CURLE_OK ∨ s4.m_request.method = HttpMethod.Put := by
                by_cases hq : sendResult = CURLE_OK
                · subst hq
                  have := sendLoop_ok _ _ _ _ hsb
                  right
                  rw [this.2.2.1]; exact hm0
                · left; exact hq
              simp only [hm4, if_true, Except.ok.injEq, Prod.mk.injEq] at hs
              obtain ⟨hs1, hs2⟩ := hs
              subst hs1 hs2
              have hk := sendLoop_ok _ _ _ _ hsb
              obtain ⟨k1, k2, k3, k4, _, _⟩ := hk
              obtain ⟨o1, o2, _, o4, o5⟩ := ho
              refine ⟨?_, ?_, ?_, ?_⟩
              · rw [o1, k3, e0]
              · rw [o2, k1, e0]
              · rw [o4, k2, e0]
              · rw [o5, k4, e0]

/-- C8: for a PUT request, when the response read after the request headers has a status other
than 100 Continue, `Perform` returns success with the session exactly as that read left it:
`UploadBody` is not run, the response is that response, the bytes sent are the request line
and the headers and nothing else, the body stream has not been read and the upload counter
has counted the request line and the headers only. -/
theorem Perform_put_without_continue (fuel : Nat) (s s1 : CurlSession) (response : RawResponse)
    (hm : s.m_request.method = HttpMethod.Put)
    (h : Perform.sendAndReadHeaders fuel s = .ok (CURLE_OK, s1))
    (hr : s1.m_response = some response)
    (hst : response.statusCode ≠ HttpStatusCode.Continue) :
    s.Perform fuel = .ok (CURLE_OK, s1) ∧ s1.m_response = some response ∧
      s1.m_curl.sent = s.m_curl.sent ++
        ((Perform.defaultHeaders s.m_request).AddHeader "expect"
          "100-continue").GetHTTPMessagePreBody ∧
      s1.m_request.bodyStream = s.m_request.bodyStream ∧
      s1.m_uploadedBytes = s.m_uploadedBytes +
        ((((Perform.defaultHeaders s.m_request).AddHeader "expect"
          "100-continue").GetHTTPMessagePreBody.length : Nat) : Int) := by
  obtain ⟨a1, a2, a3, _⟩ := sendAndReadHeaders_put fuel s s1 hm h
  have hm1 : s1.m_request.method = HttpMethod.Put := by
    rw [a1]; simp [AddHeader_frame, defaultHeaders_frame, hm]
  refine ⟨?_, hr, a2, ?_, a3⟩
  · unfold CurlSession.Perform
    rw [h]
    simp [Perform.upload, hm1, hr, hst]
  · rw [a1]; simp [AddHeader_frame, defaultHeaders_frame]

theorem take_append_drop_length (l : List Nat) (n : Nat) :
    l.take n ++ l.drop (l.take n).length = l := by
  rcases Nat.le_total n l.length with h | h
  · rw [List.length_take, Nat.min_eq_left h, List.take_append_drop]
  · rw [List.take_of_length_le h, List.drop_length, List.append_nil]

/-- A successful `UploadBody` loop hands the unread rest of the body stream to the peer, in
order and with nothing added, and counts its bytes. -/
theorem UploadBody_loop_ok (chunk : Nat) (hchunk : 0 < chunk) :
    ∀ (fuel : Nat) (code : CURLcode) (s s1 : CurlSession),
      UploadBody.loop chunk fuel code s = .ok (CURLE_OK, s1) →
      s1.m_curl.sent =
          s.m_curl.sent ++ s.m_request.bodyStream.data.drop s.m_request.bodyStream.offset ∧
        s1.m_uploadedBytes = s.m_uploadedBytes +
          (((s.m_request.bodyStream.data.drop s.m_request.bodyStream.offset).length : Nat) : Int)
  | 0, _, _, _, h => by simp [UploadBody.loop] at h
  | fuel + 1, code, s, s1, h => by
    unfold UploadBody.loop at h
    dsimp only at h
    split at h
    · rename_i h0
      simp only [Except.ok.injEq, Prod.mk.injEq] at h
      obtain ⟨_, h⟩ := h
      subst h
      have : s.m_request.bodyStream.data.drop s.m_request.bodyStream.offset = [] := by
        simp only [BodyStream.Read, List.length_eq_zero, List.take_eq_nil_iff] at h0
        rcases h0 with h0 | h0
        · omega
        · exact h0
      simp [this]
    · split at h
      · cases h
      · rename_i code1 s2 hs
        split at h
        · rename_i hne
          simp only [Except.ok.injEq, Prod.mk.injEq] at h
          exact absurd h.1 hne
        · rename_i hne
          have hc : code1 = CURLE_OK := not_not.mp hne
          subst hc
          have ih := UploadBody_loop_ok chunk hchunk fuel _ s2 s1 h
          obtain ⟨k1, k2, k3, _, _, _⟩ := sendLoop_ok _ _ _ _ hs
          obtain ⟨i1, i2⟩ := ih
          rw [k3] at i1 i2
          simp only [BodyStream.Read] at i1 i2 k1 k2
          have e := take_append_drop_length
            (s.m_request.bodyStream.data.drop s.m_request.bodyStream.offset) chunk
          have e2 : List.drop (s.m_request.bodyStream.offset +
              (List.take chunk (List.drop s.m_request.bodyStream.offset
                s.m_request.bodyStream.data)).length) s.m_request.bodyStream.data =
              List.drop (List.take chunk (List.drop s.m_request.bodyStream.offset
                s.m_request.bodyStream.data)).length
                (List.drop s.m_request.bodyStream.offset s.m_request.bodyStream.data) := by
            rw [List.drop_drop, Nat.add_comm]
          refine ⟨?_, ?_⟩
          · rw [i1, k1, e2, List.append_assoc, e]
          · rw [i2, k2, e2]
            have e3 := congrArg List.length e
            simp only [List.length_append] at e3
            omega

/-- The steps of `Perform` for PUT, for runs in which the upload and the second header read
return: when the set-up calls succeed, the request `Perform` goes on with is the request with
`Host` and `content-length` completed and, for PUT only, the header `expect: 100-continue`
added; for every other method nothing else is added. For PUT the bytes sent before the interim
response is read are the request line and the headers of that request and nothing else; and
when the interim status is exactly 100, `Perform` runs `UploadBody`, which sends the whole
unread body, and then reads status line and headers a second time: the session, and with it
the response, handed back is the one left by that second read. -/
theorem Perform_put_expect_continue (fuel : Nat) (s : CurlSession) :
    (∀ s0 : CurlSession, Perform.prepare s = (CURLE_OK, s0) →
        s0.m_request =
          if s.m_request.method = HttpMethod.Put then
            (Perform.defaultHeaders s.m_request).AddHeader "expect" "100-continue"
          else Perform.defaultHeaders s.m_request) ∧
      (s.m_request.method = HttpMethod.Put →
        ∀ s1 : CurlSession, Perform.sendAndReadHeaders fuel s = .ok (CURLE_OK, s1) →
          s1.m_curl.sent = s.m_curl.sent ++
              ((Perform.defaultHeaders s.m_request).AddHeader "expect"
                "100-continue").GetHTTPMessagePreBody ∧
            ∀ (r1 : RawResponse) (s2 s3 : CurlSession),
              s1.m_response = some r1 → r1.statusCode = HttpStatusCode.Continue →
              (0 < s.m_request.uploadChunkSize ∨ 0 < s.details.c_UploadDefaultChunkSize) →
              s1.UploadBody fuel = .ok (CURLE_OK, s2) →
              s2.ReadStatusLineAndHeadersFromRawResponse fuel = .ok s3 →
              s.Perform fuel = .ok (CURLE_OK, s3) ∧
                s2.m_curl.sent = s1.m_curl.sent ++
                  s.m_request.bodyStream.data.drop s.m_request.bodyStream.offset ∧
                s3.m_curl.sent = s2.m_curl.sent) := by
  refine ⟨fun s0 h0 => ?_, fun hm s1 h => ?_⟩
  · rw [prepare_ok s s0 h0]
  · obtain ⟨a1, a2, _, a4⟩ := sendAndReadHeaders_put fuel s s1 hm h
    refine ⟨a2, fun r1 s2 s3 hr hst hchunk hu hrd => ?_⟩
    have hm1 : s1.m_request.method = HttpMethod.Put := by
      rw [a1]; simp [AddHeader_frame, defaultHeaders_frame, hm]
    have hb1 : s1.m_request.bodyStream = s.m_request.bodyStream := by
      rw [a1]; simp [AddHeader_frame, defaultHeaders_frame]
    have hc1 : s1.m_request.uploadChunkSize = s.m_request.uploadChunkSize := by
      rw [a1]; simp [AddHeader_frame, defaultHeaders_frame]
    refine ⟨?_, ?_, (ReadStatusLineAndHeaders_outgoing _ _ _ hrd).2.1⟩
    · unfold CurlSession.Perform
      rw [h]
      simp [Perform.upload, hm1, hr, hst, hu, hrd]
    · unfold CurlSession.UploadBody at hu
      dsimp only at hu
      have hpos : 0 < (if s1.m_request.uploadChunkSize ≤ 0 then
          (s1.details.c_UploadDefaultChunkSize : Int) else s1.m_request.uploadChunkSize).toNat := by
        rw [hc1, a4]
        split <;> omega
      have := (UploadBody_loop_ok _ hpos fuel _ _ s2 hu).1
      simpa [hb1] using this

/-- An instance of C8: the interim response is `417 Expectation Failed`. -/
theorem Perform_put_without_continue_witness :
    putSession417.Perform 2 =
        .ok (CURLE_OK, sessionOfResult putSession417 (Perform.sendAndReadHeaders 2 putSession417)) ∧
      (sessionOfResult putSession417 (Perform.sendAndReadHeaders 2 putSession417)).m_response =
        some ⟨1, 1, 417, bytes "Expectation Failed", []⟩ ∧
      (sessionOfResult putSession417 (Perform.sendAndReadHeaders 2 putSession417)).m_curl.sent =
        putSession417.m_curl.sent ++
          ((Perform.defaultHeaders putSession417.m_request).AddHeader "expect"
            "100-continue").GetHTTPMessagePreBody ∧
      (sessionOfResult putSession417
        (Perform.sendAndReadHeaders 2 putSession417)).m_request.bodyStream =
        putSession417.m_request.bodyStream ∧
      (sessionOfResult putSession417 (Perform.sendAndReadHeaders 2 putSession417)).m_uploadedBytes =
        putSession417.m_uploadedBytes +
          ((((Perform.defaultHeaders putSession417.m_request).AddHeader "expect"
            "100-continue").GetHTTPMessagePreBody.length : Nat) : Int) :=
  Perform_put_without_continue 2 putSession417
    (sessionOfResult putSession417 (Perform.sendAndReadHeaders 2 putSession417))
    ⟨1, 1, 417, bytes "Expectation Failed", []⟩ (by decide) (by decide) (by decide) (by decide)

/-- An instance of `Perform_put_expect_continue`: the interim response is `100 Continue`, the
final response comes in a second delivery; the four body bytes are sent and
the response handed back is `201 Created`. -/
theorem Perform_put_expect_continue_witness :
    putSession100.Perform 3 =
        .ok (CURLE_OK, sessionOfResult putSession100 (putSession100.Perform 3)) ∧
      (sessionOfResult putSession100 (putSession100.Perform 3)).m_response =
        some ⟨1, 1, 201, bytes "Created", [bytes "content-length: 0"]⟩ ∧
      (sessionOfResult putSession100 (putSession100.Perform 3)).m_curl.sent =
        bytes ("PUT /p HTTP/1.1\r\nHost: h.example\r\ncontent-length: 4\r\n" ++
          "expect: 100-continue\r\n\r\nBODY") :=
  ⟨((Perform_put_expect_continue 3 putSession100).2 (by decide)
      (sessionOfResult putSession100 (Perform.sendAndReadHeaders 3 putSession100))
      (by decide)).2 ⟨1, 1, 100, bytes "Continue", []⟩
      (sessionOfResult putSession100
        ((sessionOfResult putSession100
          (Perform.sendAndReadHeaders 3 putSession100)).UploadBody 3))
      (sessionOfResult putSession100 (putSession100.Perform 3))
      (by decide) (by decide) (by decide) (by decide) (by decide) |>.1,
    by decide, by decide⟩

theorem slice_append_left (pre body : List Nat) (a b : Nat) :
    slice (pre ++ body) (pre.length + a) (pre.length + b) = slice body a b := by
  unfold slice
  have e : pre.length + b - (pre.length + a) = b - a := by omega
  rw [e, List.drop_append]

/-- A size line of one digit: the scan of `ParseChunkSize` stops at its LF. -/
theorem scan_sizeLine (h c : Nat) (rest : List Nat) (index : Nat) (text : List Nat) :
    ParseChunkSize.scan (h :: c :: LF :: rest) index 0 text =
      .found (index + 2) (text ++ [h, c, LF]) := by
  simp [ParseChunkSize.scan]

/-- `ParseChunkSize` when the buffer holds a whole one-digit size line at the offset and at
least one more byte behind it: the chunk size is set and the offset moves behind the line,
without a socket read. -/
theorem ParseChunkSize_in_buffer (fuel : Nat) (s : CurlSession) (b : Nat) (h c : Nat)
    (rest : List Nat) (n : Nat)
    (hb : s.m_bodyStartInBuffer = (b : Int))
    (hs : slice s.m_readBuffer b s.m_innerBufferSize.toNat = h :: c :: LF :: rest)
    (hn : stoull 16 [h, c, LF] = .ok n)
    (hmore : (b : Int) + 3 ≠ s.m_innerBufferSize) :
    s.ParseChunkSize (fuel + 1) =
      .ok { s with m_chunkSize := toInt64 n, m_bodyStartInBuffer := (b : Int) + 3 } := by
  have h0 : ¬ ((b : Int) < 0) := by omega
  have e : ((b + 2 : Nat) : Int) + 1 = (b : Int) + 3 := by push_cast; omega
  simp only [CurlSession.ParseChunkSize, ParseChunkSize.poll, hb, h0, if_false, Int.toNat_ofNat,
    hs, scan_sizeLine, List.nil_append, hn, e, hmore]

/-- The two-byte skip of `Read` when both bytes are in the buffer. -/
theorem skipCRLF_in_buffer (s : CurlSession) (b : Nat) (hb : s.m_bodyStartInBuffer = (b : Int))
    (hpos : 0 < b) (hin : (b : Int) + 1 < s.m_innerBufferSize) :
    Read.skipCRLF 2 s = .ok { s with m_bodyStartInBuffer := (b : Int) + 2 } := by
  have c1 : (b : Int) > 0 ∧ (b : Int) < s.m_innerBufferSize := by
    constructor <;> omega
  have c2 : (b : Int) + 1 > 0 ∧ (b : Int) + 1 < s.m_innerBufferSize := by
    constructor <;> omega
  have e : (b : Int) + 1 + 1 = (b : Int) + 2 := by omega
  simp only [Read.skipCRLF, c1, and_self, if_true, hb, c2, e]

/-- `Read.serve` in chunked mode when the buffer holds more than the bytes asked for: `m`
bytes, the smaller of the count and the rest of the chunk, are taken from the buffer. -/
theorem serve_chunk_from_buffer (s : CurlSession) (count : Int) (b m : Nat)
    (hch : s.m_isChunkedResponseType = true) (hcl : ¬ s.m_contentLength > 0)
    (hb : s.m_bodyStartInBuffer = (b : Int))
    (hm : min s.m_chunkSize count = (m : Int))
    (hin : (b : Int) + m < s.m_innerBufferSize) :
    Read.serve s count =
      .ok (slice s.m_readBuffer b (b + m),
        { s with
          m_bodyStartInBuffer := (b : Int) + ((slice s.m_readBuffer b (b + m)).length : Nat)
          m_sessionTotalRead :=
            s.m_sessionTotalRead + ((slice s.m_readBuffer b (b + m)).length : Nat)
          m_chunkSize := s.m_chunkSize - ((slice s.m_readBuffer b (b + m)).length : Nat) }) := by
  have h0 : (b : Int) ≥ 0 := by omega
  have hmin : min (m : Int) (s.m_innerBufferSize - (b : Int)) = (m : Int) := by omega
  have hneg : ¬ ((m : Int) < 0) := by omega
  have hl : ((slice s.m_readBuffer b (b + m)).length : Int) ≤ m := by
    unfold slice
    simp only [List.length_take, List.length_drop]
    omega
  have hne : ¬ ((b : Int) + ((slice s.m_readBuffer b (b + m)).length : Nat) =
      s.m_innerBufferSize) := by omega
  simp only [Read.serve, hch, if_true, hcl, if_false, hm, h0, MemoryBodyStream.Read, hb, hmin,
    hneg, Int.toNat_ofNat, hne]

/-- `Read` with a positive count when the current chunk is exhausted: the CRLF is skipped, the
next size line is parsed, and a size of zero ends the response. -/
theorem Read_chunk_exhausted (fuel : Nat) (s s1 s2 : CurlSession) (count : Int)
    (hcount : 0 < count) (hch : s.m_isChunkedResponseType = true) (hz : s.m_chunkSize = 0)
    (h1 : Read.skipCRLF 2 s = .ok s1) (h2 : s1.ParseChunkSize fuel = .ok s2) :
    s.Read fuel ⟨false⟩ count =
      if s2.m_chunkSize = 0 then .ok ([], { s2 with m_rawResponseEOF := true })
      else Read.serve s2 count := by
  have hc : ¬ count ≤ 0 := by omega
  simp only [CurlSession.Read, Bool.false_eq_true, if_false, hc, hch, hz, and_self, if_true, h1,
    h2]

/-- `Read` with a positive count inside a chunk, or on a response that is not chunked. -/
theorem Read_within_chunk (fuel : Nat) (s : CurlSession) (count : Int) (hcount : 0 < count)
    (h : ¬ (s.m_isChunkedResponseType = true ∧ s.m_chunkSize = 0)) :
    s.Read fuel ⟨false⟩ count = Read.serve s count := by
  have hc : ¬ count ≤ 0 := by omega
  simp only [CurlSession.Read, Bool.false_eq_true, if_false, hc, h]

theorem wiki_slice (pre : List Nat) (a b : Nat) :
    slice (pre ++ wikipediaChunked) (pre.length + a) (pre.length + b) =
      slice wikipediaChunked a b :=
  slice_append_left pre wikipediaChunked a b

theorem wiki_serve (pre : List Nat) (s : CurlSession) (count : Int) (off rem k : Nat)
    (hcount : 0 < count)
    (hbuf : s.m_readBuffer = pre ++ wikipediaChunked)
    (hstart : s.m_bodyStartInBuffer = ((pre.length + off : Nat) : Int))
    (hsize : s.m_innerBufferSize = ((pre.length + 24 : Nat) : Int))
    (hch : s.m_isChunkedResponseType = true) (hcl : s.m_contentLength = -1)
    (hchunk : s.m_chunkSize = ((rem : Nat) : Int)) (hrem : 0 < rem) (hfit : off + rem < 24)
    (hdata : ∀ m, m ≤ rem → slice wikipediaChunked off (off + m) = (wikipedia.drop k).take m)
    (hk : k + rem ≤ 9) :
    ∃ (m : Nat) (s1 : CurlSession), 1 ≤ m ∧ m ≤ rem ∧
      Read.serve s count = .ok ((wikipedia.drop k).take m, s1) ∧
      s1.m_readBuffer = pre ++ wikipediaChunked ∧
      s1.m_bodyStartInBuffer = ((pre.length + (off + m) : Nat) : Int) ∧
      s1.m_innerBufferSize = ((pre.length + 24 : Nat) : Int) ∧
      s1.m_isChunkedResponseType = true ∧ s1.m_contentLength = -1 ∧
      s1.m_chunkSize = ((rem - m : Nat) : Int) := by
  obtain ⟨m, hm, h1, h2⟩ : ∃ m : Nat, min s.m_chunkSize count = (m : Int) ∧ 1 ≤ m ∧ m ≤ rem := by
    refine ⟨(min s.m_chunkSize count).toNat, ?_, ?_, ?_⟩ <;> omega
  have e : pre.length + off + m = pre.length + (off + m) := by omega
  have hout : slice s.m_readBuffer (pre.length + off) (pre.length + off + m) =
      (wikipedia.drop k).take m := by
    rw [hbuf, e, wiki_slice, hdata m h2]
  have hl : ((wikipedia.drop k).take m).length = m := by
    have : wikipedia.length = 9 := by decide
    simp only [List.length_take, List.length_drop, this]
    omega
  have hs := serve_chunk_from_buffer s count (pre.length + off) m hch (by rw [hcl]; decide) hstart
    hm (by rw [hsize]; push_cast; omega)
  rw [hout, hl] at hs
  refine ⟨m, _, h1, h2, hs, hbuf, ?_, hsize, hch, hcl, ?_⟩
  · show ((pre.length + off : Nat) : Int) + (m : Nat) = _
    push_cast; omega
  · show s.m_chunkSize - (m : Nat) = _
    rw [hchunk]; omega

theorem wiki_data (k : Nat) (hk : k < 9) (h4 : k ≠ 4) :
    ∀ m, m ≤ wikiRemaining k →
      slice wikipediaChunked (wikiOffset k) (wikiOffset k + m) = (wikipedia.drop k).take m := by
  interval_cases k <;> first | exact absurd rfl h4 | decide

/-- One `Read` with a positive count while data is left: it returns the next `m ≥ 1` bytes of
`Wikipedia`. -/
theorem wiki_read (fuel : Nat) (pre : List Nat) (s : CurlSession) (k : Nat) (count : Int)
    (inv : WikiInv pre s k) (hk : k < 9) (hcount : 0 < count) :
    ∃ (m : Nat) (s1 : CurlSession), 1 ≤ m ∧ k + m ≤ 9 ∧
      s.Read (fuel + 1) ⟨false⟩ count = .ok ((wikipedia.drop k).take m, s1) ∧
      WikiInv pre s1 (k + m) := by
  obtain ⟨hbuf, hstart, hsize, hch, hcl, hchunk⟩ := inv
  have hc : ¬ count ≤ 0 := by omega
  by_cases h4 : k = 4
  · subst h4
    -- the chunk `Wiki` is exhausted: skip its CRLF and read the size line `5`
    have hz : s.m_chunkSize = 0 := by rw [hchunk]; decide
    have e1 := skipCRLF_in_buffer s (pre.length + 7) hstart (by omega)
      (by rw [hsize]; push_cast; omega)
    have e2 := ParseChunkSize_in_buffer fuel
      { s with m_bodyStartInBuffer := ((pre.length + 7 : Nat) : Int) + 2 } (pre.length + 9)
      53 CR [112, 101, 100, 105, 97, 13, 10, 48, 13, 10, 13, 10] 5
      (by show ((pre.length + 7 : Nat) : Int) + 2 = _; push_cast; omega)
      (by
        show slice s.m_readBuffer (pre.length + 9) s.m_innerBufferSize.toNat = _
        rw [hbuf, hsize, Int.toNat_ofNat, wiki_slice]
        decide)
      (by decide)
      (by show ((pre.length + 9 : Nat) : Int) + 3 ≠ s.m_innerBufferSize
          rw [hsize]; push_cast; omega)
    obtain ⟨m, s1, m1, m2, hs, i1, i2, i3, i4, i5, i6⟩ := wiki_serve pre
      { s with
        m_chunkSize := toInt64 5
        m_bodyStartInBuffer := ((pre.length + 9 : Nat) : Int) + 3 }
      count 12 5 4 hcount hbuf
      (by show ((pre.length + 9 : Nat) : Int) + 3 = _; push_cast; omega)
      hsize hch hcl (by show toInt64 5 = ((5 : Nat) : Int); decide) (by decide) (by decide)
      (by decide) (by decide)
    refine ⟨m, s1, m1, by omega, ?_, ⟨i1, ?_, i3, i4, i5, ?_⟩⟩
    · rw [Read_chunk_exhausted (fuel + 1) s _ _ count hcount hch hz e1 e2]
      have : ¬ (toInt64 5 = 0) := by decide
      simp only [this, if_false]
      exact hs
    · rw [i2]
      have : wikiOffset (4 + m) = 12 + m := by unfold wikiOffset; split <;> omega
      rw [this]
    · rw [i6]
      have : wikiRemaining (4 + m) = 5 - m := by unfold wikiRemaining; split <;> omega
      rw [this]
  · have hrem : 0 < wikiRemaining k := by unfold wikiRemaining; split <;> omega
    have hfit : wikiOffset k + wikiRemaining k < 24 := by
      unfold wikiOffset wikiRemaining; split <;> omega
    have hk9 : k + wikiRemaining k ≤ 9 := by unfold wikiRemaining; split <;> omega
    obtain ⟨m, s1, m1, m2, hs, i1, i2, i3, i4, i5, i6⟩ := wiki_serve pre s count (wikiOffset k)
      (wikiRemaining k) k hcount hbuf hstart hsize hch hcl hchunk hrem hfit (wiki_data k hk h4) hk9
    have hnz : ¬ (s.m_chunkSize = 0) := by rw [hchunk]; omega
    have hkm : (k ≤ 4 ∧ k + m ≤ 4) ∨ (¬ k ≤ 4 ∧ ¬ k + m ≤ 4) := by
      unfold wikiRemaining at m2
      split at m2 <;> omega
    refine ⟨m, s1, m1, by omega, ?_, ⟨i1, ?_, i3, i4, i5, ?_⟩⟩
    · rw [Read_within_chunk (fuel + 1) s count hcount (fun h => hnz h.2)]
      exact hs
    · rw [i2]
      have : wikiOffset (k + m) = wikiOffset k + m := by
        rcases hkm with ⟨a, b⟩ | ⟨a, b⟩ <;> simp only [wikiOffset, a, b, if_true, if_false] <;>
          omega
      rw [this]
    · rw [i6]
      have : wikiRemaining (k + m) = wikiRemaining k - m := by
        rcases hkm with ⟨a, b⟩ | ⟨a, b⟩ <;> simp only [wikiRemaining, a, b, if_true, if_false] <;>
          omega
      rw [this]

/-- The `Read` after the last data byte: it skips the CRLF behind `pedia`, finds the chunk
size 0, sets end-of-response and returns 0. -/
theorem wiki_read_end (fuel : Nat) (pre : List Nat) (s : CurlSession) (count : Int)
    (inv : WikiInv pre s 9) (hcount : 0 < count) :
    ∃ s1 : CurlSession,
      s.Read (fuel + 1) ⟨false⟩ count = .ok ([], s1) ∧ s1.m_rawResponseEOF = true := by
  obtain ⟨hbuf, hstart, hsize, hch, hcl, hchunk⟩ := inv
  have hc : ¬ count ≤ 0 := by omega
  have hz : s.m_chunkSize = 0 := by rw [hchunk]; decide
  have e1 := skipCRLF_in_buffer s (pre.length + 17) hstart (by omega)
    (by rw [hsize]; push_cast; omega)
  have e2 := ParseChunkSize_in_buffer fuel
    { s with m_bodyStartInBuffer := ((pre.length + 17 : Nat) : Int) + 2 } (pre.length + 19)
    48 CR [13, 10] 0
    (by show ((pre.length + 17 : Nat) : Int) + 2 = _; push_cast; omega)
    (by
      show slice s.m_readBuffer (pre.length + 19) s.m_innerBufferSize.toNat = _
      rw [hbuf, hsize, Int.toNat_ofNat, wiki_slice]
      decide)
    (by decide)
    (by show ((pre.length + 19 : Nat) : Int) + 3 ≠ s.m_innerBufferSize
        rw [hsize]; push_cast; omega)
  have hz2 : toInt64 0 = 0 := by decide
  rw [Read_chunk_exhausted (fuel + 1) s _ _ count hcount hch hz e1 e2]
  simp only [hz2, if_true]
  exact ⟨_, rfl, rfl⟩

theorem take_take_drop (l : List Nat) (a b : Nat) :
    l.take a ++ (l.drop a).take b = l.take (a + b) := by
  rw [List.take_add]

/-- Successive reads with positive counts, up to the first one that returns 0: they deliver
consecutive pieces of `Wikipedia`, one byte at least per read, and a read returns 0 only when
every byte has been delivered. -/
theorem wiki_drain (fuel : Nat) (pre : List Nat) :
    ∀ (counts : List Int) (s : CurlSession) (k : Nat),
      WikiInv pre s k → k ≤ 9 → (∀ c ∈ counts, 0 < c) →
      ∃ (m : Nat) (done : Bool) (s1 : CurlSession),
        s.drain (fuel + 1) ⟨false⟩ counts = .ok ((wikipedia.drop k).take m, done, s1) ∧
        k + m ≤ 9 ∧ (done = true → k + m = 9 ∧ s1.m_rawResponseEOF = true) ∧
        (done = false → counts.length ≤ m)
  | [], s, k, _, hk, _ => ⟨0, false, s, by simp [CurlSession.drain], by omega, by simp, by simp⟩
  | c :: counts, s, k, inv, hk, hpos => by
    have hc : 0 < c := hpos c (by simp)
    rcases Nat.lt_or_ge k 9 with h9 | h9
    · obtain ⟨m1, s1, a1, a2, a3, a4⟩ := wiki_read fuel pre s k c inv h9 hc
      obtain ⟨m2, done, s2, b1, b2, b3, b4⟩ :=
        wiki_drain fuel pre counts s1 (k + m1) a4 a2 (fun x hx => hpos x (by simp [hx]))
      have hl : ((wikipedia.drop k).take m1).length = m1 := by
        have : wikipedia.length = 9 := by decide
        simp only [List.length_take, List.length_drop, this]
        omega
      have hne : ¬ (((wikipedia.drop k).take m1).length = 0) := by omega
      refine ⟨m1 + m2, done, s2, ?_, by omega, fun hd => ?_, fun hd => ?_⟩
      · simp only [CurlSession.drain, a3, hne, if_false, b1]
        rw [← take_take_drop (wikipedia.drop k) m1 m2, List.drop_drop]
      · have := b3 hd
        exact ⟨by omega, this.2⟩
      · have := b4 hd
        simp only [List.length_cons]
        omega
    · have h9' : k = 9 := by omega
      subst h9'
      obtain ⟨s1, a1, a2⟩ := wiki_read_end fuel pre s c inv hc
      refine ⟨0, true, s1, ?_, by omega, fun _ => ⟨rfl, a2⟩, fun hd => by cases hd⟩
      simp [CurlSession.drain, a1]

/-- The chunked body of the specification read from the buffer: for a chunked response whose
body on the wire is
`4 CRLF Wiki CRLF 5 CRLF pedia CRLF 0 CRLF CRLF` and lies whole in the read buffer behind the
header block `pre`, after the `ParseChunkSize` call that ends the header read, `Read` calls
with any positive counts, made until one returns 0, deliver consecutive pieces of
`Wikipedia`, at least one byte per call; a call returns 0 only when all nine bytes have been
delivered, and that call sets end-of-response. So every sequence of ten or more positive
counts yields exactly `Wikipedia` followed by 0. -/
theorem chunked_wikipedia_reads (fuel : Nat) (s : CurlSession) (pre : List Nat)
    (counts : List Int) (hbuf : s.m_readBuffer = pre ++ wikipediaChunked)
    (hstart : s.m_bodyStartInBuffer = (pre.length : Int))
    (hsize : s.m_innerBufferSize = ((pre ++ wikipediaChunked).length : Int))
    (hch : s.m_isChunkedResponseType = true) (hcl : s.m_contentLength = -1)
    (hpos : ∀ c ∈ counts, 0 < c) :
    ∃ s0 : CurlSession, s.ParseChunkSize (fuel + 1) = .ok s0 ∧
      ∃ (m : Nat) (done : Bool) (s1 : CurlSession),
        s0.drain (fuel + 1) ⟨false⟩ counts = .ok (wikipedia.take m, done, s1) ∧ m ≤ 9 ∧
        (done = true → m = 9 ∧ s1.m_rawResponseEOF = true) ∧
        (done = false → counts.length ≤ m) := by
  have hsize2 : s.m_innerBufferSize = ((pre.length + 24 : Nat) : Int) := by
    rw [hsize]
    have : wikipediaChunked.length = 24 := by decide
    simp [this]
  have e := ParseChunkSize_in_buffer fuel s pre.length 52 CR
    [87, 105, 107, 105, 13, 10, 53, 13, 10, 112, 101, 100, 105, 97, 13, 10, 48, 13, 10, 13, 10] 4
    hstart
    (by
      have := wiki_slice pre 0 24
      simp only [Nat.add_zero] at this
      rw [hbuf, hsize2, Int.toNat_ofNat, this]
      decide)
    (by decide) (by rw [hsize2]; push_cast; omega)
  refine ⟨_, e, ?_⟩
  have inv : WikiInv pre
      { s with m_chunkSize := toInt64 4, m_bodyStartInBuffer := (pre.length : Int) + 3 } 0 :=
    ⟨hbuf, by show (pre.length : Int) + 3 = _; simp [wikiOffset], hsize2, hch, hcl,
      by show toInt64 4 = _; decide⟩
  obtain ⟨m, done, s1, a1, a2, a3, a4⟩ := wiki_drain fuel pre counts _ 0 inv (by omega) hpos
  refine ⟨m, done, s1, ?_, by omega, fun hd => ?_, a4⟩
  · simpa using a1
  · have := a3 hd
    exact ⟨by omega, this.2⟩

/-- An instance of `chunked_wikipedia_reads`: the session `chunkedSession` reaches `ParseChunkSize` in the state
`chunkedSessionAtBody`, and is then read with counts that end inside a chunk and counts that
would cross a chunk boundary. -/
theorem chunked_wikipedia_reads_witness :
    chunkedSession.ReadStatusLineAndHeadersFromRawResponse 2 =
        chunkedSessionAtBody.ParseChunkSize 2 ∧
      ∃ s0 : CurlSession, chunkedSessionAtBody.ParseChunkSize (1 + 1) = .ok s0 ∧
        ∃ (m : Nat) (done : Bool) (s1 : CurlSession),
          s0.drain (1 + 1) ⟨false⟩ [3, 100, 2, 2, 100, 7, 7, 7, 7, 7] =
            .ok (wikipedia.take m, done, s1) ∧ m ≤ 9 ∧
          (done = true → m = 9 ∧ s1.m_rawResponseEOF = true) ∧
          (done = false → [(3 : Int), 100, 2, 2, 100, 7, 7, 7, 7, 7].length ≤ m) :=
  ⟨by decide,
    chunked_wikipedia_reads 1 chunkedSessionAtBody chunkedHeader
      [3, 100, 2, 2, 100, 7, 7, 7, 7, 7] (by decide) (by decide) (by decide) (by decide)
      (by decide) (by decide)⟩

theorem NoEarlyCompletion_append (p p1 : ResponseBufferParser) (a b : List Nat)
    (ha : NoEarlyCompletion p a) (hr : runBytes p a = .ok p1) (hb : NoEarlyCompletion p1 b) :
    NoEarlyCompletion p (a ++ b) := by
  intro j hj
  rcases Nat.lt_or_ge j a.length with h | h
  · rw [List.take_append_of_le_length (by omega)]
    exact ha j h
  · have e : j = a.length + (j - a.length) := by omega
    rw [e, List.take_append, runBytes_append, hr]
    simp only [List.length_append] at hj
    exact hb (j - a.length) (by omega)

theorem NoEarlyCompletion_content (l : List Nat) (hl : CR ∉ l) (st : ResponseParserState)
    (buf : List Nat) (resp : Option RawResponse) :
    NoEarlyCompletion ⟨st, false, false, buf, resp⟩ l := by
  intro j _
  have hj : CR ∉ l.take j := fun h => hl (List.mem_of_mem_take h)
  have := (run_content (l.take j) hj st buf resp []).1
  simp only [List.append_nil, runBytes] at this
  exact ⟨_, this, rfl⟩

theorem NoEarlyCompletion_CRLF (st : ResponseParserState) (buf : List Nat)
    (resp : Option RawResponse) :
    NoEarlyCompletion ⟨st, false, false, buf, resp⟩ [CR, LF] := by
  intro j hj
  simp only [List.length_cons, List.length_nil] at hj
  interval_cases j
  · exact ⟨_, rfl, rfl⟩
  · refine ⟨⟨st, false, true, buf, resp⟩, ?_, rfl⟩
    simp [runBytes, byteStep]

theorem run_line_end (l : List Nat) (hl : CR ∉ l) (st : ResponseParserState)
    (resp : Option RawResponse) :
    runBytes ⟨st, false, false, [], resp⟩ (l ++ [CR]) = .ok ⟨st, false, true, l, resp⟩ := by
  have := (run_content l hl st [] resp [CR]).1
  rw [this]
  simp [runBytes, byteStep]

/-- A line without CR and its CRLF, from a parser between two lines: no proper prefix
completes the parser. -/
theorem NoEarlyCompletion_line (l : List Nat) (hl : CR ∉ l) (st : ResponseParserState)
    (resp : Option RawResponse) :
    NoEarlyCompletion ⟨st, false, false, [], resp⟩ (l ++ [CR, LF]) := by
  have h1 := NoEarlyCompletion_content l hl st [] resp
  have h2 := (run_content l hl st [] resp []).1
  simp only [List.append_nil, runBytes, List.nil_append] at h2
  exact NoEarlyCompletion_append _ _ l [CR, LF] h1 h2 (NoEarlyCompletion_CRLF st l resp)

theorem NoEarlyCompletion_headerLines (headerLines : List (List Nat))
    (hh : ∀ l ∈ headerLines, l ≠ [] ∧ CR ∉ l) :
    ∀ r : RawResponse,
      NoEarlyCompletion ⟨.Headers, false, false, [], some r⟩
        ((headerLines.map (fun l => l ++ [CR, LF])).flatten ++ [CR, LF]) := by
  induction headerLines with
  | nil =>
    intro r
    simpa using NoEarlyCompletion_CRLF .Headers [] (some r)
  | cons l ls ih =>
    intro r
    have hl := hh l (by simp)
    have e : ((l :: ls).map (fun l => l ++ [CR, LF])).flatten ++ [CR, LF] =
        (l ++ [CR, LF]) ++ ((ls.map (fun l => l ++ [CR, LF])).flatten ++ [CR, LF]) := by
      simp
    rw [e]
    have hrun : runBytes ⟨.Headers, false, false, [], some r⟩ (l ++ [CR, LF]) =
        .ok ⟨.Headers, false, false, [], some (r.AddHeader l)⟩ := by
      have := (run_headerLine l hl.2 hl.1 r []).1
      simpa [runBytes] using this
    exact NoEarlyCompletion_append _ _ _ _ (NoEarlyCompletion_line l hl.2 .Headers (some r)) hrun
      (ih (fun x hx => hh x (by simp [hx])) (r.AddHeader l))

/-- A well-formed header block whose status line `CreateHTTPResponse` accepts is a block of
header bytes for a fresh parser. -/
theorem HeaderBytes_headerBlock (statusLine : List Nat) (headerLines : List (List Nat))
    (r : RawResponse) (hs : CR ∉ statusLine) (hh : ∀ l ∈ headerLines, l ≠ [] ∧ CR ∉ l)
    (hr : CreateHTTPResponse statusLine = .ok r) :
    HeaderBytes ResponseBufferParser.new (headerBlock statusLine headerLines)
      (ResponseBufferParser.completedWith { r with headerLines := r.headerLines ++ headerLines }) := by
  have h := run_headerBlock statusLine headerLines hs hh
  refine ⟨by simp [headerBlock], h.2, ?_, rfl, ?_⟩
  · rw [h.1]; simp [parsedBlock, hr]
  · have e : headerBlock statusLine headerLines =
        (statusLine ++ [CR, LF]) ++
          ((headerLines.map (fun l => l ++ [CR, LF])).flatten ++ [CR, LF]) := by
      simp [headerBlock]
    rw [e]
    have hrun : runBytes ResponseBufferParser.new (statusLine ++ [CR, LF]) =
        .ok ⟨.Headers, false, false, [], some r⟩ := by
      have := (run_statusLine statusLine hs []).1
      simpa [runBytes, hr] using this
    exact NoEarlyCompletion_append _ _ _ _ (NoEarlyCompletion_line statusLine hs .StatusLine none)
      hrun (NoEarlyCompletion_headerLines headerLines hh r)

theorem PendingCRMeetsLF_of_append (p : ResponseBufferParser) (a b : List Nat)
    (ha : PendingCRMeetsLF p a)
    (hb : ∀ p1, runBytes p a = .ok p1 → PendingCRMeetsLF p1 b) :
    PendingCRMeetsLF p (a ++ b) := by
  induction a generalizing p with
  | nil => exact hb p rfl
  | cons x a ih =>
    simp only [List.cons_append, PendingCRMeetsLF] at ha ⊢
    rcases ha with h | h
    · exact Or.inl h
    · refine Or.inr ⟨h.1, fun p1 h1 => ih p1 (h.2 p1 h1) (fun p2 h2 => hb p2 ?_)⟩
      simp only [runBytes, h1]
      exact h2

theorem HeaderBytes.notCompleted {p pc : ResponseBufferParser} {rem : List Nat}
    (h : HeaderBytes p rem pc) : p.m_parseCompleted = false := by
  have hlen : 0 < rem.length := List.length_pos.mpr h.nonempty
  obtain ⟨p1, h1, h2⟩ := h.noEarly 0 hlen
  simp only [List.take_zero, runBytes, Except.ok.injEq] at h1
  rw [h1]; exact h2

/-- A fill that ends inside the header block: `Parse` consumes all of it and does not
complete, and the rest of the block is a block of header bytes for the parser it leaves. -/
theorem HeaderBytes.parse_front {p pc : ResponseBufferParser} {rem : List Nat}
    (h : HeaderBytes p rem pc) (n : Nat) (hn : n < rem.length) :
    ∃ p1 : ResponseBufferParser, p.Parse (rem.take n) = .ok ((rem.take n).length, p1) ∧
      HeaderBytes p1 (rem.drop n) pc := by
  obtain ⟨p1, h1, h2⟩ := h.noEarly n hn
  have hsplit : rem.take n ++ rem.drop n = rem := List.take_append_drop n rem
  have hg := PendingCRMeetsLF_append p (rem.take n) (rem.drop n) (by rw [hsplit]; exact h.good)
  have hp := Parse_eq_runBytes p (rem.take n) hg.1
  rw [h1] at hp
  cases hq : p.Parse (rem.take n) with
  | error e => simp [hq, Except.map] at hp
  | ok r =>
    obtain ⟨v, q⟩ := r
    simp only [hq, Except.map, Except.ok.injEq] at hp
    subst hp
    have hv := Parse_incomplete p q (rem.take n) v h.notCompleted hq h2
    subst hv
    refine ⟨q, rfl, ?_, hg.2 q h1, ?_, h.done, ?_⟩
    · intro h0
      have := congrArg List.length h0
      simp at this
      omega
    · have := runBytes_append p (rem.take n) (rem.drop n)
      rw [hsplit, h.run, h1] at this
      exact this.symm
    · intro j hj
      simp only [List.length_drop] at hj
      obtain ⟨p2, a1, a2⟩ := h.noEarly (n + j) (by omega)
      refine ⟨p2, ?_, a2⟩
      have e : rem.take (n + j) = rem.take n ++ (rem.drop n).take j := by
        rw [List.take_add]
      rw [e, runBytes_append, h1] at a1
      exact a1

/-- A fill that holds the rest of the header block and whatever follows it: `Parse` completes
and returns the length of that rest. -/
theorem HeaderBytes.parse_whole {p pc : ResponseBufferParser} {rem : List Nat}
    (h : HeaderBytes p rem pc) (tail : List Nat) :
    p.Parse (rem ++ tail) = .ok (rem.length, pc) := by
  have hnc := h.notCompleted
  -- on the block alone
  have hp := Parse_eq_runBytes p rem h.good
  rw [h.run] at hp
  cases hq : p.Parse rem with
  | error e => simp [hq, Except.map] at hp
  | ok r =>
    obtain ⟨v, q⟩ := r
    simp only [hq, Except.map, Except.ok.injEq] at hp
    subst hp
    obtain ⟨c1, c2, _, c4⟩ := Parse_complete p q rem v hnc hq h.done
    have hv : v = rem.length := by
      rcases Nat.lt_or_ge v rem.length with hlt | hge
      · -- completing on a proper prefix is excluded
        have h5 := c4 (rem.take v) (by simp)
        obtain ⟨p1, a1, a2⟩ := h.noEarly v hlt
        have hsplit : rem.take v ++ rem.drop v = rem := List.take_append_drop v rem
        have hg := PendingCRMeetsLF_append p (rem.take v) (rem.drop v)
          (by rw [hsplit]; exact h.good)
        have h6 := Parse_eq_runBytes p (rem.take v) hg.1
        rw [h5, a1] at h6
        simp only [Except.map, Except.ok.injEq] at h6
        rw [← h6, h.done] at a2
        cases a2
      · omega
    subst hv
    exact c4 (rem ++ tail) (by simp)

/-- A receive from a peer that only cuts the wire: with a positive capacity it hands over the
next `n ≥ 1` bytes the peer has (fewer when the peer has fewer left). -/
theorem recv_serving (c : Curl) (cap : Nat) (hcap : 0 < cap) (hs : Serving c) :
    ∃ (n : Nat) (c1 : Curl), 1 ≤ n ∧ n ≤ cap ∧
      ReadSocketToBuffer c (cap : Int) = .ok (c.wire.take n, c1) ∧
      c1.wire = c.wire.drop n ∧ Serving c1 := by
  obtain ⟨frags, hf⟩ := hs
  have h0 : ¬ ((cap : Int) < 0) := by omega
  simp only [ReadSocketToBuffer, h0, if_false, Int.toNat_ofNat, hf]
  cases frags with
  | nil =>
    refine ⟨cap, { c with wire := c.wire.drop cap, recvScript := [] }, hcap, le_refl _, ?_, rfl,
      ⟨[], rfl⟩⟩
    simp [recvLoop]
  | cons l ls =>
    refine ⟨min cap (l + 1),
      { c with
        wire := c.wire.drop (min cap (l + 1))
        recvScript := ls.map (fun limit => ⟨CURLE_OK, limit, 0⟩) },
      by omega, by omega, ?_, rfl, ⟨ls, rfl⟩⟩
    simp [recvLoop]

/-- The `while` loop of `ReadStatusLineAndHeadersFromRawResponse` against a peer that sends
the rest `rem` of a header block followed by `body`, however the bytes are cut: with fuel above
the length of `rem` the loop ends with the completed parser; the last fill holds the end of
the block at index `k`, the bytes behind it in the fill and the bytes still on the wire are
`body`, and the offset is `k` when the fill goes on behind the block. -/
theorem headerLoop_serving :
    ∀ (fuel : Nat) (rem body : List Nat) (p pc : ResponseBufferParser) (s : CurlSession)
      (bufferSize : Int),
      HeaderBytes p rem pc → s.m_curl.wire = rem ++ body → Serving s.m_curl →
      0 < s.details.c_LibcurlReaderSize → rem.length < fuel →
      ∃ (fill : List Nat) (k : Nat) (s1 : CurlSession),
        ReadStatusLineAndHeadersFromRawResponse.loop fuel p bufferSize s =
            .ok (pc, (fill.length : Int), s1) ∧
          s1.m_readBuffer = fill ∧ 0 < k ∧ k ≤ fill.length ∧
          fill.drop k ++ s1.m_curl.wire = body ∧
          s1.m_bodyStartInBuffer =
            (if k < fill.length then (k : Int) else s.m_bodyStartInBuffer) ∧
          Serving s1.m_curl ∧
          s1 = { s with
                 m_curl := s1.m_curl
                 m_readBuffer := fill
                 m_bodyStartInBuffer := s1.m_bodyStartInBuffer }
  | 0, _, _, _, _, _, _, _, _, _, _, hfuel => by omega
  | fuel + 1, rem, body, p, pc, s, bufferSize, hb, hw, hs, hcap, hfuel => by
    have hnc := hb.notCompleted
    have hrem : 0 < rem.length := List.length_pos.mpr hb.nonempty
    obtain ⟨n, c1, n1, _, hr, hw1, hs1⟩ := recv_serving s.m_curl _ hcap hs
    unfold ReadStatusLineAndHeadersFromRawResponse.loop
    simp only [ResponseBufferParser.IsParseCompleted, hnc, Bool.false_eq_true, if_false, hr]
    rcases Nat.lt_or_ge n rem.length with hlt | hge
    · -- the fill ends inside the block
      have hfill : s.m_curl.wire.take n = rem.take n := by
        rw [hw, List.take_append_of_le_length (by omega)]
      obtain ⟨p1, hp, hb1⟩ := hb.parse_front n hlt
      rw [hfill, hp]
      simp only [lt_self_iff_false, if_false]
      have hw2 : c1.wire = rem.drop n ++ body := by
        rw [hw1, hw, List.drop_append_of_le_length (by omega)]
      obtain ⟨fill, k, s1, a1, a2, a3, a4, a5, a6, a7, a8⟩ :=
        headerLoop_serving fuel (rem.drop n) body p1 pc
          { s with m_curl := c1, m_readBuffer := rem.take n } ((rem.take n).length : Int) hb1
          hw2 hs1 hcap (by simp only [List.length_drop]; omega)
      refine ⟨fill, k, s1, a1, a2, a3, a4, a5, a6, a7, ?_⟩
      rw [a8]
    · -- the fill holds the end of the block
      have hfill : s.m_curl.wire.take n = rem ++ body.take (n - rem.length) := by
        rw [hw, List.take_append_eq_append_take, List.take_of_length_le hge]
      have hp := hb.parse_whole (body.take (n - rem.length))
      rw [hfill, hp]
      have hw2 : c1.wire = body.drop (n - rem.length) := by
        rw [hw1, hw, List.drop_append_eq_append_drop, List.drop_of_length_le hge,
          List.nil_append]
      have hfuel1 : 0 < fuel := by omega
      obtain ⟨f, hf⟩ : ∃ f, fuel = f + 1 := ⟨fuel - 1, by omega⟩
      subst hf
      unfold ReadStatusLineAndHeadersFromRawResponse.loop
      simp only [ResponseBufferParser.IsParseCompleted, hb.done, if_true]
      by_cases hk : ((rem.length : Nat) : Int) <
          ((rem ++ body.take (n - rem.length)).length : Int)
      · have hk2 : rem.length < (rem ++ body.take (n - rem.length)).length := by omega
        simp only [hk, if_true]
        refine ⟨rem ++ body.take (n - rem.length), rem.length, _, rfl, rfl, hrem, by simp, ?_,
          ?_, hs1, rfl⟩
        · show List.drop rem.length (rem ++ body.take (n - rem.length)) ++ c1.wire = body
          rw [List.drop_left, hw2, List.take_append_drop]
        · simp only [hk2, if_true]
      · have hk2 : ¬ rem.length < (rem ++ body.take (n - rem.length)).length := by omega
        simp only [hk, if_false]
        refine ⟨rem ++ body.take (n - rem.length), rem.length, _, rfl, rfl, hrem, by simp, ?_,
          ?_, hs1, rfl⟩
        · show List.drop rem.length (rem ++ body.take (n - rem.length)) ++ c1.wire = body
          rw [List.drop_left, hw2, List.take_append_drop]
        · simp only [hk2, if_false]

theorem take_append_left_le (a b : List Nat) (k : Nat) (h : k ≤ a.length) :
    (a ++ b).take k = a.take k := List.take_append_of_le_length h

theorem take_min_length (l : List Nat) (n : Nat) : l.take (min n l.length) = l.take n := by
  rcases Nat.le_total n l.length with h | h
  · rw [Nat.min_eq_left h]
  · rw [Nat.min_eq_right h, List.take_length, List.take_of_length_le h]

theorem drop_min_length (l : List Nat) (n : Nat) : l.drop (min n l.length) = l.drop n := by
  rcases Nat.le_total n l.length with h | h
  · rw [Nat.min_eq_left h]
  · rw [Nat.min_eq_right h, List.drop_length, List.drop_of_length_le h]

/-- One `Read` with a positive count in content-length mode with a positive declared length:
it returns the next `k` pending bytes, where `k` is at most the count and at most what is left
of the declared length, and at least 1 when something is left and pending. -/
theorem Read_bounded (fuel : Nat) (s : CurlSession) (count : Int) (inv : BodyInv s)
    (hN : 0 < s.m_contentLength) (ht : s.m_sessionTotalRead ≤ s.m_contentLength)
    (hcount : 0 < count) :
    ∃ (k : Nat) (s1 : CurlSession),
      s.Read fuel ⟨false⟩ count = .ok (s.pending.take k, s1) ∧
      k ≤ s.pending.length ∧ (k : Int) ≤ count ∧
      (k : Int) ≤ s.m_contentLength - s.m_sessionTotalRead ∧
      (s.m_sessionTotalRead < s.m_contentLength → s.pending ≠ [] → 1 ≤ k) ∧
      BodyInv s1 ∧ s1.pending = s.pending.drop k ∧
      s1.m_contentLength = s.m_contentLength ∧
      s1.m_sessionTotalRead = s.m_sessionTotalRead + (k : Int) := by
  obtain ⟨hsz, hoff, hsrv, hch, heof⟩ := inv
  rw [Read_within_chunk fuel s count hcount (by simp [hch])]
  have hN' : s.m_contentLength > 0 := hN
  rcases hoff with hoff | ⟨hb0, hb1⟩
  · -- nothing in the buffer
    have hneg : ¬ (s.m_bodyStartInBuffer ≥ 0) := by rw [hoff]; decide
    have hneg2 : ¬ (0 ≤ s.m_bodyStartInBuffer) := by rw [hoff]; decide
    have hpend : s.pending = s.m_curl.wire := by simp [CurlSession.pending, hneg2]
    by_cases hdone : s.m_sessionTotalRead = s.m_contentLength
    · refine ⟨0, s, ?_, by omega, by omega, by omega, fun h => by omega,
        ⟨hsz, Or.inl hoff, hsrv, hch, heof⟩, by simp, rfl, by simp⟩
      simp only [Read.serve, hneg, if_false, hdone, true_or, if_true, List.take_zero]
    · have hlt : s.m_sessionTotalRead < s.m_contentLength := by omega
      obtain ⟨cap, hcap, hcap1⟩ : ∃ cap : Nat,
          min count (s.m_contentLength - s.m_sessionTotalRead) = (cap : Int) ∧ 0 < cap :=
        ⟨(min count (s.m_contentLength - s.m_sessionTotalRead)).toNat, by omega, by omega⟩
      obtain ⟨n, c1, n1, n2, hr, hw, hs1⟩ := recv_serving s.m_curl cap hcap1 hsrv
      have hcond : ¬ (s.m_sessionTotalRead = s.m_contentLength ∨ s.m_rawResponseEOF = true) := by
        simp [hdone, heof]
      have hlen : (s.m_curl.wire.take n).length = min n s.m_curl.wire.length := by simp
      have hserve : Read.serve s count =
          .ok (s.m_curl.wire.take n,
            { s with
              m_curl := c1
              m_sessionTotalRead :=
                s.m_sessionTotalRead + ((min n s.m_curl.wire.length : Nat) : Int) }) := by
        simp only [Read.serve, hch, Bool.false_eq_true, if_false, hN', if_true, hneg, hcond,
          hcap, hr, hlen]
      rw [hserve, hpend, ← take_min_length s.m_curl.wire n]
      refine ⟨min n s.m_curl.wire.length, _, rfl, by omega, by omega, by omega, ?_, ?_, ?_, rfl,
        rfl⟩
      · intro _ hne
        have := List.length_pos.mpr hne
        omega
      · exact ⟨hsz, Or.inl hoff, hs1, hch, heof⟩
      · simp only [CurlSession.pending, hneg2, if_false, List.nil_append, hw,
          drop_min_length]
  · -- bytes left in the buffer
    obtain ⟨b, hb⟩ : ∃ b : Nat, s.m_bodyStartInBuffer = (b : Int) :=
      ⟨s.m_bodyStartInBuffer.toNat, by omega⟩
    have hbl : b < s.m_readBuffer.length := by omega
    have hpend : s.pending = s.m_readBuffer.drop b ++ s.m_curl.wire := by
      simp [CurlSession.pending, hb]
    obtain ⟨k, hk, hk1⟩ : ∃ k : Nat,
        min (min count (s.m_contentLength - s.m_sessionTotalRead))
          (s.m_innerBufferSize - (b : Int)) = (k : Int) ∧
          k ≤ s.m_readBuffer.length - b :=
      ⟨(min (min count (s.m_contentLength - s.m_sessionTotalRead))
        (s.m_innerBufferSize - (b : Int))).toNat, by omega, by omega⟩
    have hge : (b : Int) ≥ 0 := by omega
    have hkneg : ¬ ((k : Int) < 0) := by omega
    have hout : slice s.m_readBuffer b (b + k) = (s.m_readBuffer.drop b).take k := by
      unfold slice
      have : b + k - b = k := by omega
      rw [this]
    have hlen : ((s.m_readBuffer.drop b).take k).length = k := by
      simp only [List.length_take, List.length_drop]
      omega
    have htake : s.pending.take k = (s.m_readBuffer.drop b).take k := by
      rw [hpend, take_append_left_le _ _ k (by simp only [List.length_drop]; omega)]
    have hserve : Read.serve s count =
        (if (b : Int) + (k : Nat) = s.m_innerBufferSize then
          .ok ((s.m_readBuffer.drop b).take k,
            { s with
              m_bodyStartInBuffer := -1
              m_sessionTotalRead := s.m_sessionTotalRead + (k : Nat) })
        else
          .ok ((s.m_readBuffer.drop b).take k,
            { s with
              m_bodyStartInBuffer := (b : Int) + (k : Nat)
              m_sessionTotalRead := s.m_sessionTotalRead + (k : Nat) })) := by
      simp only [Read.serve, hch, Bool.false_eq_true, if_false, hN', if_true, hge,
        MemoryBodyStream.Read, hk, hkneg, hb, Int.toNat_ofNat, hout, hlen]
    rw [hserve]
    by_cases hend : (b : Int) + (k : Nat) = s.m_innerBufferSize
    · simp only [hend, if_true, ← htake]
      refine ⟨k, _, rfl, ?_, by omega, by omega, fun h _ => by omega, ?_, ?_, rfl, rfl⟩
      · rw [hpend]; simp only [List.length_append, List.length_drop]; omega
      · exact ⟨hsz, Or.inl rfl, hsrv, hch, heof⟩
      · have hk2 : k = (s.m_readBuffer.drop b).length := by
          simp only [List.length_drop]; omega
        have hneg2 : ¬ ((0 : Int) ≤ -1) := by decide
        simp only [CurlSession.pending, hneg2, if_false, List.nil_append]
        show s.m_curl.wire = s.pending.drop k
        rw [hpend, hk2, List.drop_left]
    · simp only [hend, if_false, ← htake]
      refine ⟨k, _, rfl, ?_, by omega, by omega, fun h _ => by omega, ?_, ?_, rfl, rfl⟩
      · rw [hpend]; simp only [List.length_append, List.length_drop]; omega
      · exact ⟨hsz, Or.inr ⟨by show (0 : Int) ≤ (b : Int) + (k : Nat); omega,
          by show (b : Int) + (k : Nat) < s.m_innerBufferSize; omega⟩, hsrv, hch, heof⟩
      · have hpos : (0 : Int) ≤ (b : Int) + (k : Nat) := by omega
        have e : ((b : Int) + (k : Nat)).toNat = b + k := by omega
        simp only [CurlSession.pending, hpos, if_true, e]
        show s.m_readBuffer.drop (b + k) ++ s.m_curl.wire = s.pending.drop k
        rw [hpend, List.drop_append_of_le_length (by simp only [List.length_drop]; omega),
          List.drop_drop, Nat.add_comm]

/-- Successive reads with positive counts in content-length mode with a positive declared
length, up to the first one that returns 0: they deliver the pending bytes in order, never
more than what is left of the declared length, at least one byte per read; a read returns 0
only when the declared length is reached or the peer has nothing left. -/
theorem drain_bounded (fuel : Nat) :
    ∀ (counts : List Int) (s : CurlSession),
      BodyInv s → 0 < s.m_contentLength → s.m_sessionTotalRead ≤ s.m_contentLength →
      (∀ c ∈ counts, 0 < c) →
      ∃ (m : Nat) (done : Bool) (s1 : CurlSession),
        s.drain fuel ⟨false⟩ counts = .ok (s.pending.take m, done, s1) ∧
        m ≤ s.pending.length ∧ (m : Int) ≤ s.m_contentLength - s.m_sessionTotalRead ∧
        (done = true →
          (m : Int) = s.m_contentLength - s.m_sessionTotalRead ∨ m = s.pending.length) ∧
        (done = false → counts.length ≤ m) ∧
        BodyInv s1 ∧ s1.pending = s.pending.drop m ∧
        s1.m_contentLength = s.m_contentLength ∧
        s1.m_sessionTotalRead = s.m_sessionTotalRead + (m : Int)
  | [], s, inv, _, ht, _ =>
    ⟨0, false, s, by simp [CurlSession.drain], by omega, by omega, by simp, by simp, inv, by simp,
      rfl, by simp⟩
  | c :: counts, s, inv, hN, ht, hpos => by
    have hc : 0 < c := hpos c (by simp)
    obtain ⟨k, s1, a1, a2, a3, a4, a5, a6, a7, a8, a9⟩ := Read_bounded fuel s c inv hN ht hc
    have hl : (s.pending.take k).length = k := by
      simp only [List.length_take]; omega
    by_cases hk : k = 0
    · subst hk
      refine ⟨0, true, s1, ?_, by omega, by omega, fun _ => ?_, (fun h => by cases h), a6, a7, a8,
        a9⟩
      · simp [CurlSession.drain, a1]
      · by_cases hlt : s.m_sessionTotalRead < s.m_contentLength
        · right
          by_cases hp : s.pending = []
          · simp [hp]
          · have := a5 hlt hp
            omega
        · left; omega
    · obtain ⟨m2, done, s2, b1, b2, b3, b4, b5, b6, b7, b8, b9⟩ :=
        drain_bounded fuel counts s1 a6 (by rw [a8]; exact hN) (by rw [a8, a9]; omega)
          (fun x hx => hpos x (by simp [hx]))
      rw [a7] at b1 b2 b4 b7
      simp only [List.length_drop] at b2 b4
      rw [a8, a9] at b3 b4
      have hne : ¬ ((s.pending.take k).length = 0) := by omega
      refine ⟨k + m2, done, s2, ?_, by omega, by push_cast; omega, fun hd => ?_, fun hd => ?_,
        b6, ?_, by rw [b8, a8], by rw [b9, a9]; push_cast; omega⟩
      · simp only [CurlSession.drain, a1, hne, if_false, b1]
        rw [← List.take_add]
      · rcases b4 hd with h | h
        · left; push_cast; omega
        · right; omega
      · have := b5 hd
        simp only [List.length_cons]
        omega
      · rw [b7, List.drop_drop, Nat.add_comm]

/-- Reading status line and headers from a peer that sends a header block with a
`content-length` header of value `n` (positive, below `2^63`) followed by `body`, however the
bytes are cut, for a request other than HEAD on a session that has delivered nothing yet: with
fuel above the length of the block the call returns, the response is the parsed block, the
declared length is `n`, and the bytes pending are exactly `body`. -/
theorem ReadStatusLineAndHeaders_contentLength (fuel : Nat) (s : CurlSession)
    (block body value : List Nat) (response : RawResponse) (n : Nat)
    (hb : HeaderBytes ResponseBufferParser.new block
      (ResponseBufferParser.completedWith response))
    (hw : s.m_curl.wire = block ++ body) (hs : Serving s.m_curl)
    (hcap : 0 < s.details.c_LibcurlReaderSize) (hfuel : block.length < fuel)
    (hm : s.m_request.method ≠ HttpMethod.Head)
    (hstart : s.m_bodyStartInBuffer = -1) (hch : s.m_isChunkedResponseType = false)
    (heof : s.m_rawResponseEOF = false)
    (hv : findHeader response.GetHeaders (bytes "content-length") = some value)
    (hn : stoull 10 value = .ok n) (hn2 : n < 9223372036854775808) :
    ∃ s1 : CurlSession,
      s.ReadStatusLineAndHeadersFromRawResponse fuel = .ok s1 ∧
      s1.m_response = some response ∧ s1.m_contentLength = (n : Int) ∧
      s1.pending = body ∧ BodyInv s1 ∧ s1.m_sessionTotalRead = s.m_sessionTotalRead := by
  obtain ⟨fill, k, s1, a1, a2, a3, a4, a5, a6, a7, a8⟩ :=
    headerLoop_serving fuel block body ResponseBufferParser.new
      (ResponseBufferParser.completedWith response) s 0 hb hw hs hcap hfuel
  have hm1 : s1.m_request.method ≠ HttpMethod.Head := by rw [a8]; exact hm
  have h64 : toInt64 n = (n : Int) := by
    unfold toInt64
    have : n % 18446744073709551616 = n := Nat.mod_eq_of_lt (by omega)
    rw [this]
    simp [hn2]
  refine ⟨{ s1 with
            m_response := some response
            m_innerBufferSize := (fill.length : Int)
            m_contentLength := (n : Int) }, ?_, rfl, rfl, ?_, ?_, ?_⟩
  · simp only [CurlSession.ReadStatusLineAndHeadersFromRawResponse, a1,
      ReadStatusLineAndHeadersFromRawResponse.mode, hm1, if_false,
      ResponseBufferParser.completedWith, hv, hn, h64]
  · show (if 0 ≤ s1.m_bodyStartInBuffer then s1.m_readBuffer.drop s1.m_bodyStartInBuffer.toNat
        else []) ++ s1.m_curl.wire = body
    rw [a6, a2]
    by_cases hk : k < fill.length
    · have h0 : (0 : Int) ≤ (k : Int) := by omega
      simp only [hk, if_true, h0, Int.toNat_ofNat]
      exact a5
    · have hk2 : k = fill.length := by omega
      have h0 : ¬ ((0 : Int) ≤ s.m_bodyStartInBuffer) := by rw [hstart]; decide
      simp only [hk, if_false, h0, List.nil_append]
      rw [← a5, hk2, List.drop_length, List.nil_append]
  · refine ⟨by show (fill.length : Int) = (s1.m_readBuffer.length : Int); rw [a2], ?_, a7, ?_, ?_⟩
    · show s1.m_bodyStartInBuffer = -1 ∨
        (0 ≤ s1.m_bodyStartInBuffer ∧ s1.m_bodyStartInBuffer < (fill.length : Int))
      rw [a6]
      by_cases hk : k < fill.length
      · right; simp only [hk, if_true]; omega
      · left; simp only [hk, if_false]; exact hstart
    · show s1.m_isChunkedResponseType = false
      rw [a8]; exact hch
    · show s1.m_rawResponseEOF = false
      rw [a8]; exact heof
  · show s1.m_sessionTotalRead = s.m_sessionTotalRead
    rw [a8]

/-- The example header block, seen as bytes of a wire. -/
theorem example_headerBytes :
    HeaderBytes ResponseBufferParser.new
      (headerBlock (bytes "HTTP/1.1 200 OK") [bytes "content-length: 5"])
      (ResponseBufferParser.completedWith exampleResponse) :=
  HeaderBytes_headerBlock (bytes "HTTP/1.1 200 OK") [bytes "content-length: 5"]
    ⟨1, 1, 200, bytes "OK", []⟩ (by decide) (by decide) (by decide)

/-- C2 at the input where the code departs from it: a response with `content-length: 0`
whose delivery holds five more bytes. The session records the declared length 0, and the
first `Read` returns the five bytes that follow the header block instead of nothing. -/
theorem contentLength_zero_serves_leftover :
    firstRead 64 zeroLengthSession 10 = .ok (0, bytes "EXTRA") := by
  decide

/-- C4: when the peer sends `HTTP/1.1 200 OK\r\ncontent-length: 5\r\n\r\nhello`,
cut into deliveries in any way, to a session that has delivered nothing yet and whose request
is not HEAD, reading the status line and headers returns with the response 1.1, 200, `OK`
holding the header line `content-length: 5`, and the declared length 5. Then, for every
sequence of reads with positive counts, the bytes returned up to the first read that returns
0 are a prefix of `hello`, every read before it returns at least one byte, a read returns 0
only after the whole of `hello`, and more than five reads always get there. -/
theorem example_response_reads_hello (fuel : Nat) (s : CurlSession) (counts : List Int)
    (hwire : s.m_curl.wire = bytes "HTTP/1.1 200 OK\r\ncontent-length: 5\r\n\r\nhello")
    (hserving : Serving s.m_curl) (hcap : 0 < s.details.c_LibcurlReaderSize)
    (hmethod : s.m_request.method ≠ HttpMethod.Head)
    (hstart : s.m_bodyStartInBuffer = -1) (hread : s.m_sessionTotalRead = 0)
    (hchunked : s.m_isChunkedResponseType = false) (heof : s.m_rawResponseEOF = false)
    (hfuel : 38 < fuel) (hcounts : ∀ c ∈ counts, 0 < c) :
    ∃ s1 : CurlSession,
      s.ReadStatusLineAndHeadersFromRawResponse fuel = .ok s1 ∧
      s1.m_response = some ⟨1, 1, 200, bytes "OK", [bytes "content-length: 5"]⟩ ∧
      s1.m_contentLength = 5 ∧
      ∃ (m : Nat) (done : Bool) (s2 : CurlSession),
        s1.drain fuel ⟨false⟩ counts = .ok ((bytes "hello").take m, done, s2) ∧
        m ≤ 5 ∧ (done = true → m = 5) ∧ (done = false → counts.length ≤ m) ∧
        (5 < counts.length → done = true) := by
  obtain ⟨s1, a1, a2, a3, a4, a5, a6⟩ :=
    ReadStatusLineAndHeaders_contentLength fuel s
      (headerBlock (bytes "HTTP/1.1 200 OK") [bytes "content-length: 5"]) (bytes "hello")
      (bytes "5") exampleResponse 5 example_headerBytes (by rw [hwire]; decide) hserving hcap
      (by
        have : (headerBlock (bytes "HTTP/1.1 200 OK") [bytes "content-length: 5"]).length = 38 :=
          by decide
        omega)
      hmethod hstart hchunked heof (by decide) (by decide) (by decide)
  rw [hread] at a6
  obtain ⟨m, done, s2, b1, b2, b3, b4, b5, -⟩ :=
    drain_bounded fuel counts s1 a5 (by rw [a3]; decide) (by rw [a3, a6]; decide) hcounts
  rw [a4] at b1 b2 b4
  rw [a3, a6] at b3 b4
  have hl : (bytes "hello").length = 5 := by decide
  rw [hl] at b2 b4
  refine ⟨s1, a1, a2, a3, m, done, s2, b1, by omega, fun h => ?_, b5, fun h => ?_⟩
  · rcases b4 h with h1 | h1 <;> omega
  · cases hd : done
    · have := b5 hd
      omega
    · rfl

/-- An instance of C4: the example response delivered in pieces of 4, 1, 21 and
the rest, read two bytes at a time. -/
theorem example_response_reads_hello_witness :
    ∃ s1 : CurlSession,
      (sessionFor (requestOf .Get "") "HTTP/1.1 200 OK\r\ncontent-length: 5\r\n\r\nhello"
        [3, 0, 20]).ReadStatusLineAndHeadersFromRawResponse 64 = .ok s1 ∧
      s1.m_response = some ⟨1, 1, 200, bytes "OK", [bytes "content-length: 5"]⟩ ∧
      s1.m_contentLength = 5 ∧
      ∃ (m : Nat) (done : Bool) (s2 : CurlSession),
        s1.drain 64 ⟨false⟩ [2, 2, 2, 2, 2, 2] = .ok ((bytes "hello").take m, done, s2) ∧
        m ≤ 5 ∧ (done = true → m = 5) ∧ (done = false → [2, 2, 2, 2, 2, (2 : Int)].length ≤ m) ∧
        (5 < [2, 2, 2, 2, 2, (2 : Int)].length → done = true) :=
  example_response_reads_hello 64
    (sessionFor (requestOf .Get "") "HTTP/1.1 200 OK\r\ncontent-length: 5\r\n\r\nhello"
      [3, 0, 20])
    [2, 2, 2, 2, 2, 2] (by decide) ⟨[3, 0, 20], rfl⟩ (by decide) (by decide) (by decide)
    (by decide) (by decide) (by decide) (by decide) (by decide)

theorem loopTraced_forget (f : List Nat) :
    ∀ (rest : List Nat) (start index : Nat) (q : ResponseBufferParser),
      (Parse.loopTraced f rest start index q).mapError Prod.fst = Parse.loop f rest start index q
  | [], start, index, q => by simp [Parse.loopTraced, Parse.loop, Except.mapError]
  | b :: rest, start, index, q => by
    unfold Parse.loopTraced Parse.loop
    cases hi : Parse.iter f b start index q with
    | error e => simp [Except.mapError]
    | ok r =>
      cases r with
      | ret v q1 => simp [Except.mapError]
      | next start1 q1 => simpa using loopTraced_forget f rest start1 (index + 1) q1

theorem ParseTraced_forget (p : ResponseBufferParser) (f : List Nat) :
    (p.ParseTraced f).mapError Prod.fst = p.Parse f := by
  unfold ResponseBufferParser.ParseTraced ResponseBufferParser.Parse
  by_cases h : p.m_parseCompleted = true
  · simp [h, Except.mapError]
  · simp only [h, if_false]
    exact loopTraced_forget f f 0 0 p

theorem feedTraced_forget (fills : List (List Nat)) :
    ∀ p : ResponseBufferParser, (p.feedTraced fills).mapError Prod.fst = p.feed fills := by
  induction fills with
  | nil => intro p; simp [ResponseBufferParser.feedTraced, ResponseBufferParser.feed, Except.mapError]
  | cons f fills ih =>
    intro p
    unfold ResponseBufferParser.feedTraced ResponseBufferParser.feed
    rw [← ParseTraced_forget]
    cases hq : p.ParseTraced f with
    | error e => simp [Except.mapError]
    | ok r =>
      obtain ⟨v, p1⟩ := r
      simpa [Except.mapError] using ih p1

theorem atThrow_state (f : List Nat) (start index : Nat) (q : ResponseBufferParser) :
    (Parse.atThrow f start index q).state = q.state ∧
      (Parse.atThrow f start index q).m_response = q.m_response := by
  unfold Parse.atThrow
  split <;> exact ⟨rfl, rfl⟩

theorem iter_inv (f : List Nat) (b start index : Nat) (q : ResponseBufferParser)
    (inv : ParserInv q) (hnd : q.m_parseCompleted = false) :
    match Parse.iter f b start index q with
    | .error _ => q.state = .StatusLine ∧ q.m_response = none
    | .ok (.next _ q1) => ParserInv q1 ∧ q1.m_parseCompleted = false
    | .ok (.ret _ q1) => ParserInv q1 ∧ q1.state = .Headers := by
  by_cases h1 : b = CR
  · simp only [Parse.iter, h1, if_true]
    refine ⟨?_, hnd⟩
    rcases inv with h | h
    · exact Or.inl ⟨h.1, h.2.1, hnd⟩
    · exact Or.inr h
  · by_cases h2 : b = LF ∧ q.m_delimiterStartInPrevPosition = true
    · by_cases h3 : q.m_internalBuffer.length > 0
      · by_cases h4 : index > 1
        · rcases inv with ⟨hs, hr, _⟩ | ⟨hs, hr⟩
          · simp only [Parse.iter, h1, if_false, h2, and_self, if_true, h3, h4, hs]
            cases hc : CreateHTTPResponse
                (q.m_internalBuffer ++ slice f start (index - 1)) with
            | error e => exact ⟨trivial, hr⟩
            | ok r => exact ⟨Or.inr ⟨rfl, by simp⟩, hnd⟩
          · obtain ⟨r, hr2⟩ := Option.ne_none_iff_exists'.mp hr
            simp only [Parse.iter, h1, if_false, h2, and_self, if_true, h3, h4, hs,
              ResponseBufferParser.addHeader, hr2]
            exact ⟨Or.inr ⟨rfl, by simp⟩, hnd⟩
        · rcases inv with ⟨hs, hr, _⟩ | ⟨hs, hr⟩
          · simp only [Parse.iter, h1, if_false, h2, and_self, if_true, h3, h4, hs]
            cases hc : CreateHTTPResponse q.m_internalBuffer with
            | error e => exact ⟨trivial, hr⟩
            | ok r => exact ⟨Or.inr ⟨rfl, by simp⟩, hnd⟩
          · obtain ⟨r, hr2⟩ := Option.ne_none_iff_exists'.mp hr
            simp only [Parse.iter, h1, if_false, h2, and_self, if_true, h3, h4, hs,
              ResponseBufferParser.addHeader, hr2]
            exact ⟨Or.inr ⟨rfl, by simp⟩, hnd⟩
      · rcases inv with ⟨hs, hr, _⟩ | ⟨hs, hr⟩
        · simp only [Parse.iter, h1, if_false, h2, and_self, if_true, h3, hs]
          cases hc : CreateHTTPResponse (slice f start (index - 1)) with
          | error e => exact ⟨trivial, hr⟩
          | ok r => exact ⟨Or.inr ⟨rfl, by simp⟩, hnd⟩
        · obtain ⟨r, hr2⟩ := Option.ne_none_iff_exists'.mp hr
          by_cases h5 : index = 0 ∨ index = start + 1
          · simp only [Parse.iter, h1, if_false, h2, and_self, if_true, h3, hs, h5]
            exact ⟨Or.inr ⟨rfl, hr⟩, rfl⟩
          · simp only [Parse.iter, h1, if_false, h2, and_self, if_true, h3, hs, h5,
              ResponseBufferParser.addHeader, hr2]
            exact ⟨Or.inr ⟨rfl, by simp⟩, hnd⟩
    · simp only [Parse.iter, h1, if_false, h2]
      refine ⟨?_, ?_⟩
      · rcases inv with ⟨hs, hr, _⟩ | ⟨hs, hr⟩
        · refine Or.inl ⟨?_, ?_, ?_⟩ <;> split <;> assumption
        · refine Or.inr ⟨?_, ?_⟩ <;> split <;> assumption
      · split <;> exact hnd

theorem loopTraced_inv (f : List Nat) :
    ∀ (rest : List Nat) (start index : Nat) (q : ResponseBufferParser),
      ParserInv q → q.m_parseCompleted = false →
      match Parse.loopTraced f rest start index q with
      | .error (_, q1) => q1.state = .StatusLine ∧ q1.m_response = none
      | .ok (_, q1) => ParserInv q1
  | [], start, index, q, inv, _ => by
    simp only [Parse.loopTraced, Parse.finish]
    split <;> exact inv
  | b :: rest, start, index, q, inv, hnd => by
    have h := iter_inv f b start index q inv hnd
    unfold Parse.loopTraced
    cases hi : Parse.iter f b start index q with
    | error e =>
      rw [hi] at h
      have := atThrow_state f start index q
      exact ⟨this.1.trans h.1, this.2.trans h.2⟩
    | ok r =>
      cases r with
      | ret v q1 => rw [hi] at h; exact h.1
      | next start1 q1 =>
        rw [hi] at h
        exact loopTraced_inv f rest start1 (index + 1) q1 h.1 h.2

theorem ParseTraced_inv (p : ResponseBufferParser) (f : List Nat) (inv : ParserInv p) :
    match p.ParseTraced f with
    | .error (_, q1) => q1.state = .StatusLine ∧ q1.m_response = none
    | .ok (_, q1) => ParserInv q1 := by
  unfold ResponseBufferParser.ParseTraced
  cases h : p.m_parseCompleted with
  | true => exact inv
  | false => exact loopTraced_inv f f 0 0 p inv h

theorem feedTraced_inv (fills : List (List Nat)) :
    ∀ p : ResponseBufferParser, ParserInv p →
      match p.feedTraced fills with
      | .error (_, q1) => q1.state = .StatusLine ∧ q1.m_response = none
      | .ok q1 => ParserInv q1 := by
  induction fills with
  | nil => intro p inv; exact inv
  | cons f fills ih =>
    intro p inv
    have h := ParseTraced_inv p f inv
    unfold ResponseBufferParser.feedTraced
    cases hq : p.ParseTraced f with
    | error e => rw [hq] at h; exact h
    | ok r =>
      obtain ⟨v, p1⟩ := r
      rw [hq] at h
      exact ih p1 h

theorem ParserInv_new : ParserInv ResponseBufferParser.new := Or.inl ⟨rfl, rfl, rfl⟩

/-- The parser invariant seen on `Parse` itself: a call that returns keeps the invariant. -/
theorem Parse_inv (p p1 : ResponseBufferParser) (f : List Nat) (v : Nat) (inv : ParserInv p)
    (h : p.Parse f = .ok (v, p1)) : ParserInv p1 := by
  have h1 := ParseTraced_inv p f inv
  have h2 := ParseTraced_forget p f
  rw [h] at h2
  cases hq : p.ParseTraced f with
  | error e => rw [hq] at h2; simp [Except.mapError] at h2
  | ok r =>
    rw [hq] at h1 h2
    simp only [Except.mapError, Except.ok.injEq] at h2
    rw [h2] at h1
    exact h1

theorem stoi_error_kind (s : List Nat) (e : Error) (h : stoi s = .error e) :
    e = .invalidArgument ∨ e = .outOfRange := by
  unfold stoi at h
  cases hsc : scanNumber 10 s with
  | none =>
    rw [hsc] at h
    simp only [Except.error.injEq] at h
    exact Or.inl h.symm
  | some r =>
    obtain ⟨neg, n⟩ := r
    rw [hsc] at h
    dsimp only at h
    by_cases hr : (if neg = true then -(n : Int) else (n : Int)) < -2147483648 ∨
        2147483647 < (if neg = true then -(n : Int) else (n : Int))
    · rw [if_pos hr] at h
      simp only [Except.error.injEq] at h
      exact Or.inr h.symm
    · rw [if_neg hr] at h
      cases h

theorem CreateHTTPResponse_fields (tag major minor status reason : List Nat)
    (ht : tag.length = 5) (hM : DOT ∉ major) (hm : SP ∉ minor) (hs : SP ∉ status) :
    CreateHTTPResponse (fieldsLine tag major minor status reason) =
      match stoi major with
      | .error e => .error e
      | .ok x =>
        match stoi minor with
        | .error e => .error e
        | .ok y =>
          match stoi status with
          | .error e => .error e
          | .ok z => .ok ⟨toUInt16 x, toUInt16 y, z, reason.takeWhile (· != CR), []⟩ := by
  have h5 : ¬ (fieldsLine tag major minor status reason).length < 5 := by
    simp [fieldsLine, ht]
  have hdrop : (fieldsLine tag major minor status reason).drop 5 =
      major ++ DOT :: (minor ++ SP :: (status ++ SP :: reason)) := by
    have : fieldsLine tag major minor status reason =
        tag ++ (major ++ DOT :: (minor ++ SP :: (status ++ SP :: reason))) := by
      simp [fieldsLine]
    rw [this, ← ht, List.drop_left]
  have nM : ∀ x ∈ major, x ≠ DOT := fun x hx h => hM (h ▸ hx)
  have nm : ∀ x ∈ minor, x ≠ SP := fun x hx h => hm (h ▸ hx)
  have ns : ∀ x ∈ status, x ≠ SP := fun x hx h => hs (h ▸ hx)
  unfold CreateHTTPResponse
  rw [if_neg h5]
  simp only [hdrop, takeWhile_sep _ _ _ nM, dropWhile_sep _ _ _ nM, takeWhile_sep _ _ _ nm,
    dropWhile_sep _ _ _ nm, takeWhile_sep _ _ _ ns, dropWhile_sep _ _ _ ns]

/-- A status line that `CreateHTTPResponse` rejects makes `Parse` fail with the same error,
however the bytes are cut into fills. -/
theorem feed_rejected_statusLine (line rest : List Nat) (fills : List (List Nat)) (e : Error)
    (hcr : CR ∉ line) (he : CreateHTTPResponse line = .error e)
    (hcut : fills.flatten = line ++ CR :: LF :: rest) :
    ResponseBufferParser.new.feed fills = .error e := by
  have h := run_statusLine line hcr rest
  have hg : PendingCRMeetsLF ResponseBufferParser.new (line ++ CR :: LF :: rest) :=
    h.2 (fun r hr => by rw [he] at hr; cases hr)
  rw [feed_eq_runBytes fills _ (by rw [hcut]; exact hg), hcut, h.1, he]

/-- C11 fails as stated: the line `XXXXX1.1 200 OK` does not start with `HTTP/`, and
`CreateHTTPResponse` returns the response 1.1, 200, `OK` for it; `Parse` stores that response
and moves on to the headers. -/
theorem statusLine_tag_not_checked :
    (bytes "XXXXX1.1 200 OK").take 5 ≠ bytes "HTTP/" ∧
      CreateHTTPResponse (bytes "XXXXX1.1 200 OK") = .ok ⟨1, 1, 200, bytes "OK", []⟩ ∧
      ResponseBufferParser.new.feed [bytes "XXXXX1.1 200 OK\r\n"] =
        .ok ⟨.Headers, false, false, [], some ⟨1, 1, 200, bytes "OK", []⟩⟩ := by
  decide

/-- C11 (amended): for a finalized status line made of any five bytes, a major field up to the
first `.`, a minor field up to the next space, a status field up to the next space and a
reason phrase, `CreateHTTPResponse` returns a response exactly when `std::stoi` converts each
of the three fields, and the response then carries the three numbers; otherwise it throws
`std::invalid_argument` or `std::out_of_range`, and for every cut of the wire into fills the
exception leaves `Parse`, so that no response object is produced. -/
theorem statusLine_accepted_iff_fields_convert (tag major minor status reason rest : List Nat)
    (fills : List (List Nat)) (htag : tag.length = 5) (hM : DOT ∉ major) (hm : SP ∉ minor)
    (hs : SP ∉ status) :
    ((∃ r, CreateHTTPResponse (fieldsLine tag major minor status reason) = .ok r) ↔
        ∃ x y z, stoi major = .ok x ∧ stoi minor = .ok y ∧ stoi status = .ok z) ∧
      (∀ x y z, stoi major = .ok x → stoi minor = .ok y → stoi status = .ok z →
        CreateHTTPResponse (fieldsLine tag major minor status reason) =
          .ok ⟨toUInt16 x, toUInt16 y, z, reason.takeWhile (· != CR), []⟩) ∧
      (∀ e, CreateHTTPResponse (fieldsLine tag major minor status reason) = .error e →
        (e = .invalidArgument ∨ e = .outOfRange) ∧
          (CR ∉ fieldsLine tag major minor status reason →
            fills.flatten = fieldsLine tag major minor status reason ++ CR :: LF :: rest →
            ResponseBufferParser.new.feed fills = .error e)) := by
  have h := CreateHTTPResponse_fields tag major minor status reason htag hM hm hs
  refine ⟨?_, ?_, ?_⟩
  · rw [h]
    cases hx : stoi major with
    | error e => simp
    | ok x =>
      cases hy : stoi minor with
      | error e => simp
      | ok y =>
        cases hz : stoi status with
        | error e => simp
        | ok z => simp
  · intro x y z hx hy hz
    rw [h, hx, hy, hz]
  · intro e he
    refine ⟨?_, fun hcr hcut => feed_rejected_statusLine _ rest fills e hcr he hcut⟩
    rw [h] at he
    cases hx : stoi major with
    | error e1 =>
      rw [hx] at he
      simp only [Except.error.injEq] at he
      exact stoi_error_kind major e (he ▸ hx)
    | ok x =>
      rw [hx] at he
      cases hy : stoi minor with
      | error e1 =>
        rw [hy] at he
        simp only [Except.error.injEq] at he
        exact stoi_error_kind minor e (he ▸ hy)
      | ok y =>
        rw [hy] at he
        cases hz : stoi status with
        | error e1 =>
          rw [hz] at he
          simp only [Except.error.injEq] at he
          exact stoi_error_kind status e (he ▸ hz)
        | ok z =>
          rw [hz] at he
          cases he

/-- An instance of C11 (amended): the status line `HTTP/x.1 200 OK`, cut inside the status
code and behind the CR, makes `Parse` fail with `std::invalid_argument`. -/
theorem statusLine_accepted_iff_fields_convert_witness :
    ResponseBufferParser.new.feed
        [bytes "HTTP/x.1 2", bytes "00 OK\r", bytes "\nHost: a\r\n\r\n"] =
      .error .invalidArgument :=
  ((statusLine_accepted_iff_fields_convert (bytes "HTTP/") (bytes "x") (bytes "1")
      (bytes "200") (bytes "OK") (bytes "Host: a\r\n\r\n")
      [bytes "HTTP/x.1 2", bytes "00 OK\r", bytes "\nHost: a\r\n\r\n"]
      (by decide) (by decide) (by decide) (by decide)).2.2 .invalidArgument (by decide)).2
    (by decide) (by decide)

/-- C12 fails as stated: the major-version field `1x` is not a decimal number, and
`CreateHTTPResponse` returns a response with major version 1 for `HTTP/1x.1 200 OK`. -/
theorem statusLine_field_with_trailing_text :
    ¬ (∀ d ∈ bytes "1x", isDecimalDigit d) ∧
      CreateHTTPResponse (statusLineText (bytes "1x") (bytes "1") (bytes "200") (bytes "OK")) =
        .ok ⟨1, 1, 200, bytes "OK", []⟩ := by
  decide

/-- C12 (amended): when `std::stoi` cannot convert the major-version, the minor-version or the
status-code field of a status line (the field has no decimal digit after optional white space
and an optional sign, or its number does not fit `int`), `CreateHTTPResponse` fails with
`std::invalid_argument` or `std::out_of_range` instead of returning a response, and for every
cut of the wire into fills the failure leaves `Parse`; the parser it leaves behind is still in
state `StatusLine` and holds no response. -/
theorem statusLine_conversion_failure_propagates (major minor status reason rest : List Nat)
    (fills : List (List Nat)) (hM : DOT ∉ major) (hm : SP ∉ minor) (hs : SP ∉ status)
    (hcr : CR ∉ statusLineText major minor status reason)
    (hfail : (∃ e, stoi major = .error e) ∨ (∃ e, stoi minor = .error e) ∨
      ∃ e, stoi status = .error e)
    (hcut : fills.flatten = statusLineText major minor status reason ++ CR :: LF :: rest) :
    ∃ (e : Error) (p1 : ResponseBufferParser),
      (e = .invalidArgument ∨ e = .outOfRange) ∧
        CreateHTTPResponse (statusLineText major minor status reason) = .error e ∧
        ResponseBufferParser.new.feed fills = .error e ∧
        ResponseBufferParser.new.feedTraced fills = .error (e, p1) ∧
        p1.state = .StatusLine ∧ p1.m_response = none := by
  have h := CreateHTTPResponse_fields (bytes "HTTP/") major minor status reason (by decide)
    hM hm hs
  have hline : fieldsLine (bytes "HTTP/") major minor status reason =
      statusLineText major minor status reason := rfl
  rw [hline] at h
  have hex : ∃ e, CreateHTTPResponse (statusLineText major minor status reason) = .error e ∧
      (e = .invalidArgument ∨ e = .outOfRange) := by
    rw [h]
    cases hx : stoi major with
    | error e => exact ⟨e, rfl, stoi_error_kind major e hx⟩
    | ok x =>
      cases hy : stoi minor with
      | error e => exact ⟨e, rfl, stoi_error_kind minor e hy⟩
      | ok y =>
        cases hz : stoi status with
        | error e => exact ⟨e, rfl, stoi_error_kind status e hz⟩
        | ok z =>
          rcases hfail with ⟨e, he⟩ | ⟨e, he⟩ | ⟨e, he⟩
          · rw [hx] at he; cases he
          · rw [hy] at he; cases he
          · rw [hz] at he; cases he
  obtain ⟨e, he, hk⟩ := hex
  have hfeed := feed_rejected_statusLine _ rest fills e hcr he hcut
  have hforget := feedTraced_forget fills ResponseBufferParser.new
  have hinv := feedTraced_inv fills ResponseBufferParser.new ParserInv_new
  rw [hfeed] at hforget
  cases hq : ResponseBufferParser.new.feedTraced fills with
  | ok p => rw [hq] at hforget; simp [Except.mapError] at hforget
  | error ep =>
    obtain ⟨e1, p1⟩ := ep
    rw [hq] at hforget hinv
    simp only [Except.mapError, Except.error.injEq] at hforget
    subst hforget
    exact ⟨e1, p1, hk, he, hfeed, rfl, hinv.1, hinv.2⟩

/-- An instance of C12 (amended): the status line `HTTP/1.1 abc OK`, whose status code holds no
digit, cut inside the status code. -/
theorem statusLine_conversion_failure_propagates_witness :
    ∃ (e : Error) (p1 : ResponseBufferParser),
      (e = .invalidArgument ∨ e = .outOfRange) ∧
        CreateHTTPResponse
            (statusLineText (bytes "1") (bytes "1") (bytes "abc") (bytes "OK")) = .error e ∧
        ResponseBufferParser.new.feed [bytes "HTTP/1.1 a", bytes "bc OK\r\n\r\n"] = .error e ∧
        ResponseBufferParser.new.feedTraced [bytes "HTTP/1.1 a", bytes "bc OK\r\n\r\n"] =
          .error (e, p1) ∧
        p1.state = .StatusLine ∧ p1.m_response = none :=
  statusLine_conversion_failure_propagates (bytes "1") (bytes "1") (bytes "abc") (bytes "OK")
    (bytes "\r\n") [bytes "HTTP/1.1 a", bytes "bc OK\r\n\r\n"] (by decide) (by decide)
    (by decide) (by decide) (Or.inr (Or.inr ⟨.invalidArgument, by decide⟩)) (by decide)

theorem toInt64_small (n : Nat) (h : n < 9223372036854775808) : toInt64 n = (n : Int) := by
  unfold toInt64
  have : n % 18446744073709551616 = n := Nat.mod_eq_of_lt (by omega)
  rw [this]
  simp [h]

theorem refill_mode (s s1 : CurlSession) (h : s.refill = .ok s1) : SameMode s s1 := by
  unfold CurlSession.refill at h
  split at h
  · cases h
  · cases h
    exact ⟨rfl, rfl, rfl, rfl⟩

theorem poll_mode :
    ∀ (fuel : Nat) (text : List Nat) (s s1 : CurlSession),
      ParseChunkSize.poll fuel text s = .ok s1 → SameMode s s1
  | 0, _, _, _, h => by simp [ParseChunkSize.poll] at h
  | fuel + 1, text, s, s1, h => by
    unfold ParseChunkSize.poll at h
    split at h
    · cases h
    · split at h
      · split at h
        · cases h
        · dsimp only at h
          split at h
          · split at h
            · cases h
            · rename_i s2 hr
              cases h
              have h1 := refill_mode _ _ hr
              exact ⟨h1.1, h1.2.1, h1.2.2.1, h1.2.2.2⟩
          · cases h
            exact ⟨rfl, rfl, rfl, rfl⟩
      · split at h
        · cases h
        · rename_i s2 hr
          have h1 := refill_mode _ _ hr
          have h2 := poll_mode fuel _ _ s1 h
          exact ⟨h2.1.trans h1.1, h2.2.1.trans h1.2.1, h2.2.2.1.trans h1.2.2.1,
            h2.2.2.2.trans h1.2.2.2⟩

/-- C14: for every session and a context that is not cancelled, `Read` called with
`count <= 0` returns 0, that is no byte, and the session it leaves is the session it was given,
field by field and socket included; this holds in chunked mode with an exhausted chunk as in
every other state. -/
theorem Read_nonpositive_count (fuel : Nat) (context : Context) (s : CurlSession) (count : Int)
    (hcontext : context.cancelled = false) (hcount : count ≤ 0) :
    s.Read fuel context count = .ok ([], s) := by
  simp [CurlSession.Read, hcontext, hcount]

/-- An instance of C14: a session in chunked mode whose chunk is exhausted, read with count 0
and with count -3. -/
theorem Read_nonpositive_count_witness :
    chunkExhaustedSession.m_isChunkedResponseType = true ∧
      chunkExhaustedSession.m_chunkSize = 0 ∧
      chunkExhaustedSession.Read 4 ⟨false⟩ 0 = .ok ([], chunkExhaustedSession) ∧
      chunkExhaustedSession.Read 4 ⟨false⟩ (-3) = .ok ([], chunkExhaustedSession) :=
  ⟨by decide, by decide,
    Read_nonpositive_count 4 ⟨false⟩ chunkExhaustedSession 0 rfl (by decide),
    Read_nonpositive_count 4 ⟨false⟩ chunkExhaustedSession (-3) rfl (by decide)⟩

/-- C15: when the context is cancelled, `Read` fails with the cancellation error for every
session, every count (positive or not) and every fuel: the test is the first statement of
`Read`, so the outcome depends neither on the session nor on the socket, and no other failure
(a transport error, a chunk size that cannot be parsed) can come first. The call hands back no
session: the caller is left with the one it passed. -/
theorem Read_cancelled (fuel : Nat) (s : CurlSession) (count : Int) :
    s.Read fuel ⟨true⟩ count = .error .operationCancelled := by
  simp [CurlSession.Read]

/-- What the attempts of a successful `SendBuffer` look like: attempt `k` is handed the buffer
without the bytes accepted by the attempts before it, and the accepted pieces make up the
buffer. -/
theorem sendAttempts_ok :
    ∀ (script : List SocketEvent) (buffer : List Nat) (s s1 : CurlSession),
      sendLoop script buffer s = .ok (CURLE_OK, s1) →
      (∀ (k : Nat) (a : SendAttempt), (sendAttempts script buffer)[k]? = some a →
          a.offered =
            buffer.drop (((sendAttempts script buffer).take k).map (fun x => x.accepted)).sum) ∧
        ((sendAttempts script buffer).map (fun x => x.accepted)).sum = buffer.length ∧
        ((sendAttempts script buffer).map (fun x => x.offered.take x.accepted)).flatten = buffer
  | script, [], s, s1, _ => by
    cases script <;> simp [sendAttempts]
  | [], b :: rest, s, s1, _ => by
    refine ⟨fun k a hk => ?_, by simp [sendAttempts], by simp [sendAttempts]⟩
    cases k with
    | zero =>
      simp only [sendAttempts, List.getElem?_cons_zero, Option.some.injEq] at hk
      subst hk
      simp
    | succ k => simp [sendAttempts] at hk
  | e :: script, b :: rest, s, s1, h => by
    unfold sendLoop at h
    by_cases h1 : e.code = CURLE_OK
    · simp only [h1, if_true] at h
      obtain ⟨i1, i2, i3⟩ := sendAttempts_ok script _ _ s1 h
      have hat : sendAttempts (e :: script) (b :: rest) =
          ⟨b :: rest, ((b :: rest).take e.limit).length⟩ ::
            sendAttempts script ((b :: rest).drop e.limit) := by
        simp [sendAttempts, h1]
      rw [hat]
      refine ⟨fun k a hk => ?_, ?_, ?_⟩
      · cases k with
        | zero =>
          simp only [List.getElem?_cons_zero, Option.some.injEq] at hk
          subst hk
          simp
        | succ k =>
          simp only [List.getElem?_cons_succ] at hk
          have hi := i1 k a hk
          -- the rest of the buffer is not empty, so the limit was taken in full
          have hne : (b :: rest).drop e.limit ≠ [] := by
            intro hnil
            rw [hnil] at hk
            cases script <;> simp [sendAttempts] at hk
          have hlt : e.limit < (b :: rest).length := by
            by_contra hge
            exact hne (List.drop_of_length_le (by omega))
          have hlen : ((b :: rest).take e.limit).length = e.limit := by
            rw [List.length_take]; omega
          rw [hi, List.drop_drop]
          simp only [List.take_succ_cons, List.map_cons, List.sum_cons, hlen]
      · simp only [List.map_cons, List.sum_cons, i2]
        have := congrArg List.length (List.take_append_drop e.limit (b :: rest))
        simp only [List.length_append] at this
        exact this
      · simp only [List.map_cons, List.flatten_cons, i3]
        rw [List.length_take, take_min_length, List.take_append_drop]
    · simp only [h1, if_false] at h
      by_cases h2 : e.code = CURLE_AGAIN
      · simp only [h2, if_true] at h
        by_cases h3 : e.select = 0
        · simp [WaitForSocketReady, h3] at h
        · have h4 : ¬ ((WaitForSocketReady s.m_curl 0 60000 e.select).1 = 0) := h3
          simp only [h4, if_false] at h
          obtain ⟨i1, i2, i3⟩ := sendAttempts_ok script _ _ s1 h
          have hat : sendAttempts (e :: script) (b :: rest) =
              ⟨b :: rest, 0⟩ :: sendAttempts script (b :: rest) := by
            simp [sendAttempts, h1, h2, h3]
          rw [hat]
          refine ⟨fun k a hk => ?_, ?_, ?_⟩
          · cases k with
            | zero =>
              simp only [List.getElem?_cons_zero, Option.some.injEq] at hk
              subst hk
              simp
            | succ k =>
              simp only [List.getElem?_cons_succ] at hk
              have hi := i1 k a hk
              rw [hi]
              simp
          · simpa using i2
          · simpa using i3
      · simp only [h2, if_false, Except.ok.injEq, Prod.mk.injEq] at h
        exact absurd h.1 h1

/-- C16: whenever `SendBuffer` returns success for a buffer, every call of `curl_easy_send` it
made was handed exactly the bytes of the buffer not accepted by the calls before it, the byte
counts the primitive reported sum to the length of the buffer, and the bytes accepted, in
order, are the bytes of the buffer: they are what the peer has received in addition, and the
upload counter has grown by their number. For an empty buffer `SendBuffer` returns success
without calling the primitive and leaves the session as it was. -/
theorem SendBuffer_success_sends_all (s s1 : CurlSession) (buffer : List Nat)
    (h : s.SendBuffer buffer = .ok (CURLE_OK, s1)) :
    (∀ (k : Nat) (a : SendAttempt), (sendAttempts s.m_curl.sendScript buffer)[k]? = some a →
        a.offered =
          buffer.drop
            (((sendAttempts s.m_curl.sendScript buffer).take k).map (fun x => x.accepted)).sum) ∧
      ((sendAttempts s.m_curl.sendScript buffer).map (fun x => x.accepted)).sum =
        buffer.length ∧
      ((sendAttempts s.m_curl.sendScript buffer).map
        (fun x => x.offered.take x.accepted)).flatten = buffer ∧
      s1.m_curl.sent = s.m_curl.sent ++ buffer ∧
      s1.m_uploadedBytes = s.m_uploadedBytes + (buffer.length : Nat) ∧
      (buffer = [] → sendAttempts s.m_curl.sendScript buffer = [] ∧ s1 = s) := by
  unfold CurlSession.SendBuffer at h
  obtain ⟨a1, a2, a3⟩ := sendAttempts_ok _ _ _ _ h
  obtain ⟨b1, b2, _⟩ := sendLoop_ok _ _ _ _ h
  refine ⟨a1, a2, a3, b1, b2, fun hb => ?_⟩
  subst hb
  constructor
  · cases s.m_curl.sendScript <;> rfl
  · cases hs : s.m_curl.sendScript <;> rw [hs] at h <;>
      simp only [sendLoop, Except.ok.injEq, Prod.mk.injEq, true_and] at h <;> exact h.symm

/-- An instance of C16: eleven bytes sent through a socket that takes four bytes, then reports
would-block, then takes two bytes, then everything. -/
theorem SendBuffer_success_sends_all_witness :
    sendAttempts [⟨CURLE_OK, 4, 0⟩, ⟨CURLE_AGAIN, 0, 1⟩, ⟨CURLE_OK, 2, 0⟩] (bytes "GET / HTTP") =
        [⟨bytes "GET / HTTP", 4⟩, ⟨bytes "/ HTTP", 0⟩, ⟨bytes "/ HTTP", 2⟩, ⟨bytes "HTTP", 4⟩] ∧
      (sessionOfResult wouldBlockSession
        (CurlSession.SendBuffer
          { wouldBlockSession with
            m_curl := { wouldBlockSession.m_curl with
              sendScript := [⟨CURLE_OK, 4, 0⟩, ⟨CURLE_AGAIN, 0, 1⟩, ⟨CURLE_OK, 2, 0⟩] } }
          (bytes "GET / HTTP"))).m_curl.sent = [] ++ bytes "GET / HTTP" :=
  ⟨by decide,
    (SendBuffer_success_sends_all
      { wouldBlockSession with
        m_curl := { wouldBlockSession.m_curl with
          sendScript := [⟨CURLE_OK, 4, 0⟩, ⟨CURLE_AGAIN, 0, 1⟩, ⟨CURLE_OK, 2, 0⟩] } }
      (sessionOfResult wouldBlockSession
        (CurlSession.SendBuffer
          { wouldBlockSession with
            m_curl := { wouldBlockSession.m_curl with
              sendScript := [⟨CURLE_OK, 4, 0⟩, ⟨CURLE_AGAIN, 0, 1⟩, ⟨CURLE_OK, 2, 0⟩] } }
          (bytes "GET / HTTP")))
      (bytes "GET / HTTP") (by decide)).2.2.2.1⟩

/-- C17 at the input where the code departs from it: every send attempt reports would-block
and the readiness wait times out. `SendBuffer` stops after the first wait, but through a bare
`throw;` with no exception in flight, which ends the program (`std::terminate`); it does not
raise `TransportException`. -/
theorem SendBuffer_timeout_terminates :
    wouldBlockSession.SendBuffer (bytes "GET / HTTP/1.1\r\n\r\n") = .error .terminate ∧
      wouldBlockSession.SendBuffer (bytes "GET / HTTP/1.1\r\n\r\n") ≠
        .error .transportException := by
  decide

/-- C18 at the input where the code departs from it: the primitive reports would-block and
the readiness wait returns -1. `ReadSocketToBuffer` receives again and returns the three bytes
of the peer, and `SendBuffer` sends again and returns success, each after one wait. -/
theorem negative_readiness_is_retried :
    ReadSocketToBuffer readinessErrorCurl 10 =
        .ok (bytes "abc",
          { readinessErrorCurl with wire := [], recvScript := [], waits := [(0, 60000)] }) ∧
      (CurlSession.new ⟨1024, 65536⟩ (requestOf .Get "") readinessErrorCurl).SendBuffer
          (bytes "GET") =
        .ok (CURLE_OK,
          { CurlSession.new ⟨1024, 65536⟩ (requestOf .Get "") readinessErrorCurl with
            m_curl :=
              { readinessErrorCurl with
                sendScript := [], sent := bytes "GET", waits := [(0, 60000)] }
            m_uploadedBytes := 3 }) := by
  decide

/-- What `sendLoop` does with a run of answers that do not finish the buffer, followed by an
answer that is neither `CURLE_OK` nor `CURLE_AGAIN`. -/
theorem sendLoop_other_failure :
    ∀ (answers : List SocketEvent) (buffer : List Nat) (s : CurlSession) (e : SocketEvent)
      (rest : List SocketEvent),
      (∀ a ∈ answers, a.code = CURLE_OK ∨ (a.code = CURLE_AGAIN ∧ a.select ≠ 0)) →
      sentBy answers < buffer.length → e.code ≠ CURLE_OK → e.code ≠ CURLE_AGAIN →
      ∃ s1 : CurlSession,
        sendLoop (answers ++ e :: rest) buffer s = .ok (e.code, s1) ∧
          s1.m_curl.sendScript = rest ∧
          s1.m_curl.waits = s.m_curl.waits ++ waitsOf answers ∧
          s1.m_curl.sent = s.m_curl.sent ++ buffer.take (sentBy answers) ∧
          s1.m_uploadedBytes = s.m_uploadedBytes + (sentBy answers : Nat) ∧
          s1.m_request = s.m_request
  | [], buffer, s, e, rest, _, hlt, h1, h2 => by
    obtain ⟨b, tail, rfl⟩ := List.exists_cons_of_ne_nil
      (List.ne_nil_of_length_pos (by omega : 0 < buffer.length))
    refine ⟨{ s with m_curl := { s.m_curl with sendScript := rest } },
      by simp [sendLoop, h1, h2], rfl, by simp [waitsOf], by simp [sentBy],
      by simp [sentBy], rfl⟩
  | a :: answers, buffer, s, e, rest, hall, hlt, h1, h2 => by
    obtain ⟨b, tail, rfl⟩ := List.exists_cons_of_ne_nil
      (List.ne_nil_of_length_pos (by omega : 0 < buffer.length))
    have ha := hall a (by simp)
    have hall2 : ∀ x ∈ answers, x.code = CURLE_OK ∨ (x.code = CURLE_AGAIN ∧ x.select ≠ 0) :=
      fun x hx => hall x (by simp [hx])
    rcases ha with hok | ⟨hag, hsel⟩
    · have hs : sentBy (a :: answers) = a.limit + sentBy answers := by
        simp [sentBy, hok]
      have hw : waitsOf (a :: answers) = waitsOf answers := by
        have : ¬ (a.code = CURLE_AGAIN) := by rw [hok]; decide
        simp [waitsOf, this]
      rw [hs] at hlt
      have hlen : ((b :: tail).take a.limit).length = a.limit := by
        rw [List.length_take]; omega
      obtain ⟨s1, r1, r2, r3, r4, r5, r6⟩ :=
        sendLoop_other_failure answers ((b :: tail).drop a.limit)
          { s with
            m_curl := { s.m_curl with
              sent := s.m_curl.sent ++ (b :: tail).take a.limit, sendScript := answers ++ e :: rest }
            m_uploadedBytes := s.m_uploadedBytes + (((b :: tail).take a.limit).length : Nat) }
          e rest hall2 (by rw [List.length_drop]; omega) h1 h2
      refine ⟨s1, ?_, r2, ?_, ?_, ?_, r6⟩
      · rw [← r1]
        simp only [List.cons_append, sendLoop, hok, if_true]
        rfl
      · rw [r3, hw]
      · rw [r4, hs, List.append_assoc, take_take_drop]
      · rw [r5, hs, hlen]
        push_cast
        omega
    · have hnok : ¬ (a.code = CURLE_OK) := by rw [hag]; decide
      have hs : sentBy (a :: answers) = sentBy answers := by
        simp [sentBy, hnok]
      have hw : waitsOf (a :: answers) = (0, 60000) :: waitsOf answers := by
        simp [waitsOf, hag]
      rw [hs] at hlt
      obtain ⟨s1, r1, r2, r3, r4, r5, r6⟩ :=
        sendLoop_other_failure answers (b :: tail)
          { s with
            m_curl := { (WaitForSocketReady s.m_curl 0 60000 a.select).2 with
              sendScript := answers ++ e :: rest } }
          e rest hall2 hlt h1 h2
      refine ⟨s1, ?_, r2, ?_, ?_, ?_, r6⟩
      · rw [← r1]
        have h4 : ¬ ((WaitForSocketReady s.m_curl 0 60000 a.select).1 = 0) := hsel
        have hne : ¬ ((CURLE_AGAIN : CURLcode) = CURLE_OK) := by decide
        simp only [List.cons_append, sendLoop, hag, hne, if_true, if_false, h4]
        try rfl
      · rw [r3, hw]
        simp [WaitForSocketReady]
      · rw [r4, hs]
        simp [WaitForSocketReady]
      · rw [r5, hs]

/-- C19: when a send attempt of `SendBuffer` reports a result other than success or
would-block, after any run of attempts that were accepted in part or answered would-block with
the socket then ready, `SendBuffer` returns that same result: the answers after it are left
for later calls (no further send attempt), no readiness wait is made beyond those of the
would-block answers before it, and the bytes accepted before it stay sent and counted. -/
theorem SendBuffer_other_failure (s : CurlSession) (buffer : List Nat)
    (answers : List SocketEvent) (e : SocketEvent) (rest : List SocketEvent)
    (hscript : s.m_curl.sendScript = answers ++ e :: rest)
    (hanswers : ∀ a ∈ answers, a.code = CURLE_OK ∨ (a.code = CURLE_AGAIN ∧ a.select ≠ 0))
    (hpart : sentBy answers < buffer.length)
    (hok : e.code ≠ CURLE_OK) (hagain : e.code ≠ CURLE_AGAIN) :
    ∃ s1 : CurlSession,
      s.SendBuffer buffer = .ok (e.code, s1) ∧
        s1.m_curl.sendScript = rest ∧
        s1.m_curl.waits = s.m_curl.waits ++ waitsOf answers ∧
        s1.m_curl.sent = s.m_curl.sent ++ buffer.take (sentBy answers) ∧
        s1.m_uploadedBytes = s.m_uploadedBytes + (sentBy answers : Nat) := by
  obtain ⟨s1, r1, r2, r3, r4, r5, _⟩ :=
    sendLoop_other_failure answers buffer s e rest hanswers hpart hok hagain
  refine ⟨s1, ?_, r2, r3, r4, r5⟩
  unfold CurlSession.SendBuffer
  rw [hscript]
  exact r1

/-- An instance of C19: four of ten bytes are accepted, then the primitive reports code 55
(`CURLE_SEND_ERROR`); the answer after it stays unused and no wait is made. -/
theorem SendBuffer_other_failure_witness :
    ∃ s1 : CurlSession,
      CurlSession.SendBuffer
          { wouldBlockSession with
            m_curl := { wouldBlockSession.m_curl with
              sendScript := [⟨CURLE_OK, 4, 0⟩, ⟨55, 0, 0⟩, ⟨CURLE_OK, 9, 0⟩] } }
          (bytes "GET / HTTP") = .ok (55, s1) ∧
        s1.m_curl.sendScript = [⟨CURLE_OK, 9, 0⟩] ∧
        s1.m_curl.waits = [] ++ waitsOf [⟨CURLE_OK, 4, 0⟩] ∧
        s1.m_curl.sent = [] ++ (bytes "GET / HTTP").take (sentBy [⟨CURLE_OK, 4, 0⟩]) ∧
        s1.m_uploadedBytes = 0 + (sentBy [⟨CURLE_OK, 4, 0⟩] : Nat) :=
  SendBuffer_other_failure
    { wouldBlockSession with
      m_curl := { wouldBlockSession.m_curl with
        sendScript := [⟨CURLE_OK, 4, 0⟩, ⟨55, 0, 0⟩, ⟨CURLE_OK, 9, 0⟩] } }
    (bytes "GET / HTTP") [⟨CURLE_OK, 4, 0⟩] ⟨55, 0, 0⟩ [⟨CURLE_OK, 9, 0⟩] rfl (by decide)
    (by decide) (by decide) (by decide)

theorem headerLoop_inv :
    ∀ (fuel : Nat) (parser : ResponseBufferParser) (bufferSize : Int) (s : CurlSession)
      (R : ResponseBufferParser × Int × CurlSession),
      ParserInv parser →
      ReadStatusLineAndHeadersFromRawResponse.loop fuel parser bufferSize s = .ok R →
      ParserInv R.1 ∧ R.1.m_parseCompleted = true
  | 0, _, _, _, _, _, h => by simp [ReadStatusLineAndHeadersFromRawResponse.loop] at h
  | fuel + 1, parser, bufferSize, s, R, inv, h => by
    unfold ReadStatusLineAndHeadersFromRawResponse.loop at h
    by_cases hc : parser.IsParseCompleted = true
    · simp only [hc, if_true, Except.ok.injEq] at h
      subst h
      exact ⟨inv, hc⟩
    · simp only [hc, if_false] at h
      cases hr : ReadSocketToBuffer s.m_curl s.details.c_LibcurlReaderSize with
      | error e => simp [hr] at h
      | ok fc =>
        obtain ⟨fill, c⟩ := fc
        simp only [hr] at h
        cases hq : parser.Parse fill with
        | error e => simp [hq] at h
        | ok vp =>
          obtain ⟨v, p1⟩ := vp
          simp only [hq] at h
          exact headerLoop_inv fuel p1 _ _ R (Parse_inv parser p1 fill v inv hq) h

theorem mode_response (fuel : Nat) (s s1 : CurlSession)
    (h : ReadStatusLineAndHeadersFromRawResponse.mode fuel s = .ok s1) :
    s1.m_response = s.m_response := by
  unfold ReadStatusLineAndHeadersFromRawResponse.mode at h
  split at h
  · cases h; rfl
  · split at h
    · cases h
    · dsimp only at h
      split at h
      · split at h
        · cases h
        · cases h; rfl
      · split at h
        · split at h
          · split at h
            · split at h
              · cases h
              · rename_i s3 hr
                have a := refill_mode _ _ hr
                have b := poll_mode fuel [] _ s1 h
                exact b.2.2.1.trans a.2.2.1
            · have b := poll_mode fuel [] _ s1 h
              exact b.2.2.1
          · cases h; rfl
        · cases h; rfl

/-- A header read that returns leaves a response in the session. -/
theorem ReadStatusLineAndHeaders_response (fuel : Nat) (s s1 : CurlSession)
    (h : s.ReadStatusLineAndHeadersFromRawResponse fuel = .ok s1) : s1.m_response ≠ none := by
  unfold CurlSession.ReadStatusLineAndHeadersFromRawResponse at h
  split at h
  · cases h
  · rename_i parser bufferSize s2 hl
    have hi := headerLoop_inv _ _ _ _ _ ParserInv_new hl
    rw [mode_response _ _ _ h]
    rcases hi.1 with ⟨_, _, hn⟩ | ⟨_, hr⟩
    · rw [hi.2] at hn; cases hn
    · exact hr

/-- When `Perform` returns `CURLE_OK`, the session holds a response. -/
theorem Perform_ok_response (fuel : Nat) (s s1 : CurlSession)
    (h : s.Perform fuel = .ok (CURLE_OK, s1)) : s1.m_response ≠ none := by
  unfold CurlSession.Perform at h
  cases h1 : Perform.sendAndReadHeaders fuel s with
  | error e => rw [h1] at h; cases h
  | ok r1 =>
    obtain ⟨result, s2⟩ := r1
    rw [h1] at h
    dsimp only at h
    by_cases hres : result = CURLE_OK
    · subst hres
      simp only [ne_eq, not_true_eq_false, if_false] at h
      -- the first header read returned
      have hread : s2.m_response ≠ none := by
        unfold Perform.sendAndReadHeaders at h1
        dsimp only at h1
        split at h1
        · rename_i hp
          simp only [Except.ok.injEq] at h1
          rw [h1] at hp
          exact absurd rfl hp
        · split at h1
          · cases h1
          · rename_i result2 s3 hs
            split at h1
            · rename_i hne
              simp only [Except.ok.injEq, Prod.mk.injEq] at h1
              exact absurd h1.1 hne
            · split at h1
              · cases h1
              · rename_i s4 hrd
                simp only [Except.ok.injEq, Prod.mk.injEq] at h1
                rw [← h1.2]
                exact ReadStatusLineAndHeaders_response _ _ _ hrd
      unfold Perform.upload at h
      split at h
      · simp only [Except.ok.injEq, Prod.mk.injEq, true_and] at h
        rw [← h]; exact hread
      · split at h
        · cases h
        · split at h
          · simp only [Except.ok.injEq, Prod.mk.injEq, true_and] at h
            rw [← h]; exact hread
          · split at h
            · cases h
            · rename_i result1 s5 hu
              split at h
              · rename_i hne
                simp only [Except.ok.injEq, Prod.mk.injEq] at h
                exact absurd h.1 hne
              · split at h
                · cases h
                · rename_i s6 hrd
                  simp only [Except.ok.injEq, Prod.mk.injEq] at h
                  rw [← h.2]
                  exact ReadStatusLineAndHeaders_response _ _ _ hrd
    · rw [if_pos hres] at h
      simp only [Except.ok.injEq, Prod.mk.injEq] at h
      exact absurd h.1 hres

/-- C20 fails as stated: the request is sent, the first receive reports would-block and the
readiness wait times out. `Perform` throws `TransportException` from `ReadSocketToBuffer` and
returns no code at all, and `Send` raises `TransportException`. -/
theorem Send_transport_error_without_code :
    (CurlSession.new ⟨1024, 65536⟩ (requestOf .Get "") silentCurl).Perform 8 =
        .error .transportException ∧
      CurlTransport.Send 8 ⟨1024, 65536⟩ silentCurl ⟨false⟩ (requestOf .Get "") =
        .error .transportException := by
  decide

/-- C20 (amended): when `Perform` returns a code, `Send` raises
`CouldNotResolveHostException` exactly when the code is `CURLE_COULDNT_RESOLVE_HOST`, raises
`TransportException` exactly when it is any other code than `CURLE_OK`, and for `CURLE_OK`
returns the response of the session, which is present, with the session, its response moved
out, as the body stream. When `Perform` throws, `Send` lets the exception through
unchanged. -/
theorem Send_outcome (fuel : Nat) (details : Details) (curl : Curl) (context : Context)
    (request : Request) :
    (∀ (performing : CURLcode) (session : CurlSession),
        (CurlSession.new details request curl).Perform fuel = .ok (performing, session) →
        (CurlTransport.Send fuel details curl context request = .error .couldNotResolveHost ↔
            performing = CURLE_COULDNT_RESOLVE_HOST) ∧
          (CurlTransport.Send fuel details curl context request = .error .transportException ↔
            (performing ≠ CURLE_OK ∧ performing ≠ CURLE_COULDNT_RESOLVE_HOST)) ∧
          (performing = CURLE_OK →
            ∃ response : RawResponse, session.m_response = some response ∧
              CurlTransport.Send fuel details curl context request =
                .ok (response, { session with m_response := none }))) ∧
      (∀ e : Error, (CurlSession.new details request curl).Perform fuel = .error e →
        CurlTransport.Send fuel details curl context request = .error e) := by
  refine ⟨fun performing session hp => ?_, fun e he => ?_⟩
  · by_cases h0 : performing = CURLE_OK
    · subst h0
      obtain ⟨response, hr⟩ := Option.ne_none_iff_exists'.mp (Perform_ok_response _ _ _ hp)
      have hsend : CurlTransport.Send fuel details curl context request =
          .ok (response, { session with m_response := none }) := by
        simp [CurlTransport.Send, hp, hr]
      refine ⟨?_, ?_, fun _ => ⟨response, hr, hsend⟩⟩
      · rw [hsend]
        constructor
        · intro h; cases h
        · intro h; exact absurd h (by decide)
      · rw [hsend]
        constructor
        · intro h; cases h
        · intro h; exact absurd rfl h.1
    · by_cases h6 : performing = CURLE_COULDNT_RESOLVE_HOST
      · have hsend : CurlTransport.Send fuel details curl context request =
            .error .couldNotResolveHost := by
          simp [CurlTransport.Send, hp, h0, h6]
        refine ⟨?_, ?_, fun h => absurd h h0⟩
        · rw [hsend]; exact ⟨fun _ => h6, fun _ => rfl⟩
        · rw [hsend]
          constructor
          · intro h; cases h
          · intro h; exact absurd h6 h.2
      · have hsend : CurlTransport.Send fuel details curl context request =
            .error .transportException := by
          simp [CurlTransport.Send, hp, h0, h6]
        refine ⟨?_, ?_, fun h => absurd h h0⟩
        · rw [hsend]
          constructor
          · intro h; cases h
          · intro h; exact absurd h h6
        · rw [hsend]; exact ⟨fun _ => ⟨h0, h6⟩, fun _ => rfl⟩
  · simp [CurlTransport.Send, he]

/-- An instance of C20 (amended): the host cannot be resolved, `Perform` returns code 6 and
`Send` raises `CouldNotResolveHostException`. -/
theorem Send_outcome_witness :
    CurlTransport.Send 8 ⟨1024, 65536⟩ unresolvedCurl ⟨false⟩ (requestOf .Get "") =
      .error .couldNotResolveHost :=
  (((Send_outcome 8 ⟨1024, 65536⟩ unresolvedCurl ⟨false⟩ (requestOf .Get "")).1
    CURLE_COULDNT_RESOLVE_HOST
    (sessionOfResult exampleSession
      ((CurlSession.new ⟨1024, 65536⟩ (requestOf .Get "") unresolvedCurl).Perform 8))
    (by decide)).1).2 rfl

theorem AddHeader_absent (r : Request) (name value : String)
    (h : (r.findHeader name).isNone = true) :
    (r.AddHeader name value).headers = r.headers ++ [(name, value)] := by
  have hany : r.headers.any (fun x => decide (x.1 = name)) = false := by
    unfold Request.findHeader at h
    cases hf : r.headers.find? (fun x => decide (x.1 = name)) with
    | some x => simp [hf] at h
    | none =>
      rw [List.find?_eq_none] at hf
      rw [List.any_eq_false]
      exact hf
  simp [Request.AddHeader, hany]

theorem defaultHeaders_headers (r : Request) :
    (Perform.defaultHeaders r).headers =
      r.headers ++
        (if (r.findHeader "Host").isNone then [("Host", r.host)] else []) ++
        (if (r.findHeader "content-length").isNone then
          [("content-length", toString r.bodyStream.Length)] else []) := by
  unfold Perform.defaultHeaders
  dsimp only
  by_cases h1 : (r.findHeader "Host").isNone = true
  · by_cases h2 : (r.findHeader "content-length").isNone = true
    · simp only [if_pos h1, if_pos h2]
      have hb := (AddHeader_frame r "Host" r.host).2.1
      have h3 : ((r.AddHeader "Host" r.host).findHeader "content-length").isNone = true := by
        unfold Request.findHeader at h2 ⊢
        rw [AddHeader_absent r "Host" r.host h1]
        cases hf : r.headers.find? (fun x => decide (x.1 = "content-length")) with
        | some x => simp [hf] at h2
        | none =>
          have : (r.headers ++ [("Host", r.host)]).find?
              (fun x => decide (x.1 = "content-length")) = none := by
            rw [List.find?_eq_none] at hf ⊢
            intro x hx
            rcases List.mem_append.mp hx with hx | hx
            · exact hf x hx
            · simp only [List.mem_singleton] at hx
              subst hx
              simp
          simp [this]
      rw [AddHeader_absent _ _ _ h3, AddHeader_absent r "Host" r.host h1, hb]
    · simp only [if_pos h1, if_neg h2]
      rw [AddHeader_absent r "Host" r.host h1]
      simp
  · by_cases h2 : (r.findHeader "content-length").isNone = true
    · simp only [if_neg h1, if_pos h2]
      rw [AddHeader_absent r _ _ h2]
      simp
    · simp only [if_neg h1, if_neg h2]
      simp

/-- The block under `Make sure host is set` for keys in the spelling of the code: when the
set-up calls of `Perform` succeed, the request that is serialized afterwards
carries the headers of the original request, untouched and in place, followed by `Host` with
the request's host when the original had no entry under the key `Host`, and by
`content-length` with the decimal text of the body stream's `Length()` when it had no entry
under the key `content-length`; an entry already present under one of these keys is neither
changed nor doubled. For PUT the request then gets `expect: 100-continue`; nothing else is
done to it. Presence is what `headers.find` tests: an entry under exactly that key. -/
theorem Perform_default_headers (s s0 : CurlSession)
    (h : Perform.prepare s = (CURLE_OK, s0)) :
    (Perform.defaultHeaders s.m_request).headers =
        s.m_request.headers ++
          (if (s.m_request.findHeader "Host").isNone then [("Host", s.m_request.host)]
            else []) ++
          (if (s.m_request.findHeader "content-length").isNone then
            [("content-length", toString s.m_request.bodyStream.Length)] else []) ∧
      s0.m_request =
        (if s.m_request.method = HttpMethod.Put then
          (Perform.defaultHeaders s.m_request).AddHeader "expect" "100-continue"
        else Perform.defaultHeaders s.m_request) := by
  refine ⟨defaultHeaders_headers s.m_request, ?_⟩
  rw [prepare_ok s s0 h]

/-- An instance of `Perform_default_headers`: a GET request that brings its own `Host` header gets `content-length`
only, and one without headers gets both. -/
theorem Perform_default_headers_witness :
    ((Perform.defaultHeaders
          (emptyBodySession .Get [("Host", "alias.example")]).m_request).headers =
        [("Host", "alias.example")] ++
          (if ((emptyBodySession .Get [("Host", "alias.example")]).m_request.findHeader
              "Host").isNone then [("Host", "h.example")] else []) ++
          (if ((emptyBodySession .Get [("Host", "alias.example")]).m_request.findHeader
              "content-length").isNone then
            [("content-length", toString (0 : Int))] else []) ∧
      (Perform.prepare (emptyBodySession .Get [("Host", "alias.example")])).2.m_request =
        (if HttpMethod.Get = HttpMethod.Put then
          (Perform.defaultHeaders
            (emptyBodySession .Get [("Host", "alias.example")]).m_request).AddHeader
            "expect" "100-continue"
        else
          Perform.defaultHeaders (emptyBodySession .Get [("Host", "alias.example")]).m_request)) ∧
      (Perform.defaultHeaders
          (emptyBodySession .Get [("Host", "alias.example")]).m_request).headers =
        [("Host", "alias.example"), ("content-length", "0")] ∧
      (Perform.defaultHeaders (emptyBodySession .Get []).m_request).headers =
        [("Host", "h.example"), ("content-length", "0")] :=
  ⟨Perform_default_headers (emptyBodySession .Get [("Host", "alias.example")])
      (Perform.prepare (emptyBodySession .Get [("Host", "alias.example")])).2 (by decide),
    by decide, by decide⟩

theorem sendLoop_accepting :
    ∀ (script : List SocketEvent) (buffer : List Nat) (s : CurlSession),
      (∀ e ∈ script, e.code = CURLE_OK) → Accepting s.m_curl →
      ∃ s1 : CurlSession,
        sendLoop script buffer s = .ok (CURLE_OK, s1) ∧ Accepting s1.m_curl ∧
          s1.m_curl.waits = s.m_curl.waits
  | script, [], s, _, hs => by
    refine ⟨s, ?_, hs, rfl⟩
    cases script <;> simp [sendLoop]
  | [], b :: rest, s, _, _ => by
    refine ⟨{ s with
        m_curl := { s.m_curl with sent := s.m_curl.sent ++ (b :: rest), sendScript := [] }
        m_uploadedBytes := s.m_uploadedBytes + ((b :: rest).length : Nat) },
      by simp [sendLoop], ?_, rfl⟩
    intro e he
    exact absurd he (List.not_mem_nil e)
  | e :: script, b :: rest, s, hall, _ => by
    have he : e.code = CURLE_OK := hall e (by simp)
    have hall2 : ∀ x ∈ script, x.code = CURLE_OK := fun x hx => hall x (by simp [hx])
    obtain ⟨s1, r1, r2, r3⟩ := sendLoop_accepting script ((b :: rest).drop e.limit)
      { s with
        m_curl := { s.m_curl with
          sent := s.m_curl.sent ++ (b :: rest).take e.limit, sendScript := script }
        m_uploadedBytes := s.m_uploadedBytes + (((b :: rest).take e.limit).length : Nat) }
      hall2 hall2
    refine ⟨s1, ?_, r2, r3⟩
    rw [← r1]
    simp only [sendLoop, he, if_true]

theorem SendBuffer_accepting (s : CurlSession) (buffer : List Nat) (hacc : Accepting s.m_curl) :
    ∃ s1 : CurlSession,
      s.SendBuffer buffer = .ok (CURLE_OK, s1) ∧ Accepting s1.m_curl ∧
        s1.m_curl.waits = s.m_curl.waits ∧
        s1.m_curl.sent = s.m_curl.sent ++ buffer ∧
        s1.m_uploadedBytes = s.m_uploadedBytes + (buffer.length : Nat) ∧
        s1.m_request = s.m_request ∧ s1.details = s.details := by
  obtain ⟨s1, r1, r2, r3⟩ := sendLoop_accepting s.m_curl.sendScript buffer s hacc hacc
  obtain ⟨a1, a2, a3, a4, _, _⟩ := sendLoop_ok _ _ _ _ r1
  exact ⟨s1, r1, r2, r3, a1, a2, a3, a4⟩

/-- C22 fails as stated: for a PUT request with an empty body `HttpRawSend` sends the request
line and the headers and no marker byte; and when the server then answers `100 Continue`,
`Perform` runs `UploadBody`, which sets the upload counter back to 0 and sends nothing. -/
theorem put_empty_body_sends_no_marker :
    (emptyBodySession .Put []).m_request.bodyStream.Length = 0 ∧
      (emptyBodySession .Put []).HttpRawSend 4 =
        .ok (CURLE_OK,
          { emptyBodySession .Put [] with
            m_curl := { (emptyBodySession .Put []).m_curl with
              sent := (emptyBodySession .Put []).m_request.GetHTTPMessagePreBody }
            m_uploadedBytes := 19 }) ∧
      (sessionOfResult (emptyBodySession .Put [])
        (CurlSession.Perform 8
          { emptyBodySession .Put [] with
            m_curl := Curl.serving
              (bytes "HTTP/1.1 100 Continue\r\n\r\nHTTP/1.1 201 Created\r\n\r\n") [24] })).m_curl.sent =
        bytes "PUT /p HTTP/1.1\r\nHost: h.example\r\ncontent-length: 0\r\nexpect: 100-continue\r\n\r\n" ∧
      (sessionOfResult (emptyBodySession .Put [])
        (CurlSession.Perform 8
          { emptyBodySession .Put [] with
            m_curl := Curl.serving
              (bytes "HTTP/1.1 100 Continue\r\n\r\nHTTP/1.1 201 Created\r\n\r\n") [24] })).m_uploadedBytes =
        0 := by
  decide

/-- C22 (amended): for a request whose body stream has length 0, on a socket that takes what
it is given: when the method is not PUT (POST included), `HttpRawSend` sends the request line
and headers followed by exactly one marker byte, the byte 0, and does not run `UploadBody`
(the result does not depend on the fuel, the body stream is not read and the upload counter
is not set back); when the method is PUT it sends the request line and headers only. -/
theorem HttpRawSend_empty_body (fuel : Nat) (s : CurlSession)
    (hlen : s.m_request.bodyStream.Length = 0) (hacc : Accepting s.m_curl) :
    (s.m_request.method ≠ HttpMethod.Put →
        ∃ s1 : CurlSession,
          s.HttpRawSend fuel = .ok (CURLE_OK, s1) ∧ s.HttpRawSend 0 = .ok (CURLE_OK, s1) ∧
            s1.m_curl.sent = s.m_curl.sent ++ s.m_request.GetHTTPMessagePreBody ++ [0] ∧
            s1.m_uploadedBytes =
              s.m_uploadedBytes + (s.m_request.GetHTTPMessagePreBody.length : Nat) + 1 ∧
            s1.m_request = s.m_request) ∧
      (s.m_request.method = HttpMethod.Put →
        ∃ s1 : CurlSession,
          s.HttpRawSend fuel = .ok (CURLE_OK, s1) ∧
            s1.m_curl.sent = s.m_curl.sent ++ s.m_request.GetHTTPMessagePreBody ∧
            s1.m_uploadedBytes =
              s.m_uploadedBytes + (s.m_request.GetHTTPMessagePreBody.length : Nat) ∧
            s1.m_request = s.m_request) := by
  obtain ⟨s1, a1, a2, _, a4, a5, a6, _⟩ :=
    SendBuffer_accepting s s.m_request.GetHTTPMessagePreBody hacc
  constructor
  · intro hm
    obtain ⟨s2, b1, _, _, b4, b5, b6, _⟩ := SendBuffer_accepting s1 [0] a2
    have hm1 : ¬ (s1.m_request.method = HttpMethod.Put) := by rw [a6]; exact hm
    have hl1 : s1.m_request.bodyStream.Length = 0 := by rw [a6]; exact hlen
    have hraw : ∀ f, s.HttpRawSend f = .ok (CURLE_OK, s2) := by
      intro f
      simp only [CurlSession.HttpRawSend, a1, ne_eq, not_true_eq_false, hm1, or_self, if_false,
        hl1, if_true, b1]
    refine ⟨s2, hraw fuel, hraw 0, ?_, ?_, ?_⟩
    · rw [b4, a4]
    · rw [b5, a5]
      simp
    · rw [b6, a6]
  · intro hm
    have hm1 : s1.m_request.method = HttpMethod.Put := by rw [a6]; exact hm
    refine ⟨s1, ?_, a4, a5, a6⟩
    simp only [CurlSession.HttpRawSend, a1, ne_eq, not_true_eq_false, hm1, or_true, if_true]

/-- An instance of C22 (amended): a POST request with an empty body. -/
theorem HttpRawSend_empty_body_witness :
    ∃ s1 : CurlSession,
      (emptyBodySession .Post []).HttpRawSend 4 = .ok (CURLE_OK, s1) ∧
        (emptyBodySession .Post []).HttpRawSend 0 = .ok (CURLE_OK, s1) ∧
        s1.m_curl.sent =
          (emptyBodySession .Post []).m_curl.sent ++
            (emptyBodySession .Post []).m_request.GetHTTPMessagePreBody ++ [0] ∧
        s1.m_uploadedBytes =
          (emptyBodySession .Post []).m_uploadedBytes +
            ((emptyBodySession .Post []).m_request.GetHTTPMessagePreBody.length : Nat) + 1 ∧
        s1.m_request = (emptyBodySession .Post []).m_request :=
  (HttpRawSend_empty_body 4 (emptyBodySession .Post []) (by decide)
    (fun e he => absurd he (List.not_mem_nil e))).1 (by decide)

/-- C23 at the inputs where the code departs from it: the first fill ends right after the CR
of the chunk-size line `4 CR LF`, or right after its hex digit. `ParseChunkSize` counts the
bytes of each fill from 0 and accepts an LF only from the third byte of a fill on, so it
passes the LF of the size line, which is the first or second byte of the second fill, and
stops at the LF that ends the chunk data: the chunk size is 4, but the offset is left behind
`Wiki CR LF` (7 or 8 instead of 1 or 2), and the first `Read` of four bytes returns
`0 CR LF CR` instead of `Wiki`. -/
theorem chunkSize_line_split_misparsed :
    (sessionOf (splitSizeLineSession 48)
        ((splitSizeLineSession 48).ReadStatusLineAndHeadersFromRawResponse 8)).m_readBuffer =
        bytes "\nWiki\r\n0\r\n\r\n" ∧
      (sessionOf (splitSizeLineSession 48)
        ((splitSizeLineSession 48).ReadStatusLineAndHeadersFromRawResponse 8)).m_chunkSize = 4 ∧
      (sessionOf (splitSizeLineSession 48)
        ((splitSizeLineSession 48).ReadStatusLineAndHeadersFromRawResponse 8)).m_bodyStartInBuffer
        = 7 ∧
      firstRead 8 (splitSizeLineSession 48) 4 = .ok (-1, bytes "0\r\n\r") ∧
      (sessionOf (splitSizeLineSession 47)
        ((splitSizeLineSession 47).ReadStatusLineAndHeadersFromRawResponse 8)).m_readBuffer =
        bytes "\r\nWiki\r\n0\r\n\r\n" ∧
      (sessionOf (splitSizeLineSession 47)
        ((splitSizeLineSession 47).ReadStatusLineAndHeadersFromRawResponse 8)).m_bodyStartInBuffer
        = 8 ∧
      firstRead 8 (splitSizeLineSession 47) 4 = .ok (-1, bytes "0\r\n\r") := by
  decide

/-- On a closed connection with nothing left in the buffer `ParseChunkSize` polls the socket
without end: every receive returns no byte, and no fuel is enough. -/
theorem poll_closed :
    ∀ (fuel : Nat) (text : List Nat) (s : CurlSession),
      s.m_curl.wire = [] → s.m_curl.recvScript = [] → 0 ≤ s.m_bodyStartInBuffer →
      slice s.m_readBuffer s.m_bodyStartInBuffer.toNat s.m_innerBufferSize.toNat = [] →
      ParseChunkSize.poll fuel text s = .error .outOfFuel
  | 0, _, _, _, _, _, _ => rfl
  | fuel + 1, text, s, hw, hr, hb, hs => by
    have hb2 : ¬ (s.m_bodyStartInBuffer < 0) := by omega
    have hrefill : s.refill =
        .ok { s with
              m_curl := { s.m_curl with wire := [], recvScript := [] }
              m_readBuffer := []
              m_innerBufferSize := 0 } := by
      have hcap : ¬ ((s.details.c_LibcurlReaderSize : Int) < 0) := by omega
      simp [CurlSession.refill, ReadSocketToBuffer, hcap, hr, recvLoop, hw]
    simp only [ParseChunkSize.poll, hb2, if_false, hs, ParseChunkSize.scan, hrefill]
    exact poll_closed fuel text _ rfl rfl (by simp) (by simp [slice])

/-- A `Read` that finds the chunk exhausted, skips two bytes and then has neither buffered
bytes nor a peer that sends any: it never returns. -/
theorem Read_polls_closed (fuel : Nat) (s s2 : CurlSession) (count : Int) (hcount : 0 < count)
    (hch : s.m_isChunkedResponseType = true) (hz : s.m_chunkSize = 0)
    (hskip : Read.skipCRLF 2 s = .ok s2) (hw : s2.m_curl.wire = [])
    (hr : s2.m_curl.recvScript = []) (hb : 0 ≤ s2.m_bodyStartInBuffer)
    (hs : slice s2.m_readBuffer s2.m_bodyStartInBuffer.toNat s2.m_innerBufferSize.toNat = []) :
    s.Read fuel ⟨false⟩ count = .error .outOfFuel := by
  have hpoll := poll_closed fuel [] s2 hw hr hb hs
  have hc : ¬ (count ≤ 0) := by omega
  simp only [CurlSession.Read, Bool.false_eq_true, if_false, hc, hch, hz, and_self, if_true,
    hskip, CurlSession.ParseChunkSize, hpoll]

/-- C25 at the input where the code departs from it: a chunked response whose first
chunk-size line is `0 CR LF`. After the header read the chunk size is 0, and the first `Read`
with a positive count takes that for an exhausted chunk: it skips two bytes and calls
`ParseChunkSize` again, which reads the socket. When the peer has closed the connection the
call never returns (no fuel is enough); when the peer stays silent it ends with
`TransportException`. It does not return 0. -/
theorem empty_chunked_body_never_ends :
    (sessionOf emptyChunkedSession
        (emptyChunkedSession.ReadStatusLineAndHeadersFromRawResponse 8)).m_chunkSize = 0 ∧
      (∀ fuel : Nat,
        (sessionOf emptyChunkedSession
            (emptyChunkedSession.ReadStatusLineAndHeadersFromRawResponse 8)).Read
          fuel ⟨false⟩ 10 = .error .outOfFuel) ∧
      (sessionOf emptyChunkedSilentSession
          (emptyChunkedSilentSession.ReadStatusLineAndHeadersFromRawResponse 8)).Read
        8 ⟨false⟩ 10 = .error .transportException :=
  ⟨by decide,
    fun fuel =>
      Read_polls_closed fuel
        (sessionOf emptyChunkedSession
          (emptyChunkedSession.ReadStatusLineAndHeadersFromRawResponse 8))
        (sessionOf emptyChunkedSession
          (Read.skipCRLF 2
            (sessionOf emptyChunkedSession
              (emptyChunkedSession.ReadStatusLineAndHeadersFromRawResponse 8))))
        10 (by decide) (by decide) (by decide) (by decide) (by decide) (by decide) (by decide)
        (by decide),
    by decide⟩

theorem digitValue_hex (d : Nat) (h : isHexDigit d) : digitValue 16 d = some (hexDigitValue d) := by
  unfold isHexDigit at h
  unfold digitValue hexDigitValue
  rcases h with ⟨h1, h2⟩ | ⟨h1, h2⟩ | ⟨h1, h2⟩
  · have h3 : d - 48 < 16 := by omega
    simp [h1, h2, h3]
  · have a1 : ¬ (d ≤ 57) := by omega
    have a2 : d ≤ 122 := by omega
    have h3 : d - 97 + 10 < 16 := by omega
    have h4 : d - 97 + 10 = d - 87 := by omega
    have h5 : d - 87 < 16 := by omega
    simp [a1, h1, a2, h4, h5]
  · have a1 : ¬ (d ≤ 57) := by omega
    have a2 : ¬ (97 ≤ d) := by omega
    have a3 : d ≤ 90 := by omega
    have h3 : d - 65 + 10 < 16 := by omega
    have h4 : d - 65 + 10 = d - 55 := by omega
    have h5 : d - 55 < 16 := by omega
    simp [a1, a2, h1, a3, h4, h5]

theorem readDigits_hex (ds : List Nat) (h : ∀ d ∈ ds, isHexDigit d) (tail : List Nat)
    (ht : ∀ t ∈ tail.head?, ¬ isHexDigit t) (hnum : ∀ t ∈ tail.head?, digitValue 16 t = none)
    (acc : Nat) :
    readDigits 16 (ds ++ tail) acc =
      (ds.foldl (fun acc d => acc * 16 + hexDigitValue d) acc, ds.length) := by
  induction ds generalizing acc with
  | nil =>
    cases tail with
    | nil => simp [readDigits]
    | cons t tl =>
      have := hnum t (by simp)
      simp [readDigits, this]
  | cons d ds ih =>
    have hd := digitValue_hex d (h d (by simp))
    simp [readDigits, hd, ih (fun x hx => h x (by simp [hx]))]

theorem scan_line (t : List Nat) (ht : LF ∉ t) :
    ∀ (rest : List Nat) (index i : Nat) (text : List Nat), 1 < i + t.length →
      ParseChunkSize.scan (t ++ LF :: rest) index i text =
        .found (index + t.length) (text ++ t ++ [LF]) := by
  induction t with
  | nil =>
    intro rest index i text hi
    have : i > 1 := by simpa using hi
    simp [ParseChunkSize.scan, this]
  | cons b t ih =>
    intro rest index i text hi
    have hb : b ≠ LF := fun h => ht (by simp [h])
    have ht2 : LF ∉ t := fun h => ht (by simp [h])
    have hlen : (b :: t).length = t.length + 1 := rfl
    have := ih ht2 rest (index + 1) (i + 1) (text ++ [b]) (by rw [hlen] at hi; omega)
    rw [List.cons_append, ParseChunkSize.scan, if_neg (by simp [hb]), this, hlen]
    have e1 : index + 1 + t.length = index + (t.length + 1) := by omega
    rw [e1]
    simp

theorem stripHexPrefix_noop (z x : Nat) (r : List Nat) (hx : x ≠ 120 ∧ x ≠ 88) :
    stripHexPrefix 16 (z :: x :: r) = z :: x :: r := by
  cases r with
  | nil => simp [stripHexPrefix]
  | cons d r =>
    have : ¬ (x = 120 ∨ x = 88) := by omega
    simp [stripHexPrefix, this]

/-- What `std::stoull(text, nullptr, 16)` reads from a run of hexadecimal digits followed by a
byte that is neither a hexadecimal digit nor `x`. -/
theorem stoull_hex (h : List Nat) (t0 : Nat) (tl : List Nat) (hne : h ≠ [])
    (hhex : ∀ d ∈ h, isHexDigit d) (ht0 : ¬ isHexDigit t0) (hx : t0 ≠ 120 ∧ t0 ≠ 88)
    (hnum : digitValue 16 t0 = none) (hv : hexValue h ≤ 18446744073709551615) :
    stoull 16 (h ++ t0 :: tl) = .ok (hexValue h) := by
  obtain ⟨d, rest, rfl⟩ := List.exists_cons_of_ne_nil hne
  have hd : isHexDigit d := hhex d (by simp)
  have hsp : isSpace d = false := by
    unfold isHexDigit at hd
    simp [isSpace]; omega
  have hsign : stripSign (d :: rest ++ t0 :: tl) = (false, d :: rest ++ t0 :: tl) := by
    unfold isHexDigit at hd
    have a : d ≠ 45 := by omega
    have b : d ≠ 43 := by omega
    simp [stripSign, a, b]
  have hpre : stripHexPrefix 16 (d :: rest ++ t0 :: tl) = d :: rest ++ t0 :: tl := by
    cases rest with
    | nil => exact stripHexPrefix_noop d t0 tl hx
    | cons y r =>
      have hy : isHexDigit y := hhex y (by simp)
      unfold isHexDigit at hy
      exact stripHexPrefix_noop d y (r ++ t0 :: tl) (by omega)
  have hr := readDigits_hex (d :: rest) hhex (t0 :: tl) (by simpa using ht0)
    (by simpa using hnum) 0
  have hdw : (d :: rest ++ t0 :: tl).dropWhile isSpace = d :: rest ++ t0 :: tl := by
    simp [List.dropWhile, hsp]
  have hv2 : ¬ (18446744073709551615 < hexValue (d :: rest)) := by omega
  have hsc : scanNumber 16 (d :: rest ++ t0 :: tl) = some (false, hexValue (d :: rest)) := by
    simp only [scanNumber, hdw, hsign, hpre, hr, hexValue]
    simp
  simp only [stoull, hsc, hv2, if_false, Bool.false_eq_true]

/-- The first round of `ParseChunkSize` on a chunk-size line that lies whole in the buffer:
the LF found, the number read, and the test whether the LF is the last buffered byte. -/
theorem poll_hex_line (fuel : Nat) (s : CurlSession) (b : Nat) (h ext rest : List Nat)
    (hstart : s.m_bodyStartInBuffer = (b : Int))
    (hsize : s.m_innerBufferSize = ((b + (h ++ ext ++ CR :: LF :: rest).length : Nat) : Int))
    (hline : slice s.m_readBuffer b (b + (h ++ ext ++ CR :: LF :: rest).length) =
      h ++ ext ++ CR :: LF :: rest)
    (hne : h ≠ []) (hhex : ∀ d ∈ h, isHexDigit d)
    (hext : ext = [] ∨ ∃ e, ext = 59 :: e) (hlf : LF ∉ ext)
    (hval : hexValue h ≤ 18446744073709551615) :
    ParseChunkSize.poll (fuel + 1) [] s =
      (if rest = [] then
        (match CurlSession.refill { s with m_chunkSize := toInt64 (hexValue h) } with
          | .error e => .error e
          | .ok s2 => .ok { s2 with m_bodyStartInBuffer := 0 })
      else
        .ok { s with
              m_chunkSize := toInt64 (hexValue h)
              m_bodyStartInBuffer := ((b + h.length + ext.length + 2 : Nat) : Int) }) := by
  have hb : ¬ (s.m_bodyStartInBuffer < 0) := by rw [hstart]; omega
  have hlfh : LF ∉ h := fun hm => by
    have := hhex LF hm
    unfold isHexDigit at this
    revert this
    decide
  have hlft : LF ∉ h ++ ext ++ [CR] := by
    intro hm
    simp only [List.mem_append, List.mem_singleton] at hm
    rcases hm with (hm | hm) | hm
    · exact hlfh hm
    · exact hlf hm
    · exact absurd hm (by decide)
  have hsplit : h ++ ext ++ CR :: LF :: rest = (h ++ ext ++ [CR]) ++ LF :: rest := by simp
  have hlen1 : 0 < h.length := List.length_pos.mpr hne
  have hscan := scan_line (h ++ ext ++ [CR]) hlft rest b 0 []
    (by simp only [List.length_append, List.length_singleton]; omega)
  have htext : [] ++ (h ++ ext ++ [CR]) ++ [LF] = h ++ (ext ++ [CR, LF]) := by simp
  have hnum : stoull 16 (h ++ (ext ++ [CR, LF])) = .ok (hexValue h) := by
    rcases hext with he | ⟨e, he⟩
    · subst he
      exact stoull_hex h CR [LF] hne hhex (by decide) (by decide) (by decide) hval
    · subst he
      exact stoull_hex h 59 (e ++ [CR, LF]) hne hhex (by decide) (by decide) (by decide) hval
  have hidx : ((b + (h ++ ext ++ [CR]).length : Nat) : Int) + 1 = s.m_innerBufferSize ↔
      rest = [] := by
    rw [hsize]
    simp only [List.length_append, List.length_cons, List.length_singleton, List.length_nil]
    constructor
    · intro hh
      have : rest.length = 0 := by omega
      exact List.length_eq_zero.mp this
    · intro hh
      subst hh
      simp only [List.length_nil]
      omega
  have hslice : slice s.m_readBuffer s.m_bodyStartInBuffer.toNat s.m_innerBufferSize.toNat =
      (h ++ ext ++ [CR]) ++ LF :: rest := by
    rw [hstart, hsize, Int.toNat_ofNat, Int.toNat_ofNat, hline, hsplit]
  have hscan2 : ParseChunkSize.scan ((h ++ ext ++ [CR]) ++ LF :: rest)
      s.m_bodyStartInBuffer.toNat 0 [] =
      .found (b + (h ++ ext ++ [CR]).length) (h ++ (ext ++ [CR, LF])) := by
    rw [hstart, Int.toNat_ofNat, hscan, htext]
  unfold ParseChunkSize.poll
  rw [if_neg hb, hslice, hscan2]
  simp only [hnum]
  by_cases hr : rest = []
  · have hi := hidx.mpr hr
    rw [if_pos hi, if_pos hr]
  · have hi : ¬ (((b + (h ++ ext ++ [CR]).length : Nat) : Int) + 1 = s.m_innerBufferSize) :=
      fun hh => hr (hidx.mp hh)
    rw [if_neg hi, if_neg hr]
    have e2 : ((b + (h ++ ext ++ [CR]).length : Nat) : Int) + 1 =
        ((b + h.length + ext.length + 2 : Nat) : Int) := by
      simp only [List.length_append, List.length_singleton]
      push_cast
      omega
    rw [e2]

/-- C24 fails as stated: the chunk-size line `8000000000000000 CR LF` is a run of sixteen
hexadecimal digits with the value `2^63`, and `ParseChunkSize` sets the chunk size to `-2^63`,
because the `unsigned long long` that `std::stoull` returns is converted to `int64_t`. -/
theorem chunkSize_wraps_at_int64 :
    (∀ d ∈ bytes "8000000000000000", isHexDigit d) ∧
      hexValue (bytes "8000000000000000") = 9223372036854775808 ∧
      (sizeLineSession "8000000000000000\r\n").ParseChunkSize 2 =
        .ok { sizeLineSession "8000000000000000\r\n" with
              m_chunkSize := -9223372036854775808
              m_bodyStartInBuffer := 18 } := by
  decide

/-- C24 (amended): for every chunk-size line that lies in the buffer at the offset and is made
of a non-empty run of hexadecimal digits (upper or lower case) with a value below `2^63`,
optionally followed by a chunk extension that starts with `;` and holds no LF, then CR LF,
`ParseChunkSize` sets the chunk size to the base-16 value of the hex run, whatever the
extension is. The offset is left at the byte after the LF when the buffer holds more bytes,
and at index 0 of a new fill when the LF is the last buffered byte. -/
theorem ParseChunkSize_hex_line (fuel : Nat) (s : CurlSession) (b : Nat) (h ext rest : List Nat)
    (hstart : s.m_bodyStartInBuffer = (b : Int))
    (hsize : s.m_innerBufferSize = ((b + (h ++ ext ++ CR :: LF :: rest).length : Nat) : Int))
    (hline : slice s.m_readBuffer b (b + (h ++ ext ++ CR :: LF :: rest).length) =
      h ++ ext ++ CR :: LF :: rest)
    (hne : h ≠ []) (hhex : ∀ d ∈ h, isHexDigit d)
    (hext : ext = [] ∨ ∃ e, ext = 59 :: e) (hlf : LF ∉ ext)
    (hval : hexValue h < 9223372036854775808) :
    (rest ≠ [] →
        s.ParseChunkSize (fuel + 1) =
          .ok { s with
                m_chunkSize := (hexValue h : Int)
                m_bodyStartInBuffer := ((b + h.length + ext.length + 2 : Nat) : Int) }) ∧
      (rest = [] →
        ∀ s2 : CurlSession,
          CurlSession.refill { s with m_chunkSize := (hexValue h : Int) } = .ok s2 →
          s.ParseChunkSize (fuel + 1) = .ok { s2 with m_bodyStartInBuffer := 0 } ∧
            s2.m_chunkSize = (hexValue h : Int)) := by
  have hp := poll_hex_line fuel s b h ext rest hstart hsize hline hne hhex hext hlf (by omega)
  rw [toInt64_small _ hval] at hp
  constructor
  · intro hr
    rw [if_neg hr] at hp
    exact hp
  · intro hr s2 h2
    rw [if_pos hr, h2] at hp
    refine ⟨hp, ?_⟩
    unfold CurlSession.refill at h2
    split at h2
    · cases h2
    · cases h2
      rfl

/-- An instance of C24 (amended): the line `1aF;name=value CR LF` gives the chunk size 431. -/
theorem ParseChunkSize_hex_line_witness :
    (sizeLineSession "1aF;name=value\r\n").ParseChunkSize (1 + 1) =
        .ok { sizeLineSession "1aF;name=value\r\n" with
              m_chunkSize := (hexValue (bytes "1aF") : Int)
              m_bodyStartInBuffer :=
                ((0 + (bytes "1aF").length + (bytes ";name=value").length + 2 : Nat) : Int) } ∧
      hexValue (bytes "1aF") = 431 :=
  ⟨(ParseChunkSize_hex_line 1 (sizeLineSession "1aF;name=value\r\n") 0 (bytes "1aF")
      (bytes ";name=value") (bytes "X") (by decide) (by decide) (by decide) (by decide)
      (by decide) (Or.inr ⟨bytes "name=value", by decide⟩) (by decide) (by decide)).1
      (by decide),
    by decide⟩

theorem refill_serving (s : CurlSession) (hcap : 0 < s.details.c_LibcurlReaderSize)
    (hs : Serving s.m_curl) :
    ∃ (n : Nat) (c1 : Curl), 1 ≤ n ∧
      s.refill = .ok { s with
                       m_curl := c1
                       m_readBuffer := s.m_curl.wire.take n
                       m_innerBufferSize := ((s.m_curl.wire.take n).length : Nat) } ∧
      c1.wire = s.m_curl.wire.drop n ∧ Serving c1 := by
  obtain ⟨n, c1, h1, _, h3, h4, h5⟩ := recv_serving s.m_curl _ hcap hs
  refine ⟨n, c1, h1, ?_, h4, h5⟩
  simp only [CurlSession.refill, h3]

theorem drop_one_take (w : List Nat) (n : Nat) (hn : 1 ≤ n) :
    (w.take n).drop 1 ++ w.drop n = w.drop 1 := by
  cases w with
  | nil => simp
  | cons a w =>
    obtain ⟨m, rfl⟩ : ∃ m, n = m + 1 := ⟨n - 1, by omega⟩
    simp

/-- The rounds of the skip loop at the start of `Read`: `n` rounds skip exactly the next `n`
bytes of what the session has still to deliver, wherever the buffer ends. -/
theorem skipCRLF_pending :
    ∀ (n : Nat) (s : CurlSession) (skipped tail : List Nat),
      SkipInv s → skipped.length = n → s.pending = skipped ++ tail →
      ∃ s1 : CurlSession,
        Read.skipCRLF n s = .ok s1 ∧ SkipInv s1 ∧ s1.pending = tail ∧
          (0 < n ∨ 0 < s.m_bodyStartInBuffer → 0 < s1.m_bodyStartInBuffer) ∧ SameMode s s1 ∧
          s1.m_chunkSize = s.m_chunkSize ∧ s1.m_sessionTotalRead = s.m_sessionTotalRead ∧
          s1.m_rawResponseEOF = s.m_rawResponseEOF
  | 0, s, skipped, tail, inv, hl, hp => by
    have : skipped = [] := List.length_eq_zero.mp hl
    subst this
    exact ⟨s, rfl, inv, by simpa using hp, fun h => h.resolve_left (by omega), ⟨rfl, rfl, rfl, rfl⟩,
      rfl, rfl, rfl⟩
  | n + 1, s, skipped, tail, inv, hl, hp => by
    obtain ⟨x, rest, rfl⟩ : ∃ x rest, skipped = x :: rest := by
      cases skipped with
      | nil => simp at hl
      | cons x rest => exact ⟨x, rest, rfl⟩
    have hl2 : rest.length = n := by simpa using hl
    by_cases hc : s.m_bodyStartInBuffer > 0 ∧ s.m_bodyStartInBuffer < s.m_innerBufferSize
    · -- the byte is in the buffer
      obtain ⟨b, hb⟩ : ∃ b : Nat, s.m_bodyStartInBuffer = (b : Int) :=
        ⟨s.m_bodyStartInBuffer.toNat, by omega⟩
      have hlt : b < s.m_readBuffer.length := by
        have := inv.sized; omega
      have inv2 : SkipInv { s with m_bodyStartInBuffer := s.m_bodyStartInBuffer + 1 } :=
        ⟨inv.sized, Or.inr ⟨by show 0 < s.m_bodyStartInBuffer + 1; omega,
          by show s.m_bodyStartInBuffer + 1 ≤ s.m_innerBufferSize; omega⟩, inv.serving,
          inv.capacity⟩
      have hp2 : CurlSession.pending { s with m_bodyStartInBuffer := s.m_bodyStartInBuffer + 1 } =
          rest ++ tail := by
        unfold CurlSession.pending at hp ⊢
        have h0 : (0 : Int) ≤ s.m_bodyStartInBuffer := by omega
        have h1 : (0 : Int) ≤ s.m_bodyStartInBuffer + 1 := by omega
        simp only [h0, if_true] at hp
        simp only [h1, if_true]
        rw [hb] at hp ⊢
        have e1 : ((b : Int) + 1).toNat = b + 1 := by omega
        rw [Int.toNat_ofNat] at hp
        rw [e1]
        rw [List.drop_eq_getElem_cons hlt] at hp
        simp only [List.cons_append, List.cons.injEq] at hp
        exact hp.2
      obtain ⟨s1, r1, r2, r3, r4, r5, r6, r7, r8⟩ := skipCRLF_pending n _ rest tail inv2 hl2 hp2
      refine ⟨s1, ?_, r2, r3, fun _ => r4 (Or.inr ?_), r5, r6, r7, r8⟩
      · simp only [Read.skipCRLF, hc, and_self, if_true]
        exact r1
      · show 0 < s.m_bodyStartInBuffer + 1
        omega
    · -- the buffer is used up: the next fill brings the byte
      have hwire : s.m_curl.wire = x :: (rest ++ tail) := by
        unfold CurlSession.pending at hp
        have hsz := inv.sized
        rcases inv.offset with h | ⟨h1, h2⟩
        · have h0 : ¬ (0 : Int) ≤ s.m_bodyStartInBuffer := by omega
          simpa only [h0, if_false, List.nil_append, List.cons_append] using hp
        · have h0 : (0 : Int) ≤ s.m_bodyStartInBuffer := by omega
          have h3 : s.m_readBuffer.length ≤ s.m_bodyStartInBuffer.toNat := by omega
          simpa only [h0, if_true, List.drop_eq_nil_of_le h3, List.nil_append,
            List.cons_append] using hp
      obtain ⟨k, c1, hk, hre, hw1, hs1⟩ := refill_serving s inv.capacity inv.serving
      have hfill : 1 ≤ (s.m_curl.wire.take k).length := by
        rw [hwire]
        obtain ⟨m, rfl⟩ : ∃ m, k = m + 1 := ⟨k - 1, by omega⟩
        simp
      have inv2 : SkipInv { s with
          m_curl := c1
          m_readBuffer := s.m_curl.wire.take k
          m_innerBufferSize := ((s.m_curl.wire.take k).length : Nat)
          m_bodyStartInBuffer := 1 } :=
        ⟨rfl, Or.inr ⟨Int.one_pos, by
          show (1 : Int) ≤ ((s.m_curl.wire.take k).length : Nat)
          omega⟩, hs1, inv.capacity⟩
      have hp2 : CurlSession.pending { s with
          m_curl := c1
          m_readBuffer := s.m_curl.wire.take k
          m_innerBufferSize := ((s.m_curl.wire.take k).length : Nat)
          m_bodyStartInBuffer := 1 } = rest ++ tail := by
        show (if (0 : Int) ≤ 1 then (s.m_curl.wire.take k).drop (1 : Int).toNat else []) ++ c1.wire
          = rest ++ tail
        rw [if_pos (by decide), hw1]
        have : (1 : Int).toNat = 1 := rfl
        rw [this, drop_one_take _ _ hk, hwire]
        rfl
      obtain ⟨s1, r1, r2, r3, r4, r5, r6, r7, r8⟩ := skipCRLF_pending n _ rest tail inv2 hl2 hp2
      refine ⟨s1, ?_, r2, r3, fun _ => r4 (Or.inr Int.one_pos), ?_, r6, r7, r8⟩
      · simp only [Read.skipCRLF, hc, if_false, hre]
        exact r1
      · exact ⟨r5.1, r5.2.1, r5.2.2.1, r5.2.2.2⟩

/-- C26: when the chunk has been delivered (chunked mode, remaining chunk size 0) and the two
bytes `x`, `y` behind the chunk data are what the session has still to deliver first, the skip at
the start of `Read` succeeds for every position of the buffer offset (the sentinel -1 of an
exhausted buffer or a socket read, or any offset inside the fill, the last byte included) as long
as every refill brings at least one byte; what is left to deliver afterwards is exactly `tail`,
and `Read` goes on with `ParseChunkSize` on that state. -/
theorem Read_skips_two_bytes_after_chunk (s : CurlSession) (x y : Nat) (tail : List Nat)
    (hsized : s.m_innerBufferSize = (s.m_readBuffer.length : Int))
    (hoffset : s.m_bodyStartInBuffer = -1 ∨
      (0 < s.m_bodyStartInBuffer ∧ s.m_bodyStartInBuffer < s.m_innerBufferSize))
    (hserving : Serving s.m_curl) (hcap : 0 < s.details.c_LibcurlReaderSize)
    (hpending : s.pending = x :: y :: tail) :
    ∃ s1 : CurlSession,
      Read.skipCRLF 2 s = .ok s1 ∧ s1.pending = tail ∧ 0 < s1.m_bodyStartInBuffer ∧
        s1.m_chunkSize = s.m_chunkSize ∧ s1.m_sessionTotalRead = s.m_sessionTotalRead ∧
        ∀ (fuel : Nat) (context : Context) (count : Int),
          context.cancelled = false → 0 < count →
          s.m_isChunkedResponseType = true → s.m_chunkSize = 0 →
          s.Read fuel context count =
            (s1.ParseChunkSize fuel).bind fun s2 =>
              if s2.m_chunkSize = 0 then .ok ([], { s2 with m_rawResponseEOF := true })
              else Read.serve s2 count := by
  have inv : SkipInv s :=
    ⟨hsized, hoffset.imp id (fun h => ⟨h.1, le_of_lt h.2⟩), hserving, hcap⟩
  obtain ⟨s1, r1, _, r3, r4, _, r6, r7, _⟩ :=
    skipCRLF_pending 2 s [x, y] tail inv rfl (by simpa using hpending)
  refine ⟨s1, r1, r3, r4 (Or.inl (by decide)), r6, r7, ?_⟩
  intro fuel context count hctx hcount hchunked hsize
  have hc : ¬ count ≤ 0 := by omega
  unfold CurlSession.Read
  simp only [hctx, hc, hchunked, hsize, r1, and_self, if_true, if_false, Bool.false_eq_true]
  cases s1.ParseChunkSize fuel <;> rfl

/-- C26 at the three positions of the two bytes: both in the buffer, the first one the last
buffered byte, none buffered with the peer delivering the two bytes one at a time. The next call of `Read`
delivers the chunk `pedia` each time. -/
theorem Read_skips_two_bytes_after_chunk_witness :
    (∃ s1 : CurlSession,
      Read.skipCRLF 2 (afterChunkSession "Wiki\r\n5\r\npedia" 4 "\r\n0\r\n\r\n" []) = .ok s1 ∧
        s1.pending = bytes "5\r\npedia\r\n0\r\n\r\n" ∧ 0 < s1.m_bodyStartInBuffer ∧
        s1.m_chunkSize = 0 ∧ s1.m_sessionTotalRead = 4 ∧
        ∀ (fuel : Nat) (context : Context) (count : Int),
          context.cancelled = false → 0 < count →
          (afterChunkSession "Wiki\r\n5\r\npedia" 4 "\r\n0\r\n\r\n" []).m_isChunkedResponseType
            = true →
          (afterChunkSession "Wiki\r\n5\r\npedia" 4 "\r\n0\r\n\r\n" []).m_chunkSize = 0 →
          (afterChunkSession "Wiki\r\n5\r\npedia" 4 "\r\n0\r\n\r\n" []).Read fuel context count =
            (s1.ParseChunkSize fuel).bind fun s2 =>
              if s2.m_chunkSize = 0 then .ok ([], { s2 with m_rawResponseEOF := true })
              else Read.serve s2 count) ∧
      ((afterChunkSession "Wiki\r\n5\r\npedia" 4 "\r\n0\r\n\r\n" []).Read 8 ⟨false⟩ 16).toOption.map
          Prod.fst = some (bytes "pedia") ∧
      ((afterChunkSession "Wiki\r" 4 "\n5\r\npedia\r\n0\r\n\r\n" []).Read 8 ⟨false⟩ 16).toOption.map
          Prod.fst = some (bytes "pedia") ∧
      ((afterChunkSession "Wiki" (-1) "\r\n5\r\npedia\r\n0\r\n\r\n"
          [0, 0]).Read 8 ⟨false⟩ 16).toOption.map
          Prod.fst = some (bytes "pedia") :=
  ⟨Read_skips_two_bytes_after_chunk
      (afterChunkSession "Wiki\r\n5\r\npedia" 4 "\r\n0\r\n\r\n" []) 13 10
      (bytes "5\r\npedia\r\n0\r\n\r\n") (by decide) (by decide) ⟨[], rfl⟩ (by decide)
      (by decide),
    by decide, by decide, by decide⟩

/-- Whatever `SendBuffer` returns, it leaves the request, and with it the body stream, and the
constants alone. -/
theorem sendLoop_frame :
    ∀ (script : List SocketEvent) (buffer : List Nat) (s : CurlSession) (code : CURLcode)
      (s1 : CurlSession),
      sendLoop script buffer s = .ok (code, s1) →
      s1.m_request = s.m_request ∧ s1.details = s.details
  | script, [], s, code, s1, h => by
    have : s1 = s := by
      cases script <;> simp [sendLoop] at h <;> exact h.2.symm
    subst this
    exact ⟨rfl, rfl⟩
  | [], b :: rest, s, code, s1, h => by
    simp only [sendLoop, Except.ok.injEq, Prod.mk.injEq] at h
    obtain ⟨_, h⟩ := h
    subst h
    exact ⟨rfl, rfl⟩
  | e :: script, b :: rest, s, code, s1, h => by
    unfold sendLoop at h
    by_cases h1 : e.code = CURLE_OK
    · simp only [h1, if_true] at h
      have ih := sendLoop_frame script _ _ code s1 h
      exact ih
    · simp only [h1, if_false] at h
      by_cases h2 : e.code = CURLE_AGAIN
      · simp only [h2, if_true] at h
        split at h
        · cases h
        · have ih := sendLoop_frame script _ _ code s1 h
          exact ih
      · simp only [h2, if_false, Except.ok.injEq, Prod.mk.injEq] at h
        obtain ⟨_, h⟩ := h
        subst h
        exact ⟨rfl, rfl⟩

theorem read_piece_nil (b : BodyStream) (chunk : Nat) (hchunk : 0 < chunk)
    (h : (b.Read chunk).1.length = 0) : b.data.drop b.offset = [] := by
  simp only [BodyStream.Read, List.length_eq_zero, List.take_eq_nil_iff] at h
  rcases h with h | h
  · omega
  · exact h

theorem read_piece_length (b : BodyStream) (chunk : Nat) :
    (b.Read chunk).1.length + ((b.Read chunk).2.data.drop (b.Read chunk).2.offset).length =
      (b.data.drop b.offset).length := by
  simp only [BodyStream.Read, List.length_take, List.length_drop]
  omega

/-- A successful `UploadBody` loop leaves the body stream at its end and the rest of the request
as it was. -/
theorem UploadBody_loop_stream (chunk : Nat) (hchunk : 0 < chunk) :
    ∀ (fuel : Nat) (code : CURLcode) (s s1 : CurlSession),
      UploadBody.loop chunk fuel code s = .ok (CURLE_OK, s1) →
      s1.m_request = { s.m_request with
        bodyStream := ⟨s.m_request.bodyStream.data, s.m_request.bodyStream.offset +
          (s.m_request.bodyStream.data.drop s.m_request.bodyStream.offset).length⟩ }
  | 0, _, _, _, h => by simp [UploadBody.loop] at h
  | fuel + 1, code, s, s1, h => by
    unfold UploadBody.loop at h
    dsimp only at h
    split at h
    · rename_i h0
      simp only [Except.ok.injEq, Prod.mk.injEq] at h
      obtain ⟨_, h⟩ := h
      subst h
      have hnil := read_piece_nil _ _ hchunk h0
      simp only [BodyStream.Read, hnil, List.take_nil, List.length_nil, Nat.add_zero]
    · split at h
      · cases h
      · rename_i code1 s2 hs
        split at h
        · rename_i hne
          simp only [Except.ok.injEq, Prod.mk.injEq] at h
          exact absurd h.1 hne
        · have ih := UploadBody_loop_stream chunk hchunk fuel _ s2 s1 h
          obtain ⟨k3, _⟩ := sendLoop_frame _ _ _ _ _ hs
          rw [ih, k3]
          have hl := read_piece_length s.m_request.bodyStream chunk
          simp only [BodyStream.Read] at hl ⊢
          congr 2
          omega

/-- The `UploadBody` loop on a socket that takes what it is given returns `CURLE_OK` once the
fuel exceeds the number of bytes left in the stream. -/
theorem UploadBody_loop_accepting (chunk : Nat) (hchunk : 0 < chunk) :
    ∀ (fuel : Nat) (s : CurlSession),
      Accepting s.m_curl →
      (s.m_request.bodyStream.data.drop s.m_request.bodyStream.offset).length < fuel →
      ∃ s1 : CurlSession, UploadBody.loop chunk fuel CURLE_OK s = .ok (CURLE_OK, s1)
  | 0, _, _, h => absurd h (Nat.not_lt_zero _)
  | fuel + 1, s, hacc, hfuel => by
    unfold UploadBody.loop
    dsimp only
    by_cases h0 : (s.m_request.bodyStream.Read chunk).1.length = 0
    · rw [if_pos h0]
      exact ⟨_, rfl⟩
    · rw [if_neg h0]
      obtain ⟨s2, r1, r2, _, _, _, r6, _⟩ := SendBuffer_accepting
        { s with m_request := { s.m_request with
            bodyStream := (s.m_request.bodyStream.Read chunk).2 } }
        (s.m_request.bodyStream.Read chunk).1 hacc
      rw [r1]
      simp only [ne_eq, not_true_eq_false, if_false]
      apply UploadBody_loop_accepting chunk hchunk fuel s2 r2
      rw [r6]
      have hl := read_piece_length s.m_request.bodyStream chunk
      show ((s.m_request.bodyStream.Read chunk).2.data.drop
        (s.m_request.bodyStream.Read chunk).2.offset).length < fuel
      omega

/-- When the `UploadBody` loop returns a failure, a call of `SendBuffer` returned it: the pieces
before were sent whole (`k` bytes in all), the piece handed to the failing call is the next
`chunk` bytes of the stream (fewer at its end), and the stream stays right behind that piece. -/
theorem UploadBody_loop_failure (chunk : Nat) :
    ∀ (fuel : Nat) (s : CurlSession) (code : CURLcode) (s1 : CurlSession),
      UploadBody.loop chunk fuel CURLE_OK s = .ok (code, s1) → code ≠ CURLE_OK →
      ∃ (k : Nat) (s0 : CurlSession),
        s0.m_request = { s.m_request with
          bodyStream := (BodyStream.Read
            ⟨s.m_request.bodyStream.data, s.m_request.bodyStream.offset + k⟩ chunk).2 } ∧
        s0.m_curl.sent = s.m_curl.sent ++
          (s.m_request.bodyStream.data.drop s.m_request.bodyStream.offset).take k ∧
        s0.m_uploadedBytes = s.m_uploadedBytes + (k : Int) ∧
        s0.SendBuffer (BodyStream.Read
            ⟨s.m_request.bodyStream.data, s.m_request.bodyStream.offset + k⟩ chunk).1 =
          .ok (code, s1) ∧
        s1.m_request = s0.m_request
  | 0, _, _, _, h, _ => by simp [UploadBody.loop] at h
  | fuel + 1, s, code, s1, h, hcode => by
    unfold UploadBody.loop at h
    dsimp only at h
    split at h
    · simp only [Except.ok.injEq, Prod.mk.injEq] at h
      exact absurd h.1.symm hcode
    · split at h
      · cases h
      · rename_i code1 s2 hs
        split at h
        · simp only [Except.ok.injEq, Prod.mk.injEq] at h
          obtain ⟨h1, h2⟩ := h
          subst h1 h2
          refine ⟨0, _, rfl, by simp, by simp, hs, (sendLoop_frame _ _ _ _ _ hs).1⟩
        · rename_i hne
          have hc : code1 = CURLE_OK := not_not.mp hne
          subst hc
          obtain ⟨k, s0, a1, a2, a3, a4, a5⟩ := UploadBody_loop_failure chunk fuel s2 code s1 h hcode
          obtain ⟨k1, k2, k3, _, _, _⟩ := sendLoop_ok _ _ _ _ hs
          rw [k3] at a1 a2 a4
          rw [k1] at a2
          rw [k2] at a3
          refine ⟨(s.m_request.bodyStream.Read chunk).1.length + k, s0, ?_, ?_, ?_, ?_, a5⟩
          · rw [a1]
            simp only [BodyStream.Read, Nat.add_assoc]
          · rw [a2]
            simp only [BodyStream.Read, List.append_assoc, List.append_cancel_left_eq]
            rw [List.take_add]
            congr 1
            · rw [List.length_take, take_min_length]
            · rw [List.drop_drop, Nat.add_comm]
          · rw [a3]
            push_cast
            omega
          · rw [← a4]
            simp only [BodyStream.Read, Nat.add_assoc]

/-- C27: `UploadBody` runs its loop with the upload counter set back to 0 and with pieces of the
request's chunk size when that is positive, of the default constant otherwise. When it returns
`CURLE_OK`, the bytes sent are the bytes sent before followed by the unread bytes of the body
stream, in order and with nothing added, the upload counter is their number and the stream is
at its end. When it returns another code, a call of `SendBuffer` returned that code: the pieces
before it went out whole, the piece handed to the failing call is the next piece of the stream,
unchanged, and the stream is left right behind that piece. On a socket that takes what it is
given it returns `CURLE_OK` as soon as the fuel exceeds the number of unread bytes. -/
theorem UploadBody_sends_stream (fuel : Nat) (s : CurlSession)
    (hdefault : 0 < s.details.c_UploadDefaultChunkSize) :
    s.UploadBody fuel =
        UploadBody.loop
          (if 0 < s.m_request.uploadChunkSize then s.m_request.uploadChunkSize.toNat
            else s.details.c_UploadDefaultChunkSize)
          fuel CURLE_OK { s with m_uploadedBytes := 0 } ∧
      (∀ s1 : CurlSession, s.UploadBody fuel = .ok (CURLE_OK, s1) →
        s1.m_curl.sent = s.m_curl.sent ++
            s.m_request.bodyStream.data.drop s.m_request.bodyStream.offset ∧
          s1.m_uploadedBytes =
            (((s.m_request.bodyStream.data.drop s.m_request.bodyStream.offset).length : Nat) :
              Int) ∧
          s1.m_request = { s.m_request with
            bodyStream := ⟨s.m_request.bodyStream.data, s.m_request.bodyStream.offset +
              (s.m_request.bodyStream.data.drop s.m_request.bodyStream.offset).length⟩ }) ∧
      (∀ (code : CURLcode) (s1 : CurlSession),
        s.UploadBody fuel = .ok (code, s1) → code ≠ CURLE_OK →
        ∃ (k : Nat) (s0 : CurlSession),
          s0.m_request = { s.m_request with
            bodyStream := (BodyStream.Read
              ⟨s.m_request.bodyStream.data, s.m_request.bodyStream.offset + k⟩
              (if 0 < s.m_request.uploadChunkSize then s.m_request.uploadChunkSize.toNat
                else s.details.c_UploadDefaultChunkSize)).2 } ∧
          s0.m_curl.sent = s.m_curl.sent ++
            (s.m_request.bodyStream.data.drop s.m_request.bodyStream.offset).take k ∧
          s0.m_uploadedBytes = (k : Int) ∧
          s0.SendBuffer (BodyStream.Read
              ⟨s.m_request.bodyStream.data, s.m_request.bodyStream.offset + k⟩
              (if 0 < s.m_request.uploadChunkSize then s.m_request.uploadChunkSize.toNat
                else s.details.c_UploadDefaultChunkSize)).1 = .ok (code, s1) ∧
          s1.m_request = s0.m_request) ∧
      (Accepting s.m_curl →
        (s.m_request.bodyStream.data.drop s.m_request.bodyStream.offset).length < fuel →
        ∃ s1 : CurlSession, s.UploadBody fuel = .ok (CURLE_OK, s1)) := by
  have hdef : s.UploadBody fuel =
      UploadBody.loop
        (if 0 < s.m_request.uploadChunkSize then s.m_request.uploadChunkSize.toNat
          else s.details.c_UploadDefaultChunkSize)
        fuel CURLE_OK { s with m_uploadedBytes := 0 } := by
    unfold CurlSession.UploadBody
    by_cases hpos : 0 < s.m_request.uploadChunkSize
    · have hle : ¬ s.m_request.uploadChunkSize ≤ 0 := by omega
      simp only [hle, hpos, if_true, if_false]
    · have hle : s.m_request.uploadChunkSize ≤ 0 := by omega
      simp only [hle, hpos, if_true, if_false, Int.toNat_ofNat]
  have hchunk : 0 < (if 0 < s.m_request.uploadChunkSize then s.m_request.uploadChunkSize.toNat
      else s.details.c_UploadDefaultChunkSize) := by
    by_cases hpos : 0 < s.m_request.uploadChunkSize
    · rw [if_pos hpos]; omega
    · rw [if_neg hpos]; exact hdefault
  refine ⟨hdef, ?_, ?_, ?_⟩
  · intro s1 h
    rw [hdef] at h
    obtain ⟨a1, a2⟩ := UploadBody_loop_ok _ hchunk _ _ _ _ h
    have a3 := UploadBody_loop_stream _ hchunk _ _ _ _ h
    refine ⟨a1, ?_, a3⟩
    rw [a2]
    exact Int.zero_add _
  · intro code s1 h hcode
    rw [hdef] at h
    obtain ⟨k, s0, a1, a2, a3, a4, a5⟩ := UploadBody_loop_failure _ _ _ _ _ h hcode
    exact ⟨k, s0, a1, a2, by rw [a3]; exact Int.zero_add _, a4, a5⟩
  · intro hacc hfuel
    rw [hdef]
    exact UploadBody_loop_accepting _ hchunk fuel _ hacc hfuel

/-- C27 on the body `hello` with an upload chunk size of 2: on a socket that takes what it is
given the five bytes go out and are counted; with the default chunk size they go out the same;
when the second call of `SendBuffer` is answered with the code 55 after its first byte,
`UploadBody` returns 55 with `hel` sent and the stream behind `hell`. -/
theorem UploadBody_sends_stream_witness :
    (∃ s1 : CurlSession, (uploadSession 2 []).UploadBody 6 = .ok (CURLE_OK, s1)) ∧
      (sessionOfResult (uploadSession 2 []) ((uploadSession 2 []).UploadBody 6)).m_curl.sent =
        bytes "hello" ∧
      (sessionOfResult (uploadSession 2 []) ((uploadSession 2 []).UploadBody 6)).m_uploadedBytes
        = 5 ∧
      (sessionOfResult (uploadSession 2 []) ((uploadSession 2 []).UploadBody 6)).m_request.bodyStream
        = ⟨bytes "hello", 5⟩ ∧
      (sessionOfResult (uploadSession 2 []) ((uploadSession 0 []).UploadBody 6)).m_curl.sent =
        bytes "hello" ∧
      (uploadSession 2 [⟨CURLE_OK, 2, 0⟩, ⟨CURLE_OK, 1, 0⟩, ⟨55, 0, 0⟩, ⟨CURLE_OK, 9, 0⟩]).UploadBody
          6 =
        .ok (55,
          { uploadSession 2 [⟨CURLE_OK, 9, 0⟩] with
            m_request := { (uploadSession 2 []).m_request with bodyStream := ⟨bytes "hello", 4⟩ }
            m_curl := { (uploadSession 2 [⟨CURLE_OK, 9, 0⟩]).m_curl with sent := bytes "hel" }
            m_uploadedBytes := 3 }) :=
  ⟨(UploadBody_sends_stream 6 (uploadSession 2 []) (by decide)).2.2.2
      (fun e he => absurd he (List.not_mem_nil e)) (by decide),
    by decide, by decide, by decide, by decide, by decide⟩

/-- An iteration at an LF that follows a CR, which is where `Parse` finalizes a line or reports
the end of the headers, leaves the accumulation buffer empty. -/
theorem iter_finalize_clears (buffer : List Nat) (start index : Nat) (p : ResponseBufferParser)
    (r : ParseIter) (hcr : p.m_delimiterStartInPrevPosition = true)
    (h : Parse.iter buffer LF start index p = .ok r) : r.parser.m_internalBuffer = [] := by
  have h1 : ¬ (LF = CR) := by decide
  unfold Parse.iter at h
  simp only [h1, if_false, hcr, and_self, if_true] at h
  by_cases hb : p.m_internalBuffer.length > 0
  · simp only [hb, if_true] at h
    split at h
    · split at h
      · cases h
      · simp only [Except.ok.injEq] at h
        subst h
        rfl
    · split at h
      · cases h
      · simp only [Except.ok.injEq] at h
        subst h
        rfl
    · cases h
  · have hnil : p.m_internalBuffer = [] := List.length_eq_zero.mp (by omega)
    simp only [hb, if_false] at h
    split at h
    · split at h
      · cases h
      · simp only [Except.ok.injEq] at h
        subst h
        exact hnil
    · split at h
      · simp only [Except.ok.injEq] at h
        subst h
        exact hnil
      · split at h
        · cases h
        · rename_i p2 hp2
          simp only [Except.ok.injEq] at h
          subst h
          unfold ResponseBufferParser.addHeader at hp2
          split at hp2
          · cases hp2
          · simp only [Except.ok.injEq] at hp2
            subst hp2
            exact hnil
    · cases h

theorem addHeader_buffer (q : ResponseBufferParser) (line : List Nat) (q2 : ResponseBufferParser)
    (h : q.addHeader line = .ok q2) :
    q2.m_parseCompleted = q.m_parseCompleted ∧ q2.m_internalBuffer = q.m_internalBuffer := by
  unfold ResponseBufferParser.addHeader at h
  split at h
  · cases h
  · simp only [Except.ok.injEq] at h
    subst h
    exact ⟨rfl, rfl⟩

/-- An iteration of the loop of `Parse` on a parser that has not completed either goes on with a
parser that has not completed, or returns from `Parse` with an empty accumulation buffer. -/
theorem iter_completed (buffer : List Nat) (b start index : Nat) (p : ResponseBufferParser)
    (r : ParseIter) (hnd : p.m_parseCompleted = false)
    (h : Parse.iter buffer b start index p = .ok r) :
    (∃ start1 p1, r = .next start1 p1 ∧ p1.m_parseCompleted = false) ∨
      (∃ value p1, r = .ret value p1 ∧ p1.m_internalBuffer = []) := by
  unfold Parse.iter at h
  by_cases h1 : b = CR
  · simp only [h1, if_true, Except.ok.injEq] at h
    subst h
    exact Or.inl ⟨_, _, rfl, hnd⟩
  · simp only [h1, if_false] at h
    by_cases h2 : b = LF ∧ p.m_delimiterStartInPrevPosition = true
    · simp only [h2, and_self, if_true] at h
      by_cases hb : p.m_internalBuffer.length > 0
      · simp only [hb, if_true] at h
        split at h
        · split at h
          · cases h
          · simp only [Except.ok.injEq] at h
            subst h
            refine Or.inl ⟨_, _, rfl, ?_⟩
            by_cases hidx : index > 1
            · simp only [hidx, if_true]
              exact hnd
            · simp only [hidx, if_false]
              exact hnd
        · split at h
          · cases h
          · rename_i p2 hp2
            simp only [Except.ok.injEq] at h
            subst h
            refine Or.inl ⟨_, _, rfl, ?_⟩
            have := (addHeader_buffer _ _ _ hp2).1
            show p2.m_parseCompleted = false
            rw [this]
            by_cases hidx : index > 1
            · simp only [hidx, if_true]
              exact hnd
            · simp only [hidx, if_false]
              exact hnd
        · cases h
      · have hnil : p.m_internalBuffer = [] := List.length_eq_zero.mp (by omega)
        simp only [hb, if_false] at h
        split at h
        · split at h
          · cases h
          · simp only [Except.ok.injEq] at h
            subst h
            exact Or.inl ⟨_, _, rfl, hnd⟩
        · split at h
          · simp only [Except.ok.injEq] at h
            subst h
            exact Or.inr ⟨_, _, rfl, hnil⟩
          · split at h
            · cases h
            · rename_i p2 hp2
              simp only [Except.ok.injEq] at h
              subst h
              unfold ResponseBufferParser.addHeader at hp2
              split at hp2
              · cases hp2
              · simp only [Except.ok.injEq] at hp2
                subst hp2
                exact Or.inl ⟨_, _, rfl, hnd⟩
        · cases h
    · simp only [h2, if_false, Except.ok.injEq] at h
      subst h
      refine Or.inl ⟨_, _, rfl, ?_⟩
      show (if index = 0 ∧ p.m_internalBuffer.length > 0 ∧ p.m_delimiterStartInPrevPosition = true
        then { p with m_internalBuffer := p.m_internalBuffer ++ [CR] } else p).m_parseCompleted
          = false
      split <;> exact hnd

/-- The loop of `Parse` started on a parser that has not completed returns a parser that has
not completed or whose accumulation buffer is empty. -/
theorem loop_completed (buffer : List Nat) :
    ∀ (rest : List Nat) (start index : Nat) (p : ResponseBufferParser) (v : Nat)
      (p1 : ResponseBufferParser),
      p.m_parseCompleted = false → Parse.loop buffer rest start index p = .ok (v, p1) →
      p1.m_parseCompleted = false ∨ p1.m_internalBuffer = []
  | [], start, index, p, v, p1, hnd, h => by
    simp only [Parse.loop, Parse.finish, Except.ok.injEq] at h
    split at h
    · simp only [Prod.mk.injEq] at h
      obtain ⟨_, h⟩ := h
      subst h
      exact Or.inl hnd
    · simp only [Prod.mk.injEq] at h
      obtain ⟨_, h⟩ := h
      subst h
      exact Or.inl hnd
  | b :: rest, start, index, p, v, p1, hnd, h => by
    unfold Parse.loop at h
    cases hi : Parse.iter buffer b start index p with
    | error e => rw [hi] at h; cases h
    | ok r =>
      rw [hi] at h
      rcases iter_completed buffer b start index p r hnd hi with
        ⟨start1, q, rfl, hq⟩ | ⟨value, q, rfl, hq⟩
      · exact loop_completed buffer rest start1 (index + 1) q v p1 hq h
      · simp only [Except.ok.injEq, Prod.mk.injEq] at h
        obtain ⟨_, h⟩ := h
        subst h
        exact Or.inr hq

/-- A call of `Parse` keeps the property that a completed parser has an empty accumulation
buffer. -/
theorem Parse_completed (p p1 : ResponseBufferParser) (f : List Nat) (v : Nat)
    (inv : p.m_parseCompleted = true → p.m_internalBuffer = [])
    (h : p.Parse f = .ok (v, p1)) : p1.m_parseCompleted = true → p1.m_internalBuffer = [] := by
  unfold ResponseBufferParser.Parse at h
  cases hc : p.m_parseCompleted with
  | true =>
    simp only [hc, if_true, Except.ok.injEq, Prod.mk.injEq] at h
    obtain ⟨_, h⟩ := h
    subst h
    exact inv
  | false =>
    simp only [hc, Bool.false_eq_true, if_false] at h
    intro hdone
    rcases loop_completed f f 0 0 p v p1 hc h with h1 | h1
    · rw [h1] at hdone
      cases hdone
    · exact h1

theorem feed_completed (fills : List (List Nat)) :
    ∀ p p1 : ResponseBufferParser,
      (p.m_parseCompleted = true → p.m_internalBuffer = []) → p.feed fills = .ok p1 →
      p1.m_parseCompleted = true → p1.m_internalBuffer = [] := by
  induction fills with
  | nil =>
    intro p p1 inv h
    simp only [ResponseBufferParser.feed, Except.ok.injEq] at h
    subst h
    exact inv
  | cons f fills ih =>
    intro p p1 inv h
    unfold ResponseBufferParser.feed at h
    cases hq : p.Parse f with
    | error e => rw [hq] at h; cases h
    | ok r =>
      obtain ⟨v, q⟩ := r
      rw [hq] at h
      exact ih q p1 (Parse_completed p q f v inv hq) h

/-- C28: an iteration of the loop of `Parse` that finalizes a line (the byte is an LF and a CR
is pending) leaves the accumulation buffer empty, whatever the parser state it starts from;
and every parser reached from a fresh one by calls of `Parse` that return, however the
response is cut into fills, has an empty accumulation buffer when it reports completion. -/
theorem accumulation_buffer_empty_after_terminal_token :
    (∀ (buffer : List Nat) (start index : Nat) (p : ResponseBufferParser) (r : ParseIter),
        p.m_delimiterStartInPrevPosition = true →
        Parse.iter buffer LF start index p = .ok r → r.parser.m_internalBuffer = []) ∧
      (∀ (fills : List (List Nat)) (p : ResponseBufferParser),
        ResponseBufferParser.new.feed fills = .ok p →
        p.IsParseCompleted = true → p.m_internalBuffer = []) :=
  ⟨fun buffer start index p r hcr h => iter_finalize_clears buffer start index p r hcr h,
    fun fills p h => feed_completed fills _ p (fun _ => rfl) h⟩

/-- C28 on a response cut into three fills, the first two ending inside a line: after the second
fill the header line is still being accumulated, after the third the parser reports completion
and the buffer is empty; and the iteration that finalizes the accumulated status line. -/
theorem accumulation_buffer_empty_after_terminal_token_witness :
    (ResponseBufferParser.new.feed
        [bytes "HTTP/1.1 200", bytes " OK\r\nA:", bytes " b\r\n\r\nxyz"]).toOption.map
        (fun p => (p.IsParseCompleted, p.m_internalBuffer)) = some (true, []) ∧
      (ResponseBufferParser.new.feed [bytes "HTTP/1.1 200", bytes " OK\r\nA:"]).toOption.map
        (fun p => (p.IsParseCompleted, p.m_internalBuffer)) = some (false, bytes "A:") ∧
      (∀ r : ParseIter,
        Parse.iter (bytes " OK\r\nA:") LF 0 4
            { ResponseBufferParser.new with
              m_internalBuffer := bytes "HTTP/1.1 200"
              m_delimiterStartInPrevPosition := true } = .ok r →
          r.parser.m_internalBuffer = []) :=
  ⟨by decide, by decide,
    fun r => accumulation_buffer_empty_after_terminal_token.1 (bytes " OK\r\nA:") 0 4
      { ResponseBufferParser.new with
        m_internalBuffer := bytes "HTTP/1.1 200"
        m_delimiterStartInPrevPosition := true } r rfl⟩

theorem SameMode_trans {a b c : CurlSession} (h1 : SameMode a b) (h2 : SameMode b c) :
    SameMode a c :=
  ⟨h2.1.trans h1.1, h2.2.1.trans h1.2.1, h2.2.2.1.trans h1.2.2.1, h2.2.2.2.trans h1.2.2.2⟩

theorem skipCRLF_mode :
    ∀ (n : Nat) (s s1 : CurlSession), Read.skipCRLF n s = .ok s1 → SameMode s s1
  | 0, s, s1, h => by
    simp only [Read.skipCRLF, Except.ok.injEq] at h
    subst h
    exact ⟨rfl, rfl, rfl, rfl⟩
  | n + 1, s, s1, h => by
    unfold Read.skipCRLF at h
    split at h
    · have ih := skipCRLF_mode n _ s1 h
      exact ⟨ih.1, ih.2.1, ih.2.2.1, ih.2.2.2⟩
    · split at h
      · cases h
      · rename_i s2 hs2
        have ih := skipCRLF_mode n _ s1 h
        have hr := refill_mode s s2 hs2
        exact SameMode_trans hr ⟨ih.1, ih.2.1, ih.2.2.1, ih.2.2.2⟩

theorem serve_mode (s s1 : CurlSession) (count : Int) (out : List Nat)
    (h : Read.serve s count = .ok (out, s1)) : SameMode s s1 := by
  unfold Read.serve at h
  dsimp only at h
  split at h
  · split at h
    · cases h
    · split at h
      · simp only [Except.ok.injEq, Prod.mk.injEq] at h
        obtain ⟨_, h⟩ := h
        subst h
        exact ⟨rfl, rfl, rfl, rfl⟩
      · simp only [Except.ok.injEq, Prod.mk.injEq] at h
        obtain ⟨_, h⟩ := h
        subst h
        exact ⟨rfl, rfl, rfl, rfl⟩
  · split at h
    · simp only [Except.ok.injEq, Prod.mk.injEq] at h
      obtain ⟨_, h⟩ := h
      subst h
      exact ⟨rfl, rfl, rfl, rfl⟩
    · split at h
      · cases h
      · simp only [Except.ok.injEq, Prod.mk.injEq] at h
        obtain ⟨_, h⟩ := h
        subst h
        exact ⟨rfl, rfl, rfl, rfl⟩

/-- C29: a call of `Read` that returns leaves the body-length mode as it was, for every session
state, every count and every behaviour of the peer: the declared content length and the
chunked-mode flag after the call are those before the call, and so are the response and the
request. -/
theorem Read_keeps_body_length_mode (fuel : Nat) (context : Context) (s s1 : CurlSession)
    (count : Int) (out : List Nat) (h : s.Read fuel context count = .ok (out, s1)) :
    s1.m_contentLength = s.m_contentLength ∧
      s1.m_isChunkedResponseType = s.m_isChunkedResponseType ∧
      s1.m_response = s.m_response ∧ s1.m_request = s.m_request := by
  unfold CurlSession.Read at h
  split at h
  · cases h
  · split at h
    · simp only [Except.ok.injEq, Prod.mk.injEq] at h
      obtain ⟨_, h⟩ := h
      subst h
      exact ⟨rfl, rfl, rfl, rfl⟩
    · split at h
      · split at h
        · cases h
        · rename_i s2 hs2
          have m1 := skipCRLF_mode 2 s s2 hs2
          split at h
          · cases h
          · rename_i s3 hs3
            have m2 := SameMode_trans m1 (poll_mode fuel [] s2 s3 hs3)
            split at h
            · simp only [Except.ok.injEq, Prod.mk.injEq] at h
              obtain ⟨_, h⟩ := h
              subst h
              exact m2
            · exact SameMode_trans m2 (serve_mode s3 s1 count out h)
      · exact serve_mode s s1 count out h

/-- C29 on the call of `Read` that passes from the chunk `Wiki` to the chunk `pedia`: it skips
two bytes, parses a chunk-size line and delivers five bytes, and the session stays in chunked
mode with the declared length -1. -/
theorem Read_keeps_body_length_mode_witness :
    (readOf (afterChunkSession "Wiki\r\n5\r\npedia" 4 "\r\n0\r\n\r\n" [])
        ((afterChunkSession "Wiki\r\n5\r\npedia" 4 "\r\n0\r\n\r\n" []).Read 8 ⟨false⟩ 16)).1 =
        bytes "pedia" ∧
      (afterChunkSession "Wiki\r\n5\r\npedia" 4 "\r\n0\r\n\r\n" []).m_contentLength = -1 ∧
      (afterChunkSession "Wiki\r\n5\r\npedia" 4 "\r\n0\r\n\r\n" []).m_isChunkedResponseType
        = true ∧
      (readOf (afterChunkSession "Wiki\r\n5\r\npedia" 4 "\r\n0\r\n\r\n" [])
        ((afterChunkSession "Wiki\r\n5\r\npedia" 4 "\r\n0\r\n\r\n" []).Read 8 ⟨false⟩
          16)).2.m_contentLength =
        (afterChunkSession "Wiki\r\n5\r\npedia" 4 "\r\n0\r\n\r\n" []).m_contentLength ∧
      (readOf (afterChunkSession "Wiki\r\n5\r\npedia" 4 "\r\n0\r\n\r\n" [])
        ((afterChunkSession "Wiki\r\n5\r\npedia" 4 "\r\n0\r\n\r\n" []).Read 8 ⟨false⟩
          16)).2.m_isChunkedResponseType =
        (afterChunkSession "Wiki\r\n5\r\npedia" 4 "\r\n0\r\n\r\n" []).m_isChunkedResponseType :=
  ⟨by decide, by decide, by decide,
    (Read_keeps_body_length_mode 8 ⟨false⟩
      (afterChunkSession "Wiki\r\n5\r\npedia" 4 "\r\n0\r\n\r\n" [])
      (readOf (afterChunkSession "Wiki\r\n5\r\npedia" 4 "\r\n0\r\n\r\n" [])
        ((afterChunkSession "Wiki\r\n5\r\npedia" 4 "\r\n0\r\n\r\n" []).Read 8 ⟨false⟩ 16)).2
      16
      (readOf (afterChunkSession "Wiki\r\n5\r\npedia" 4 "\r\n0\r\n\r\n" [])
        ((afterChunkSession "Wiki\r\n5\r\npedia" 4 "\r\n0\r\n\r\n" []).Read 8 ⟨false⟩ 16)).1
      (by decide)).1,
    (Read_keeps_body_length_mode 8 ⟨false⟩
      (afterChunkSession "Wiki\r\n5\r\npedia" 4 "\r\n0\r\n\r\n" [])
      (readOf (afterChunkSession "Wiki\r\n5\r\npedia" 4 "\r\n0\r\n\r\n" [])
        ((afterChunkSession "Wiki\r\n5\r\npedia" 4 "\r\n0\r\n\r\n" []).Read 8 ⟨false⟩ 16)).2
      16
      (readOf (afterChunkSession "Wiki\r\n5\r\npedia" 4 "\r\n0\r\n\r\n" [])
        ((afterChunkSession "Wiki\r\n5\r\npedia" 4 "\r\n0\r\n\r\n" []).Read 8 ⟨false⟩ 16)).1
      (by decide)).2.1⟩

theorem recvLoop_length (capacity : Nat) :
    ∀ (script : List SocketEvent) (c c1 : Curl) (out : List Nat),
      recvLoop capacity script c = .ok (out, c1) → out.length ≤ capacity
  | [], c, c1, out, h => by
    simp only [recvLoop, Except.ok.injEq, Prod.mk.injEq] at h
    rw [← h.1, List.length_take]
    exact Nat.min_le_left _ _
  | e :: script, c, c1, out, h => by
    unfold recvLoop at h
    split at h
    · dsimp only at h
      split at h
      · cases h
      · exact recvLoop_length capacity script _ c1 out h
    · split at h
      · simp only [Except.ok.injEq, Prod.mk.injEq] at h
        rw [← h.1, List.length_take]
        exact le_trans (Nat.min_le_left _ _) (Nat.min_le_left _ _)
      · cases h

/-- Whatever the peer does, `ReadSocketToBuffer` returns no more bytes than it was asked
for. -/
theorem ReadSocketToBuffer_length (c c1 : Curl) (bufferSize : Int) (out : List Nat)
    (h : ReadSocketToBuffer c bufferSize = .ok (out, c1)) :
    0 ≤ bufferSize ∧ ((out.length : Nat) : Int) ≤ bufferSize := by
  unfold ReadSocketToBuffer at h
  split at h
  · cases h
  · have := recvLoop_length _ _ _ _ _ h
    omega

theorem ReadSocketToBuffer_serving (c : Curl) (bufferSize : Int) (hs : Serving c)
    (h0 : 0 ≤ bufferSize) : ∃ out c1, ReadSocketToBuffer c bufferSize = .ok (out, c1) := by
  obtain ⟨frags, hf⟩ := hs
  have h1 : ¬ (bufferSize < 0) := by omega
  simp only [ReadSocketToBuffer, h1, if_false, hf]
  cases frags with
  | nil => exact ⟨_, _, rfl⟩
  | cons l ls =>
    have hne : ¬ ((CURLE_OK : CURLcode) = CURLE_AGAIN) := by decide
    simp only [List.map_cons, recvLoop, hne, if_false, if_true]
    exact ⟨_, _, rfl⟩

theorem slice_length_le (buffer : List Nat) (first last : Nat) :
    (slice buffer first last).length ≤ last - first := by
  unfold slice
  rw [List.length_take]
  exact Nat.min_le_left _ _

theorem MemoryBodyStream_Read_length (buffer : List Nat) (first length count : Int)
    (out : List Nat) (h : MemoryBodyStream.Read buffer first length count = .ok out) :
    0 ≤ min count length ∧ ((out.length : Nat) : Int) ≤ min count length := by
  unfold MemoryBodyStream.Read at h
  dsimp only at h
  split at h
  · cases h
  · simp only [Except.ok.injEq] at h
    subst h
    have := slice_length_le buffer first.toNat (first.toNat + (min count length).toNat)
    omega

/-- The bounds on what the second half of `Read` returns, for every session state and every
answer of the peer. -/
theorem serve_bounds (s s1 : CurlSession) (count : Int) (out : List Nat)
    (h : Read.serve s count = .ok (out, s1)) :
    (0 ≤ count → ((out.length : Nat) : Int) ≤ count) ∧
      (s.m_isChunkedResponseType = true → (0 ≤ s.m_bodyStartInBuffer ∨ 0 ≤ s.m_chunkSize) →
        ((out.length : Nat) : Int) ≤ s.m_chunkSize ∧
          s1.m_chunkSize = s.m_chunkSize - ((out.length : Nat) : Int)) ∧
      (0 < s.m_contentLength → s.m_sessionTotalRead ≤ s.m_contentLength →
        ((out.length : Nat) : Int) ≤ s.m_contentLength - s.m_sessionTotalRead) ∧
      s1.m_sessionTotalRead = s.m_sessionTotalRead + ((out.length : Nat) : Int) := by
  unfold Read.serve at h
  dsimp only at h
  split at h
  · rename_i hb
    split at h
    · cases h
    · rename_i out1 hm
      have hlen := MemoryBodyStream_Read_length _ _ _ _ _ hm
      have hs1 : out = out1 ∧
          s1.m_chunkSize = (if s.m_isChunkedResponseType = true then
            s.m_chunkSize - ((out1.length : Nat) : Int) else s.m_chunkSize) ∧
          s1.m_sessionTotalRead = s.m_sessionTotalRead + ((out1.length : Nat) : Int) := by
        split at h
        · simp only [Except.ok.injEq, Prod.mk.injEq] at h
          obtain ⟨h1, h2⟩ := h
          subst h1 h2
          exact ⟨rfl, rfl, rfl⟩
        · simp only [Except.ok.injEq, Prod.mk.injEq] at h
          obtain ⟨h1, h2⟩ := h
          subst h1 h2
          exact ⟨rfl, rfl, rfl⟩
      obtain ⟨e1, e2, e3⟩ := hs1
      subst e1
      refine ⟨fun _ => ?_, fun hch _ => ⟨?_, ?_⟩, fun hN _ => ?_, e3⟩
      · by_cases hN : s.m_contentLength > 0 <;> by_cases hch : s.m_isChunkedResponseType = true <;>
          simp only [hN, hch, if_true, if_false, Bool.false_eq_true] at hlen <;> omega
      · by_cases hN : s.m_contentLength > 0 <;>
          simp only [hN, hch, if_true, if_false] at hlen <;> omega
      · rw [e2, if_pos hch]
      · have hN' : s.m_contentLength > 0 := hN
        by_cases hch : s.m_isChunkedResponseType = true <;>
          simp only [hN', hch, if_true, if_false, Bool.false_eq_true] at hlen <;> omega
  · rename_i hb
    split at h
    · simp only [Except.ok.injEq, Prod.mk.injEq] at h
      obtain ⟨h1, h2⟩ := h
      subst h1 h2
      refine ⟨fun hc => by simpa using hc, fun _ hor => ⟨?_, by simp⟩, fun _ ht => ?_, by simp⟩
      · rcases hor with hor | hor
        · exact absurd hor hb
        · simpa using hor
      · simp only [List.length_nil, Nat.cast_zero]
        omega
    · split at h
      · cases h
      · rename_i out1 c hr
        simp only [Except.ok.injEq, Prod.mk.injEq] at h
        obtain ⟨h1, h2⟩ := h
        subst h1 h2
        have hlen := ReadSocketToBuffer_length _ _ _ _ hr
        refine ⟨fun _ => ?_, fun hch _ => ⟨?_, ?_⟩, fun hN _ => ?_, rfl⟩
        · by_cases hN : s.m_contentLength > 0 <;>
            by_cases hch : s.m_isChunkedResponseType = true <;>
            simp only [hN, hch, if_true, if_false, Bool.false_eq_true] at hlen <;> omega
        · by_cases hN : s.m_contentLength > 0 <;>
            simp only [hN, hch, if_true, if_false] at hlen <;> omega
        · simp only [hch, if_true]
        · have hN' : s.m_contentLength > 0 := hN
          by_cases hch : s.m_isChunkedResponseType = true <;>
            simp only [hN', hch, if_true, if_false, Bool.false_eq_true] at hlen <;> omega

theorem ite_ok_exists (c : Prop) [Decidable c] (a b : List Nat × CurlSession) :
    ∃ (out : List Nat) (s1 : CurlSession),
      (if c then (Except.ok a : Except Error (List Nat × CurlSession)) else .ok b) =
        .ok (out, s1) := by
  split
  · exact ⟨a.1, a.2, rfl⟩
  · exact ⟨b.1, b.2, rfl⟩

theorem poll_offset :
    ∀ (fuel : Nat) (text : List Nat) (s s1 : CurlSession),
      ParseChunkSize.poll fuel text s = .ok s1 → 0 ≤ s1.m_bodyStartInBuffer
  | 0, _, _, _, h => by simp [ParseChunkSize.poll] at h
  | fuel + 1, text, s, s1, h => by
    unfold ParseChunkSize.poll at h
    split at h
    · cases h
    · split at h
      · split at h
        · cases h
        · dsimp only at h
          split at h
          · split at h
            · cases h
            · simp only [Except.ok.injEq] at h
              subst h
              exact le_refl _
          · simp only [Except.ok.injEq] at h
            subst h
            show (0 : Int) ≤ _ + 1
            omega
      · split at h
        · cases h
        · exact poll_offset fuel _ _ s1 h

/-- C30 fails as stated at two inputs. A call with the count -1 returns 0, which is not at most
the count. And a call at the end of a chunk whose next chunk-size line is `8000000000000000`
sets the remaining-chunk counter to `-2^63` and then asks for a negative number of bytes, so
that it returns no value at all. -/
theorem Read_value_outside_bounds :
    chunkedSessionAtBody.Read 8 ⟨false⟩ (-1) = .ok ([], chunkedSessionAtBody) ∧
      ¬ (((([] : List Nat).length : Nat) : Int) ≤ -1) ∧
      (sessionOf chunkedSessionAtBody
        ((Read.skipCRLF 2
            (afterChunkSession "Wiki\r\n8000000000000000\r\npedia" 4 "" [])).bind
          fun s2 => s2.ParseChunkSize 4)).m_chunkSize = -9223372036854775808 ∧
      (afterChunkSession "Wiki\r\n8000000000000000\r\npedia" 4 "" []).Read 4 ⟨false⟩ 16 =
        .error .undefinedBehaviour := by
  decide

/-- C30 (amended): for every session state, every count and every behaviour of the peer, a
call of `Read` that returns `r` bytes has `r = 0` when the count is not positive and
`0 ≤ r ≤ count` otherwise. In chunked mode, when the remaining-chunk counter is not negative
at the call, it is not negative afterwards; inside a chunk `r` is at most the counter, which
goes down by `r`, and at the end of a chunk the new counter is the chunk size just parsed less
`r`. In content-length mode with a declared length `N > 0` and at most `N` bytes delivered so
far, `r` is at most `N` less the bytes delivered, the total goes up by `r` and stays at most
`N`. Inside a chunk or outside chunked mode the call does return, whenever the context is not
cancelled, the counters are in these ranges, the offset is not behind the fill and the peer
answers every receive with success. -/
theorem Read_value_bounds (fuel : Nat) (context : Context) (s : CurlSession) (count : Int) :
    (∀ (out : List Nat) (s1 : CurlSession), s.Read fuel context count = .ok (out, s1) →
      (count ≤ 0 → out = []) ∧
        (0 ≤ count → ((out.length : Nat) : Int) ≤ count) ∧
        (s.m_isChunkedResponseType = true → 0 ≤ s.m_chunkSize →
          0 ≤ s1.m_chunkSize ∧
            (0 < s.m_chunkSize →
              ((out.length : Nat) : Int) ≤ s.m_chunkSize ∧
                s1.m_chunkSize = s.m_chunkSize - ((out.length : Nat) : Int)) ∧
            (0 < count → s.m_chunkSize = 0 →
              ∃ s3 : CurlSession,
                ((Read.skipCRLF 2 s).bind fun s2 => s2.ParseChunkSize fuel) = .ok s3 ∧
                  ((out.length : Nat) : Int) ≤ s3.m_chunkSize ∧
                  s1.m_chunkSize = s3.m_chunkSize - ((out.length : Nat) : Int))) ∧
        (s.m_isChunkedResponseType = false → 0 < s.m_contentLength →
          s.m_sessionTotalRead ≤ s.m_contentLength →
          ((out.length : Nat) : Int) ≤ s.m_contentLength - s.m_sessionTotalRead ∧
            s1.m_sessionTotalRead = s.m_sessionTotalRead + ((out.length : Nat) : Int) ∧
            s1.m_sessionTotalRead ≤ s.m_contentLength)) ∧
      (context.cancelled = false →
        ¬ (s.m_isChunkedResponseType = true ∧ s.m_chunkSize = 0) →
        (s.m_isChunkedResponseType = true → 0 ≤ s.m_chunkSize) →
        (0 < s.m_contentLength → s.m_sessionTotalRead ≤ s.m_contentLength) →
        s.m_bodyStartInBuffer ≤ s.m_innerBufferSize → Serving s.m_curl →
        ∃ (out : List Nat) (s1 : CurlSession), s.Read fuel context count = .ok (out, s1)) := by
  constructor
  · intro out s1 h
    unfold CurlSession.Read at h
    split at h
    · cases h
    · split at h
      · rename_i hc
        simp only [Except.ok.injEq, Prod.mk.injEq] at h
        obtain ⟨h1, h2⟩ := h
        subst h1 h2
        refine ⟨fun _ => rfl, fun h0 => by simpa using h0, fun _ h0 => ⟨h0, fun hpos => ?_,
          fun hcount => absurd hc (by omega)⟩, fun _ _ ht => ?_⟩
        · simp only [List.length_nil, Nat.cast_zero, sub_zero, and_true]
          omega
        · simp only [List.length_nil, Nat.cast_zero, add_zero, true_and]
          omega
      · rename_i hc
        have hcount : 0 < count := by omega
        split at h
        · rename_i hb
          obtain ⟨hch, hzero⟩ := hb
          split at h
          · cases h
          · rename_i s2 hs2
            have m1 := skipCRLF_mode 2 s s2 hs2
            split at h
            · cases h
            · rename_i s3 hs3
              have m2 := poll_mode fuel [] s2 s3 hs3
              have hch3 : s3.m_isChunkedResponseType = true := by rw [m2.2.1, m1.2.1]; exact hch
              have hoff := poll_offset fuel [] s2 s3 hs3
              have hbind : ((Read.skipCRLF 2 s).bind fun s2 => s2.ParseChunkSize fuel) = .ok s3 := by
                rw [hs2]
                exact hs3
              split at h
              · rename_i hz3
                simp only [Except.ok.injEq, Prod.mk.injEq] at h
                obtain ⟨h1, h2⟩ := h
                subst h1 h2
                refine ⟨fun h0 => absurd h0 hc, fun _ => by simp; omega,
                  fun _ _ => ⟨?_, fun hpos => absurd hzero (by omega),
                    fun _ _ => ⟨s3, hbind, ?_, ?_⟩⟩,
                  fun hn => ?_⟩
                · show 0 ≤ s3.m_chunkSize
                  omega
                · simp only [List.length_nil, Nat.cast_zero]
                  omega
                · show s3.m_chunkSize = s3.m_chunkSize - (([] : List Nat).length : Nat)
                  simp
                · rw [hch] at hn
                  cases hn
              · obtain ⟨b1, b2, _, _⟩ := serve_bounds s3 s1 count out h
                obtain ⟨b3, b4⟩ := b2 hch3 (Or.inl hoff)
                refine ⟨fun h0 => absurd h0 hc, fun h0 => b1 h0,
                  fun _ _ => ⟨by omega, fun hpos => absurd hzero (by omega),
                    fun _ _ => ⟨s3, hbind, b3, b4⟩⟩,
                  fun hn => ?_⟩
                rw [hch] at hn
                cases hn
        · rename_i hb
          obtain ⟨b1, b2, b3, b4⟩ := serve_bounds s s1 count out h
          refine ⟨fun h0 => absurd h0 hc, fun h0 => b1 h0, fun hch h0 => ?_, fun _ hN ht => ?_⟩
          · obtain ⟨b5, b6⟩ := b2 hch (Or.inr h0)
            refine ⟨by omega, fun _ => ⟨b5, b6⟩, fun _ hz => absurd ⟨hch, hz⟩ hb⟩
          · have := b3 hN ht
            exact ⟨this, b4, by omega⟩
  · intro hctx hin hchunk htotal hoff hserving
    unfold CurlSession.Read
    rw [hctx]
    simp only [Bool.false_eq_true, if_false]
    by_cases hc : count ≤ 0
    · rw [if_pos hc]
      exact ⟨_, _, rfl⟩
    · rw [if_neg hc, if_neg hin]
      have hrrl : 0 ≤ (if s.m_contentLength > 0 then
          min (if s.m_isChunkedResponseType = true then min s.m_chunkSize count else count)
            (s.m_contentLength - s.m_sessionTotalRead)
          else (if s.m_isChunkedResponseType = true then min s.m_chunkSize count else count)) := by
        by_cases hN : s.m_contentLength > 0
        · have := htotal hN
          by_cases hch : s.m_isChunkedResponseType = true
          · have := hchunk hch
            simp only [hN, hch, if_true]
            omega
          · simp only [hN, hch, if_true, if_false, Bool.false_eq_true]
            omega
        · by_cases hch : s.m_isChunkedResponseType = true
          · have := hchunk hch
            simp only [hN, hch, if_true, if_false]
            omega
          · simp only [hN, hch, if_false, Bool.false_eq_true]
            omega
      unfold Read.serve
      dsimp only
      by_cases hb : s.m_bodyStartInBuffer ≥ 0
      · rw [if_pos hb]
        have hcopy : ¬ (min (if s.m_contentLength > 0 then
            min (if s.m_isChunkedResponseType = true then min s.m_chunkSize count else count)
              (s.m_contentLength - s.m_sessionTotalRead)
            else (if s.m_isChunkedResponseType = true then min s.m_chunkSize count else count))
            (s.m_innerBufferSize - s.m_bodyStartInBuffer) < 0) := by
          omega
        simp only [MemoryBodyStream.Read, hcopy, if_false]
        exact ite_ok_exists _ _ _
      · rw [if_neg hb]
        split
        · exact ⟨_, _, rfl⟩
        · obtain ⟨out, c1, hr⟩ := ReadSocketToBuffer_serving s.m_curl _ hserving hrrl
          rw [hr]
          exact ⟨_, _, rfl⟩

/-- C30 (amended) on the call of `Read` with the count 3 at the end of the chunk `Wiki`: it
returns the first three bytes of the chunk `pedia` and leaves the remaining-chunk counter at 2. -/
theorem Read_value_bounds_witness :
    (readOf nextChunkSession (nextChunkSession.Read 8 ⟨false⟩ 3)).1 = bytes "ped" ∧
      (readOf nextChunkSession (nextChunkSession.Read 8 ⟨false⟩ 3)).2.m_chunkSize = 2 ∧
      (((readOf nextChunkSession (nextChunkSession.Read 8 ⟨false⟩ 3)).1.length : Nat) : Int) ≤ 3 ∧
      0 ≤ (readOf nextChunkSession (nextChunkSession.Read 8 ⟨false⟩ 3)).2.m_chunkSize :=
  ⟨by decide, by decide,
    ((Read_value_bounds 8 ⟨false⟩ nextChunkSession 3).1
      (readOf nextChunkSession (nextChunkSession.Read 8 ⟨false⟩ 3)).1
      (readOf nextChunkSession (nextChunkSession.Read 8 ⟨false⟩ 3)).2 (by decide)).2.1 (by decide),
    (((Read_value_bounds 8 ⟨false⟩ nextChunkSession 3).1
      (readOf nextChunkSession (nextChunkSession.Read 8 ⟨false⟩ 3)).1
      (readOf nextChunkSession (nextChunkSession.Read 8 ⟨false⟩ 3)).2 (by decide)).2.2.1
      (by decide) (by decide)).1⟩

theorem stoi_not_terminate (s : List Nat) (e : Error) (h : stoi s = .error e) :
    e ≠ .terminate := by
  rcases stoi_error_kind s e h with h1 | h1 <;> rw [h1] <;> decide

theorem CreateHTTPResponse_not_terminate (line : List Nat) (e : Error)
    (h : CreateHTTPResponse line = .error e) : e ≠ .terminate := by
  have hub : (Error.undefinedBehaviour : Error) ≠ .terminate := by decide
  unfold CreateHTTPResponse at h
  split at h
  · cases h; exact hub
  · dsimp only at h
    split at h
    · rename_i e1 h1
      cases h
      exact stoi_not_terminate _ _ h1
    · split at h
      · cases h; exact hub
      · split at h
        · rename_i e1 h1
          cases h
          exact stoi_not_terminate _ _ h1
        · split at h
          · cases h; exact hub
          · split at h
            · rename_i e1 h1
              cases h
              exact stoi_not_terminate _ _ h1
            · split at h
              · cases h; exact hub
              · cases h

theorem BuiltFromStatusLine_addHeader (q : ResponseBufferParser) (line : List Nat)
    (hb : BuiltFromStatusLine q) :
    ∃ q2, q.addHeader line = .ok q2 ∧ BuiltFromStatusLine q2 ∧ q2.state = q.state ∧
      q2.m_parseCompleted = q.m_parseCompleted := by
  obtain ⟨l0, r0, added, h1, h2⟩ := hb
  refine ⟨{ q with m_response := some ((added.foldl RawResponse.AddHeader r0).AddHeader line) },
    ?_, ⟨l0, r0, added ++ [line], h1, ?_⟩, rfl, rfl⟩
  · simp only [ResponseBufferParser.addHeader, h2]
  · simp only [List.foldl_append, List.foldl_cons, List.foldl_nil]

/-- One iteration of the loop of `Parse` on a parser within the phases: it does not reach a
`throw;`, it throws in phase `StatusLine` only, it keeps the phases and never leaves phase
`Headers`, and it reports completion from phase `Headers` only. -/
theorem iter_phase (f : List Nat) (b start index : Nat) (q : ResponseBufferParser)
    (inv : PhaseInv q) (hnd : q.m_parseCompleted = false) :
    IterPost q (Parse.iter f b start index q) := by
  have keep : ∀ q1 : ResponseBufferParser, q1.state = q.state → q1.m_response = q.m_response →
      q1.m_parseCompleted = q.m_parseCompleted → PhaseInv q1 := by
    intro q1 e1 e2 e3
    rcases inv with ⟨a1, a2, a3⟩ | ⟨a1, l0, r0, added, b1, b2⟩
    · exact Or.inl ⟨e1.trans a1, e2.trans a2, e3.trans a3⟩
    · exact Or.inr ⟨e1.trans a1, l0, r0, added, b1, e2.trans b2⟩
  by_cases h1 : b = CR
  · simp only [Parse.iter, h1, if_true]
    exact ⟨keep _ rfl rfl rfl, hnd, fun hs => hs⟩
  · by_cases h2 : b = LF ∧ q.m_delimiterStartInPrevPosition = true
    · by_cases h3 : q.m_internalBuffer.length > 0
      · -- a line with accumulated text
        have hq1 : ∀ q0 : ResponseBufferParser, q0.state = q.state → q0.m_response = q.m_response →
            q0.m_parseCompleted = q.m_parseCompleted →
            IterPost q (match q0.state with
              | .StatusLine =>
                match CreateHTTPResponse q0.m_internalBuffer with
                | .error e => .error e
                | .ok r =>
                  .ok (.next (index + 1)
                    { q0 with
                      m_response := some r
                      state := .Headers
                      m_delimiterStartInPrevPosition := false
                      m_internalBuffer := [] })
              | .Headers =>
                match q0.addHeader q0.m_internalBuffer with
                | .error e => .error e
                | .ok p2 =>
                  .ok (.next (index + 1)
                    { p2 with m_delimiterStartInPrevPosition := false, m_internalBuffer := [] })
              | .EndOfHeaders => (.error .terminate : Except Error ParseIter)) := by
          intro q0 e1 e2 e3
          rcases inv with ⟨a1, a2, a3⟩ | ⟨a1, a2⟩
          · have hs0 : q0.state = .StatusLine := e1.trans a1
            simp only [hs0]
            cases hc : CreateHTTPResponse q0.m_internalBuffer with
            | error e0 => exact ⟨CreateHTTPResponse_not_terminate _ _ hc, a1⟩
            | ok r => exact ⟨Or.inr ⟨rfl, ⟨_, r, [], hc, rfl⟩⟩, e3.trans hnd, fun _ => rfl⟩
          · have hs0 : q0.state = .Headers := e1.trans a1
            have hb0 : BuiltFromStatusLine q0 := by
              obtain ⟨l0, r0, added, b1, b2⟩ := a2
              exact ⟨l0, r0, added, b1, e2.trans b2⟩
            obtain ⟨q2, c1, c2, c3, c4⟩ := BuiltFromStatusLine_addHeader q0 q0.m_internalBuffer hb0
            simp only [hs0, c1]
            obtain ⟨l0, r0, added, b1, b2⟩ := c2
            exact ⟨Or.inr ⟨c3.trans hs0, ⟨l0, r0, added, b1, b2⟩⟩, (c4.trans e3).trans hnd,
              fun _ => c3.trans hs0⟩
        by_cases h4 : index > 1
        · have := hq1 { q with m_internalBuffer := q.m_internalBuffer ++ slice f start (index - 1) }
            rfl rfl rfl
          simpa only [Parse.iter, h1, if_false, h2, and_self, if_true, h3, h4] using this
        · have := hq1 q rfl rfl rfl
          simpa only [Parse.iter, h1, if_false, h2, and_self, if_true, h3, h4] using this
      · -- a line taken from the window
        simp only [Parse.iter, h1, if_false, h2, and_self, if_true, h3]
        rcases inv with ⟨a1, a2, a3⟩ | ⟨a1, a2⟩
        · simp only [a1]
          cases hc : CreateHTTPResponse (slice f start (index - 1)) with
          | error e0 => exact ⟨CreateHTTPResponse_not_terminate _ _ hc, a1⟩
          | ok r => exact ⟨Or.inr ⟨rfl, ⟨_, r, [], hc, rfl⟩⟩, hnd, fun _ => rfl⟩
        · simp only [a1]
          by_cases h5 : index = 0 ∨ index = start + 1
          · simp only [h5, if_true]
            obtain ⟨l0, r0, added, b1, b2⟩ := a2
            exact ⟨Or.inr ⟨rfl, ⟨l0, r0, added, b1, b2⟩⟩, a1, rfl, rfl⟩
          · obtain ⟨q2, c1, c2, c3, c4⟩ :=
              BuiltFromStatusLine_addHeader q (slice f start (index - 1)) a2
            simp only [h5, if_false, c1]
            obtain ⟨l0, r0, added, b1, b2⟩ := c2
            exact ⟨Or.inr ⟨c3.trans a1, ⟨l0, r0, added, b1, b2⟩⟩, c4.trans hnd,
              fun _ => c3.trans a1⟩
    · simp only [Parse.iter, h1, if_false, h2]
      by_cases h6 : index = 0 ∧ q.m_internalBuffer.length > 0 ∧
          q.m_delimiterStartInPrevPosition = true
      · simp only [h6, and_self, if_true]
        exact ⟨keep _ rfl rfl rfl, hnd, fun hs => hs⟩
      · simp only [h6, if_false]
        exact ⟨keep _ rfl rfl rfl, hnd, fun hs => hs⟩

theorem loopTraced_phase (f : List Nat) :
    ∀ (rest : List Nat) (start index : Nat) (q : ResponseBufferParser),
      PhaseInv q → q.m_parseCompleted = false →
      CallPost q (Parse.loopTraced f rest start index q)
  | [], start, index, q, inv, hnd => by
    have hc : ¬ (q.m_parseCompleted = true) := by rw [hnd]; decide
    simp only [Parse.loopTraced, Parse.finish]
    split
    · refine ⟨?_, fun h => h, fun h => absurd h hc⟩
      rcases inv with ⟨a1, a2, a3⟩ | ⟨a1, l0, r0, added, b1, b2⟩
      · exact Or.inl ⟨a1, a2, a3⟩
      · exact Or.inr ⟨a1, l0, r0, added, b1, b2⟩
    · exact ⟨inv, fun h => h, fun h => h⟩
  | b :: rest, start, index, q, inv, hnd => by
    have hc : ¬ (q.m_parseCompleted = true) := by rw [hnd]; decide
    have h := iter_phase f b start index q inv hnd
    unfold Parse.loopTraced
    cases hi : Parse.iter f b start index q with
    | error e =>
      rw [hi] at h
      obtain ⟨h1, h2⟩ := h
      have hat := atThrow_state f start index q
      have hcomp : (Parse.atThrow f start index q).m_parseCompleted = false := by
        unfold Parse.atThrow
        split <;> exact hnd
      refine ⟨h1, ?_, fun hs => ?_, fun h => absurd h hc⟩
      · rcases inv with ⟨a1, a2, a3⟩ | ⟨a1, _⟩
        · exact Or.inl ⟨hat.1.trans a1, hat.2.trans a2, hcomp⟩
        · rw [a1] at h2
          cases h2
      · rw [h2] at hs
        cases hs
    | ok r =>
      cases r with
      | ret v q1 =>
        rw [hi] at h
        exact ⟨h.1, fun _ => h.2.2.1, fun h => absurd h hc⟩
      | next start1 q1 =>
        rw [hi] at h
        obtain ⟨h1, h2, h3⟩ := h
        have ih := loopTraced_phase f rest start1 (index + 1) q1 h1 h2
        show CallPost q (Parse.loopTraced f rest start1 (index + 1) q1)
        cases hr : Parse.loopTraced f rest start1 (index + 1) q1 with
        | error ep =>
          obtain ⟨e, p1⟩ := ep
          rw [hr] at ih
          exact ⟨ih.1, ih.2.1, fun hs => ih.2.2.1 (h3 hs), fun h => absurd h hc⟩
        | ok vp =>
          obtain ⟨v, p1⟩ := vp
          rw [hr] at ih
          exact ⟨ih.1, fun hs => ih.2.1 (h3 hs), fun h => absurd h hc⟩

theorem ParseTraced_phase (p : ResponseBufferParser) (f : List Nat) (inv : PhaseInv p) :
    CallPost p (p.ParseTraced f) := by
  unfold ResponseBufferParser.ParseTraced
  cases h : p.m_parseCompleted with
  | true => exact ⟨inv, fun hs => hs, fun _ => h⟩
  | false => exact loopTraced_phase f f 0 0 p inv h

theorem feedTraced_phase (fills : List (List Nat)) :
    ∀ p : ResponseBufferParser, PhaseInv p →
      (∀ (e : Error) (p1 : ResponseBufferParser),
        p.feedTraced fills = .error (e, p1) → e ≠ .terminate) ∧
      (∀ p1 : ResponseBufferParser, p.feedTraced fills = .ok p1 →
        PhaseInv p1 ∧ (p.state = .Headers → p1.state = .Headers) ∧
          (p.m_parseCompleted = true → p1.m_parseCompleted = true)) := by
  induction fills with
  | nil =>
    intro p inv
    refine ⟨fun e p1 h => by simp [ResponseBufferParser.feedTraced] at h, fun p1 h => ?_⟩
    simp only [ResponseBufferParser.feedTraced, Except.ok.injEq] at h
    subst h
    exact ⟨inv, fun hs => hs, fun hc => hc⟩
  | cons f fills ih =>
    intro p inv
    have h := ParseTraced_phase p f inv
    unfold ResponseBufferParser.feedTraced
    cases hq : p.ParseTraced f with
    | error ep =>
      obtain ⟨e0, p0⟩ := ep
      rw [hq] at h
      refine ⟨fun e p1 he => ?_, fun p1 he => by cases he⟩
      simp only [Except.error.injEq, Prod.mk.injEq] at he
      rw [← he.1]
      exact h.1
    | ok r =>
      obtain ⟨v, p0⟩ := r
      rw [hq] at h
      obtain ⟨i1, i2⟩ := ih p0 h.1
      refine ⟨fun e p1 he => i1 e p1 he, fun p1 he => ?_⟩
      obtain ⟨j1, j2, j3⟩ := i2 p1 he
      exact ⟨j1, fun hs => j2 (h.2.1 hs), fun hc => j3 (h.2.2 hc)⟩

theorem PhaseInv_new : PhaseInv ResponseBufferParser.new := Or.inl ⟨rfl, rfl, rfl⟩

theorem PhaseInv_completed (p : ResponseBufferParser) (inv : PhaseInv p)
    (hc : p.m_parseCompleted = true) : p.state = .Headers ∧ BuiltFromStatusLine p := by
  rcases inv with ⟨_, _, a3⟩ | h
  · rw [a3] at hc
    cases hc
  · exact h

/-- C36: a fresh parser is within the phases (`StatusLine` without a response and not completed,
or `Headers` with a response built from a status line), and a call of `Parse` on a parser
within the phases, whether it returns or throws, leaves a parser within the phases that has not
gone back from `Headers` nor from completed, and what it throws is never the bare `throw;` of
the two invalid-state branches. Hence, for every sequence of fills given to a fresh parser,
`Parse` never reaches those branches, the phase stays `StatusLine` or `Headers`, and a completed
parser is in phase `Headers` and holds a response built from a status line. -/
theorem parser_phase_moves_forward :
    PhaseInv ResponseBufferParser.new ∧
      (∀ (p : ResponseBufferParser) (f : List Nat), PhaseInv p →
        (∀ (e : Error) (p1 : ResponseBufferParser), p.ParseTraced f = .error (e, p1) →
          e ≠ .terminate ∧ PhaseInv p1 ∧ (p.state = .Headers → p1.state = .Headers) ∧
            (p.m_parseCompleted = true → p1.m_parseCompleted = true)) ∧
        (∀ (v : Nat) (p1 : ResponseBufferParser), p.ParseTraced f = .ok (v, p1) →
          PhaseInv p1 ∧ (p.state = .Headers → p1.state = .Headers) ∧
            (p.m_parseCompleted = true → p1.m_parseCompleted = true))) ∧
      (∀ fills : List (List Nat), ResponseBufferParser.new.feed fills ≠ .error .terminate) ∧
      (∀ (fills : List (List Nat)) (p : ResponseBufferParser),
        ResponseBufferParser.new.feed fills = .ok p →
        (p.state = .StatusLine ∨ p.state = .Headers) ∧
          (p.m_parseCompleted = true → p.state = .Headers ∧ BuiltFromStatusLine p)) := by
  refine ⟨PhaseInv_new, fun p f inv => ?_, fun fills hf => ?_, fun fills p hf => ?_⟩
  · have h := ParseTraced_phase p f inv
    refine ⟨fun e p1 he => ?_, fun v p1 he => ?_⟩
    · rw [he] at h
      exact h
    · rw [he] at h
      exact h
  · have h := (feedTraced_phase fills _ PhaseInv_new).1
    have hfg := feedTraced_forget fills ResponseBufferParser.new
    rw [hf] at hfg
    cases hq : ResponseBufferParser.new.feedTraced fills with
    | error ep =>
      obtain ⟨e, p1⟩ := ep
      rw [hq] at hfg
      simp only [Except.mapError, Except.error.injEq] at hfg
      exact h e p1 hq hfg
    | ok r =>
      rw [hq] at hfg
      simp [Except.mapError] at hfg
  · have h := (feedTraced_phase fills _ PhaseInv_new).2
    have hfg := feedTraced_forget fills ResponseBufferParser.new
    rw [hf] at hfg
    cases hq : ResponseBufferParser.new.feedTraced fills with
    | error ep =>
      rw [hq] at hfg
      simp [Except.mapError] at hfg
    | ok r =>
      rw [hq] at hfg
      simp only [Except.mapError, Except.ok.injEq] at hfg
      subst hfg
      obtain ⟨j1, _, _⟩ := h r hq
      refine ⟨?_, PhaseInv_completed r j1⟩
      rcases j1 with ⟨a1, _⟩ | ⟨a1, _⟩
      · exact Or.inl a1
      · exact Or.inr a1

/-- C36 on a header block cut inside the status line and inside a header line: the parser
completes in phase `Headers` with the response of the status line; and on a status line whose
fields are not numbers `Parse` throws `std::invalid_argument`, not the bare `throw;`. -/
theorem parser_phase_moves_forward_witness :
    ((ResponseBufferParser.new.feed
        [bytes "HTTP/1.1 2", bytes "00 OK\r\nA: b", bytes "\r\n\r\n"]).toOption.map
        fun p => (p.state, p.m_parseCompleted, p.m_response)) =
        some (.Headers, true, some ⟨1, 1, 200, bytes "OK", [bytes "A: b"]⟩) ∧
      ResponseBufferParser.new.feed [bytes "HELLO WORLD\r\n"] = .error .invalidArgument ∧
      ResponseBufferParser.new.feed
        [bytes "HTTP/1.1 2", bytes "00 OK\r\nA: b", bytes "\r\n\r\n"] ≠ .error .terminate :=
  ⟨by decide, by decide,
    parser_phase_moves_forward.2.2.1
      [bytes "HTTP/1.1 2", bytes "00 OK\r\nA: b", bytes "\r\n\r\n"]⟩

theorem addIf_permissions (b : BlobSasBuilder) (permissions flag : Nat) (letter : String) :
    (b.addIf permissions flag letter).Permissions =
        b.Permissions ++ (if hasPermission permissions flag then letter else "") ∧
      (b.addIf permissions flag letter).ContainerName = b.ContainerName := by
  unfold BlobSasBuilder.addIf
  cases hasPermission permissions flag
  · simp
  · simp

theorem ite_data (c : Bool) (letter : String) :
    (if c = true then letter else "").data = if c = true then letter.data else [] := by
  cases c <;> rfl

theorem filter_entry (permissions : Nat) (c : Char) (flag : Nat) (table : List (Char × Nat)) :
    (((c, flag) :: table).filter fun entry => hasPermission permissions entry.2).map Prod.fst =
      (if hasPermission permissions flag = true then [c] else []) ++
        (table.filter fun entry => hasPermission permissions entry.2).map Prod.fst := by
  cases h : hasPermission permissions flag <;> simp [List.filter_cons, h]

theorem SetPermissions_container_letters (flags : BlobContainerSasPermissions)
    (b : BlobSasBuilder) (permissions : Nat) :
    b.SetPermissions_container flags permissions =
      { b with
        Permissions := permissionLetters permissions
          [('r', flags.Read), ('a', flags.Add), ('c', flags.Create), ('w', flags.Write),
            ('d', flags.Delete), ('x', flags.DeleteVersion), ('l', flags.List),
            ('t', flags.Tags)] } := by
  have hp : (b.SetPermissions_container flags permissions).Permissions =
      permissionLetters permissions
        [('r', flags.Read), ('a', flags.Add), ('c', flags.Create), ('w', flags.Write),
          ('d', flags.Delete), ('x', flags.DeleteVersion), ('l', flags.List),
          ('t', flags.Tags)] := by
    apply String.ext
    simp only [BlobSasBuilder.SetPermissions_container, addIf_permissions, permissionLetters,
      String.data_append, ite_data, filter_entry]
    simp
  have hc : (b.SetPermissions_container flags permissions).ContainerName = b.ContainerName := by
    simp only [BlobSasBuilder.SetPermissions_container, addIf_permissions]
  cases hb : b.SetPermissions_container flags permissions with
  | mk name perms =>
    rw [hb] at hp hc
    simp only at hp hc
    rw [hp, hc]

theorem SetPermissions_blob_letters (flags : BlobSasPermissions)
    (b : BlobSasBuilder) (permissions : Nat) :
    b.SetPermissions_blob flags permissions =
      { b with
        Permissions := permissionLetters permissions
          [('r', flags.Read), ('a', flags.Add), ('c', flags.Create), ('w', flags.Write),
            ('d', flags.Delete), ('x', flags.DeleteVersion), ('t', flags.Tags)] } := by
  have hp : (b.SetPermissions_blob flags permissions).Permissions =
      permissionLetters permissions
        [('r', flags.Read), ('a', flags.Add), ('c', flags.Create), ('w', flags.Write),
          ('d', flags.Delete), ('x', flags.DeleteVersion), ('t', flags.Tags)] := by
    apply String.ext
    simp only [BlobSasBuilder.SetPermissions_blob, addIf_permissions, permissionLetters,
      String.data_append, ite_data, filter_entry]
    simp
  have hc : (b.SetPermissions_blob flags permissions).ContainerName = b.ContainerName := by
    simp only [BlobSasBuilder.SetPermissions_blob, addIf_permissions]
  cases hb : b.SetPermissions_blob flags permissions with
  | mk name perms =>
    rw [hb] at hp hc
    simp only at hp hc
    rw [hp, hc]

/-- C39: both overloads of `SetPermissions` leave the other fields alone and set `Permissions`
to the letters of the flags `f` with `(permissions & f) == f`, one letter each, in the order
`r a c w d x l t` for container permissions and `r a c w d x t` for blob permissions, whatever
the string held before and whatever the values of the enumerators are; hence a second call with
the same argument changes nothing, and two builders that differ in `Permissions` only are equal
after the call. -/
theorem SetPermissions_letters (cflags : BlobContainerSasPermissions)
    (bflags : BlobSasPermissions) (b : BlobSasBuilder) (permissions : Nat) :
    b.SetPermissions_container cflags permissions =
        { b with
          Permissions := permissionLetters permissions
            [('r', cflags.Read), ('a', cflags.Add), ('c', cflags.Create), ('w', cflags.Write),
              ('d', cflags.Delete), ('x', cflags.DeleteVersion), ('l', cflags.List),
              ('t', cflags.Tags)] } ∧
      b.SetPermissions_blob bflags permissions =
        { b with
          Permissions := permissionLetters permissions
            [('r', bflags.Read), ('a', bflags.Add), ('c', bflags.Create), ('w', bflags.Write),
              ('d', bflags.Delete), ('x', bflags.DeleteVersion), ('t', bflags.Tags)] } ∧
      (b.SetPermissions_container cflags permissions).SetPermissions_container cflags permissions =
        b.SetPermissions_container cflags permissions ∧
      (b.SetPermissions_blob bflags permissions).SetPermissions_blob bflags permissions =
        b.SetPermissions_blob bflags permissions ∧
      (∀ before : String,
        BlobSasBuilder.SetPermissions_container cflags { b with Permissions := before }
            permissions = b.SetPermissions_container cflags permissions ∧
          BlobSasBuilder.SetPermissions_blob bflags { b with Permissions := before }
            permissions = b.SetPermissions_blob bflags permissions) := by
  refine ⟨SetPermissions_container_letters cflags b permissions,
    SetPermissions_blob_letters bflags b permissions, ?_, ?_, fun before => ⟨?_, ?_⟩⟩
  · rw [SetPermissions_container_letters cflags b, SetPermissions_container_letters cflags]
  · rw [SetPermissions_blob_letters bflags b, SetPermissions_blob_letters bflags]
  · rw [SetPermissions_container_letters cflags b, SetPermissions_container_letters cflags]
  · rw [SetPermissions_blob_letters bflags b, SetPermissions_blob_letters bflags]

/-- C39 with flags of one bit each, on a builder that held `rw` before: read, write and list
(1 + 2 + 8) give `rwl` for a container, read, write and tags (1 + 2 + 32) give `rwt` for a blob,
no flag gives the empty string, and all bits give every letter in the fixed order. -/
theorem SetPermissions_letters_witness :
    (BlobSasBuilder.SetPermissions_container containerFlagsExample ⟨"c", "rw"⟩ 11).Permissions =
        "rwl" ∧
      (BlobSasBuilder.SetPermissions_blob blobFlagsExample ⟨"c", "rw"⟩ 35).Permissions = "rwt" ∧
      (BlobSasBuilder.SetPermissions_container containerFlagsExample ⟨"c", "rw"⟩ 0).Permissions =
        "" ∧
      (BlobSasBuilder.SetPermissions_container containerFlagsExample ⟨"c", "rw"⟩
        4294967295).Permissions = "racwdxlt" ∧
      (BlobSasBuilder.SetPermissions_blob blobFlagsExample ⟨"c", "rw"⟩ 4294967295).Permissions =
        "racwdxt" ∧
      BlobSasBuilder.SetPermissions_container containerFlagsExample
          (BlobSasBuilder.SetPermissions_container containerFlagsExample ⟨"c", "rw"⟩ 11) 11 =
        BlobSasBuilder.SetPermissions_container containerFlagsExample ⟨"c", "rw"⟩ 11 :=
  ⟨by decide, by decide, by decide, by decide, by decide,
    (SetPermissions_letters containerFlagsExample blobFlagsExample ⟨"c", "rw"⟩ 11).2.2.1⟩

theorem recvLoop_waits (capacity : Nat) :
    ∀ (script : List SocketEvent) (c c1 : Curl) (out : List Nat),
      recvLoop capacity script c = .ok (out, c1) →
      ∃ k : Nat, c1.waits = c.waits ++ List.replicate k ((0 : Int), (60000 : Int)) ∧
        (∀ e rest, script = e :: rest → e.code = CURLE_AGAIN → 1 ≤ k)
  | [], c, c1, out, h => by
    simp only [recvLoop, Except.ok.injEq, Prod.mk.injEq] at h
    obtain ⟨_, h⟩ := h
    subst h
    exact ⟨0, by simp, fun e rest he => by cases he⟩
  | e :: script, c, c1, out, h => by
    unfold recvLoop at h
    split at h
    · dsimp only at h
      split at h
      · cases h
      · obtain ⟨k, hk, _⟩ := recvLoop_waits capacity script _ c1 out h
        refine ⟨k + 1, ?_, fun _ _ _ _ => by omega⟩
        rw [hk]
        simp only [WaitForSocketReady, List.append_assoc, List.replicate_succ]
        rfl
    · rename_i hne
      split at h
      · simp only [Except.ok.injEq, Prod.mk.injEq] at h
        obtain ⟨_, h⟩ := h
        subst h
        refine ⟨0, by simp, fun e1 rest he hc => ?_⟩
        simp only [List.cons.injEq] at he
        rw [← he.1] at hc
        exact absurd hc hne
      · cases h

/-- C34 fails on the receiving side: whenever `ReadSocketToBuffer` returns, the readiness
waits it made (one or more when the first receive reported would-block) were all made with
`for_recv = 0` and 60000 ms, and with `for_recv = 0` the function `WaitForSocketReady` puts the
socket in `outfd`, the set watched for writing, not in `infd`. -/
theorem ReadSocketToBuffer_waits_for_writable (c c1 : Curl) (bufferSize : Int) (out : List Nat)
    (h : ReadSocketToBuffer c bufferSize = .ok (out, c1)) :
    ∃ k : Nat,
      c1.waits = c.waits ++ List.replicate k ((0 : Int), (60000 : Int)) ∧
        (∀ e rest, c.recvScript = e :: rest → e.code = CURLE_AGAIN → 1 ≤ k) ∧
        WaitForSocketReady.watched 0 = FdSet.outfd ∧
        WaitForSocketReady.watched 0 ≠ FdSet.infd := by
  unfold ReadSocketToBuffer at h
  split at h
  · cases h
  · obtain ⟨k, h1, h2⟩ := recvLoop_waits _ _ _ _ _ h
    exact ⟨k, h1, h2, rfl, by decide⟩

/-- C34 on a socket whose first receive and first send report would-block: both
`ReadSocketToBuffer` and `SendBuffer` then wait with the arguments `(0, 60000)`, that is for
the socket to be writable. -/
theorem ReadSocketToBuffer_waits_for_writable_witness :
    (∃ k : Nat,
      (wouldBlockOnceCurl.waits ++ [((0 : Int), (60000 : Int))]) =
          wouldBlockOnceCurl.waits ++ List.replicate k ((0 : Int), (60000 : Int)) ∧
        (∀ e rest, wouldBlockOnceCurl.recvScript = e :: rest → e.code = CURLE_AGAIN → 1 ≤ k) ∧
        WaitForSocketReady.watched 0 = FdSet.outfd ∧
        WaitForSocketReady.watched 0 ≠ FdSet.infd) ∧
      ReadSocketToBuffer wouldBlockOnceCurl 10 =
        .ok (bytes "abc",
          { wouldBlockOnceCurl with wire := [], recvScript := [], waits := [(0, 60000)] }) ∧
      (sessionOfResult wouldBlockSession
        (CurlSession.SendBuffer { wouldBlockSession with m_curl := wouldBlockOnceCurl }
          (bytes "xy"))).m_curl.waits = [(0, 60000)] ∧
      WaitForSocketReady.watched 1 = FdSet.infd :=
  ⟨ReadSocketToBuffer_waits_for_writable wouldBlockOnceCurl
      { wouldBlockOnceCurl with wire := [], recvScript := [], waits := [(0, 60000)] } 10
      (bytes "abc") (by decide),
    by decide, by decide, by decide⟩

theorem Parse_empty (p : ResponseBufferParser) (hnd : p.m_parseCompleted = false) :
    p.Parse [] = .ok (0, p) := by
  simp [ResponseBufferParser.Parse, hnd, Parse.loop, Parse.finish]

theorem ReadSocketToBuffer_closed (c : Curl) (cap : Nat) (hw : c.wire = [])
    (hr : c.recvScript = []) :
    ReadSocketToBuffer c (cap : Int) = .ok ([], { c with wire := [], recvScript := [] }) := by
  have hcap : ¬ ((cap : Int) < 0) := by omega
  simp [ReadSocketToBuffer, hcap, hr, recvLoop, hw]

/-- Once the peer has closed the connection, the `while` loop of
`ReadStatusLineAndHeadersFromRawResponse` on a parser that has not completed reads no byte
and parses no byte in every round: no fuel is enough. -/
theorem headerLoop_closed :
    ∀ (fuel : Nat) (parser : ResponseBufferParser) (bufferSize : Int) (s : CurlSession),
      parser.m_parseCompleted = false → s.m_curl.wire = [] → s.m_curl.recvScript = [] →
      ReadStatusLineAndHeadersFromRawResponse.loop fuel parser bufferSize s = .error .outOfFuel
  | 0, _, _, _, _, _, _ => rfl
  | fuel + 1, parser, bufferSize, s, hnd, hw, hr => by
    have hc : ¬ (parser.IsParseCompleted = true) := by
      simp [ResponseBufferParser.IsParseCompleted, hnd]
    unfold ReadStatusLineAndHeadersFromRawResponse.loop
    rw [if_neg hc, ReadSocketToBuffer_closed s.m_curl _ hw hr]
    simp only [Parse_empty parser hnd]
    exact headerLoop_closed fuel parser _ _ hnd rfl rfl

/-- C38 fails: when the peer delivers the bytes `w`, which do not complete the header block,
in one piece and then closes the connection, every later receive returns zero bytes with
`CURLE_OK`, `Parse` is handed an empty fill and the parser never completes: for every amount of
fuel `ReadStatusLineAndHeadersFromRawResponse` is still in its loop when the fuel is used up. It
neither returns nor throws. -/
theorem header_read_never_ends_on_closed_peer (s : CurlSession) (w : List Nat)
    (hw : s.m_curl.wire = w) (hr : s.m_curl.recvScript = [])
    (hcap : w.length ≤ s.details.c_LibcurlReaderSize)
    (hparse : ∃ (v : Nat) (p1 : ResponseBufferParser),
      ResponseBufferParser.new.Parse w = .ok (v, p1) ∧ p1.m_parseCompleted = false) :
    ∀ fuel : Nat, s.ReadStatusLineAndHeadersFromRawResponse fuel = .error .outOfFuel := by
  obtain ⟨v, p1, hp, hnd⟩ := hparse
  intro fuel
  unfold CurlSession.ReadStatusLineAndHeadersFromRawResponse
  cases fuel with
  | zero => rfl
  | succ fuel =>
    have hc : ¬ (ResponseBufferParser.new.IsParseCompleted = true) := by decide
    have hcap2 : ¬ ((s.details.c_LibcurlReaderSize : Int) < 0) := by omega
    have hrecv : ReadSocketToBuffer s.m_curl (s.details.c_LibcurlReaderSize : Int) =
        .ok (w, { s.m_curl with wire := [], recvScript := [] }) := by
      simp [ReadSocketToBuffer, hcap2, hr, recvLoop, hw, List.take_of_length_le hcap,
        List.drop_of_length_le hcap]
    unfold ReadStatusLineAndHeadersFromRawResponse.loop
    rw [if_neg hc, hrecv]
    simp only [hp]
    rw [headerLoop_closed fuel p1 _ _ hnd (by split <;> rfl) (by split <;> rfl)]

/-- C38 on a peer that closes after the status line and one header line, and on a peer that
closes before it has sent anything. -/
theorem header_read_never_ends_on_closed_peer_witness :
    (∀ fuel : Nat,
      truncatedHeaderSession.ReadStatusLineAndHeadersFromRawResponse fuel = .error .outOfFuel) ∧
      (sessionFor (requestOf .Get "") "" []).ReadStatusLineAndHeadersFromRawResponse 40 =
        .error .outOfFuel :=
  ⟨header_read_never_ends_on_closed_peer truncatedHeaderSession
      (bytes "HTTP/1.1 200 OK\r\ncontent-length: 5\r\n") (by decide) (by decide) (by decide)
      ⟨36, ⟨.Headers, false, false, [], some ⟨1, 1, 200, bytes "OK", [bytes "content-length: 5"]⟩⟩,
        by decide, rfl⟩,
    by decide⟩

/-- C33 at the input where the code departs from it: the first `Read` delivers `Wiki`, the
second meets the zero-size chunk, returns 0 and sets end-of-response. The third `Read` with a
positive count finds the chunk size 0 again, takes it for an exhausted chunk, skips two bytes
and calls `ParseChunkSize`, which reads the socket: on a closed connection it never returns
(no fuel is enough), on a silent one it throws `TransportException`, and when the peer sends
`5 CR LF hello` next, it parses that as a chunk and returns `hello`. -/
theorem Read_after_end_of_response :
    (readOf (wikiThenEndSession "")
        ((sessionOf (wikiThenEndSession "")
          ((wikiThenEndSession "").ReadStatusLineAndHeadersFromRawResponse 8)).Read
          8 ⟨false⟩ 10)).1 = bytes "Wiki" ∧
      (readOf (wikiThenEndSession "")
        ((sessionOf (wikiThenEndSession "")
          ((wikiThenEndSession "").ReadStatusLineAndHeadersFromRawResponse 8)).Read
          8 ⟨false⟩ 10)).2.Read 8 ⟨false⟩ 10 = .ok ([], afterTwoReads (wikiThenEndSession "")) ∧
      (afterTwoReads (wikiThenEndSession "")).m_rawResponseEOF = true ∧
      (afterTwoReads (wikiThenEndSession "")).m_chunkSize = 0 ∧
      (∀ fuel : Nat,
        (afterTwoReads (wikiThenEndSession "")).Read fuel ⟨false⟩ 10 = .error .outOfFuel) ∧
      (afterTwoReads wikiThenSilenceSession).m_rawResponseEOF = true ∧
      (afterTwoReads wikiThenSilenceSession).Read 8 ⟨false⟩ 10 = .error .transportException ∧
      (afterTwoReads (wikiThenEndSession "5\r\nhello\r\n")).m_rawResponseEOF = true ∧
      (readOf (wikiThenEndSession "")
        ((afterTwoReads (wikiThenEndSession "5\r\nhello\r\n")).Read 8 ⟨false⟩ 10)).1 =
        bytes "hello" :=
  ⟨by decide, by decide, by decide, by decide,
    fun fuel =>
      Read_polls_closed fuel (afterTwoReads (wikiThenEndSession ""))
        (sessionOf (wikiThenEndSession "")
          (Read.skipCRLF 2 (afterTwoReads (wikiThenEndSession ""))))
        10 (by decide) (by decide) (by decide) (by decide) (by decide) (by decide) (by decide)
        (by decide),
    by decide, by decide, by decide, by decide⟩

/-- C32 at the inputs where the code departs from it. A CR inside a header line that is cut
off at the end of a fill is put back at the start of the next call only when text of the line
was accumulated before it and the next fill starts with a byte other than CR. With the cut
behind `ab CR` and `cd` next, the line is `ab CR cd` as in a single fill. But when the CR is the
first byte of the line, the line `CR abc: d` of the single fill becomes `abc: d`; when the next
fill starts with another CR, the line `ab CR` becomes `ab`; and the line `CR` of the single
fill, cut between its CR and the CR LF that ends it, is taken for the blank line that ends the
header block. -/
theorem bare_CR_lost_across_fills :
    headerLinesAfter [bytes "HTTP/1.1 200 OK\r\nab\rcd\r\n\r\n"] =
        some (true, [bytes "ab\rcd"]) ∧
      headerLinesAfter [bytes "HTTP/1.1 200 OK\r\nab\r", bytes "cd\r\n\r\n"] =
        some (true, [bytes "ab\rcd"]) ∧
      headerLinesAfter [bytes "HTTP/1.1 200 OK\r\n\rabc: d\r\n\r\n"] =
        some (true, [bytes "\rabc: d"]) ∧
      headerLinesAfter [bytes "HTTP/1.1 200 OK\r\n\r", bytes "abc: d\r\n\r\n"] =
        some (true, [bytes "abc: d"]) ∧
      headerLinesAfter [bytes "HTTP/1.1 200 OK\r\nab\r\r\n\r\n"] =
        some (true, [bytes "ab\r"]) ∧
      headerLinesAfter [bytes "HTTP/1.1 200 OK\r\nab\r", bytes "\r\n\r\n"] =
        some (true, [bytes "ab"]) ∧
      headerLinesAfter [bytes "HTTP/1.1 200 OK\r\n\r\r\nx: y\r\n"] =
        some (false, [bytes "\r", bytes "x: y"]) ∧
      headerLinesAfter [bytes "HTTP/1.1 200 OK\r\n\r", bytes "\r\nx: y\r\n"] =
        some (true, []) :=
  ⟨by decide, by decide, by decide, by decide, by decide, by decide, by decide, by decide⟩

theorem endsWithCR_cons (b : Nat) (rest : List Nat) :
    endsWithCR (b :: rest) = if rest = [] then b == CR else endsWithCR rest := by
  cases rest with
  | nil => simp [endsWithCR]
  | cons c rest => simp [endsWithCR, List.getLast?_cons_cons]

theorem slice_withoutFinalCR (f t : List Nat) (n : Nat) (hd : f.drop n = t) (hn : n ≤ f.length)
    (c : Bool) :
    slice f n (f.length - (if (if t = [] then c else endsWithCR t) = true then 1 else 0)) =
      withoutFinalCR t := by
  have hlen : f.length = n + t.length := by
    have := congrArg List.length hd
    simp only [List.length_drop] at this
    omega
  unfold slice
  rw [hd]
  by_cases ht : t = []
  · subst ht
    simp [withoutFinalCR, endsWithCR]
  · simp only [ht, if_false]
    unfold withoutFinalCR
    cases he : endsWithCR t
    · simp only [Bool.false_eq_true, if_false]
      rw [List.take_of_length_le (by omega)]
    · simp only [if_true]
      rw [List.dropLast_eq_take]
      congr 1
      omega

/-- The loop of `Parse` over bytes that hold no line end: it runs to the end of the fill, and
what `Parse` then leaves is the parser as it was with a held-back CR put back when the loop
starts at index 0, the bytes from `start` on saved without a final CR, and the pending-CR flag
telling whether the last byte was a CR. -/
theorem loop_tail (f : List Nat) :
    ∀ (tail : List Nat) (start index : Nat) (q : ResponseBufferParser),
      f.drop index = tail → index ≤ f.length →
      meetsLineEnd q.m_delimiterStartInPrevPosition tail = false →
      Parse.loop f tail start index q =
        .ok (f.length,
          virt f start f.length
            { q with
              m_delimiterStartInPrevPosition :=
                if tail = [] then q.m_delimiterStartInPrevPosition else endsWithCR tail
              m_internalBuffer :=
                q.m_internalBuffer ++ (if index = 0 then heldBackCR q tail else []) })
  | [], start, index, q, hd, hle, _ => by
    have hlen : index = f.length := by
      have := congrArg List.length hd
      simp at this
      omega
    subst hlen
    simp only [Parse.loop, finish_eq_virt, heldBackCR, ite_self, List.append_nil, if_true]
  | b :: rest, start, index, q, hd, hle, hm => by
    have hd1 : f.drop (index + 1) = rest := by
      have := congrArg List.tail hd
      simpa [List.tail_drop] using this
    have hlt : index < f.length := by
      have := congrArg List.length hd
      simp only [List.length_drop, List.length_cons] at this
      omega
    have hne : ¬ (b :: rest = []) := by simp
    simp only [meetsLineEnd, Bool.or_eq_false_iff, Bool.and_eq_false_imp, beq_eq_false_iff_ne,
      ne_eq] at hm
    obtain ⟨hm1, hm2⟩ := hm
    unfold Parse.loop
    by_cases h1 : b = CR
    · subst h1
      have hm3 : meetsLineEnd true rest = false := by simpa using hm2
      have ih := loop_tail f rest start (index + 1)
        { q with m_delimiterStartInPrevPosition := true } hd1 (by omega) hm3
      simp only [Parse.iter, if_true]
      rw [ih]
      simp only [Nat.add_one_ne_zero, if_false, List.append_nil, hne, endsWithCR_cons, heldBackCR,
        ne_eq, not_true_eq_false, and_false, ite_self, beq_self_eq_true]
    · have h2 : ¬ (b = LF ∧ q.m_delimiterStartInPrevPosition = true) := fun h => hm1 h.2 h.1
      have hbeq : (b == CR) = false := by simpa using h1
      have hm3 : meetsLineEnd false rest = false := by
        rw [hbeq] at hm2
        exact hm2
      simp only [Parse.iter, h1, if_false, h2]
      by_cases h3 : index = 0 ∧ q.m_internalBuffer.length > 0 ∧
          q.m_delimiterStartInPrevPosition = true
      · have ih := loop_tail f rest start (index + 1)
          { q with
            m_internalBuffer := q.m_internalBuffer ++ [CR]
            m_delimiterStartInPrevPosition := false } hd1 (by omega) hm3
        rw [if_pos h3]
        rw [ih]
        have hheld : (if index = 0 then heldBackCR q (b :: rest) else []) = [CR] := by
          have : q.m_internalBuffer.length > 0 ∧ q.m_delimiterStartInPrevPosition = true ∧
              b ≠ CR := ⟨h3.2.1, h3.2.2, h1⟩
          rw [if_pos h3.1]
          show (if q.m_internalBuffer.length > 0 ∧ q.m_delimiterStartInPrevPosition = true ∧
            b ≠ CR then [CR] else []) = [CR]
          rw [if_pos this]
        simp only [Nat.add_one_ne_zero, if_false, List.append_nil, hne, endsWithCR_cons, hheld,
          hbeq]
      · have ih := loop_tail f rest start (index + 1)
          { q with m_delimiterStartInPrevPosition := false } hd1 (by omega) hm3
        rw [if_neg h3]
        rw [ih]
        have hheld : (if index = 0 then heldBackCR q (b :: rest) else []) = [] := by
          by_cases h0 : index = 0
          · have : ¬ (q.m_internalBuffer.length > 0 ∧ q.m_delimiterStartInPrevPosition = true ∧
                b ≠ CR) := fun h => h3 ⟨h0, h.1, h.2.1⟩
            simp only [h0, if_true, heldBackCR, this, if_false]
          · simp only [h0, if_false]
        simp only [Nat.add_one_ne_zero, if_false, List.append_nil, hne, endsWithCR_cons, hheld,
          hbeq]

theorem loop_upTo (f : List Nat) :
    ∀ (a b : List Nat) (start index : Nat) (p : ResponseBufferParser),
      Parse.loop f (a ++ b) start index p =
        Parse.resume f b (index + a.length) (Parse.upTo f a start index p)
  | [], b, start, index, p => by
    simp only [List.nil_append, Parse.upTo, Parse.resume, List.length_nil, Nat.add_zero]
  | x :: a, b, start, index, p => by
    simp only [List.cons_append, Parse.loop, Parse.upTo]
    cases hi : Parse.iter f x start index p with
    | error e => rfl
    | ok r =>
      cases r with
      | ret v q => rfl
      | next s1 q1 =>
        have ih := loop_upTo f a b s1 (index + 1) q1
        rw [show index + 1 + a.length = index + (x :: a).length by
          simp only [List.length_cons]; omega] at ih
        exact ih

theorem upTo_congr (f g : List Nat) :
    ∀ (a : List Nat) (start index : Nat) (p : ResponseBufferParser),
      g.take (index + a.length) = f.take (index + a.length) →
      Parse.upTo g a start index p = Parse.upTo f a start index p
  | [], _, _, _, _ => rfl
  | x :: a, start, index, p, h => by
    have hs : slice g start (index - 1) = slice f start (index - 1) :=
      slice_congr f g start (index - 1) (index + (x :: a).length) (by omega) h
    have h2 : g.take (index + 1 + a.length) = f.take (index + 1 + a.length) := by
      rw [show index + 1 + a.length = index + (x :: a).length by simp only [List.length_cons]; omega]
      exact h
    simp only [Parse.upTo, iter_congr f g x start index p hs]
    cases hi : Parse.iter f x start index p with
    | error e => rfl
    | ok r =>
      cases r with
      | ret v q => rfl
      | next s1 q1 => exact upTo_congr f g a s1 (index + 1) q1 h2

/-- What a round of the loop of `Parse` that goes on to the next round leaves: behind an LF
with a CR pending the line is finalized, `start` is the next index, the accumulation buffer is
empty and no CR is pending; behind any other byte `start` is unchanged and a CR is pending
exactly when the byte is a CR. -/
theorem iter_next_facts (f : List Nat) (b start index : Nat) (q q1 : ResponseBufferParser)
    (s1 : Nat) (h : Parse.iter f b start index q = .ok (.next s1 q1)) :
    ((b = LF ∧ q.m_delimiterStartInPrevPosition = true) →
        s1 = index + 1 ∧ q1.m_internalBuffer = [] ∧ q1.m_delimiterStartInPrevPosition = false) ∧
      (¬ (b = LF ∧ q.m_delimiterStartInPrevPosition = true) →
        s1 = start ∧ q1.m_delimiterStartInPrevPosition = (b == CR)) := by
  unfold Parse.iter at h
  by_cases h1 : b = CR
  · have h2 : ¬ (b = LF ∧ q.m_delimiterStartInPrevPosition = true) := by
      rw [h1]
      exact fun h => absurd h.1 (by decide)
    simp only [h1, if_true, Except.ok.injEq, ParseIter.next.injEq] at h
    obtain ⟨h3, h4⟩ := h
    subst h3 h4
    refine ⟨fun h => absurd h h2, fun _ => ⟨rfl, ?_⟩⟩
    rw [h1]
    rfl
  · simp only [h1, if_false] at h
    have hbeq : (b == CR) = false := by simpa using h1
    by_cases h2 : b = LF ∧ q.m_delimiterStartInPrevPosition = true
    · refine ⟨fun _ => ?_, fun h => absurd h2 h⟩
      simp only [h2, and_self, if_true] at h
      by_cases hb : q.m_internalBuffer.length > 0
      · simp only [hb, if_true] at h
        split at h
        · split at h
          · cases h
          · simp only [Except.ok.injEq, ParseIter.next.injEq] at h
            obtain ⟨h3, h4⟩ := h
            subst h3 h4
            exact ⟨rfl, rfl, rfl⟩
        · split at h
          · cases h
          · simp only [Except.ok.injEq, ParseIter.next.injEq] at h
            obtain ⟨h3, h4⟩ := h
            subst h3 h4
            exact ⟨rfl, rfl, rfl⟩
        · cases h
      · have hnil : q.m_internalBuffer = [] := List.length_eq_zero.mp (by omega)
        simp only [hb, if_false] at h
        split at h
        · split at h
          · cases h
          · simp only [Except.ok.injEq, ParseIter.next.injEq] at h
            obtain ⟨h3, h4⟩ := h
            subst h3 h4
            exact ⟨rfl, hnil, rfl⟩
        · split at h
          · cases h
          · split at h
            · cases h
            · rename_i p2 hp2
              simp only [Except.ok.injEq, ParseIter.next.injEq] at h
              obtain ⟨h3, h4⟩ := h
              subst h3 h4
              exact ⟨rfl, (addHeader_buffer _ _ _ hp2).2.trans hnil, rfl⟩
        · cases h
    · simp only [h2, if_false, Except.ok.injEq, ParseIter.next.injEq] at h
      obtain ⟨h3, h4⟩ := h
      subst h3 h4
      exact ⟨fun h => absurd h h2, fun _ => ⟨rfl, hbeq.symm ▸ rfl⟩⟩

theorem upTo_start_le (f : List Nat) :
    ∀ (a : List Nat) (start index : Nat) (p q : ResponseBufferParser) (s : Nat),
      start ≤ index → Parse.upTo f a start index p = .ok (.next s q) → s ≤ index + a.length
  | [], start, index, p, q, s, hle, h => by
    simp only [Parse.upTo, Except.ok.injEq, ParseIter.next.injEq] at h
    rw [← h.1]
    simpa using hle
  | x :: a, start, index, p, q, s, hle, h => by
    unfold Parse.upTo at h
    cases hi : Parse.iter f x start index p with
    | error e => rw [hi] at h; cases h
    | ok r =>
      cases r with
      | ret v q0 => rw [hi] at h; cases h
      | next s1 q1 =>
        rw [hi] at h
        have hf := iter_next_facts f x start index p q1 s1 hi
        have hs1 : s1 ≤ index + 1 := by
          by_cases hc : x = LF ∧ p.m_delimiterStartInPrevPosition = true
          · have := (hf.1 hc).1
            omega
          · have := (hf.2 hc).1
            omega
        have := upTo_start_le f a s1 (index + 1) q1 q s hs1 h
        simp only [List.length_cons]
        omega

theorem upTo_ret_completed (f : List Nat) :
    ∀ (a : List Nat) (start index : Nat) (p q : ResponseBufferParser) (v : Nat),
      Parse.upTo f a start index p = .ok (.ret v q) → q.m_parseCompleted = true
  | [], _, _, _, _, _, h => by simp [Parse.upTo] at h
  | x :: a, start, index, p, q, v, h => by
    unfold Parse.upTo at h
    cases hi : Parse.iter f x start index p with
    | error e => rw [hi] at h; cases h
    | ok r =>
      cases r with
      | ret v0 q0 =>
        rw [hi] at h
        simp only [Except.ok.injEq, ParseIter.ret.injEq] at h
        rw [← h.2]
        exact (iter_ret f x start index p q0 v0 hi).2.2.1
      | next s1 q1 =>
        rw [hi] at h
        exact upTo_ret_completed f a s1 (index + 1) q1 q v h

/-- A fill without a line end, given to a parser that has not completed. -/
theorem Parse_no_line_end (p : ResponseBufferParser) (f : List Nat)
    (hnd : p.m_parseCompleted = false)
    (hm : meetsLineEnd p.m_delimiterStartInPrevPosition f = false) :
    p.Parse f =
      .ok (f.length,
        { p with
          m_internalBuffer := p.m_internalBuffer ++ heldBackCR p f ++ withoutFinalCR f
          m_delimiterStartInPrevPosition :=
            if f = [] then p.m_delimiterStartInPrevPosition else endsWithCR f }) := by
  have h := loop_tail f f 0 0 p (by simp) (Nat.zero_le _) hm
  have hs := slice_withoutFinalCR f f 0 (by simp) (Nat.zero_le _)
    p.m_delimiterStartInPrevPosition
  simp only [ResponseBufferParser.Parse, hnd, Bool.false_eq_true, if_false, h, virt, if_true, hs]

/-- A fill in which a line is finalized at the LF behind `done` and no line end follows. -/
theorem Parse_after_last_line (p p1 : ResponseBufferParser) (done tail : List Nat) (v : Nat)
    (hnd : p.m_parseCompleted = false) (h : p.Parse (done ++ [LF]) = .ok (v, p1))
    (hnd1 : p1.m_parseCompleted = false) (hbuf : p1.m_internalBuffer = [])
    (hm : meetsLineEnd false tail = false) :
    p.Parse (done ++ LF :: tail) =
      .ok ((done ++ LF :: tail).length,
        { p1 with
          m_internalBuffer := withoutFinalCR tail
          m_delimiterStartInPrevPosition := endsWithCR tail }) := by
  have hcomp : ¬ (p1.m_parseCompleted = true) := by rw [hnd1]; decide
  simp only [ResponseBufferParser.Parse, hnd, Bool.false_eq_true, if_false] at h ⊢
  rw [loop_upTo (done ++ [LF]) done [LF] 0 0 p] at h
  rw [loop_upTo (done ++ LF :: tail) done (LF :: tail) 0 0 p]
  have hc : Parse.upTo (done ++ LF :: tail) done 0 0 p = Parse.upTo (done ++ [LF]) done 0 0 p :=
    upTo_congr (done ++ [LF]) (done ++ LF :: tail) done 0 0 p (by simp)
  rw [hc]
  cases hu : Parse.upTo (done ++ [LF]) done 0 0 p with
  | error e => rw [hu] at h; cases h
  | ok r =>
    cases r with
    | ret v0 q0 =>
      rw [hu] at h
      simp only [Parse.resume, Except.ok.injEq, Prod.mk.injEq] at h
      have := upTo_ret_completed _ _ _ _ _ _ _ hu
      rw [h.2] at this
      exact absurd this hcomp
    | next s q =>
      rw [hu] at h
      have hsle := upTo_start_le _ _ _ _ _ _ _ (Nat.le_refl 0) hu
      simp only [Parse.resume, Nat.zero_add] at h ⊢
      have hs : slice (done ++ LF :: tail) s (done.length - 1) =
          slice (done ++ [LF]) s (done.length - 1) :=
        slice_congr (done ++ [LF]) (done ++ LF :: tail) s (done.length - 1) done.length
          (by omega) (by simp)
      unfold Parse.loop at h ⊢
      rw [iter_congr (done ++ [LF]) (done ++ LF :: tail) LF s done.length q hs]
      cases hi : Parse.iter (done ++ [LF]) LF s done.length q with
      | error e => rw [hi] at h; cases h
      | ok r1 =>
        cases r1 with
        | ret v0 q0 =>
          rw [hi] at h
          simp only [Except.ok.injEq, Prod.mk.injEq] at h
          have := (iter_ret _ _ _ _ _ _ _ hi).2.2.1
          rw [h.2] at this
          exact absurd this hcomp
        | next s1 q1 =>
          rw [hi] at h
          simp only [Parse.loop, Except.ok.injEq] at h
          have hf := iter_next_facts _ _ _ _ _ _ _ hi
          by_cases hfin : LF = LF ∧ q.m_delimiterStartInPrevPosition = true
          · obtain ⟨f1, f2, f3⟩ := hf.1 hfin
            have hq1 : q1 = p1 := by
              have hlen : ¬ (s1 < (done ++ [LF]).length) := by
                simp only [List.length_append, List.length_singleton]
                omega
              simp only [Parse.finish, hlen, if_false, Prod.mk.injEq] at h
              exact h.2
            subst hq1
            subst f1
            simp only []
            have hd : (done ++ LF :: tail).drop (done.length + 1) = tail := by
              rw [show done ++ LF :: tail = (done ++ [LF]) ++ tail by simp]
              rw [List.drop_append_of_le_length (by simp)]
              simp
            have hle : done.length + 1 ≤ (done ++ LF :: tail).length := by
              simp only [List.length_append, List.length_cons]
              omega
            have hm2 : meetsLineEnd q1.m_delimiterStartInPrevPosition tail = false := by
              rw [f3]; exact hm
            rw [loop_tail (done ++ LF :: tail) tail (done.length + 1) (done.length + 1) q1 hd hle
              hm2]
            have hsl := slice_withoutFinalCR (done ++ LF :: tail) tail (done.length + 1) hd hle
              q1.m_delimiterStartInPrevPosition
            have hflag : (if tail = [] then q1.m_delimiterStartInPrevPosition
                else endsWithCR tail) = endsWithCR tail := by
              by_cases ht : tail = []
              · rw [if_pos ht, f3, ht]
                rfl
              · rw [if_neg ht]
            rw [hflag] at hsl
            simp only [virt, Nat.add_one_ne_zero, if_false, List.append_nil, f2,
              List.nil_append, hflag, hsl]
          · obtain ⟨f1, f2⟩ := hf.2 hfin
            exfalso
            have hlen : s1 < (done ++ [LF]).length := by
              simp only [List.length_append, List.length_singleton]
              omega
            simp only [Parse.finish, hlen, if_true, Prod.mk.injEq] at h
            have hb := congrArg ResponseBufferParser.m_internalBuffer h.2
            rw [hbuf] at hb
            simp only [f2] at hb
            have hlen2 := congrArg List.length hb
            simp only [List.length_append, List.length_nil, slice, List.length_take,
              List.length_drop, List.length_singleton] at hlen2
            have : (LF == CR) = false := by decide
            simp only [this, Bool.false_eq_true, if_false] at hlen2
            omega

/-- C31 fails as stated at two inputs. After the fill `HTTP/1.1 200 CR` the parser holds the
text without the CR; the next fill ` OK` makes the accumulation buffer grow by the four bytes
`CR`, space, `O`, `K`, one more than the fill has: the CR held back is put back in front. And an
empty fill, which does not end with CR, leaves the pending-CR flag set. -/
theorem Parse_tail_grows_by_held_back_CR :
    ResponseBufferParser.new.feed [bytes "HTTP/1.1 200\r"] = .ok heldBackExample ∧
      heldBackExample.Parse (bytes " OK") =
        .ok (3, ⟨.StatusLine, false, false, bytes "HTTP/1.1 200\r OK", none⟩) ∧
      heldBackExample.Parse [] = .ok (0, heldBackExample) ∧
      heldBackExample.m_delimiterStartInPrevPosition = true ∧ endsWithCR [] = false := by
  decide

/-- C31 (amended): let the parser not be completed. When the fill holds no line end (no LF
behind a CR, the CR pending from the fill before included), `Parse` returns the size of the
fill and the accumulation buffer grows by the held-back CR, when there is one to put back (text
accumulated, CR pending, first byte of the fill not a CR), followed by the bytes of the fill
without a final CR. When the last line finalized in the fill ends at the LF behind `done` (the
call on the fill cut there leaves an empty accumulation buffer) and `tail` holds no line end,
`Parse` returns the size of the fill and leaves that parser with exactly `tail` without a final
CR in the accumulation buffer. In both cases the pending-CR flag of a non-empty tail is set
exactly when its last byte is a CR; an empty fill leaves the flag as it was. -/
theorem Parse_keeps_unterminated_tail (p : ResponseBufferParser)
    (hnd : p.m_parseCompleted = false) :
    (∀ f : List Nat, meetsLineEnd p.m_delimiterStartInPrevPosition f = false →
        p.Parse f =
          .ok (f.length,
            { p with
              m_internalBuffer := p.m_internalBuffer ++ heldBackCR p f ++ withoutFinalCR f
              m_delimiterStartInPrevPosition :=
                if f = [] then p.m_delimiterStartInPrevPosition else endsWithCR f })) ∧
      (∀ (done tail : List Nat) (v : Nat) (p1 : ResponseBufferParser),
        p.Parse (done ++ [LF]) = .ok (v, p1) → p1.m_parseCompleted = false →
        p1.m_internalBuffer = [] → meetsLineEnd false tail = false →
        p.Parse (done ++ LF :: tail) =
          .ok ((done ++ LF :: tail).length,
            { p1 with
              m_internalBuffer := withoutFinalCR tail
              m_delimiterStartInPrevPosition := endsWithCR tail })) :=
  ⟨fun f hm => Parse_no_line_end p f hnd hm,
    fun done tail v p1 h hnd1 hbuf hm => Parse_after_last_line p p1 done tail v hnd h hnd1 hbuf hm⟩

/-- C31 (amended) on the fill `HTTP/1.1 200 OK CR LF content-le CR` given to a fresh parser: the
status line is finalized, the call returns 28, the size of the fill, the accumulation buffer
holds `content-le` and the CR is pending. -/
theorem Parse_keeps_unterminated_tail_witness :
    ResponseBufferParser.new.Parse (bytes "HTTP/1.1 200 OK\r" ++ LF :: bytes "content-le\r") =
      .ok ((bytes "HTTP/1.1 200 OK\r" ++ LF :: bytes "content-le\r").length,
        { (⟨.Headers, false, false, [], some ⟨1, 1, 200, bytes "OK", []⟩⟩ :
            ResponseBufferParser) with
          m_internalBuffer := withoutFinalCR (bytes "content-le\r")
          m_delimiterStartInPrevPosition := endsWithCR (bytes "content-le\r") }) :=
  (Parse_keeps_unterminated_tail ResponseBufferParser.new rfl).2 (bytes "HTTP/1.1 200 OK\r")
    (bytes "content-le\r") 17 ⟨.Headers, false, false, [], some ⟨1, 1, 200, bytes "OK", []⟩⟩
    (by decide) rfl rfl (by decide)

theorem scan_found_bound :
    ∀ (rest : List Nat) (index i : Nat) (text : List Nat) (j : Nat) (t : List Nat),
      ParseChunkSize.scan rest index i text = .found j t → index ≤ j ∧ j < index + rest.length
  | [], _, _, _, _, _, h => by simp [ParseChunkSize.scan] at h
  | b :: rest, index, i, text, j, t, h => by
    unfold ParseChunkSize.scan at h
    split at h
    · simp only [ChunkScan.found.injEq] at h
      simp only [List.length_cons]
      omega
    · have := scan_found_bound rest (index + 1) (i + 1) _ j t h
      simp only [List.length_cons]
      omega

theorem refill_sized (s s1 : CurlSession) (h : s.refill = .ok s1) :
    s1.m_innerBufferSize = (s1.m_readBuffer.length : Int) := by
  unfold CurlSession.refill at h
  split at h
  · cases h
  · cases h
    rfl

theorem offsetInv_start (s : CurlSession)
    (hs : s.m_innerBufferSize = (s.m_readBuffer.length : Int)) :
    OffsetInv { s with m_bodyStartInBuffer := 0 } := by
  refine ⟨hs, ?_⟩
  by_cases h : s.m_readBuffer = []
  · exact Or.inr (Or.inr ⟨rfl, h⟩)
  · refine Or.inr (Or.inl ⟨le_refl _, ?_⟩)
    show (0 : Int) < s.m_innerBufferSize
    have : 0 < s.m_readBuffer.length := List.length_pos.mpr h
    omega

/-- Whatever the peer does, `ParseChunkSize` leaves the offset inside the fill it found the
line end in, or at index 0 of the fill it read after it. -/
theorem poll_offsetInv :
    ∀ (fuel : Nat) (text : List Nat) (s s1 : CurlSession),
      s.m_innerBufferSize = (s.m_readBuffer.length : Int) →
      ParseChunkSize.poll fuel text s = .ok s1 → OffsetInv s1
  | 0, _, _, _, _, h => by simp [ParseChunkSize.poll] at h
  | fuel + 1, text, s, s1, hs, h => by
    unfold ParseChunkSize.poll at h
    split at h
    · cases h
    · rename_i hneg
      split at h
      · rename_i index text1 hscan
        have hb := scan_found_bound _ _ _ _ _ _ hscan
        have hlen := slice_length_le s.m_readBuffer s.m_bodyStartInBuffer.toNat
          s.m_innerBufferSize.toNat
        split at h
        · cases h
        · dsimp only at h
          split at h
          · split at h
            · cases h
            · rename_i s2 hre
              simp only [Except.ok.injEq] at h
              subst h
              exact offsetInv_start s2 (refill_sized _ _ hre)
          · rename_i hne
            simp only [Except.ok.injEq] at h
            subst h
            refine ⟨hs, Or.inr (Or.inl ⟨?_, ?_⟩)⟩
            · show (0 : Int) ≤ (index : Int) + 1
              omega
            · show (index : Int) + 1 < s.m_innerBufferSize
              have hne2 : ¬ ((index : Int) + 1 = s.m_innerBufferSize) := hne
              omega
      · split at h
        · cases h
        · rename_i s2 hre
          refine poll_offsetInv fuel _ _ s1 ?_ h
          exact refill_sized s s2 hre

theorem skipCRLF_sized :
    ∀ (n : Nat) (s s1 : CurlSession),
      s.m_innerBufferSize = (s.m_readBuffer.length : Int) → Read.skipCRLF n s = .ok s1 →
      s1.m_innerBufferSize = (s1.m_readBuffer.length : Int)
  | 0, s, s1, hs, h => by
    simp only [Read.skipCRLF, Except.ok.injEq] at h
    subst h
    exact hs
  | n + 1, s, s1, hs, h => by
    unfold Read.skipCRLF at h
    split at h
    · refine skipCRLF_sized n _ s1 ?_ h
      exact hs
    · split at h
      · cases h
      · rename_i s2 hre
        refine skipCRLF_sized n _ s1 ?_ h
        exact refill_sized s s2 hre

/-- The second half of `Read` keeps the offset inside the fill: what it takes from the buffer
ends at the fill size at the latest, and an offset that reaches the fill size becomes -1. -/
theorem serve_offsetInv (s s1 : CurlSession) (count : Int) (out : List Nat) (inv : OffsetInv s)
    (h : Read.serve s count = .ok (out, s1)) : OffsetInv s1 := by
  obtain ⟨hs, hoff⟩ := inv
  unfold Read.serve at h
  dsimp only at h
  split at h
  · rename_i hb
    split at h
    · cases h
    · rename_i out1 hm
      have hlen := MemoryBodyStream_Read_length _ _ _ _ _ hm
      split at h
      · simp only [Except.ok.injEq, Prod.mk.injEq] at h
        obtain ⟨_, h2⟩ := h
        subst h2
        exact ⟨hs, Or.inl rfl⟩
      · rename_i hne
        simp only [Except.ok.injEq, Prod.mk.injEq] at h
        obtain ⟨_, h2⟩ := h
        subst h2
        refine ⟨hs, Or.inr (Or.inl ⟨?_, ?_⟩)⟩
        · show 0 ≤ s.m_bodyStartInBuffer + ((out1.length : Nat) : Int)
          omega
        · show s.m_bodyStartInBuffer + ((out1.length : Nat) : Int) < s.m_innerBufferSize
          have hne2 : ¬ (s.m_bodyStartInBuffer + ((out1.length : Nat) : Int) =
              s.m_innerBufferSize) := hne
          omega
  · split at h
    · simp only [Except.ok.injEq, Prod.mk.injEq] at h
      obtain ⟨_, h2⟩ := h
      subst h2
      exact ⟨hs, hoff⟩
    · split at h
      · cases h
      · simp only [Except.ok.injEq, Prod.mk.injEq] at h
        obtain ⟨_, h2⟩ := h
        subst h2
        exact ⟨hs, hoff⟩

theorem Read_offsetInv (fuel : Nat) (context : Context) (s s1 : CurlSession) (count : Int)
    (out : List Nat) (inv : OffsetInv s) (h : s.Read fuel context count = .ok (out, s1)) :
    OffsetInv s1 := by
  unfold CurlSession.Read at h
  split at h
  · cases h
  · split at h
    · simp only [Except.ok.injEq, Prod.mk.injEq] at h
      obtain ⟨_, h⟩ := h
      subst h
      exact inv
    · split at h
      · split at h
        · cases h
        · rename_i s2 hs2
          have z2 := skipCRLF_sized 2 s s2 inv.sized hs2
          split at h
          · cases h
          · rename_i s3 hs3
            have i3 := poll_offsetInv fuel [] s2 s3 z2 hs3
            split at h
            · simp only [Except.ok.injEq, Prod.mk.injEq] at h
              obtain ⟨_, h⟩ := h
              subst h
              exact ⟨i3.sized, i3.offset⟩
            · exact serve_offsetInv s3 s1 count out i3 h
      · exact serve_offsetInv s s1 count out inv h

theorem mode_offsetInv (fuel : Nat) (s s1 : CurlSession) (inv : OffsetInv s)
    (h : ReadStatusLineAndHeadersFromRawResponse.mode fuel s = .ok s1) : OffsetInv s1 := by
  unfold ReadStatusLineAndHeadersFromRawResponse.mode at h
  split at h
  · simp only [Except.ok.injEq] at h
    subst h
    exact ⟨inv.sized, Or.inl rfl⟩
  · split at h
    · cases h
    · dsimp only at h
      split at h
      · split at h
        · cases h
        · simp only [Except.ok.injEq] at h
          subst h
          exact ⟨inv.sized, inv.offset⟩
      · split at h
        · split at h
          · split at h
            · split at h
              · cases h
              · rename_i s3 hre
                refine poll_offsetInv fuel [] _ s1 ?_ h
                exact refill_sized _ s3 hre
            · refine poll_offsetInv fuel [] _ s1 ?_ h
              exact inv.sized
          · simp only [Except.ok.injEq] at h
            subst h
            exact ⟨inv.sized, inv.offset⟩
        · simp only [Except.ok.injEq] at h
          subst h
          exact ⟨inv.sized, inv.offset⟩

theorem ReadStatusLineAndHeaders_offsetInv (fuel : Nat) (s s1 : CurlSession)
    (hstart : s.m_bodyStartInBuffer = -1)
    (h : s.ReadStatusLineAndHeadersFromRawResponse fuel = .ok s1) : OffsetInv s1 := by
  unfold CurlSession.ReadStatusLineAndHeadersFromRawResponse at h
  split at h
  · cases h
  · rename_i parser bufferSize s0 hl
    obtain ⟨p0, r, _, _, _, h4, h5, _⟩ :=
      headerLoop_result fuel ResponseBufferParser.new 0 s (parser, bufferSize, s0) rfl hl
    simp only at h4 h5
    refine mode_offsetInv fuel _ s1 ⟨h4, ?_⟩ h
    show s0.m_bodyStartInBuffer = -1 ∨
      (0 ≤ s0.m_bodyStartInBuffer ∧ s0.m_bodyStartInBuffer < bufferSize) ∨
      (s0.m_bodyStartInBuffer = 0 ∧ s0.m_readBuffer = [])
    rw [h5, h4]
    by_cases hr : r < s0.m_readBuffer.length
    · rw [if_pos hr]
      exact Or.inr (Or.inl ⟨by omega, by omega⟩)
    · rw [if_neg hr]
      exact Or.inl hstart

/-- The offset on a session whose header read starts at the sentinel, as the first one of a
new session does: the read of the status line and the headers, started with the offset -1,
leaves a
session in which the fill size is the size of the buffer and the offset is -1, or an index
inside the fill, or index 0 of a fill that brought no byte; and every call of `Read` that
returns keeps this, whatever the peer does. The session on which `Read` builds its view of the
buffer is the session of the call or, at the end of a chunk, the one `ParseChunkSize` returns
after the two-byte skip: there too a non-negative offset is at most the fill size, so that the
view has a non-negative length and ends where the fill ends. When no fill is empty, as is the
case when every refill brings at least one byte, the offset after the call is -1 or strictly
below the fill size. -/
theorem Read_offset_within_fill :
    (∀ (fuel : Nat) (s s1 : CurlSession), s.m_bodyStartInBuffer = -1 →
        s.ReadStatusLineAndHeadersFromRawResponse fuel = .ok s1 → OffsetInv s1) ∧
      (∀ (fuel : Nat) (context : Context) (s s1 : CurlSession) (count : Int) (out : List Nat),
        OffsetInv s → s.Read fuel context count = .ok (out, s1) → OffsetInv s1) ∧
      (∀ (fuel : Nat) (s s2 s3 : CurlSession), OffsetInv s → Read.skipCRLF 2 s = .ok s2 →
        s2.ParseChunkSize fuel = .ok s3 → OffsetInv s3) ∧
      (∀ s : CurlSession, OffsetInv s → 0 ≤ s.m_bodyStartInBuffer →
        s.m_bodyStartInBuffer ≤ s.m_innerBufferSize ∧
          0 ≤ s.m_innerBufferSize - s.m_bodyStartInBuffer ∧
          s.m_bodyStartInBuffer + (s.m_innerBufferSize - s.m_bodyStartInBuffer) =
            (s.m_readBuffer.length : Int)) ∧
      (∀ s : CurlSession, OffsetInv s → s.m_readBuffer ≠ [] →
        s.m_bodyStartInBuffer = -1 ∨
          (0 ≤ s.m_bodyStartInBuffer ∧ s.m_bodyStartInBuffer < s.m_innerBufferSize)) := by
  refine ⟨fun fuel s s1 hstart h => ReadStatusLineAndHeaders_offsetInv fuel s s1 hstart h,
    fun fuel context s s1 count out inv h => Read_offsetInv fuel context s s1 count out inv h,
    fun fuel s s2 s3 inv h2 h3 =>
      poll_offsetInv fuel [] s2 s3 (skipCRLF_sized 2 s s2 inv.sized h2) h3,
    fun s inv h0 => ?_, fun s inv hne => ?_⟩
  · obtain ⟨hs, hoff⟩ := inv
    have hlen : (0 : Int) ≤ (s.m_readBuffer.length : Int) := by omega
    rcases hoff with h | ⟨_, h⟩ | ⟨h1, h2⟩
    · omega
    · omega
    · rw [h2] at hs
      simp only [List.length_nil, Nat.cast_zero] at hs
      rw [h2]
      simp only [List.length_nil, Nat.cast_zero]
      omega
  · rcases inv.offset with h | h | ⟨_, h⟩
    · exact Or.inl h
    · exact Or.inr h
    · exact absurd h hne

/-- An instance of `Read_offset_within_fill`, on the chunked response
`4 CR LF Wiki CR LF 0 CR LF CR LF` delivered with the headers:
after the header read the offset is 50 of 61, after the first `Read` 54, after the second,
which meets the zero-size chunk, 59. -/
theorem Read_offset_within_fill_witness :
    OffsetInv (sessionOf (wikiThenEndSession "")
        ((wikiThenEndSession "").ReadStatusLineAndHeadersFromRawResponse 8)) ∧
      (sessionOf (wikiThenEndSession "")
        ((wikiThenEndSession "").ReadStatusLineAndHeadersFromRawResponse 8)).m_bodyStartInBuffer
        = 50 ∧
      (sessionOf (wikiThenEndSession "")
        ((wikiThenEndSession "").ReadStatusLineAndHeadersFromRawResponse 8)).m_innerBufferSize
        = 61 ∧
      (readOf (wikiThenEndSession "")
        ((sessionOf (wikiThenEndSession "")
          ((wikiThenEndSession "").ReadStatusLineAndHeadersFromRawResponse 8)).Read
          8 ⟨false⟩ 10)).2.m_bodyStartInBuffer = 54 ∧
      (afterTwoReads (wikiThenEndSession "")).m_bodyStartInBuffer = 59 :=
  ⟨Read_offset_within_fill.1 8 (wikiThenEndSession "")
      (sessionOf (wikiThenEndSession "")
        ((wikiThenEndSession "").ReadStatusLineAndHeadersFromRawResponse 8))
      (by decide) (by decide),
    by decide, by decide, by decide, by decide⟩

/-- C1 at the input where the code departs from it: a header block with a CR that is not part
of a CRLF, cut right behind that CR. The fills concatenate to the block; the header line
`x-note: ab CR` is parsed as `x-note: ab CR` when the block comes in one fill, and also when
the block is cut in front of the bare CR, but as `x-note: ab` when the first fill ends behind
the bare CR and the next one starts with the CR of the CRLF: the parsers after the fills and
after the single fill differ. -/
theorem fills_cut_behind_bare_CR_differ :
    [bytes "HTTP/1.1 200 OK\r\nx-note: ab\r", bytes "\r\n\r\n"].flatten =
        headerBlock (bytes "HTTP/1.1 200 OK") [bytes "x-note: ab\r"] ∧
      ResponseBufferParser.new.feed
          [headerBlock (bytes "HTTP/1.1 200 OK") [bytes "x-note: ab\r"]] =
        parsedBlock (bytes "HTTP/1.1 200 OK") [bytes "x-note: ab\r"] ∧
      ResponseBufferParser.new.feed
          [bytes "HTTP/1.1 200 OK\r\nx-note: ab", bytes "\r\r\n\r\n"] =
        parsedBlock (bytes "HTTP/1.1 200 OK") [bytes "x-note: ab\r"] ∧
      ResponseBufferParser.new.feed
          [bytes "HTTP/1.1 200 OK\r\nx-note: ab\r", bytes "\r\n\r\n"] =
        parsedBlock (bytes "HTTP/1.1 200 OK") [bytes "x-note: ab"] ∧
      ResponseBufferParser.new.feed
          [bytes "HTTP/1.1 200 OK\r\nx-note: ab\r", bytes "\r\n\r\n"] ≠
        ResponseBufferParser.new.feed
          [headerBlock (bytes "HTTP/1.1 200 OK") [bytes "x-note: ab\r"]] :=
  ⟨by decide, by decide, by decide, by decide, by decide⟩

/-- C3 at the input where the code departs from it: the body on the wire is the one of the
claim, and the first receive ends behind the `5` of the second chunk-size line. The first
`Read` returns `Wiki`. The second `Read` skips the CRLF behind the chunk, takes the `5` from
the buffer and refills; `ParseChunkSize` counts the bytes of the new fill from 0 and accepts an
LF only from the third byte on, so it passes the LF of the size line and stops at the LF behind
`pedia`: the chunk size is 5, the offset is 9, and the call returns `0 CR LF CR LF`, the last
chunk and the final CRLF, as body bytes, without setting end-of-response. The reads deliver
`Wiki 0 CR LF CR LF` instead of `Wikipedia`, whatever the counts, and the next `Read` does not
return 0: it polls the closed connection without end. -/
theorem wikipedia_cut_in_size_line_misread :
    wikipediaSplitSession.m_curl.wire = chunkedHeader ++ wikipediaChunked ∧
      wikipediaSplitAtBody.m_readBuffer = chunkedHeader ++ bytes "4\r\nWiki\r\n5" ∧
      wikipediaSplitAtBody.m_chunkSize = 4 ∧
      wikipediaSplitAtBody.m_bodyStartInBuffer = 50 ∧
      (readOf wikipediaSplitAtBody (wikipediaSplitAtBody.Read 8 ⟨false⟩ 10)).1 = bytes "Wiki" ∧
      (readOf wikipediaSplitAtBody
        ((readOf wikipediaSplitAtBody (wikipediaSplitAtBody.Read 8 ⟨false⟩ 10)).2.Read
          8 ⟨false⟩ 10)).1 = bytes "0\r\n\r\n" ∧
      (afterTwoReads wikipediaSplitSession).m_readBuffer = bytes "\r\npedia\r\n0\r\n\r\n" ∧
      (afterTwoReads wikipediaSplitSession).m_rawResponseEOF = false ∧
      (afterTwoReads wikipediaSplitSession).m_chunkSize = 0 ∧
      wikipediaSplitAtBody.drain 8 ⟨false⟩ [4, 5] =
        .ok (bytes "Wiki0\r\n\r\n", false, afterTwoReads wikipediaSplitSession) ∧
      wikipediaSplitAtBody.drain 8 ⟨false⟩ [3, 1, 2, 3] =
        .ok (bytes "Wiki0\r\n\r\n", false, afterTwoReads wikipediaSplitSession) ∧
      (∀ fuel : Nat,
        (afterTwoReads wikipediaSplitSession).Read fuel ⟨false⟩ 10 = .error .outOfFuel) :=
  ⟨by decide, by decide, by decide, by decide, by decide, by decide, by decide, by decide,
    by decide, by decide, by decide,
    fun fuel =>
      Read_polls_closed fuel (afterTwoReads wikipediaSplitSession)
        (sessionOf wikipediaSplitSession
          (Read.skipCRLF 2 (afterTwoReads wikipediaSplitSession)))
        10 (by decide) (by decide) (by decide) (by decide) (by decide) (by decide) (by decide)
        (by decide)⟩

theorem oneDelivery_interim (fuel : Nat) :
    Perform.sendAndReadHeaders (fuel + 2) putSessionOneDelivery =
      .ok (CURLE_OK, putSessionOneDeliveryInterim) := by
  rfl

theorem oneDelivery_upload (fuel : Nat) :
    putSessionOneDeliveryInterim.UploadBody (fuel + 2) =
      .ok (CURLE_OK, putSessionOneDeliveryUploaded) := by
  rfl

theorem oneDelivery_second_read (fuel : Nat) :
    putSessionOneDeliveryUploaded.ReadStatusLineAndHeadersFromRawResponse fuel =
      .error .outOfFuel := by
  unfold CurlSession.ReadStatusLineAndHeadersFromRawResponse
  rw [headerLoop_closed fuel ResponseBufferParser.new 0 putSessionOneDeliveryUploaded
    (by decide) (by decide) (by decide)]

/-- C9 at the input where the code departs from it: the peer answers a PUT with `100 Continue`
and the final response `201 Created` in one delivery. The first header read takes the whole
delivery into the buffer, parses the interim response and leaves the final response unparsed
in the buffer, from offset 25 on. `Perform` then uploads the body, and the second header read
starts with a receive into the same buffer: the final response is overwritten, not parsed.
When the peer has closed the connection `Perform` never returns (no fuel is enough); when the
peer stays silent it ends with `TransportException`. No response is handed back. -/
theorem Perform_put_loses_response_received_with_continue :
    putSessionOneDeliveryInterim.m_response = some ⟨1, 1, 100, bytes "Continue", []⟩ ∧
      putSessionOneDeliveryInterim.m_bodyStartInBuffer = 25 ∧
      putSessionOneDeliveryInterim.m_readBuffer.drop 25 =
        bytes "HTTP/1.1 201 Created\r\ncontent-length: 0\r\n\r\n" ∧
      putSessionOneDeliveryInterim.m_curl.wire = [] ∧
      putSessionOneDeliveryUploaded.m_curl.sent =
        bytes ("PUT /p HTTP/1.1\r\nHost: h.example\r\ncontent-length: 4\r\n" ++
          "expect: 100-continue\r\n\r\nBODY") ∧
      (∀ fuel : Nat,
        putSessionOneDeliveryUploaded.ReadStatusLineAndHeadersFromRawResponse fuel =
          .error .outOfFuel) ∧
      (∀ fuel : Nat, putSessionOneDelivery.Perform fuel = .error .outOfFuel) ∧
      putSessionOneDeliverySilent.Perform 8 = .error .transportException :=
  ⟨by decide, by decide, by decide, by decide, by decide, oneDelivery_second_read,
    fun fuel =>
      match fuel with
      | 0 => by decide
      | 1 => by decide
      | fuel + 2 => by
        unfold CurlSession.Perform
        rw [oneDelivery_interim fuel]
        have hm : putSessionOneDeliveryInterim.m_request.method = HttpMethod.Put := by decide
        have hr : putSessionOneDeliveryInterim.m_response =
            some ⟨1, 1, 100, bytes "Continue", []⟩ := by decide
        simp only [Perform.upload, hm, hr, oneDelivery_upload fuel,
          oneDelivery_second_read (fuel + 2)]
        decide,
    by decide⟩

/-- C7 at the input where the code departs from it: the second header read of a PUT. The first
header read finds the blank line of `100 Continue` at index 25 of a fill of 52 bytes and
records 25. In the second header read `Parse` finds the blank line of the final response and
returns 38, the index just past its LF, which is the fill size: nothing is recorded, and the
offset keeps the 25 of the first read instead of the sentinel -1. The first body byte is the
`h` the peer sends next, but `Read` takes the offset for the start of buffered body bytes and
serves index 25 of the header fill: it returns `lengt`, five bytes of the header line
`content-length: 5`, and counts them as the whole body, so the next `Read` returns 0 and
`hello` stays unread. -/
theorem stale_offset_serves_header_bytes :
    putSessionStaleOffsetInterim.m_readBuffer =
        bytes "HTTP/1.1 100 Continue\r\n\r\nHTTP/1.1 102 Processing\r\n\r\n" ∧
      putSessionStaleOffsetInterim.m_bodyStartInBuffer = 25 ∧
      putSessionStaleOffset.Perform 8 = .ok (CURLE_OK, putSessionStaleOffsetDone) ∧
      putSessionStaleOffsetDone.m_readBuffer =
        bytes "HTTP/1.1 200 OK\r\ncontent-length: 5\r\n\r\n" ∧
      ResponseBufferParser.new.Parse putSessionStaleOffsetDone.m_readBuffer =
        .ok (38, ResponseBufferParser.completedWith exampleResponse) ∧
      putSessionStaleOffsetDone.m_innerBufferSize = 38 ∧
      putSessionStaleOffsetDone.m_response = some exampleResponse ∧
      putSessionStaleOffsetDone.m_contentLength = 5 ∧
      putSessionStaleOffsetDone.m_bodyStartInBuffer = 25 ∧
      putSessionStaleOffsetDone.m_curl.wire = bytes "hello" ∧
      putSessionStaleOffsetDone.Read 8 ⟨false⟩ 5 =
        .ok (bytes "lengt", putSessionStaleOffsetRead) ∧
      putSessionStaleOffsetRead.Read 8 ⟨false⟩ 5 = .ok ([], putSessionStaleOffsetRead) ∧
      putSessionStaleOffsetRead.m_curl.wire = bytes "hello" :=
  ⟨by decide, by decide, by decide, by decide, by decide, by decide, by decide, by decide,
    by decide, by decide, by decide, by decide, by decide⟩

/-- C37 at the input where the code departs from it: a state reached from a completed header
parse, with two refills of 52 and of 19 bytes. The first header read of the PUT records the
offset 25, the end of `100 Continue` inside a fill of 52 bytes. The second header read refills
the buffer with the 19 bytes of the final header block, which end the fill, so the loop
assigns no offset and the fill size becomes 19 while the offset stays 25. `Perform` returns
this session. The offset is not -1, so `Read` takes the buffer branch with an offset behind
the fill: the view starts six bytes behind the filled part and its length is 19 - 25 = -6. -/
theorem offset_behind_fill_after_second_header_read :
    putSessionShortFill.Perform 8 = .ok (CURLE_OK, putSessionShortFillDone) ∧
      (sessionOfResult putSessionShortFill
        (Perform.sendAndReadHeaders 8 putSessionShortFill)).m_readBuffer.length = 52 ∧
      (sessionOfResult putSessionShortFill
        (Perform.sendAndReadHeaders 8 putSessionShortFill)).m_bodyStartInBuffer = 25 ∧
      putSessionShortFillDone.m_response = some ⟨1, 1, 200, bytes "OK", []⟩ ∧
      putSessionShortFillDone.m_readBuffer = bytes "HTTP/1.1 200 OK\r\n\r\n" ∧
      putSessionShortFillDone.m_innerBufferSize = 19 ∧
      putSessionShortFillDone.m_bodyStartInBuffer = 25 ∧
      ¬ (putSessionShortFillDone.m_bodyStartInBuffer ≤ putSessionShortFillDone.m_innerBufferSize) ∧
      putSessionShortFillDone.m_innerBufferSize - putSessionShortFillDone.m_bodyStartInBuffer
        = -6 ∧
      putSessionShortFillDone.m_isChunkedResponseType = false ∧
      putSessionShortFillDone.m_contentLength = -1 ∧
      MemoryBodyStream.Read putSessionShortFillDone.m_readBuffer
          putSessionShortFillDone.m_bodyStartInBuffer
          (putSessionShortFillDone.m_innerBufferSize -
            putSessionShortFillDone.m_bodyStartInBuffer) 5 = .error .undefinedBehaviour ∧
      putSessionShortFillDone.Read 8 ⟨false⟩ 5 = .error .undefinedBehaviour :=
  ⟨by decide, by decide, by decide, by decide, by decide, by decide, by decide, by decide,
    by decide, by decide, by decide, by decide, by decide⟩

/-- C21 at the input where the code departs from it: a request that has a `host` and a
`Content-Length` header. Header names are compared without regard to case, so both headers
are present; `headers.find("Host")` and `headers.find("content-length")` compare the keys
exactly and find neither, so `Perform` calls `AddHeader` for both: the request goes out with
two Host headers, `host: alias.example` and `Host: h.example`, and with two content-length
headers. -/
theorem default_headers_doubled_when_case_differs :
    ownHeadersRequest.headersNoCase "Host" = [("host", "alias.example")] ∧
      ownHeadersRequest.headersNoCase "content-length" = [("Content-Length", "4")] ∧
      ownHeadersRequest.findHeader "Host" = none ∧
      ownHeadersRequest.findHeader "content-length" = none ∧
      Perform.defaultHeaders ownHeadersRequest =
        (ownHeadersRequest.AddHeader "Host" "h.example").AddHeader "content-length" "4" ∧
      (Perform.defaultHeaders ownHeadersRequest).headersNoCase "Host" =
        [("host", "alias.example"), ("Host", "h.example")] ∧
      (Perform.defaultHeaders ownHeadersRequest).headersNoCase "content-length" =
        [("Content-Length", "4"), ("content-length", "4")] ∧
      (Perform.prepare ownHeadersSession).2.m_request = Perform.defaultHeaders ownHeadersRequest ∧
      ownHeadersSession.Perform 8 =
        .ok (CURLE_OK, sessionOfResult ownHeadersSession (ownHeadersSession.Perform 8)) ∧
      (sessionOfResult ownHeadersSession (ownHeadersSession.Perform 8)).m_curl.sent =
        bytes ("POST /p HTTP/1.1\r\nhost: alias.example\r\nContent-Length: 4\r\n" ++
          "Host: h.example\r\ncontent-length: 4\r\n\r\nBODY") :=
  ⟨by decide, by decide, by decide, by decide, by decide, by decide, by decide, by decide,
    by decide, by decide⟩

end Azure.Core.Http
